import Mathlib

/-!
# nuzar/expr: a shallow embedding of the scanner, parser and interpreter

The Go program evaluates boolean predicates over host supplied data.  Its
values are Go interface values, inspected through `reflect`; the embedding
represents them by the closed type `Value` below.  What the program obtains
from the Go standard library and runtime and cannot be read off the
repository (formatting verbs of `fmt`, the tables of `unicode`, the identity
of heap nodes, the text of a stack trace) is collected in `GoRuntime`.
-/

namespace ExprLang

/-! ## Floating point numbers -/

/-- The values of a Go `float64`: not-a-number, the two infinities, negative
zero, and the finite values (`fin 0` is positive zero).  Finite values are
kept as rationals; the values of a real `float64` are the dyadic rationals
that `roundBinary 53 (-1022) 1024` returns. -/
inductive F64 where
  | nan
  | inf (neg : Bool)
  | negZero
  | fin (q : ℚ)
deriving DecidableEq

namespace F64

/-- The rational a finite value stands for (both zeros are `0`). -/
def toRat : F64 → ℚ
  | fin q => q
  | _ => 0

/-- Go `a < b` on `float64`. -/
def lt : F64 → F64 → Bool
  | nan, _ => false
  | _, nan => false
  | inf na, inf nb => na && !nb
  | inf na, _ => na
  | _, inf nb => !nb
  | a, b => decide (a.toRat < b.toRat)

/-- Go `a <= b` on `float64`. -/
def le : F64 → F64 → Bool
  | nan, _ => false
  | _, nan => false
  | inf na, inf nb => na || !nb
  | inf na, _ => na
  | _, inf nb => !nb
  | a, b => decide (a.toRat ≤ b.toRat)

/-- Go `a == b` on `float64`: a NaN differs from everything, the zeros are equal. -/
def eq : F64 → F64 → Bool
  | nan, _ => false
  | _, nan => false
  | inf na, inf nb => na == nb
  | inf _, _ => false
  | _, inf _ => false
  | a, b => decide (a.toRat = b.toRat)

/-- Go `a > b`. -/
def gt (a b : F64) : Bool := lt b a

/-- Go `a >= b`. -/
def ge (a b : F64) : Bool := le b a

/-- Go unary minus on `float64`: flips the sign bit. -/
def neg : F64 → F64
  | nan => nan
  | inf n => inf (!n)
  | negZero => fin 0
  | fin q => if q = 0 then negZero else fin (-q)

/-- The fraction `p / d / 2 ^ e`, as a numerator and a denominator. -/
def scale2 (p d : Nat) (e : Int) : Nat × Nat :=
  if 0 ≤ e then (p, d * 2 ^ e.toNat) else (p * 2 ^ (-e).toNat, d)

/-- The exponent `e` with `2 ^ e ≤ p / d < 2 ^ (e + 1)`, for `p, d > 0`. -/
def floorLog2 (p d : Nat) : Int :=
  let e0 : Int := (Nat.log2 p : Int) - (Nat.log2 d : Int)
  let s := scale2 p d e0
  if s.2 ≤ s.1 then e0 else e0 - 1

/-- Round the non-negative rational `p / d` to the nearest binary floating
point number with `prec` significant bits, least normal exponent `emin` and
overflow threshold `2 ^ emax`, ties to even.  `none` is overflow (infinity). -/
def roundBinary (prec : Nat) (emin : Int) (emax : Nat) (p d : Nat) : Option ℚ :=
  if p = 0 ∨ d = 0 then some 0 else
  let e := max (floorLog2 p d) emin
  let ulp : Int := e - ((prec : Int) - 1)
  let s := scale2 p d ulp
  let m := s.1 / s.2
  let r := s.1 % s.2
  let m1 := if s.2 < 2 * r ∨ (2 * r = s.2 ∧ m % 2 = 1) then m + 1 else m
  let v : ℚ := if 0 ≤ ulp then (m1 * 2 ^ ulp.toNat : Nat) else (m1 : ℚ) / (2 ^ (-ulp).toNat : Nat)
  if (2 ^ emax : Nat) ≤ v then none else some v

/-- The float with sign `neg` and the magnitude `roundBinary` gives. -/
def ofRounded (neg : Bool) : Option ℚ → F64
  | none => inf neg
  | some v => if v = 0 then (if neg then negZero else fin 0) else fin (if neg then -v else v)

/-- Round a signed fraction to `float64`. -/
def round64 (neg : Bool) (p d : Nat) : F64 := ofRounded neg (roundBinary 53 (-1022) 1024 p d)

/-- Round a signed fraction to `float32`. -/
def round32 (neg : Bool) (p d : Nat) : F64 := ofRounded neg (roundBinary 24 (-126) 128 p d)

/-- Go `float64(n)` for an integer `n`. -/
def ofInt (n : Int) : F64 :=
  if n = 0 then fin 0 else round64 (decide (n < 0)) n.natAbs 1

/-- Go `float32(f)` for a `float64`. -/
def toFloat32 : F64 → F64
  | fin q => if q = 0 then fin 0 else round32 (decide (q < 0)) q.num.natAbs q.den
  | f => f

/-- Go `int64(f)`: truncation toward zero; a NaN, an infinity and a value
out of the range of `int64` give the least `int64`, as on amd64. -/
def toInt64 : F64 → Int
  | fin q =>
    let t : Int := if 0 ≤ q then (q.num / q.den) else -((-q.num) / q.den)
    if -(2 ^ 63 : Int) ≤ t ∧ t < 2 ^ 63 then t else -(2 ^ 63)
  | negZero => 0
  | _ => -(2 ^ 63)

/-- Go `uint64(f)`: truncation toward zero for a value in the range of
`uint64`; a negative value in the range of `int64` gives its two's
complement, and for the other values, where the result depends on the
implementation, the model takes `2 ^ 63`. -/
def toUint64 : F64 → Int
  | fin q =>
    let t : Int := if 0 ≤ q then (q.num / q.den) else -((-q.num) / q.den)
    if 0 ≤ t ∧ t < 2 ^ 64 then t
    else if -(2 ^ 63 : Int) ≤ t ∧ t < 0 then t + 2 ^ 64
    else 2 ^ 63
  | negZero => 0
  | _ => 2 ^ 63

end F64

/-! ## Go types and values -/

/-- The integer types of Go. -/
inductive IntKind where
  | int | int8 | int16 | int32 | int64
  | uint | uint8 | uint16 | uint32 | uint64 | uintptr
deriving DecidableEq, Repr

namespace IntKind

/-- Width in bits (`int`, `uint` and `uintptr` are 64 bits wide). -/
def bits : IntKind → Nat
  | int8 | uint8 => 8
  | int16 | uint16 => 16
  | int32 | uint32 => 32
  | _ => 64

/-- Whether the type is signed. -/
def signed : IntKind → Bool
  | int | int8 | int16 | int32 | int64 => true
  | _ => false

/-- Conversion of an integer to the type: the low `bits` bits, read in two's
complement for a signed type. -/
def wrap (k : IntKind) (n : Int) : Int :=
  let m := n % (2 ^ k.bits : Int)
  if k.signed ∧ (2 ^ (k.bits - 1) : Int) ≤ m then m - 2 ^ k.bits else m

end IntKind

/-- The Go types of the model (`reflect.Type`).  `any` is the empty interface,
`node` the type of a pointer to an AST node, `callable` the type `*GoFunc`,
`error` the type `RuntimeError`, `goError` any other error type, and
`other n` a host type whose kind is none of array, chan, map, slice, string,
func, interface or a number (a struct, a pointer). -/
inductive Ty where
  | bool
  | int (k : IntKind)
  | float32
  | float64
  | string
  | any
  | slice (elem : Ty)
  | node
  | callable
  | error
  | goError
  | other (id : Nat)
deriving DecidableEq, Repr

/-- Go `reflect.Kind`. -/
inductive Kind where
  | Invalid | Bool | Int | Int8 | Int16 | Int32 | Int64
  | Uint | Uint8 | Uint16 | Uint32 | Uint64 | Uintptr
  | Float32 | Float64 | Complex64 | Complex128
  | Array | Chan | Func | Interface | Map | Pointer | Slice | String | Struct | UnsafePointer
deriving DecidableEq, Repr

/-- Token kinds of `token.go`, in the order of the `iota` block. -/
inductive TokenType where
  | TokenLeftParen | TokenRightParen | TokenLeftBracket | TokenRightBracket
  | TokenComma | TokenDot
  | TokenMinus | TokenBang | TokenBangEqual | TokenEqualEqual
  | TokenGreater | TokenGreaterEqual | TokenLess | TokenLessEqual
  | TokenIdentifier | TokenString | TokenNumber
  | TokenAnd | TokenOr | TokenNil | TokenTrue | TokenFalse
  | TokenEOF
deriving DecidableEq, Repr

open TokenType

/-- Go errors: the program's `RuntimeError`, and errors of any other type (a
`runtime.Error`, a `*reflect.ValueError`, an error made by the host). -/
inductive Err where
  | RuntimeError (msg : String)
  | other (msg : String)
deriving DecidableEq, Repr

mutual

/-- A Go interface value (`interface{}`).  Strings are valid UTF-8; `slice`
carries the element type of the slice; `callable` is a pointer into the table
of function objects; `node` is a pointer to an AST node; `other` is a host
value of type `other ty`, comparable with `==` or not, and told apart from
the other values of its type by `id`. -/
inductive Value where
  | nil
  | bool (b : Bool)
  | int (k : IntKind) (n : Int)
  | float32 (f : F64)
  | float64 (f : F64)
  | str (s : String)
  | slice (elem : Ty) (items : List Value)
  | callable (ref : Nat)
  | node (e : Expr)
  | err (e : Err)
  | other (ty : Nat) (comparable : Bool) (id : Nat)

/-- A token (`token.go`): kind, lexeme, literal payload, line. -/
inductive Token where
  | mk (typ : TokenType) (lexeme : String) (literal : Value) (line : Int)

/-- Modelled from the spec: the AST node types, whose declaring file is not
among the sources.  The variants are those of the data model of the spec
(Literal, Grouping, Unary, Binary, Logical, Variable, Call, Array); the
fields and their order are those of the constructor calls in `parser.go` and
of the field accesses in `interpreter.go` and `printer.go`. -/
inductive Expr where
  | ExprLiteral (value : Value) (rtype : Kind)
  | ExprGrouping (expression : Expr)
  | ExprUnary (operator : Token) (right : Expr)
  | ExprBinary (left : Expr) (operator : Token) (right : Expr)
  | ExprLogical (left : Expr) (operator : Token) (right : Expr)
  | ExprVariable (name : Token)
  | ExprCall (callee : Expr) (paren : Token) (arguments : List Expr)
  | ExprArray (bracket : Token) (items : List Expr)

end

instance : Inhabited Value := ⟨Value.nil⟩

namespace Token

/-- Field `typ`. -/
def typ : Token → TokenType
  | mk t _ _ _ => t

/-- Field `lexeme`. -/
def lexeme : Token → String
  | mk _ l _ _ => l

/-- Field `literal`. -/
def literal : Token → Value
  | mk _ _ v _ => v

/-- Field `line`. -/
def line : Token → Int
  | mk _ _ _ n => n

end Token

/-- Go `NewToken`. -/
def NewToken (typ : TokenType) (lexeme : String) (literal : Value) (line : Int) : Token :=
  Token.mk typ lexeme literal line

open Expr

/-- Modelled from the spec: the constructor `NewExprLiteral` of the node, declared
in the file that is not among the sources. -/
def NewExprLiteral (value : Value) (rtype : Kind) : Expr := ExprLiteral value rtype

/-- Modelled from the spec: the constructor `NewExprGrouping` of the node, declared
in the file that is not among the sources. -/
def NewExprGrouping (expression : Expr) : Expr := ExprGrouping expression

/-- Modelled from the spec: the constructor `NewExprUnary` of the node, declared
in the file that is not among the sources. -/
def NewExprUnary (operator : Token) (right : Expr) : Expr := ExprUnary operator right

/-- Modelled from the spec: the constructor `NewExprBinary` of the node, declared
in the file that is not among the sources. -/
def NewExprBinary (left : Expr) (operator : Token) (right : Expr) : Expr :=
  ExprBinary left operator right

/-- Modelled from the spec: the constructor `NewExprLogical` of the node, declared
in the file that is not among the sources. -/
def NewExprLogical (left : Expr) (operator : Token) (right : Expr) : Expr :=
  ExprLogical left operator right

/-- Modelled from the spec: the constructor `NewExprVariable` of the node, declared
in the file that is not among the sources. -/
def NewExprVariable (name : Token) : Expr := ExprVariable name

/-- Modelled from the spec: the constructor `NewExprCall` of the node, declared
in the file that is not among the sources. -/
def NewExprCall (callee : Expr) (paren : Token) (arguments : List Expr) : Expr :=
  ExprCall callee paren arguments

/-- Modelled from the spec: the constructor `NewExprArray` of the node, declared
in the file that is not among the sources. -/
def NewExprArray (bracket : Token) (items : List Expr) : Expr := ExprArray bracket items

/-- What the program takes from the Go runtime and standard library.
`isDigit` and `isLetter` are `unicode.IsDigit` and `unicode.IsLetter`, which
on ASCII are the decimal digits and the Latin letters; `sprintV`, `sprintT`,
`sprintS` and `sprintTy` are the `fmt` verbs `%+v`, `%T`, `%s` on a value and
`%+v` on a `reflect.Type`; `stack` is the text of `debug.Stack()`;
`sameNode` tells whether two node pointers are the same pointer. -/
structure GoRuntime where
  isDigit : Char → Bool
  isLetter : Char → Bool
  isDigit_ascii : ∀ c : Char, c.val < 128 → isDigit c = c.isDigit
  isLetter_ascii : ∀ c : Char, c.val < 128 → isLetter c = c.isAlpha
  sprintV : Value → String
  sprintT : Value → String
  sprintS : Value → String
  sprintTy : Ty → String
  stack : String
  sameNode : Expr → Expr → Bool

/-! ## reflect -/

/-- Go `reflect.TypeOf`: the dynamic type, `none` for the nil interface. -/
def typeOf : Value → Option Ty
  | .nil => none
  | .bool _ => some .bool
  | .int k _ => some (.int k)
  | .float32 _ => some .float32
  | .float64 _ => some .float64
  | .str _ => some .string
  | .slice t _ => some (.slice t)
  | .callable _ => some .callable
  | .node _ => some .node
  | .err (.RuntimeError _) => some .error
  | .err (.other _) => some .goError
  | .other t _ _ => some (.other t)

/-- Go `string(rune(n))`: the character of a valid code point, U+FFFD otherwise. -/
def runeToChar (n : Int) : Char :=
  if 0 ≤ n ∧ Nat.isValidChar n.toNat then Char.ofNat n.toNat else Char.ofNat 0xFFFD

/-- The runes of a `[]rune` (or any integer slice), as characters. -/
def runesToString (items : List Value) : String :=
  String.mk (items.map fun v => match v with
    | .int _ n => runeToChar n
    | _ => Char.ofNat 0xFFFD)

/-- The bytes of a string, as `uint8` values. -/
def stringBytes (s : String) : List Value :=
  s.toUTF8.toList.map fun b => Value.int .uint8 b.toNat

/-- The bytes of a `[]byte`. -/
def bytesOf (items : List Value) : ByteArray :=
  ⟨(items.map fun v => match v with
    | .int _ n => UInt8.ofNat n.toNat
    | _ => 0).toArray⟩

/-- Go `reflect.Value.Convert`, for a value `v` held in a variable of static
type `src`, to the type `dst`; `none` is the panic of an impossible
conversion.  A value of interface type converts only to an interface type;
every value converts to `any`; numbers convert to numbers, integers to
strings, strings to and from `[]byte` and `[]rune`; otherwise only identical
types convert.  A `[]byte` that is not valid UTF-8 converts to a string the
model has no value for, and gives `none` here. -/
def convert (src : Ty) (v : Value) (dst : Ty) : Option Value :=
  if src = .any then (if dst = .any then some v else none)
  else if typeOf v ≠ some src then none
  else match v, dst with
    | .int _ n, .int k => some (.int k (k.wrap n))
    | .int _ n, .float64 => some (.float64 (F64.ofInt n))
    | .int _ n, .float32 => some (.float32 (F64.ofInt n).toFloat32)
    | .int k n, .string =>
      some (.str (String.singleton
        (if (if k.signed then IntKind.int32 else IntKind.uint32).wrap n = n ∧ n < 2 ^ 31
         then runeToChar n else Char.ofNat 0xFFFD)))
    | .float32 f, .int k =>
      some (.int k (k.wrap (if k.signed then f.toInt64 else f.toUint64)))
    | .float64 f, .int k =>
      some (.int k (k.wrap (if k.signed then f.toInt64 else f.toUint64)))
    | .float32 f, .float32 => some (.float32 f)
    | .float32 f, .float64 => some (.float64 f)
    | .float64 f, .float32 => some (.float32 f.toFloat32)
    | .float64 f, .float64 => some (.float64 f)
    | .str s, .slice (.int .uint8) => some (.slice (.int .uint8) (stringBytes s))
    | .str s, .slice (.int .int32) =>
      some (.slice (.int .int32) (s.toList.map fun c => Value.int .int32 c.toNat))
    | .slice (.int .uint8) items, .string =>
      if String.validateUTF8 (bytesOf items) then (String.fromUTF8? (bytesOf items)).map Value.str
      else none
    | .slice (.int .int32) items, .string => some (.str (runesToString items))
    | _, .any => some v
    | _, _ => if src = dst then some v else none

/-- Go `TryConvert(v, t)`: `Convert` with the panic recovered. -/
def TryConvert (src : Ty) (v : Value) (dst : Ty) : Value × Bool :=
  match convert src v dst with
  | some c => (c, true)
  | none => (Value.nil, false)

/-- Go `reflect.ValueOf(x).Convert(t)`: conversion from the dynamic type;
the zero `reflect.Value` of a nil interface cannot be converted. -/
def convertDyn (v : Value) (dst : Ty) : Option Value :=
  match typeOf v with
  | none => none
  | some src => convert src v dst

/-- Go `reflect.Value.Len`, defined in the model for slices and strings. -/
def reflectLen : Value → Option Nat
  | .slice _ items => some items.length
  | .str s => some s.utf8ByteSize
  | _ => none

/-- Go `reflect.Value.Index(i)` with the static type of the element: an
element of a slice, a byte of a string. -/
def reflectIndex : Value → Nat → Option (Ty × Value)
  | .slice t items, i => (items.get? i).map fun v => (t, v)
  | .str s, i => ((stringBytes s).get? i).map fun v => (Ty.int .uint8, v)
  | _, _ => none

/-- Go `a == b` on interface values: `none` is the run-time panic of
comparing two values of one uncomparable type. -/
def ifaceEq (rt : GoRuntime) : Value → Value → Option Bool
  | .nil, .nil => some true
  | .bool a, .bool b => some (a == b)
  | .int k a, .int k2 b => some (decide (k = k2) && decide (a = b))
  | .float32 a, .float32 b => some (F64.eq a b)
  | .float64 a, .float64 b => some (F64.eq a b)
  | .str a, .str b => some (a == b)
  | .slice t _, .slice t2 _ => if t = t2 then none else some false
  | .callable a, .callable b => some (a == b)
  | .node a, .node b => some (rt.sameNode a b)
  | .err a, .err b => some (decide (a = b))
  | .other t c a, .other t2 _ b => if t = t2 then (if c then some (a == b) else none) else some false
  | _, _ => some false

/-! ## Environment and callables -/

/-- What a Go call gives back: the values it returns (with the error, where
the function returns one), a panic with its payload, or, in the model only,
the exhaustion of the recursion budget. -/
inductive Outcome (α : Type) where
  | ret (v : α) (err : Option Err)
  | panic (payload : Value)
  | outOfFuel

/-- What a host function does on its arguments: return a value or panic. -/
inductive CallOut where
  | ret (v : Value)
  | panic (payload : Value)

/-- Go interface `Callable`: `ArgNum` and `Call`.  A call may read and
change the state `σ` of the host. -/
structure Callable (σ : Type) where
  ArgNum : Int
  Call : List Value → σ → CallOut × σ

/-- Go `Environment`: the map from names to values. -/
structure Environment where
  values : String → Option Value

namespace Environment

/-- Go `Environment.Define`. -/
def Define (e : Environment) (name : String) (value : Value) : Environment :=
  { values := fun k => if k = name then some value else e.values k }

/-- Go `Environment.Get`. -/
def Get (e : Environment) (name : Token) : Value × Option Err :=
  match e.values name.lexeme with
  | some v => (v, none)
  | none => (Value.nil, some (Err.RuntimeError ("undefined symbol " ++ name.lexeme)))

end Environment

/-- Go `Interpreter`, with the function objects its values point to:
`Value.callable ref` is the pointer to `heap[ref]`, and a `ref` outside the
heap is the nil pointer. -/
structure Interpreter (σ : Type) where
  Environment : Environment
  heap : List (Callable σ)

/-- Go `NewInterpreter`. -/
def NewInterpreter (σ : Type) : Interpreter σ :=
  { Environment := { values := fun _ => none }, heap := [] }

/-- Go `RuntimeErrWithToken`. -/
def RuntimeErrWithToken (t : Token) (msg : String) : Err :=
  Err.RuntimeError (t.lexeme ++ ": " ++ msg)

/-- The payload of a run-time panic of Go itself: an error that is not a
`RuntimeError`. -/
def runtimePanic (msg : String) : Value := Value.err (Err.other msg)

/-! ## Interpreter -/

/-- Go `isTruthy`. -/
def isTruthy (rt : GoRuntime) (obj : Value) : Bool × Option Err :=
  match obj with
  | .nil => (false, some (Err.RuntimeError "nil value"))
  | .bool b => (b, none)
  | v => (false, some (Err.RuntimeError ("not bool value: " ++ rt.sprintV v)))

/-- Go `toNumber`. -/
def toNumber (obj : Value) : F64 × Bool :=
  match obj with
  | .int .int n => (F64.ofInt n, true)
  | .int .int32 n => (F64.ofInt n, true)
  | .int .int64 n => (F64.ofInt n, true)
  | .float32 f => (f, true)
  | .float64 f => (f, true)
  | _ => (F64.fin 0, false)

/-- Go `Interpreter.VisitExprLiteralObj`. -/
def VisitExprLiteralObj (value : Value) (rtype : Kind) : Outcome Value :=
  match rtype with
  | .Bool => .ret value none
  | .String =>
    match convertDyn value .string with
    | some v => .ret v none
    | none => .panic (runtimePanic "reflect: value cannot be converted to type string")
  | .Float64 =>
    match convertDyn value .float64 with
    | some v => .ret v none
    | none => .panic (runtimePanic "reflect: value cannot be converted to type float64")
  | _ => .ret value none

section Visit

variable {σ : Type} (rt : GoRuntime) (p : Interpreter σ)
variable (evaluate : Expr → σ → Outcome Value × σ)

/-- Go `Interpreter.VisitExprLogicalObj`; `evaluate` is `p.evaluate`. -/
def VisitExprLogicalObj (left : Expr) (operator : Token) (right : Expr) (s : σ) :
    Outcome Value × σ :=
  match evaluate left s with
  | (.ret _ (some err), s1) => (.ret (.bool false) (some err), s1)
  | (.ret l none, s1) =>
    match isTruthy rt l with
    | (_, some err) => (.ret (.bool false) (some err), s1)
    | (bLeft, none) =>
      if operator.typ = TokenOr ∧ bLeft = true then (.ret (.bool true) none, s1)
      else if operator.typ ≠ TokenOr ∧ bLeft = false then (.ret (.bool false) none, s1)
      else
        match evaluate right s1 with
        | (.ret _ (some err), s2) => (.ret (.bool false) (some err), s2)
        | (.ret r none, s2) => (.ret (.bool (isTruthy rt r).1) (isTruthy rt r).2, s2)
        | (o, s2) => (o, s2)
  | (o, s1) => (o, s1)

/-- Go `Interpreter.VisitExprGroupingObj`. -/
def VisitExprGroupingObj (expression : Expr) (s : σ) : Outcome Value × σ :=
  evaluate expression s

/-- Go `Interpreter.VisitExprUnaryObj`. -/
def VisitExprUnaryObj (operator : Token) (right : Expr) (s : σ) : Outcome Value × σ :=
  match evaluate right s with
  | (.ret _ (some err), s1) => (.ret .nil (some err), s1)
  | (.ret r none, s1) =>
    match operator.typ with
    | TokenMinus =>
      if (toNumber r).2 then (.ret (.float64 (toNumber r).1.neg) none, s1)
      else (.ret .nil (some (Err.RuntimeError
        (rt.sprintV r ++ " (" ++ rt.sprintT r ++ ") is not number"))), s1)
    | TokenBang =>
      match isTruthy rt r with
      | (_, some err) => (.ret .nil (some err), s1)
      | (res, none) => (.ret (.bool (!res)) none, s1)
    | _ => (.ret .nil (some (Err.RuntimeError ("unknown operator " ++ operator.lexeme))), s1)
  | (o, s1) => (o, s1)

/-- Go `Interpreter.lookup`. -/
def lookup (name : Token) : Value × Option Err := p.Environment.Get name

/-- Go `Interpreter.VisitExprVariableObj`. -/
def VisitExprVariableObj (name : Token) (s : σ) : Outcome Value × σ :=
  (.ret (lookup p name).1 (lookup p name).2, s)

/-- The statement `if ae, ok := ai.(Expr); ok { ai, err = p.evaluate(ae) }`
of `isSliceEqual`: an element that is an AST node is evaluated, any other
element is kept. -/
def evalIfExpr (item : Value) (s : σ) : Outcome Value × σ :=
  match item with
  | .node ae => evaluate ae s
  | _ => (.ret item none, s)

/-- The loop of Go `Interpreter.isSliceEqual` from index `i` on, `n` indices
remaining; `a` and `b` are the two operands. -/
def isSliceEqualLoop (a b : Value) : Nat → Nat → σ → Outcome Bool × σ
  | 0, _, s => (.ret true none, s)
  | n + 1, i, s =>
    match reflectIndex a i, reflectIndex b i with
    | some (ta, itema), some (tb, itemb) =>
      match TryConvert ta itema tb with
      | (_, false) => (.ret false none, s)
      | (ai, true) =>
        match evalIfExpr evaluate ai s with
        | (.ret _ (some err), s1) => (.ret false (some err), s1)
        | (.ret ai none, s1) =>
          match evalIfExpr evaluate itemb s1 with
          | (.ret _ (some err), s2) => (.ret false (some err), s2)
          | (.ret bi none, s2) =>
            match ifaceEq rt ai bi with
            | none => (.panic (runtimePanic "runtime error: comparing uncomparable type"), s2)
            | some false => (.ret false none, s2)
            | some true => isSliceEqualLoop a b n (i + 1) s2
          | (.panic q, s2) => (.panic q, s2)
          | (.outOfFuel, s2) => (.outOfFuel, s2)
        | (.panic q, s1) => (.panic q, s1)
        | (.outOfFuel, s1) => (.outOfFuel, s1)
    | _, _ => (.panic (runtimePanic "reflect: slice index out of range"), s)

/-- Go `Interpreter.isSliceEqual`. -/
def isSliceEqual (a b : Value) (s : σ) : Outcome Bool × σ :=
  match reflectLen a, reflectLen b with
  | some la, some lb =>
    if la ≠ lb then (.ret false none, s)
    else isSliceEqualLoop rt evaluate a b la 0 s
  | _, _ => (.panic (runtimePanic "reflect: call of reflect.Value.Len on a value without length"), s)

/-- Go `Interpreter.isEqual`.  The deferred function recovers every panic
raised below it and makes the result `false` with a nil error; the nil
interface has no type, so asking its kind panics. -/
def isEqual (a b : Value) (s : σ) : Outcome Bool × σ :=
  let r : Outcome Bool × σ :=
    match a with
    | .nil => (.panic (runtimePanic "runtime error: invalid memory address or nil pointer dereference"), s)
    | .slice _ _ => isSliceEqual rt evaluate a b s
    | _ =>
      match ifaceEq rt a b with
      | some res => (.ret res none, s)
      | none => (.panic (runtimePanic "runtime error: comparing uncomparable type"), s)
  match r with
  | (.panic _, s1) => (.ret false none, s1)
  | other => other

/-- The value and error Go returns for `return p.isEqual(x, y)` from a
function whose first result is `interface{}`. -/
def boxBool : Outcome Bool × σ → Outcome Value × σ
  | (.ret b err, s) => (.ret (.bool b) err, s)
  | (.panic q, s) => (.panic q, s)
  | (.outOfFuel, s) => (.outOfFuel, s)

/-- The statement `return !eq, err` of the `!=` case. -/
def boxNotBool : Outcome Bool × σ → Outcome Value × σ
  | (.ret b err, s) => (.ret (.bool (!b)) err, s)
  | (.panic q, s) => (.panic q, s)
  | (.outOfFuel, s) => (.outOfFuel, s)

/-- Go `Interpreter.VisitExprBinaryObj`. -/
def VisitExprBinaryObj (left : Expr) (operator : Token) (right : Expr) (s : σ) :
    Outcome Value × σ :=
  match evaluate left s with
  | (.ret _ (some err), s1) => (.ret .nil (some err), s1)
  | (.ret l none, s1) =>
    match evaluate right s1 with
    | (.ret _ (some err), s2) => (.ret .nil (some err), s2)
    | (.ret r none, s2) =>
      let ln := (toNumber l).1
      let lIsNumber := (toNumber l).2
      let rn := (toNumber r).1
      let rIsNumber := (toNumber r).2
      if lIsNumber ≠ rIsNumber then
        (.ret .nil (some (Err.RuntimeError
          (rt.sprintV l ++ " " ++ operator.lexeme ++ " " ++ rt.sprintV r ++ " is not number"))), s2)
      else
        match operator.typ with
        | TokenGreater => (.ret (.bool (F64.gt ln rn)) none, s2)
        | TokenGreaterEqual => (.ret (.bool (F64.ge ln rn)) none, s2)
        | TokenLess => (.ret (.bool (F64.lt ln rn)) none, s2)
        | TokenLessEqual => (.ret (.bool (F64.le ln rn)) none, s2)
        | TokenEqualEqual =>
          if lIsNumber then boxBool (isEqual rt evaluate (.float64 ln) (.float64 rn) s2)
          else boxBool (isEqual rt evaluate l r s2)
        | TokenBangEqual =>
          if lIsNumber then boxNotBool (isEqual rt evaluate (.float64 ln) (.float64 rn) s2)
          else boxNotBool (isEqual rt evaluate l r s2)
        | _ => (.ret .nil (some (Err.RuntimeError ("unknown operator " ++ operator.lexeme))), s2)
    | (o, s2) => (o, s2)
  | (o, s1) => (o, s1)

/-- The argument loop of Go `Interpreter.VisitExprCallObj`: evaluates the
remaining argument expressions left to right, appending to `arguments`. -/
def evalArguments : List Expr → List Value → σ → Outcome (List Value) × σ
  | [], arguments, s => (.ret arguments none, s)
  | arg :: rest, arguments, s =>
    match evaluate arg s with
    | (.ret _ (some err), s1) => (.ret [] (some err), s1)
    | (.ret argV none, s1) => evalArguments rest (arguments ++ [argV]) s1
    | (.panic q, s1) => (.panic q, s1)
    | (.outOfFuel, s1) => (.outOfFuel, s1)

/-- Go `Interpreter.VisitExprCallObj`.  The callee is a `Callable` when it
is a pointer to a function object; calling a method of the nil pointer
panics. -/
def VisitExprCallObj (callee : Expr) (paren : Token) (arguments : List Expr) (s : σ) :
    Outcome Value × σ :=
  match evaluate callee s with
  | (.ret _ (some err), s1) => (.ret .nil (some err), s1)
  | (.ret (.callable ref) none, s1) =>
    match p.heap.get? ref with
    | none =>
      (.panic (runtimePanic "runtime error: invalid memory address or nil pointer dereference"), s1)
    | some callable =>
      if (arguments.length : Int) ≠ callable.ArgNum then
        (.ret .nil (some (RuntimeErrWithToken paren
          ("want " ++ toString callable.ArgNum ++ " but got " ++
            toString arguments.length ++ " arguments"))), s1)
      else
        match evalArguments evaluate arguments [] s1 with
        | (.ret _ (some err), s2) => (.ret .nil (some err), s2)
        | (.ret args none, s2) =>
          match callable.Call args s2 with
          | (.ret v, s3) => (.ret v none, s3)
          | (.panic q, s3) => (.panic q, s3)
        | (.panic q, s2) => (.panic q, s2)
        | (.outOfFuel, s2) => (.outOfFuel, s2)
  | (.ret _ none, s1) => (.ret .nil (some (RuntimeErrWithToken paren "not callable")), s1)
  | (o, s1) => (o, s1)

/-- Go `Interpreter.VisitExprArrayObj`. -/
def VisitExprArrayObj (items : List Expr) (s : σ) : Outcome Value × σ :=
  (.ret (.slice .any (items.map Value.node)) none, s)

/-- Modelled from the spec: the method `AcceptObj` of the nodes, declared in
the file that is not among the sources; it dispatches a node to the visitor
method of its variant, as `evaluate` and the `ExprVisitorObj` interface that
`Interpreter` implements require. -/
def AcceptObj (expr : Expr) (s : σ) : Outcome Value × σ :=
  match expr with
  | ExprLiteral value rtype => (VisitExprLiteralObj value rtype, s)
  | ExprGrouping expression => VisitExprGroupingObj evaluate expression s
  | ExprUnary operator right => VisitExprUnaryObj rt evaluate operator right s
  | ExprBinary left operator right => VisitExprBinaryObj rt evaluate left operator right s
  | ExprLogical left operator right => VisitExprLogicalObj rt evaluate left operator right s
  | ExprVariable name => VisitExprVariableObj p name s
  | ExprCall callee paren arguments => VisitExprCallObj p evaluate callee paren arguments s
  | ExprArray _ items => VisitExprArrayObj items s

end Visit

/-- Go `Interpreter.evaluate`.  The recursion of the Go method is bounded by
`fuel`, the depth of nested calls of `evaluate` that are allowed: values can
hold AST nodes, which `isSliceEqual` evaluates, so the recursion is not
structural in the expression. -/
def evaluate {σ : Type} (rt : GoRuntime) (p : Interpreter σ) :
    Nat → Expr → σ → Outcome Value × σ
  | 0 => fun _ s => (.outOfFuel, s)
  | fuel + 1 => fun expr s => AcceptObj rt p (evaluate rt p fuel) expr s

/-- Go `Interpreter.Interpret`: `evaluate` under a deferred `recover`.  A
panic whose payload is an error becomes that error, any other payload a
`RuntimeError`; the result value is then nil. -/
def Interpret {σ : Type} (rt : GoRuntime) (p : Interpreter σ) (fuel : Nat) (expr : Expr) (s : σ) :
    Outcome Value × σ :=
  match evaluate rt p fuel expr s with
  | (.panic (.err e), s1) => (.ret .nil (some e), s1)
  | (.panic .nil, s1) =>
    (.ret .nil (some (Err.other "panic called with nil argument (obsolete)")), s1)
  | (.panic tr, s1) =>
    (.ret .nil (some (Err.RuntimeError
      ("runtime err: " ++ rt.sprintS tr ++ ", stack info: " ++ rt.stack))), s1)
  | r => r

/-! ## Scanner -/

/-- Go `ScanError`, a string type. -/
structure ScanError where
  text : String
deriving DecidableEq, Repr

/-- Go `ParseError`, a string type. -/
structure ParseError where
  text : String
deriving DecidableEq, Repr

/-- Go `report`: `fmt.Sprintf("[line %d ] %s: %s\n", line, where, msg)`. -/
def report (line : Int) (loc : String) (msg : String) : String :=
  "[line " ++ toString line ++ " ] " ++ loc ++ ": " ++ msg ++ "\n"

/-- Go `keywords`. -/
def keywords (text : String) : Option TokenType :=
  if text = "and" then some TokenAnd
  else if text = "nil" then some TokenNil
  else if text = "or" then some TokenOr
  else if text = "true" then some TokenTrue
  else if text = "false" then some TokenFalse
  else none

/-- The decimal number a list of ASCII digits writes, most significant first. -/
def digitsValue (cs : List Char) : Nat :=
  cs.foldl (fun acc c => 10 * acc + (c.toNat - 48)) 0

/-- Go `strconv.ParseFloat(text, 64)` with the error dropped, on the texts
`Scanner.number` builds: characters that `unicode.IsDigit` accepts, with at
most one `.` among them.  ASCII digits, optionally followed by `.` and ASCII
digits, give the nearest `float64` (infinity on overflow); any other text is
a syntax error, for which `ParseFloat` returns 0. -/
def ParseFloat (text : List Char) : F64 :=
  let ip := text.takeWhile Char.isDigit
  let rest := text.dropWhile Char.isDigit
  if ip = [] then F64.fin 0
  else match rest with
    | [] => F64.round64 false (digitsValue ip) 1
    | c :: fp =>
      if c = '.' ∧ fp.all Char.isDigit then
        F64.round64 false (digitsValue (ip ++ fp)) (10 ^ fp.length)
      else F64.fin 0

/-- Go `Scanner`: the runes of the source (`[]rune(src)`), the tokens so far,
the start of the current lexeme, the current position, the line. -/
structure Scanner where
  src : List Char
  tokens : List Token
  start : Nat
  current : Nat
  line : Int

/-- Go `NewScanner`; the source text is a valid UTF-8 string. -/
def NewScanner (src : String) : Scanner :=
  { src := src.toList, tokens := [], start := 0, current := 0, line := 1 }

namespace Scanner

/-- Go `Scanner.isAtEnd`. -/
def isAtEnd (s : Scanner) : Bool := decide (s.src.length ≤ s.current)

/-- Go `Scanner.addToken`. -/
def addToken (s : Scanner) (t : TokenType) (literal : Value) : Scanner :=
  let text := String.mk ((s.src.drop s.start).take (s.current - s.start))
  { s with tokens := s.tokens ++ [NewToken t text literal s.line] }

/-- Go `Scanner.advance`: the rune read and the scanner after it. -/
def advance (s : Scanner) : Char × Scanner :=
  (s.src.getD s.current (Char.ofNat 0), { s with current := s.current + 1 })

/-- Go `Scanner.match`. -/
def matchRune (s : Scanner) (expected : Char) : Bool × Scanner :=
  if s.isAtEnd then (false, s)
  else if s.src.getD s.current (Char.ofNat 0) ≠ expected then (false, s)
  else (true, { s with current := s.current + 1 })

/-- Go `Scanner.peek`. -/
def peek (s : Scanner) : Char :=
  if s.isAtEnd then Char.ofNat 0 else s.src.getD s.current (Char.ofNat 0)

/-- Go `Scanner.peekNext`. -/
def peekNext (s : Scanner) : Char :=
  if s.src.length ≤ s.current + 1 then Char.ofNat 0 else s.src.getD (s.current + 1) (Char.ofNat 0)

/-- The loop `for cond(s.peek()) { s.advance() }`; `n` bounds the number of
rounds, and the runes that remain are a bound. -/
def advanceWhile (cond : Char → Bool) : Nat → Scanner → Scanner
  | 0, s => s
  | n + 1, s => if cond s.peek then advanceWhile cond n (s.advance).2 else s

/-- The loop of Go `Scanner.string`: up to the closing quote or the end of
the source, counting the lines. -/
def stringLoop : Nat → Scanner → Scanner
  | 0, s => s
  | n + 1, s =>
    if s.peek ≠ '"' ∧ ¬ s.isAtEnd then
      let s1 := if s.peek = '\n' then { s with line := s.line + 1 } else s
      stringLoop n (s1.advance).2
    else s

/-- Go `Scanner.string`. -/
def string (s : Scanner) : Scanner × Option ScanError :=
  let s1 := stringLoop (s.src.length - s.current) s
  if s1.isAtEnd then (s1, some ⟨report s1.line "" "Unterminated string."⟩)
  else
    let s2 := (s1.advance).2
    let value := (s2.src.drop (s2.start + 1)).take ((s2.current - 1) - (s2.start + 1))
    (s2.addToken TokenString (.slice (.int .int32) (value.map fun c => Value.int .int32 c.toNat)),
      none)

/-- Go `Scanner.number`. -/
def number (rt : GoRuntime) (s : Scanner) : Scanner :=
  let s1 := advanceWhile rt.isDigit (s.src.length - s.current) s
  let s2 := if s1.peek = '.' ∧ rt.isDigit s1.peekNext then (s1.advance).2 else s1
  let s3 := advanceWhile rt.isDigit (s2.src.length - s2.current) s2
  let val := ParseFloat ((s3.src.drop s3.start).take (s3.current - s3.start))
  s3.addToken TokenNumber (.float64 val)

/-- Go `isAlphaNumeric`. -/
def isAlphaNumeric (rt : GoRuntime) (c : Char) : Bool := rt.isDigit c || rt.isLetter c

/-- Go `isIdentifier`. -/
def isIdentifier (rt : GoRuntime) (c : Char) : Bool :=
  if isAlphaNumeric rt c then true else c = '_'

/-- Go `Scanner.identifier`. -/
def identifier (rt : GoRuntime) (s : Scanner) : Scanner :=
  let s1 := advanceWhile (isIdentifier rt) (s.src.length - s.current) s
  let text := String.mk ((s1.src.drop s1.start).take (s1.current - s1.start))
  match keywords text with
  | some typ => s1.addToken typ .nil
  | none => s1.addToken TokenIdentifier .nil

/-- Go `Scanner.scanToken`. -/
def scanToken (rt : GoRuntime) (s0 : Scanner) : Scanner × Option ScanError :=
  let c := (s0.advance).1
  let s := (s0.advance).2
  if c = '-' then (s.addToken TokenMinus .nil, none)
  else if c = '(' then (s.addToken TokenLeftParen .nil, none)
  else if c = ')' then (s.addToken TokenRightParen .nil, none)
  else if c = '[' then (s.addToken TokenLeftBracket .nil, none)
  else if c = ']' then (s.addToken TokenRightBracket .nil, none)
  else if c = ',' then (s.addToken TokenComma .nil, none)
  else if c = '.' then (s.addToken TokenDot .nil, none)
  else if c = '!' then
    if (s.matchRune '=').1 then ((s.matchRune '=').2.addToken TokenBangEqual .nil, none)
    else ((s.matchRune '=').2.addToken TokenBang .nil, none)
  else if c = '=' then
    if ¬ (s.matchRune '=').1 then
      ((s.matchRune '=').2, some ⟨report s.line "" ("unexpected character" ++ String.singleton c)⟩)
    else ((s.matchRune '=').2.addToken TokenEqualEqual .nil, none)
  else if c = '<' then
    if (s.matchRune '=').1 then ((s.matchRune '=').2.addToken TokenLessEqual .nil, none)
    else ((s.matchRune '=').2.addToken TokenLess .nil, none)
  else if c = '>' then
    if (s.matchRune '=').1 then ((s.matchRune '=').2.addToken TokenGreaterEqual .nil, none)
    else ((s.matchRune '=').2.addToken TokenGreater .nil, none)
  else if c = ' ' ∨ c = '\r' ∨ c = '\t' then (s, none)
  else if c = '\n' then ({ s with line := s.line + 1 }, none)
  else if c = '"' then s.string
  else if rt.isDigit c then (s.number rt, none)
  else if rt.isLetter c then (s.identifier rt, none)
  else (s, some ⟨report s.line "" ("unexpected character " ++ String.singleton c)⟩)

/-- The loop of Go `Scanner.ScanTokens`; every round reads at least one
rune, so the runes that remain bound the number `n` of rounds. -/
def scanLoop (rt : GoRuntime) : Nat → Scanner → Scanner × Option ScanError
  | 0, s => (s, none)
  | n + 1, s =>
    if s.isAtEnd then (s, none)
    else
      match scanToken rt { s with start := s.current } with
      | (s1, some err) => (s1, some err)
      | (s1, none) => scanLoop rt n s1

/-- Go `Scanner.ScanTokens`: the tokens and the error. -/
def ScanTokens (rt : GoRuntime) (s : Scanner) : List Token × Option ScanError :=
  match scanLoop rt (s.src.length - s.current) s with
  | (_, some err) => ([], some err)
  | (s1, none) => (s1.tokens ++ [NewToken TokenEOF "" .nil s1.line], none)

end Scanner

/-! ## Parser -/

/-- Go `Parser`. -/
structure Parser where
  tokens : List Token
  current : Nat

/-- Go `NewParser`. -/
def NewParser (tokens : List Token) : Parser := { tokens := tokens, current := 0 }

/-- What a parsing method gives back: the expression and the parser after
it, the error and the parser at it, the panic of an index out of the token
slice, or, in the model only, the exhaustion of the recursion budget. -/
inductive PRes where
  | ok (e : Expr) (p : Parser)
  | error (err : ParseError) (p : Parser)
  | panic
  | outOfFuel

namespace Parser

/-- Go `Parser.peek`: `none` is the panic of the index out of range. -/
def peek (p : Parser) : Option Token := p.tokens.get? p.current

/-- Go `Parser.previous`. -/
def previous (p : Parser) : Option Token :=
  if p.current = 0 then none else p.tokens.get? (p.current - 1)

/-- Go `Parser.isAtEnd`. -/
def isAtEnd (p : Parser) : Option Bool :=
  p.peek.map fun t => decide (t.typ = TokenEOF)

/-- Go `Parser.check`. -/
def check (p : Parser) (t : TokenType) : Option Bool :=
  match p.isAtEnd with
  | none => none
  | some true => some false
  | some false => p.peek.map fun tok => decide (tok.typ = t)

/-- Go `Parser.advance`: the token returned and the parser after it. -/
def advance (p : Parser) : Option (Token × Parser) :=
  match p.isAtEnd with
  | none => none
  | some e =>
    let p1 : Parser := if e then p else { p with current := p.current + 1 }
    p1.previous.map fun t => (t, p1)

/-- Go `Parser.match`. -/
def matchTypes (p : Parser) : List TokenType → Option (Bool × Parser)
  | [] => some (false, p)
  | t :: types =>
    match p.check t with
    | none => none
    | some true => p.advance.map fun r => (true, r.2)
    | some false => p.matchTypes types

/-- Go `Parser.Error`. -/
def Error (token : Token) (msg : String) : ParseError :=
  if token.typ = TokenEOF then ⟨report token.line " at end" msg⟩
  else ⟨report token.line (" at '" ++ token.lexeme ++ "'") msg⟩

/-- Go `Parser.consume`: the token consumed and the parser after it, or the
error; `none` is a panic. -/
def consume (p : Parser) (typ : TokenType) (msg : String) :
    Option ((Token × Parser) ⊕ ParseError) :=
  match p.check typ with
  | none => none
  | some true => p.advance.map Sum.inl
  | some false => p.peek.map fun t => Sum.inr (Error t msg)

mutual

/-- Go `Parser.expression`. -/
def expression : Nat → Parser → PRes
  | 0, _ => .outOfFuel
  | n + 1, p => or n p

/-- Go `Parser.or`. -/
def or : Nat → Parser → PRes
  | 0, _ => .outOfFuel
  | n + 1, p =>
    match and n p with
    | .ok expr p1 => orLoop n expr p1
    | r => r

/-- The loop `for p.match(TokenOr)` of `Parser.or`. -/
def orLoop : Nat → Expr → Parser → PRes
  | 0, _, _ => .outOfFuel
  | n + 1, expr, p =>
    match p.matchTypes [TokenOr] with
    | none => .panic
    | some (false, p1) => .ok expr p1
    | some (true, p1) =>
      match p1.previous with
      | none => .panic
      | some operator =>
        match and n p1 with
        | .ok right p2 => orLoop n (NewExprLogical expr operator right) p2
        | r => r

/-- Go `Parser.and`. -/
def and : Nat → Parser → PRes
  | 0, _ => .outOfFuel
  | n + 1, p =>
    match equality n p with
    | .ok expr p1 => andLoop n expr p1
    | r => r

/-- The loop `for p.match(TokenAnd)` of `Parser.and`. -/
def andLoop : Nat → Expr → Parser → PRes
  | 0, _, _ => .outOfFuel
  | n + 1, expr, p =>
    match p.matchTypes [TokenAnd] with
    | none => .panic
    | some (false, p1) => .ok expr p1
    | some (true, p1) =>
      match p1.previous with
      | none => .panic
      | some operator =>
        match equality n p1 with
        | .ok right p2 => andLoop n (NewExprLogical expr operator right) p2
        | r => r

/-- Go `Parser.equality`. -/
def equality : Nat → Parser → PRes
  | 0, _ => .outOfFuel
  | n + 1, p =>
    match comparison n p with
    | .ok expr p1 => equalityLoop n expr p1
    | r => r

/-- The loop `for p.match(TokenBangEqual, TokenEqualEqual)` of `Parser.equality`. -/
def equalityLoop : Nat → Expr → Parser → PRes
  | 0, _, _ => .outOfFuel
  | n + 1, expr, p =>
    match p.matchTypes [TokenBangEqual, TokenEqualEqual] with
    | none => .panic
    | some (false, p1) => .ok expr p1
    | some (true, p1) =>
      match p1.previous with
      | none => .panic
      | some operator =>
        match comparison n p1 with
        | .ok right p2 => equalityLoop n (NewExprBinary expr operator right) p2
        | r => r

/-- Go `Parser.comparison`; its next level is `unary`. -/
def comparison : Nat → Parser → PRes
  | 0, _ => .outOfFuel
  | n + 1, p =>
    match unary n p with
    | .ok expr p1 => comparisonLoop n expr p1
    | r => r

/-- The loop over the four ordering operators of `Parser.comparison`. -/
def comparisonLoop : Nat → Expr → Parser → PRes
  | 0, _, _ => .outOfFuel
  | n + 1, expr, p =>
    match p.matchTypes [TokenGreater, TokenGreaterEqual, TokenLess, TokenLessEqual] with
    | none => .panic
    | some (false, p1) => .ok expr p1
    | some (true, p1) =>
      match p1.previous with
      | none => .panic
      | some operator =>
        match unary n p1 with
        | .ok right p2 => comparisonLoop n (NewExprBinary expr operator right) p2
        | r => r

/-- Go `Parser.unary`. -/
def unary : Nat → Parser → PRes
  | 0, _ => .outOfFuel
  | n + 1, p =>
    match p.matchTypes [TokenBang, TokenMinus] with
    | none => .panic
    | some (true, p1) =>
      match p1.previous with
      | none => .panic
      | some operator =>
        match unary n p1 with
        | .ok right p2 => .ok (NewExprUnary operator right) p2
        | r => r
    | some (false, p1) => call n p1

/-- Go `Parser.call`. -/
def call : Nat → Parser → PRes
  | 0, _ => .outOfFuel
  | n + 1, p =>
    match primary n p with
    | .ok expr p1 => callLoop n expr p1
    | r => r

/-- The loop `for p.match(TokenLeftParen)` of `Parser.call`. -/
def callLoop : Nat → Expr → Parser → PRes
  | 0, _, _ => .outOfFuel
  | n + 1, expr, p =>
    match p.matchTypes [TokenLeftParen] with
    | none => .panic
    | some (false, p1) => .ok expr p1
    | some (true, p1) =>
      match finishCall n expr p1 with
      | .ok expr1 p2 => callLoop n expr1 p2
      | r => r

/-- The loop `for p.match(TokenComma)` of `Parser.finishCall` and of
`Parser.finishArray`: the expressions collected, and the parser after them;
an error, a panic or the end of the budget comes back as `Sum.inr`. -/
def exprList : Nat → List Expr → Parser → (List Expr × Parser) ⊕ PRes
  | 0, _, _ => .inr .outOfFuel
  | n + 1, acc, p =>
    match p.matchTypes [TokenComma] with
    | none => .inr .panic
    | some (false, p1) => .inl (acc, p1)
    | some (true, p1) =>
      match expression n p1 with
      | .ok e p2 => exprList n (acc ++ [e]) p2
      | r => .inr r

/-- Go `Parser.finishCall`. -/
def finishCall : Nat → Expr → Parser → PRes
  | 0, _, _ => .outOfFuel
  | n + 1, callee, p =>
    let collected : (List Expr × Parser) ⊕ PRes :=
      match p.check TokenRightParen with
      | none => .inr .panic
      | some true => .inl ([], p)
      | some false =>
        match expression n p with
        | .ok e p1 => exprList n [e] p1
        | r => .inr r
    match collected with
    | .inr r => r
    | .inl (arguments, p2) =>
      match p2.consume TokenRightParen "Expect ')' after arguments." with
      | none => .panic
      | some (.inr err) => .error err p2
      | some (.inl (paren, p3)) => .ok (NewExprCall callee paren arguments) p3

/-- Go `Parser.finishArray`. -/
def finishArray : Nat → Parser → PRes
  | 0, _ => .outOfFuel
  | n + 1, p =>
    let collected : (List Expr × Parser) ⊕ PRes :=
      match p.check TokenRightBracket with
      | none => .inr .panic
      | some true => .inl ([], p)
      | some false =>
        match expression n p with
        | .ok e p1 => exprList n [e] p1
        | r => .inr r
    match collected with
    | .inr r => r
    | .inl (items, p2) =>
      match p2.consume TokenRightBracket "expect ']'" with
      | none => .panic
      | some (.inr err) => .error err p2
      | some (.inl (bracket, p3)) => .ok (NewExprArray bracket items) p3

/-- Go `Parser.primary`. -/
def primary : Nat → Parser → PRes
  | 0, _ => .outOfFuel
  | n + 1, p =>
    match p.matchTypes [TokenFalse] with
    | none => .panic
    | some (true, p1) => .ok (NewExprLiteral (.bool false) .Bool) p1
    | some (false, _) =>
    match p.matchTypes [TokenTrue] with
    | none => .panic
    | some (true, p1) => .ok (NewExprLiteral (.bool true) .Bool) p1
    | some (false, _) =>
    match p.matchTypes [TokenNumber] with
    | none => .panic
    | some (true, p1) =>
      (match p1.previous with
      | none => .panic
      | some t => .ok (NewExprLiteral t.literal .Float64) p1)
    | some (false, _) =>
    match p.matchTypes [TokenString] with
    | none => .panic
    | some (true, p1) =>
      (match p1.previous with
      | none => .panic
      | some t => .ok (NewExprLiteral t.literal .String) p1)
    | some (false, _) =>
    match p.matchTypes [TokenIdentifier] with
    | none => .panic
    | some (true, p1) =>
      (match p1.previous with
      | none => .panic
      | some t => .ok (NewExprVariable t) p1)
    | some (false, _) =>
    match p.matchTypes [TokenLeftParen] with
    | none => .panic
    | some (true, p1) =>
      (match expression n p1 with
      | .ok expr p2 =>
        (match p2.consume TokenRightParen "Expect ')' after expression." with
        | none => .panic
        | some (.inr err) => .error err p2
        | some (.inl (_, p3)) => .ok (NewExprGrouping expr) p3)
      | r => r)
    | some (false, _) =>
    match p.matchTypes [TokenLeftBracket] with
    | none => .panic
    | some (true, p1) => finishArray n p1
    | some (false, _) =>
    match p.peek with
    | none => .panic
    | some t => .error (Error t "Expect expression.") p

end

/-- Go `Parser.factor` (unreachable from `Parse`): `p.match()` with no token
type never matches, so the loop body never runs. -/
def factor (n : Nat) (p : Parser) : PRes := unary n p

/-- Go `Parser.term` (unreachable from `Parse`), like `factor`. -/
def term (n : Nat) (p : Parser) : PRes := factor n p

/-- The recursion budget `Parse` gives the parse of these tokens: every level
of nesting and every round of a loop consumes a token, and between two
tokens the methods nest at most eleven deep. -/
def fuelFor (p : Parser) : Nat := 12 * (p.tokens.length + 1)

/-- Go `Parser.Parse`, with the recursion budget explicit. -/
def ParseWith (fuel : Nat) (p : Parser) : PRes := expression fuel p

/-- Go `Parser.Parse`. -/
def Parse (p : Parser) : PRes := ParseWith (fuelFor p) p

end Parser

/-! ## Host functions -/

/-- A Go function value as `reflect` sees it: the parameter types, the
number of results, and what a call does on arguments of these types (the
value returned is the first result).  Variadic functions are not modelled. -/
structure GoFunction (σ : Type) where
  In : List Ty
  NumOut : Nat
  body : List Value → σ → CallOut × σ

/-- The argument `f interface{}` of `DefineGoFunc`: a function, or a value
that is not a function. -/
inductive HostArg (σ : Type) where
  | func (f : GoFunction σ)
  | value (v : Value)

/-- The conversion loop of the closure `DefineGoFunc` builds: the converted
arguments, or the `RuntimeError` of the first argument that does not
convert; `none` is the panic of `t.In(i)` past the last parameter. -/
def convertArguments (rt : GoRuntime) (name : String) (params : List Ty) :
    Nat → List Value → List Value → Option (List Value ⊕ Err)
  | _, [], acc => some (.inl acc)
  | i, inputArg :: rest, acc =>
    match params.get? i with
    | none => none
    | some argDef =>
      match convertDyn inputArg argDef with
      | none =>
        some (.inr (Err.RuntimeError (name ++ " argument[" ++ toString i ++ "] '" ++
          rt.sprintV inputArg ++ "' " ++ rt.sprintT inputArg ++
          " is not compatible for " ++ rt.sprintTy argDef)))
      | some converted => convertArguments rt name params (i + 1) rest (acc ++ [converted])

/-- The closure `call` of the `GoFunc` that `DefineGoFunc` builds.  An
argument that does not convert makes the closure return the `RuntimeError`
as its value. -/
def goFuncCall {σ : Type} (rt : GoRuntime) (name : String) (f : GoFunction σ) :
    List Value → σ → CallOut × σ := fun arguments s =>
  match convertArguments rt name f.In 0 arguments [] with
  | none => (.panic (runtimePanic "reflect: Func index out of bounds"), s)
  | some (.inr e) => (.ret (.err e), s)
  | some (.inl args) =>
    if args.length ≠ f.In.length then
      (.panic (runtimePanic "reflect: Call with too few input arguments"), s)
    else
      match f.body args s with
      | (.ret v, s1) => (.ret (if f.NumOut = 0 then Value.nil else v), s1)
      | (.panic q, s1) => (.panic q, s1)

/-- Go `Environment.DefineGoFunc`, on the interpreter that owns the
environment: the interpreter after the call and the error returned; `none`
is the panic of asking the kind of the type of a nil interface. -/
def DefineGoFunc {σ : Type} (rt : GoRuntime) (p : Interpreter σ) (name : String) (f : HostArg σ) :
    Option (Interpreter σ × Option Err) :=
  match f with
  | .value .nil => none
  | .value _ => some (p, some (Err.other "not a function"))
  | .func fn =>
    if 1 < fn.NumOut then some (p, some (Err.other "too many return values"))
    else
      some ({ Environment := p.Environment.Define name (.callable p.heap.length),
              heap := p.heap ++ [{ ArgNum := fn.In.length, Call := goFuncCall rt name fn }] },
            none)

/-! ## Run -/

mutual

/-- The depth of an expression: the longest chain of nested nodes. -/
def Expr.depth : Expr → Nat
  | ExprLiteral _ _ => 1
  | ExprGrouping e => e.depth + 1
  | ExprUnary _ r => r.depth + 1
  | ExprBinary l _ r => max l.depth r.depth + 1
  | ExprLogical l _ r => max l.depth r.depth + 1
  | ExprVariable _ => 1
  | ExprCall c _ args => max c.depth (depthList args) + 1
  | ExprArray _ items => depthList items + 1

/-- The greatest depth of the expressions of a list. -/
def depthList : List Expr → Nat
  | [] => 0
  | e :: es => max e.depth (depthList es)

end

/-- The errors `Run` returns. -/
inductive RunErr where
  | scan (e : ScanError)
  | parse (e : ParseError)
  | interp (e : Err)
deriving DecidableEq, Repr

/-- What `Run` gives back: the value and the error, or the panic of the
parser, which nothing recovers. -/
inductive RunResult where
  | ret (v : Value) (err : Option RunErr)
  | panic
  | outOfFuel

/-- Go `Run`.  The interpreter is fresh: its environment is empty and no
host function exists, so the host has no state.  The recursion budget of
the evaluation is twice the depth of the parsed expression, and one more. -/
def Run (rt : GoRuntime) (src : String) : RunResult :=
  match (NewScanner src).ScanTokens rt with
  | (_, some err) => .ret .nil (some (.scan err))
  | (tokens, none) =>
    match (NewParser tokens).Parse with
    | .error err _ => .ret .nil (some (.parse err))
    | .panic => .panic
    | .outOfFuel => .outOfFuel
    | .ok expr _ =>
      match Interpret rt (NewInterpreter Unit) (2 * expr.depth + 1) expr () with
      | (.ret v err, _) => .ret v (err.map RunErr.interp)
      | (.panic _, _) => .panic
      | (.outOfFuel, _) => .outOfFuel

/-- A runtime whose `unicode` tables hold the ASCII digits and letters only,
and whose `fmt` verbs print the kind of a value. -/
def asciiRuntime : GoRuntime where
  isDigit := Char.isDigit
  isLetter := Char.isAlpha
  isDigit_ascii := fun _ _ => rfl
  isLetter_ascii := fun _ _ => rfl
  sprintV := fun v => match v with
    | .nil => "<nil>"
    | .bool b => toString b
    | .int _ n => toString n
    | .str s => s
    | _ => "?"
  sprintT := fun v => match v with
    | .nil => "<nil>"
    | .bool _ => "bool"
    | .str _ => "string"
    | .float64 _ => "float64"
    | _ => "?"
  sprintS := fun v => match v with
    | .str s => s
    | _ => "?"
  sprintTy := fun _ => "?"
  stack := ""
  sameNode := fun _ _ => false

/-! ## Notions used to state the properties -/

/-- What `VisitExprLogicalObj` makes of the evaluation of its right operand:
the error of the operand with the value `false`, or the truth value of the
operand with the error of `isTruthy`. -/
def afterRight {σ : Type} (rt : GoRuntime) : Outcome Value × σ → Outcome Value × σ
  | (.ret _ (some err), s) => (.ret (.bool false) (some err), s)
  | (.ret r none, s) => (.ret (.bool (isTruthy rt r).1) (isTruthy rt r).2, s)
  | (o, s) => (o, s)

/-- An evaluation failed: it returned an error or it panicked. -/
def failed {σ : Type} : Outcome Value × σ → Prop
  | (.ret _ (some _), _) => True
  | (.panic _, _) => True
  | _ => False

/-- The string literal the parser builds for the characters `cs` between two
double quotes: the runes as payload, the kind `String`. -/
def stringLiteral (cs : List Char) : Expr :=
  ExprLiteral (.slice (.int .int32) (cs.map fun c => Value.int .int32 c.toNat)) .String

/-- The tokens of the source text `"a" >= "b"`. -/
def tokensGeStrings : List Token :=
  [Token.mk TokenString "\"a\"" (.slice (.int .int32) [.int .int32 97]) 1,
   Token.mk TokenGreaterEqual ">=" .nil 1,
   Token.mk TokenString "\"b\"" (.slice (.int .int32) [.int .int32 98]) 1,
   Token.mk TokenEOF "" .nil 1]

/-- One round of the loop of `isSliceEqual` on the two elements read at an
index: `true` with no error when the round finds the elements equal and the
loop goes on, the result of the loop otherwise. -/
def compareItems {σ : Type} (rt : GoRuntime) (ev : Expr → σ → Outcome Value × σ)
    (x y : Option (Ty × Value)) (s : σ) : Outcome Bool × σ :=
  match x, y with
  | some (ta, itema), some (tb, itemb) =>
    match TryConvert ta itema tb with
    | (_, false) => (.ret false none, s)
    | (ai, true) =>
      match evalIfExpr ev ai s with
      | (.ret _ (some err), s1) => (.ret false (some err), s1)
      | (.ret ai none, s1) =>
        match evalIfExpr ev itemb s1 with
        | (.ret _ (some err), s2) => (.ret false (some err), s2)
        | (.ret bi none, s2) =>
          match ifaceEq rt ai bi with
          | none => (.panic (runtimePanic "runtime error: comparing uncomparable type"), s2)
          | some false => (.ret false none, s2)
          | some true => (.ret true none, s2)
        | (.panic q, s2) => (.panic q, s2)
        | (.outOfFuel, s2) => (.outOfFuel, s2)
      | (.panic q, s1) => (.panic q, s1)
      | (.outOfFuel, s1) => (.outOfFuel, s1)
  | _, _ => (.panic (runtimePanic "reflect: slice index out of range"), s)

/-- The loop goes on after a round exactly when the round gave `true` with
no error. -/
def andThen {σ : Type} (r : Outcome Bool × σ) (k : σ → Outcome Bool × σ) : Outcome Bool × σ :=
  match r with
  | (.ret true none, s) => k s
  | r => r

/-- The forms in which a sequence of strings reaches the left of `==`: a
`[]string` of the host, a `[]interface{}` of the host that holds strings,
and the value of an array literal of string literals. -/
inductive SequenceForm where
  | hostStrings
  | hostAny
  | literal
deriving DecidableEq, Repr

/-- A sequence of the strings `xs` as the left operand of `==`, in one of
the three forms. -/
def stringSequence (form : SequenceForm) (xs : List String) : Value :=
  match form with
  | .hostStrings => .slice .string (xs.map Value.str)
  | .hostAny => .slice .any (xs.map Value.str)
  | .literal => .slice .any (xs.map fun x => Value.node (stringLiteral x.toList))

/-- The array literal of the string literals `ys`. -/
def stringArray (bracket : Token) (ys : List String) : Expr :=
  ExprArray bracket (ys.map fun y => stringLiteral y.toList)

/-- The text of a numeric literal: the digits `ip`, followed by `.` and the
digits `fp` when `fp` is not empty. -/
def numberText (ip fp : List Char) : List Char :=
  if fp = [] then ip else ip ++ '.' :: fp

/-- The text of a string literal: `body` between two double quotes. -/
def quoted (body : List Char) : List Char := '"' :: (body ++ ['"'])

/-- The source text `lit op lit`: a literal, a space, a two-character
operator, a space, the same literal. -/
def equalitySource (c1 c2 : Char) (lit : List Char) : String :=
  String.mk (lit ++ ' ' :: c1 :: c2 :: ' ' :: lit)

/-- The scanner reads the text `lit`, wherever it stands in the source before
the end or a space, as one token of kind `typ` with the payload `payload`,
and `dl` lines further down. -/
def ScansAs (rt : GoRuntime) (lit : List Char) (typ : TokenType) (payload : Value) (dl : Nat) :
    Prop :=
  ∀ (pre post : List Char) (toks : List Token) (ln : Int),
    (post = [] ∨ ∃ t, post = ' ' :: t) →
    Scanner.scanToken rt ⟨pre ++ (lit ++ post), toks, pre.length, pre.length, ln⟩
      = (⟨pre ++ (lit ++ post),
          toks ++ [NewToken typ (String.mk lit) payload (ln + (dl : Nat))],
          pre.length, pre.length + lit.length, ln + (dl : Nat)⟩, none)

/-- The scanner reads the two characters `c1 c2` as one operator token. -/
def OperatorScans (rt : GoRuntime) (c1 c2 : Char) (typ : TokenType) : Prop :=
  ∀ (pre post : List Char) (toks : List Token) (ln : Int),
    Scanner.scanToken rt ⟨pre ++ c1 :: c2 :: post, toks, pre.length, pre.length, ln⟩
      = (⟨pre ++ c1 :: c2 :: post,
          toks ++ [NewToken typ (String.mk [c1, c2]) .nil ln],
          pre.length, pre.length + 2, ln⟩, none)

/-- The tokens of the source text `lit op lit`. -/
def equalityTokens (lit : List Char) (typ : TokenType) (payload : Value) (dl : Nat)
    (c1 c2 : Char) (op : TokenType) : List Token :=
  [NewToken typ (String.mk lit) payload (1 + (dl : Nat)),
   NewToken op (String.mk [c1, c2]) .nil (1 + (dl : Nat)),
   NewToken typ (String.mk lit) payload (1 + (dl : Nat) + (dl : Nat)),
   NewToken TokenEOF "" .nil (1 + (dl : Nat) + (dl : Nat))]

/-- The number literal the parser builds for the `float64` value `q`. -/
def numberLiteral (q : ℚ) : Expr := ExprLiteral (.float64 (.fin q)) .Float64

/-- An interpreter in which the host has registered `age -> 18`, an `int`. -/
def ageInterpreter : Interpreter Unit :=
  { Environment := (NewInterpreter Unit).Environment.Define "age" (.int .int 18), heap := [] }

/-- The expression `age`. -/
def ageVariable : Expr := ExprVariable (NewToken TokenIdentifier "age" .nil 1)

/-- An interpreter in which the host has registered `efficacy`, a `[]string`
of two strings. -/
def efficacyInterpreter : Interpreter Unit :=
  { Environment := (NewInterpreter Unit).Environment.Define "efficacy"
      (.slice .string [.str "a", .str "b"]),
    heap := [] }

/-- The expression `efficacy`. -/
def efficacyVariable : Expr := ExprVariable (NewToken TokenIdentifier "efficacy" .nil 1)

/-- The expression `x`, a variable that no host has registered. -/
def undefinedVariable : Expr := ExprVariable (NewToken TokenIdentifier "x" .nil 1)

/-- The host function `call_counter` of the tests: it takes no argument, adds
one to the counter that is the state of the host, and returns `true`. -/
def callCounterFunc : GoFunction Nat :=
  { In := [], NumOut := 1, body := fun _ cnt => (.ret (.bool true), cnt + 1) }

/-- An interpreter in which the host has registered `call_counter` with
`DefineGoFunc`. -/
def counterInterpreter : Interpreter Nat :=
  match DefineGoFunc asciiRuntime (NewInterpreter Nat) "call_counter" (.func callCounterFunc) with
  | some (p, _) => p
  | none => NewInterpreter Nat

/-- The expression `call_counter()`. -/
def callCounter : Expr :=
  ExprCall (ExprVariable (NewToken TokenIdentifier "call_counter" .nil 1))
    (NewToken TokenRightParen ")" .nil 1) []

/-! ## Notions for calls -/

/-- The argument expressions are evaluated from left to right with no
error: each one starts in the host state the one before it left, and the
values are collected in the order of the expressions. -/
inductive EvaluatedInOrder {σ : Type} (ev : Expr → σ → Outcome Value × σ) :
    List Expr → σ → List Value → σ → Prop where
  | nil (s : σ) : EvaluatedInOrder ev [] s [] s
  | cons (arg : Expr) (rest : List Expr) (s s1 s2 : σ) (v : Value) (vs : List Value) :
      ev arg s = (.ret v none, s1) → EvaluatedInOrder ev rest s1 vs s2 →
      EvaluatedInOrder ev (arg :: rest) s (v :: vs) s2

/-- What `VisitExprCallObj` returns for one invocation of the callable: the
value of the call with a nil error, or the panic of the call. -/
def invoked {σ : Type} : CallOut × σ → Outcome Value × σ
  | (.ret v, s) => (.ret v none, s)
  | (.panic q, s) => (.panic q, s)

/-- The host function `tick`: it takes no argument, returns the counter
that is the state of the host, and adds one to it. -/
def tickFunc : GoFunction Nat :=
  { In := [], NumOut := 1, body := fun _ cnt => (.ret (.int .int cnt), cnt + 1) }

/-- The host function `pair`: it takes two `int` arguments, returns them as
a slice, and adds ten to the counter. -/
def pairFunc : GoFunction Nat :=
  { In := [.int .int, .int .int], NumOut := 1,
    body := fun args cnt => (.ret (.slice (.int .int) args), cnt + 10) }

/-- An interpreter in which the host has registered `tick` and `pair` with
`DefineGoFunc`. -/
def pairInterpreter : Interpreter Nat :=
  match DefineGoFunc asciiRuntime (NewInterpreter Nat) "tick" (.func tickFunc) with
  | some (p, _) =>
    match DefineGoFunc asciiRuntime p "pair" (.func pairFunc) with
    | some (q, _) => q
    | none => p
  | none => NewInterpreter Nat

/-- The expression `tick()`. -/
def tickCall : Expr :=
  ExprCall (ExprVariable (NewToken TokenIdentifier "tick" .nil 1))
    (NewToken TokenRightParen ")" .nil 1) []

/-- The variable `pair`. -/
def pairVariable : Expr := ExprVariable (NewToken TokenIdentifier "pair" .nil 1)

/-! ## Notions for the symbol table -/

/-- The environment after a sequence of calls of `Define`, the first call
first. -/
def defineAll (e : Environment) (defs : List (String × Value)) : Environment :=
  defs.foldl (fun env d => env.Define d.1 d.2) e

/-- The value of the most recent definition of `name` in a sequence of
definitions listed first to last, if there is one. -/
def mostRecent : List (String × Value) → String → Option Value
  | [], _ => none
  | (n, v) :: rest, name =>
    match mostRecent rest name with
    | some w => some w
    | none => if n = name then some v else none

/-- The identifier token of a name. -/
def identifierToken (name : String) : Token := NewToken TokenIdentifier name .nil 1

/-! ## Notions for host faults and host arguments -/

/-- A host function `die` of no argument that panics with the given payload. -/
def dieFunc (payload : Value) : GoFunction Unit :=
  { In := [], NumOut := 1, body := fun _ s => (.panic payload, s) }

/-- An interpreter in which the host has registered `die` with `DefineGoFunc`. -/
def dieInterpreter (payload : Value) : Interpreter Unit :=
  match DefineGoFunc asciiRuntime (NewInterpreter Unit) "die" (.func (dieFunc payload)) with
  | some (p, _) => p
  | none => NewInterpreter Unit

/-- The expression `die()`. -/
def dieCall : Expr :=
  ExprCall (ExprVariable (identifierToken "die")) (NewToken TokenRightParen ")" .nil 1) []

/-- The host function `label` of one `string` parameter: it returns its
argument and adds one to the counter that is the state of the host. -/
def labelFunc : GoFunction Nat :=
  { In := [.string], NumOut := 1, body := fun args cnt => (.ret (args.headD .nil), cnt + 1) }

/-- An interpreter in which the host has registered `label` with
`DefineGoFunc`. -/
def labelInterpreter : Interpreter Nat :=
  match DefineGoFunc asciiRuntime (NewInterpreter Nat) "label" (.func labelFunc) with
  | some (p, _) => p
  | none => NewInterpreter Nat

/-- The expression `label(true)`. -/
def labelCall : Expr :=
  ExprCall (ExprVariable (identifierToken "label")) (NewToken TokenRightParen ")" .nil 1)
    [ExprLiteral (.bool true) .Bool]

/-- The message of the `RuntimeError` for the argument `v` at index `i` of
the host function `name`, which does not convert to the parameter type `ty`. -/
def incompatibleArgument (rt : GoRuntime) (name : String) (i : Nat) (v : Value) (ty : Ty) :
    String :=
  name ++ " argument[" ++ toString i ++ "] '" ++ rt.sprintV v ++ "' " ++ rt.sprintT v ++
    " is not compatible for " ++ rt.sprintTy ty

/-- An interpreter in which the host has registered `age -> uint8(18)`. -/
def smallAgeInterpreter : Interpreter Unit :=
  { Environment := (NewInterpreter Unit).Environment.Define "age" (.int .uint8 18), heap := [] }

/-! ## Notions for the scanner -/

namespace Scanner

/-- The number of double quotes among the runes the scanner has not read. -/
def quotesAhead (s : Scanner) : Nat := (s.src.drop s.current).count '"'

/-- The scanner `s1` is the scanner `s` after it has read on, over runes
none of which is a double quote, and added no token. -/
def ReadsOn (s s1 : Scanner) : Prop :=
  s1.src = s.src ∧ s1.tokens = s.tokens ∧ s1.start = s.start ∧ s.current ≤ s1.current
    ∧ s1.current ≤ s1.src.length ∧ s1.quotesAhead = s.quotesAhead

end Scanner

/-- A token of the source `src` that, when it is a string token, stands in
the source as a double quote, the characters `body` none of which is a
double quote, and a double quote, and has the runes of `body` as literal. -/
def QuotedString (src : List Char) (t : Token) : Prop :=
  t.typ = TokenString →
    ∃ pre body post : List Char, '"' ∉ body ∧ src = pre ++ (quoted body ++ post)
      ∧ t.lexeme = String.mk (quoted body)
      ∧ t.literal = .slice (.int .int32) (body.map fun c => Value.int .int32 c.toNat)

namespace Scanner

/-- The scanner `s1` is the scanner `s` after it has read on, over runes
none of which is a double quote, and added one token that is not a string
token. -/
def ReadsToken (s s1 : Scanner) : Prop :=
  s1.src = s.src ∧ s.current ≤ s1.current ∧ s1.current ≤ s1.src.length
    ∧ s1.quotesAhead = s.quotesAhead
    ∧ ∃ tok : Token, tok.typ ≠ TokenString ∧ s1.tokens = s.tokens ++ [tok]

/-- One round of the loop of `ScanTokens` that returns no error, from `s` to
`s1`: at least one rune is read, the double quotes read are none or two, and
a token that is added is a well-delimited string or no string at all. -/
def Step (s s1 : Scanner) : Prop :=
  s1.src = s.src ∧ s.current < s1.current ∧ s1.current ≤ s1.src.length
    ∧ s1.quotesAhead % 2 = s.quotesAhead % 2
    ∧ (s1.tokens = s.tokens ∨ ∃ tok : Token, QuotedString s.src tok ∧ s1.tokens = s.tokens ++ [tok])

end Scanner

/-! ## Notions for the parser -/

/-- The tokens `X` are an operand that the parser reads as the expression
`e`: wherever they stand, followed by a token that is not a left
parenthesis, `Parser.unary` with a recursion budget of at least `k` reads
exactly these tokens and returns `e`. -/
def ParsesAsOperand (X : List Token) (e : Expr) (k : Nat) : Prop :=
  ∀ (pre post : List Token) (nxt : Token) (n : Nat), nxt.typ ≠ TokenLeftParen →
    Parser.unary (n + k) ⟨pre ++ (X ++ nxt :: post), pre.length⟩
      = .ok e ⟨pre ++ (X ++ nxt :: post), pre.length + X.length⟩

/-- The expression that `Parser.primary` builds for a token that is a
primary expression by itself: a literal or an identifier. -/
def primaryOf (t : Token) : Option Expr :=
  match t.typ with
  | TokenFalse => some (ExprLiteral (.bool false) .Bool)
  | TokenTrue => some (ExprLiteral (.bool true) .Bool)
  | TokenNumber => some (ExprLiteral t.literal .Float64)
  | TokenString => some (ExprLiteral t.literal .String)
  | TokenIdentifier => some (ExprVariable t)
  | _ => none

/-- The tokens `Y` are operands joined by `and` that the parser reads as the
expression `e`: wherever they stand, followed by an `or` or by the end of the
input, `Parser.and` with a recursion budget of at least `k` reads exactly
these tokens and returns `e`. -/
def ParsesAsConjunction (Y : List Token) (e : Expr) (k : Nat) : Prop :=
  ∀ (pre post : List Token) (nxt : Token) (n : Nat),
    nxt.typ = TokenOr ∨ nxt.typ = TokenEOF →
    Parser.and (n + k) ⟨pre ++ (Y ++ nxt :: post), pre.length⟩
      = .ok e ⟨pre ++ (Y ++ nxt :: post), pre.length + Y.length⟩

/-- A result of the parser that, when it is an error, is the error that
`Parser.Error` builds, with some message, for the token at which the parser
stands. -/
def LocatedError (r : PRes) : Prop :=
  ∀ (err : ParseError) (q : Parser), r = .error err q →
    ∃ (t : Token) (msg : String), q.peek = some t ∧ err = Parser.Error t msg

namespace Parser

/-- The parser `p` on a token sequence that has the tokens `pre` before
the tokens of `p`, at the same token. -/
def shift (pre : List Token) (p : Parser) : Parser :=
  ⟨pre ++ p.tokens, pre.length + p.current⟩

end Parser

/-- A result of the parser, moved to the token sequence that has the tokens
`pre` in front. -/
def PRes.shift (pre : List Token) : PRes → PRes
  | .ok e p => .ok e (p.shift pre)
  | .error err p => .error err (p.shift pre)
  | .panic => .panic
  | .outOfFuel => .outOfFuel

/-- The method `f` of the parser, called with the recursion budget `n`, does
not depend on tokens put in front nor on a larger budget: when it ends
within the budget, it ends in the same way with `j` more and with the tokens
`pre` in front. -/
def Stable (pre : List Token) (j : Nat) (f : Nat → Parser → PRes) (n : Nat) : Prop :=
  ∀ p : Parser, f n p ≠ .outOfFuel → f (n + j) (p.shift pre) = (f n p).shift pre

/-- What the list loop of `finishCall` and `finishArray` returns, moved to
the token sequence that has the tokens `pre` in front. -/
def shiftList (pre : List Token) : (List Expr × Parser) ⊕ PRes → (List Expr × Parser) ⊕ PRes
  | .inl (items, p) => .inl (items, p.shift pre)
  | .inr r => .inr (r.shift pre)

/-! ## Printer -/

/-- Go `AstPrinter.block`: the text `start`, the name, then for every child
a space and its rendering, then the text `stop` (the parameter `end`).  The renderings of the
children stand for the children: `AcceptStr` has no effect but its result. -/
def block (name start stop : String) (rendered : List String) : String :=
  rendered.foldl (fun builder r => builder ++ " " ++ r) (start ++ name) ++ stop

/-- Go `AstPrinter.VisitExprBinaryStr`, on the renderings of the operands. -/
def VisitExprBinaryStr (operator : Token) (left right : String) : String :=
  block operator.lexeme "(" ")" [left, right]

/-- Go `AstPrinter.VisitExprGroupingStr`, on the rendering of the expression. -/
def VisitExprGroupingStr (expression : String) : String :=
  block "group" "(" ")" [expression]

/-- Go `AstPrinter.VisitExprLiteralStr`; `sprint` is `fmt.Sprint`. -/
def VisitExprLiteralStr (sprint : Value → String) (value : Value) : String :=
  match value with
  | .nil => "nil"
  | v => sprint v

/-- Go `AstPrinter.VisitExprUnaryStr`, on the rendering of the operand. -/
def VisitExprUnaryStr (operator : Token) (right : String) : String :=
  block operator.lexeme "(" ")" [right]

/-- Go `AstPrinter.VisitExprCallStr`, on the renderings of the callee and of
the arguments. -/
def VisitExprCallStr (callee : String) (arguments : List String) : String :=
  block callee "(" ")" arguments

/-- Go `AstPrinter.VisitExprLogicalStr`, on the renderings of the operands. -/
def VisitExprLogicalStr (operator : Token) (left right : String) : String :=
  block operator.lexeme "(" ")" [left, right]

/-- Go `AstPrinter.VisitExprVariableStr`. -/
def VisitExprVariableStr (name : Token) : String := name.lexeme

/-- Go `AstPrinter.VisitExprArrayStr`, on the renderings of the items. -/
def VisitExprArrayStr (bracket : Token) (items : List String) : String :=
  block bracket.lexeme "[" "]" items

mutual

/-- Modelled from the spec: the method `AcceptStr` of the nodes, declared in
the file that is not among the sources; it dispatches a node to the method
of the printer for its variant, as the `ExprVisitorStr` interface that
`AstPrinter` implements requires.  `sprint` is `fmt.Sprint`. -/
def AcceptStr (sprint : Value → String) : Expr → String
  | ExprLiteral value _ => VisitExprLiteralStr sprint value
  | ExprGrouping expression => VisitExprGroupingStr (AcceptStr sprint expression)
  | ExprUnary operator right => VisitExprUnaryStr operator (AcceptStr sprint right)
  | ExprBinary left operator right =>
    VisitExprBinaryStr operator (AcceptStr sprint left) (AcceptStr sprint right)
  | ExprLogical left operator right =>
    VisitExprLogicalStr operator (AcceptStr sprint left) (AcceptStr sprint right)
  | ExprVariable name => VisitExprVariableStr name
  | ExprCall callee _ arguments =>
    VisitExprCallStr (AcceptStr sprint callee) (acceptAll sprint arguments)
  | ExprArray bracket items => VisitExprArrayStr bracket (acceptAll sprint items)

/-- The renderings of the expressions of a list, in order. -/
def acceptAll (sprint : Value → String) : List Expr → List String
  | [] => []
  | e :: es => AcceptStr sprint e :: acceptAll sprint es

end

/-- Go `AstPrinter.Print`. -/
def Print (sprint : Value → String) (expr : Expr) : String := AcceptStr sprint expr

/-- The token types of the operators that stand between two operands. -/
def binaryOperators : List TokenType :=
  [TokenBangEqual, TokenEqualEqual, TokenGreater, TokenGreaterEqual, TokenLess, TokenLessEqual,
    TokenAnd, TokenOr]

/-! ## Notions for the unary operators -/

/-- The tokens of the source text `--n == n` for a number token `n`. -/
def doubleMinusTokens (n : Token) : List Token :=
  [Token.mk TokenMinus "-" .nil n.line, Token.mk TokenMinus "-" .nil n.line, n,
    Token.mk TokenEqualEqual "==" .nil n.line, n, Token.mk TokenEOF "" .nil n.line]

/-- The tokens of the source text `-n < 0` for a number token `n`. -/
def minusLessTokens (n : Token) : List Token :=
  [Token.mk TokenMinus "-" .nil n.line, n, Token.mk TokenLess "<" .nil n.line,
    Token.mk TokenNumber "0" (.float64 (.fin 0)) n.line, Token.mk TokenEOF "" .nil n.line]

/-- A host function `nothing` of no argument that returns no value. -/
def nothingFunc : GoFunction Unit :=
  { In := [], NumOut := 0, body := fun _ s => (.ret .nil, s) }

/-- An interpreter in which the host has registered `nothing` with
`DefineGoFunc`. -/
def nothingInterpreter : Interpreter Unit :=
  match DefineGoFunc asciiRuntime (NewInterpreter Unit) "nothing" (.func nothingFunc) with
  | some (p, _) => p
  | none => NewInterpreter Unit

/-- The expression `nothing()`. -/
def nothingCall : Expr :=
  ExprCall (ExprVariable (identifierToken "nothing")) (NewToken TokenRightParen ")" .nil 1) []

/-! ## Notions for the reflexivity of equality -/

/-- A boolean, a string, an integer, or a float that is not a NaN. -/
def plainValue : Value → Prop
  | .bool _ => True
  | .str _ => True
  | .int _ _ => True
  | .float32 f => f ≠ F64.nan
  | .float64 f => f ≠ F64.nan
  | _ => False

/-- An interpreter in which the host has registered `x` as the `float64`
NaN. -/
def nanInterpreter : Interpreter Unit :=
  { Environment := (NewInterpreter Unit).Environment.Define "x" (.float64 .nan), heap := [] }

/-! ## Notions for the equality of array literals -/

/-- The elements of two array literals are equal in pairs.  In the order in
which `isSliceEqual` evaluates them (at every position the element of the
left literal, then the element of the right one), each element evaluates
with no error, and Go's `==` on interface values finds the two values of a
position equal.  The state of the host is `s` before and `s1` after. -/
def EqualItems {σ : Type} (rt : GoRuntime) (ev : Expr → σ → Outcome Value × σ) :
    List Expr → List Expr → σ → σ → Prop
  | [], [], s, s1 => s = s1
  | a :: as, b :: bs, s, s1 =>
    ∃ (va vb : Value) (sa sb : σ),
      ev a s = (.ret va none, sa) ∧ ev b sa = (.ret vb none, sb)
        ∧ ifaceEq rt va vb = some true ∧ EqualItems rt ev as bs sb s1
  | _, _, _, _ => False

/-- The tokens of `[[n]] == [[n]]` for a token `n`. -/
def nestedArrayTokens (n : Token) : List Token :=
  [NewToken TokenLeftBracket "[" .nil 1, NewToken TokenLeftBracket "[" .nil 1, n,
   NewToken TokenRightBracket "]" .nil 1, NewToken TokenRightBracket "]" .nil 1,
   NewToken TokenEqualEqual "==" .nil 1,
   NewToken TokenLeftBracket "[" .nil 1, NewToken TokenLeftBracket "[" .nil 1, n,
   NewToken TokenRightBracket "]" .nil 1, NewToken TokenRightBracket "]" .nil 1,
   NewToken TokenEOF "" .nil 1]

/-- The tokens of `[age] == [n]` for a token `n`. -/
def ageArrayTokens (n : Token) : List Token :=
  [NewToken TokenLeftBracket "[" .nil 1, NewToken TokenIdentifier "age" .nil 1,
   NewToken TokenRightBracket "]" .nil 1,
   NewToken TokenEqualEqual "==" .nil 1,
   NewToken TokenLeftBracket "[" .nil 1, n, NewToken TokenRightBracket "]" .nil 1,
   NewToken TokenEOF "" .nil 1]

/-! ## Notions for the safety of the parser -/

/-- The last token of the sequence is an end-of-input token. -/
def EndsInEOF (ts : List Token) : Prop :=
  ∃ (body : List Token) (eof : Token), ts = body ++ [eof] ∧ eof.typ = TokenEOF

/-- A result of a method of the parser called at the index `i` of the tokens
`ts` that is neither a panic nor the end of the recursion budget; when it is
an expression, the parser after it still holds the tokens `ts`, stands at
least `k` tokens after `i`, and stands on a token of `ts`. -/
def PRes.Within (ts : List Token) (i k : Nat) : PRes → Prop
  | .ok _ q => q.tokens = ts ∧ i + k ≤ q.current ∧ q.current < ts.length
  | .error _ _ => True
  | .panic => False
  | .outOfFuel => False

/-- The same for the list loop of `finishCall` and `finishArray`: a list
with a parser on a token of `ts`, at or after the index `i`, or an error. -/
def ListWithin (ts : List Token) (i : Nat) : (List Expr × Parser) ⊕ PRes → Prop
  | .inl (_, q) => q.tokens = ts ∧ i ≤ q.current ∧ q.current < ts.length
  | .inr (.error _ _) => True
  | .inr _ => False

/-- A recursion budget for a method of the parser called by the parser `p`
on the tokens `ts`: twelve for every token after the one at which `p`
stands, and `c`, which depends on the method. -/
def Parser.budget (ts : List Token) (p : Parser) (c : Nat) : Nat :=
  12 * (ts.length - (p.current + 1)) + c

/-- Every token of the scanner `s1` is a token of the scanner `s` or is no
end-of-input token: from `s` to `s1` no end-of-input token was added. -/
def Scanner.AddsNoEOF (s s1 : Scanner) : Prop :=
  ∀ t ∈ s1.tokens, t ∈ s.tokens ∨ t.typ ≠ TokenEOF

/-! ## Notions for tokens left over after an expression -/

/-- The tokens of the source text `true )`. -/
def trueParenTokens : List Token :=
  [Token.mk TokenTrue "true" .nil 1, Token.mk TokenRightParen ")" .nil 1,
   Token.mk TokenEOF "" .nil 1]

/-! ## Notions for the comparison of numbers -/

/-- The number a numeric operand value stands for, in the words of the
specification "the numeric values of l and r": the integer of an `int`, an
`int32` or an `int64`, and the rational of a finite float (both zeros stand
for 0).  An infinity, a NaN and the values that `toNumber` rejects stand for
no number. -/
def numericValue : Value → Option ℚ
  | .int .int n => some n
  | .int .int32 n => some n
  | .int .int64 n => some n
  | .float32 (.fin q) => some q
  | .float32 .negZero => some 0
  | .float64 (.fin q) => some q
  | .float64 .negZero => some 0
  | _ => none

/-- The conversion of the operand value to `float64` loses nothing: the
value is a float, or an integer of magnitude below `2 ^ 53`. -/
def exactlyCoerced : Value → Bool
  | .int _ n => decide (n.natAbs < 2 ^ 53)
  | _ => true

/-- An interpreter in which the host has registered `x` as the `int64`
`2 ^ 53 + 1` and `y` as the `int64` `2 ^ 53`. -/
def largeInterpreter : Interpreter Unit :=
  { Environment := ((NewInterpreter Unit).Environment.Define "x"
      (.int .int64 9007199254740993)).Define "y" (.int .int64 9007199254740992),
    heap := [] }

/-- The expression `y`. -/
def secondVariable : Expr := ExprVariable (NewToken TokenIdentifier "y" .nil 1)

/-! ## Notions for literals below the range of `float64` -/

/-- The rational that a number text writes in decimal: its digits before and
after the point, over the power of ten of the digits after the point. -/
def decimalValue (text : List Char) : ℚ :=
  let ip := text.takeWhile Char.isDigit
  let fp := (text.dropWhile Char.isDigit).drop 1
  (digitsValue (ip ++ fp) : ℚ) / (10 ^ fp.length : Nat)

/-- The number text `0.` followed by `k` zeros and a `1`, which writes the
positive number one over ten to the power `k + 1`. -/
def tinyText (k : Nat) : List Char := '0' :: '.' :: (List.replicate k '0' ++ ['1'])

/-! ## Notions for tokens that follow an expression -/

/-- The token sequences `ts` and `ts1` hold the same tokens before the index
`k`; at `k` the first holds its last token, an end-of-input token, and the
second holds the token `u`, which is neither a left parenthesis nor a binary
operator: `u` cannot continue an expression. -/
def Leftover (ts ts1 : List Token) (k : Nat) (u : Token) : Prop :=
  (∀ i, i < k → ∃ t, ts.get? i = some t ∧ ts1.get? i = some t)
  ∧ (∃ eof : Token, ts.get? k = some eof ∧ eof.typ = TokenEOF)
  ∧ (∀ i, k < i → ts.get? i = none)
  ∧ ts1.get? k = some u ∧ u.typ ≠ TokenLeftParen ∧ u.typ ∉ binaryOperators

/-- The method `g` of the parser does on `ts1` what it does on `ts`, when it
returns an expression on `ts`: called by a parser on `ts`, it returns a
parser on `ts` that has passed at least `c` tokens and stands at the index
`k` or before it, and called at the same index of `ts1` it returns the same
expression and stands at the same index. -/
def Parser.Framed (ts ts1 : List Token) (k c : Nat) (g : Parser → PRes) : Prop :=
  ∀ (p : Parser) (e : Expr) (q : Parser), p.tokens = ts → g p = .ok e q →
    q.tokens = ts ∧ p.current + c ≤ q.current ∧ q.current ≤ k
      ∧ g ⟨ts1, p.current⟩ = .ok e ⟨ts1, q.current⟩

/-- The same for the list loop `lst` of `finishCall` and `finishArray`: when
it returns a list on `ts`, the parser it returns is on `ts`, at the index `k`
or before it, and if it stands before `k` the loop returns the same list on
`ts1`; and what it returns in place of a list is no expression. -/
def Parser.ListFramed (ts ts1 : List Token) (k : Nat)
    (lst : List Expr → Parser → (List Expr × Parser) ⊕ PRes) : Prop :=
  ∀ (acc : List Expr) (p : Parser), p.tokens = ts →
    (∀ (items : List Expr) (q : Parser), lst acc p = .inl (items, q) →
      q.tokens = ts ∧ p.current ≤ q.current ∧ q.current ≤ k
        ∧ (q.current < k → lst acc ⟨ts1, p.current⟩ = .inl (items, ⟨ts1, q.current⟩)))
    ∧ (∀ (e : Expr) (q : Parser), lst acc p ≠ .inr (.ok e q))

/-! ## Unfolding lemmas -/

section Lemmas

variable {σ : Type} (rt : GoRuntime) (p : Interpreter σ)

theorem evaluate_zero (e : Expr) (s : σ) : evaluate rt p 0 e s = (.outOfFuel, s) := rfl

theorem evaluate_succ (n : Nat) (e : Expr) (s : σ) :
    evaluate rt p (n + 1) e s = AcceptObj rt p (evaluate rt p n) e s := rfl

theorem evaluate_literal_bool (n : Nat) (b : Bool) (s : σ) :
    evaluate rt p (n + 1) (ExprLiteral (.bool b) .Bool) s = (.ret (.bool b) none, s) := rfl

theorem evaluate_logical (n : Nat) (l r : Expr) (op : Token) (s : σ) :
    evaluate rt p (n + 1) (ExprLogical l op r) s
      = VisitExprLogicalObj rt (evaluate rt p n) l op r s := rfl

theorem evaluate_binary (n : Nat) (l r : Expr) (op : Token) (s : σ) :
    evaluate rt p (n + 1) (ExprBinary l op r) s
      = VisitExprBinaryObj rt (evaluate rt p n) l op r s := rfl

theorem evaluate_array (n : Nat) (tk : Token) (items : List Expr) (s : σ) :
    evaluate rt p (n + 1) (ExprArray tk items) s
      = (.ret (.slice .any (items.map Value.node)) none, s) := rfl

end Lemmas

/-! ## Exact conversions of integers to `float64` -/

namespace F64

theorem log2_one : Nat.log2 1 = 0 := by
  rw [Nat.log2]; simp

theorem floorLog2_one (N : Nat) (h0 : N ≠ 0) : floorLog2 N 1 = (Nat.log2 N : Int) := by
  have h := Nat.log2_self_le h0
  simp [floorLog2, scale2, log2_one, h]

theorem roundBinary_nat (N : Nat) (h0 : N ≠ 0) (h : N < 2 ^ 53) :
    roundBinary 53 (-1022) 1024 N 1 = some (N : ℚ) := by
  have hlog : Nat.log2 N < 53 := (Nat.log2_lt h0).mpr h
  have hN : N < 2 ^ 1024 :=
    Nat.lt_of_lt_of_le h (Nat.pow_le_pow_right (by decide) (by decide))
  have hbig2 : (N : ℚ) < 2 ^ 1024 := by exact_mod_cast hN
  unfold roundBinary
  rw [if_neg (by simp [h0]), floorLog2_one N h0]
  have hmax : max (Nat.log2 N : Int) (-1022) = (Nat.log2 N : Int) := by omega
  simp only [hmax]
  by_cases h52 : Nat.log2 N = 52
  · simp [h52, scale2, Nat.mod_one, hbig2]
  · have hlt : Nat.log2 N < 52 := by omega
    have hneg : ¬ (0 : Int) ≤ (Nat.log2 N : Int) - (((53 : Nat) : Int) - 1) := by
      push_cast; omega
    simp only [scale2, if_neg hneg, Nat.div_one, Nat.mod_one, Nat.mul_zero]
    have hq : ((N * 2 ^ (-((Nat.log2 N : Int) - (((53 : Nat) : Int) - 1))).toNat : Nat) : ℚ)
        / ((2 ^ (-((Nat.log2 N : Int) - (((53 : Nat) : Int) - 1))).toNat : Nat) : ℚ) = (N : ℚ) := by
      push_cast
      field_simp
    simp [hq, hbig2]

theorem natAbs_cast (n : Int) : ((n.natAbs : Nat) : ℚ) = if n < 0 then -(n : ℚ) else (n : ℚ) := by
  rw [Nat.cast_natAbs]
  split
  · rename_i hs
    rw [abs_of_neg hs]; push_cast; rfl
  · rename_i hs
    rw [abs_of_nonneg (not_lt.mp hs)]

/-- An integer of magnitude below `2 ^ 53` converts to `float64` exactly. -/
theorem ofInt_exact (n : Int) (h : n.natAbs < 2 ^ 53) : ofInt n = fin n := by
  unfold ofInt
  by_cases h0 : n = 0
  · simp [h0]
  · have hN : n.natAbs ≠ 0 := by simpa using h0
    rw [if_neg h0, round64, roundBinary_nat _ hN h]
    have hq : ((n.natAbs : Nat) : ℚ) ≠ 0 := by exact_mod_cast hN
    simp only [ofRounded, if_neg hq, natAbs_cast]
    by_cases hs : n < 0 <;> simp [hs, h0]

end F64

/-! ## C1: short circuit of `or` and `and` -/

/-- C1: whatever the right operand `X` is and whatever the host is, `true or X`
gives `true` and `false and X` gives `false`, with no error and with the host
state unchanged, so `X` is not evaluated; `false or X` and `true and X` give
what one evaluation of `X` gives, passed through `isTruthy`, and leave the
host state that this one evaluation leaves. -/
theorem logical_short_circuit {σ : Type} (rt : GoRuntime) (p : Interpreter σ) (X : Expr)
    (lex : String) (lit : Value) (line : Int) (n : Nat) (s : σ) :
    evaluate rt p (n + 2) (ExprLogical (ExprLiteral (.bool true) .Bool)
        (Token.mk TokenOr lex lit line) X) s = (.ret (.bool true) none, s)
    ∧ evaluate rt p (n + 2) (ExprLogical (ExprLiteral (.bool false) .Bool)
        (Token.mk TokenAnd lex lit line) X) s = (.ret (.bool false) none, s)
    ∧ evaluate rt p (n + 2) (ExprLogical (ExprLiteral (.bool false) .Bool)
        (Token.mk TokenOr lex lit line) X) s = afterRight rt (evaluate rt p (n + 1) X s)
    ∧ evaluate rt p (n + 2) (ExprLogical (ExprLiteral (.bool true) .Bool)
        (Token.mk TokenAnd lex lit line) X) s = afterRight rt (evaluate rt p (n + 1) X s) := by
  refine ⟨?_, ?_, ?_, ?_⟩
  · rw [evaluate_logical, VisitExprLogicalObj, evaluate_literal_bool]
    simp [isTruthy, Token.typ]
  · rw [evaluate_logical, VisitExprLogicalObj, evaluate_literal_bool]
    simp [isTruthy, Token.typ]
  · rw [evaluate_logical, VisitExprLogicalObj, evaluate_literal_bool]
    simp only [isTruthy, Token.typ]
    rcases h : evaluate rt p (n + 1) X s with ⟨o, s1⟩
    cases o with
    | ret v err => cases err <;> simp [afterRight, isTruthy]
    | panic q => simp [afterRight]
    | outOfFuel => simp [afterRight]
  · rw [evaluate_logical, VisitExprLogicalObj, evaluate_literal_bool]
    simp only [isTruthy, Token.typ]
    rcases h : evaluate rt p (n + 1) X s with ⟨o, s1⟩
    cases o with
    | ret v err => cases err <;> simp [afterRight, isTruthy]
    | panic q => simp [afterRight]
    | outOfFuel => simp [afterRight]

/-! ## C2: `or` and `and` on boolean operands -/

/-- C2: when `L` evaluates without error to the boolean `l` and `R` to the
boolean `r`, `L or R` gives `l || r` and `L and R` gives `l && r` with no
error; when `L` evaluates to a value that is not a boolean, or `L` does not
decide the result and `R` evaluates to a value that is not a boolean, the
evaluation returns a `RuntimeError`. -/
theorem logical_boolean_operands {σ : Type} (rt : GoRuntime) (p : Interpreter σ) (L R : Expr)
    (lex : String) (lit : Value) (line : Int) (n : Nat) (s : σ) :
    (∀ (l r : Bool) (s1 s2 : σ),
      evaluate rt p n L s = (.ret (.bool l) none, s1) →
      evaluate rt p n R s1 = (.ret (.bool r) none, s2) →
      evaluate rt p (n + 1) (ExprLogical L (Token.mk TokenOr lex lit line) R) s
          = (.ret (.bool (l || r)) none, if l then s1 else s2)
        ∧ evaluate rt p (n + 1) (ExprLogical L (Token.mk TokenAnd lex lit line) R) s
          = (.ret (.bool (l && r)) none, if l then s2 else s1))
    ∧ (∀ (v : Value) (s1 : σ) (tok : Token),
      evaluate rt p n L s = (.ret v none, s1) → (∀ b, v ≠ .bool b) →
      ∃ msg, evaluate rt p (n + 1) (ExprLogical L tok R) s
          = (.ret (.bool false) (some (Err.RuntimeError msg)), s1))
    ∧ (∀ (l : Bool) (v : Value) (s1 s2 : σ) (tok : Token),
      evaluate rt p n L s = (.ret (.bool l) none, s1) →
      evaluate rt p n R s1 = (.ret v none, s2) → (∀ b, v ≠ .bool b) →
      (l = true ↔ tok.typ ≠ TokenOr) →
      ∃ msg, evaluate rt p (n + 1) (ExprLogical L tok R) s
          = (.ret (.bool false) (some (Err.RuntimeError msg)), s2)) := by
  refine ⟨?_, ?_, ?_⟩
  · intro l r s1 s2 hL hR
    constructor
    · rw [evaluate_logical, VisitExprLogicalObj, hL]
      cases l <;> simp [isTruthy, Token.typ, hR]
    · rw [evaluate_logical, VisitExprLogicalObj, hL]
      cases l <;> simp [isTruthy, Token.typ, hR]
  · intro v s1 tok hL hv
    rw [evaluate_logical, VisitExprLogicalObj, hL]
    cases v <;> simp [isTruthy] at hv ⊢
  · intro l v s1 s2 tok hL hR hv hl
    rw [evaluate_logical, VisitExprLogicalObj, hL]
    by_cases ht : tok.typ = TokenOr
    · have : l = false := by
        cases l
        · rfl
        · exact absurd ht (hl.mp rfl)
      subst this
      simp only [isTruthy, ht, hR]
      cases v <;> simp [isTruthy] at hv ⊢
    · have : l = true := hl.mpr ht
      subst this
      simp only [isTruthy, ht, hR]
      cases v <;> simp [isTruthy] at hv ⊢

/-! ## C3: ordering operators on operands that are not numbers -/

theorem scan_ge_strings (rt : GoRuntime) :
    (NewScanner "\"a\" >= \"b\"").ScanTokens rt = (tokensGeStrings, none) := by rfl

theorem parse_ge_strings :
    (NewParser tokensGeStrings).Parse
      = .ok (ExprBinary (stringLiteral ['a']) (Token.mk TokenGreaterEqual ">=" .nil 1)
          (stringLiteral ['b'])) ⟨tokensGeStrings, 3⟩ := by rfl

/-- C3 (the code at the failing input): `Run` on the source text `"a" >= "b"`,
an ordering of two strings, returns the value `true` and no error. -/
theorem run_ge_strings (rt : GoRuntime) :
    Run rt "\"a\" >= \"b\"" = .ret (.bool true) none := by
  simp only [Run, scan_ge_strings, parse_ge_strings]
  rfl

/-- When neither operand is a number, an ordering operator compares the two
zero values that `toNumber` returns for them: `>` and `<` give `false`,
`>=` and `<=` give `true`, and no error is returned. -/
theorem ordering_of_non_numbers {σ : Type} (rt : GoRuntime) (p : Interpreter σ) (L R : Expr)
    (lex : String) (lit : Value) (line : Int) (n : Nat) (s s1 s2 : σ) (l r : Value)
    (hL : evaluate rt p n L s = (.ret l none, s1))
    (hR : evaluate rt p n R s1 = (.ret r none, s2))
    (hl : (toNumber l).2 = false) (hr : (toNumber r).2 = false) :
    evaluate rt p (n + 1) (ExprBinary L (Token.mk TokenGreater lex lit line) R) s
        = (.ret (.bool false) none, s2)
    ∧ evaluate rt p (n + 1) (ExprBinary L (Token.mk TokenGreaterEqual lex lit line) R) s
        = (.ret (.bool true) none, s2)
    ∧ evaluate rt p (n + 1) (ExprBinary L (Token.mk TokenLess lex lit line) R) s
        = (.ret (.bool false) none, s2)
    ∧ evaluate rt p (n + 1) (ExprBinary L (Token.mk TokenLessEqual lex lit line) R) s
        = (.ret (.bool true) none, s2) := by
  have hl1 : (toNumber l).1 = F64.fin 0 := by
    cases l <;> simp_all [toNumber]
    rename_i k _
    cases k <;> simp_all [toNumber]
  have hr1 : (toNumber r).1 = F64.fin 0 := by
    cases r <;> simp_all [toNumber]
    rename_i k _
    cases k <;> simp_all [toNumber]
  refine ⟨?_, ?_, ?_, ?_⟩ <;>
    simp [evaluate_binary, VisitExprBinaryObj, hL, hR, hl, hr, hl1, hr1, Token.typ,
      F64.gt, F64.ge, F64.lt, F64.le, F64.toRat]

/-! ## C4: one numeric operand and one that is not -/

/-- C4: when exactly one of the two operand values coerces to a number, the
Binary node returns, for every operator, a nil value and the `RuntimeError`
whose message is the two values around the operator lexeme followed by
" is not number"; the message ends in "is not number". -/
theorem binary_mixed_operands {σ : Type} (rt : GoRuntime) (p : Interpreter σ) (L R : Expr)
    (op : Token) (n : Nat) (s s1 s2 : σ) (l r : Value)
    (hL : evaluate rt p n L s = (.ret l none, s1))
    (hR : evaluate rt p n R s1 = (.ret r none, s2))
    (hx : (toNumber l).2 ≠ (toNumber r).2) :
    evaluate rt p (n + 1) (ExprBinary L op R) s
        = (.ret .nil (some (Err.RuntimeError
            (rt.sprintV l ++ " " ++ op.lexeme ++ " " ++ rt.sprintV r ++ " is not number"))), s2)
    ∧ ∃ pre : String,
        rt.sprintV l ++ " " ++ op.lexeme ++ " " ++ rt.sprintV r ++ " is not number"
          = pre ++ "is not number" := by
  constructor
  · rw [evaluate_binary, VisitExprBinaryObj, hL]
    simp only [hR]
    rw [if_pos hx]
  · refine ⟨rt.sprintV l ++ " " ++ op.lexeme ++ " " ++ rt.sprintV r ++ " ", ?_⟩
    rw [String.append_assoc _ " " "is not number"]
    rfl

/-! ## The six operators on numbers -/

/-- The six operators on the coerced operands: when both operand values are
numbers (`toNumber` accepts an `int`, an `int32`, an `int64`, a `float32` and
a `float64`), the Binary node returns, with no error, the boolean that the
operator gives on the two `float64` values that `toNumber` coerces the
operands to. -/
theorem binary_numeric_operands {σ : Type} (rt : GoRuntime) (p : Interpreter σ) (L R : Expr)
    (lex : String) (lit : Value) (line : Int) (n : Nat) (s s1 s2 : σ) (l r : Value)
    (hL : evaluate rt p n L s = (.ret l none, s1))
    (hR : evaluate rt p n R s1 = (.ret r none, s2))
    (hl : (toNumber l).2 = true) (hr : (toNumber r).2 = true) :
    evaluate rt p (n + 1) (ExprBinary L (Token.mk TokenGreater lex lit line) R) s
        = (.ret (.bool (F64.gt (toNumber l).1 (toNumber r).1)) none, s2)
    ∧ evaluate rt p (n + 1) (ExprBinary L (Token.mk TokenGreaterEqual lex lit line) R) s
        = (.ret (.bool (F64.ge (toNumber l).1 (toNumber r).1)) none, s2)
    ∧ evaluate rt p (n + 1) (ExprBinary L (Token.mk TokenLess lex lit line) R) s
        = (.ret (.bool (F64.lt (toNumber l).1 (toNumber r).1)) none, s2)
    ∧ evaluate rt p (n + 1) (ExprBinary L (Token.mk TokenLessEqual lex lit line) R) s
        = (.ret (.bool (F64.le (toNumber l).1 (toNumber r).1)) none, s2)
    ∧ evaluate rt p (n + 1) (ExprBinary L (Token.mk TokenEqualEqual lex lit line) R) s
        = (.ret (.bool (F64.eq (toNumber l).1 (toNumber r).1)) none, s2)
    ∧ evaluate rt p (n + 1) (ExprBinary L (Token.mk TokenBangEqual lex lit line) R) s
        = (.ret (.bool (!F64.eq (toNumber l).1 (toNumber r).1)) none, s2) := by
  refine ⟨?_, ?_, ?_, ?_, ?_, ?_⟩ <;>
    simp [evaluate_binary, VisitExprBinaryObj, hL, hR, hl, hr, Token.typ, isEqual, ifaceEq,
      boxBool, boxNotBool]

/-! ## C6: `!=` is the negation of `==` -/

/-- C6: from the same state, if `L == R` returns the boolean `b` and no error
then `L != R` returns `!b` and no error and leaves the same state; and
`L == R` fails (returns an error or panics) exactly when `L != R` fails. -/
theorem bang_equal_negates_equal {σ : Type} (rt : GoRuntime) (p : Interpreter σ) (L R : Expr)
    (lexE lexN : String) (litE litN : Value) (lineE lineN : Int) (n : Nat) (s : σ) :
    (∀ (b : Bool) (s' : σ),
      evaluate rt p (n + 1) (ExprBinary L (Token.mk TokenEqualEqual lexE litE lineE) R) s
        = (.ret (.bool b) none, s') →
      evaluate rt p (n + 1) (ExprBinary L (Token.mk TokenBangEqual lexN litN lineN) R) s
        = (.ret (.bool (!b)) none, s'))
    ∧ (failed (evaluate rt p (n + 1)
          (ExprBinary L (Token.mk TokenEqualEqual lexE litE lineE) R) s)
        ↔ failed (evaluate rt p (n + 1)
          (ExprBinary L (Token.mk TokenBangEqual lexN litN lineN) R) s)) := by
  rw [evaluate_binary, evaluate_binary, VisitExprBinaryObj, VisitExprBinaryObj]
  rcases hL : evaluate rt p n L s with ⟨oL, s1⟩
  cases oL with
  | panic q => simp [failed]
  | outOfFuel => simp [failed]
  | ret l errL =>
    cases errL with
    | some e => simp [failed]
    | none =>
      simp only []
      rcases hR : evaluate rt p n R s1 with ⟨oR, s2⟩
      cases oR with
      | panic q => simp [failed]
      | outOfFuel => simp [failed]
      | ret r errR =>
        cases errR with
        | some e => simp [failed]
        | none =>
          simp only []
          by_cases hx : (toNumber l).2 ≠ (toNumber r).2
          · simp only [if_pos hx]
            simp [failed]
          · simp only [if_neg hx, Token.typ]
            by_cases hn : (toNumber l).2 = true
            · simp only [if_pos hn]
              rcases hE : isEqual rt (evaluate rt p n) (.float64 (toNumber l).1)
                (.float64 (toNumber r).1) s2 with ⟨oE, s3⟩
              cases oE with
              | panic q => simp [boxBool, boxNotBool, failed]
              | outOfFuel => simp [boxBool, boxNotBool, failed]
              | ret b err => cases err <;> simp [boxBool, boxNotBool, failed]
            · simp only [if_neg hn]
              rcases hE : isEqual rt (evaluate rt p n) l r s2 with ⟨oE, s3⟩
              cases oE with
              | panic q => simp [boxBool, boxNotBool, failed]
              | outOfFuel => simp [boxBool, boxNotBool, failed]
              | ret b err => cases err <;> simp [boxBool, boxNotBool, failed]

/-! ## C10: evaluation of an Array node -/

/-- C10: an Array node with the element expressions `items` evaluates, for
every host and with no error, to the sequence of the same length whose
`i`-th element is the node `items[i]` itself, and leaves the host state
unchanged: no element is evaluated. -/
theorem array_keeps_nodes {σ : Type} (rt : GoRuntime) (p : Interpreter σ) (bracket : Token)
    (items : List Expr) (n : Nat) (s : σ) :
    evaluate rt p (n + 1) (ExprArray bracket items) s
        = (.ret (.slice .any (items.map Value.node)) none, s)
    ∧ (items.map Value.node).length = items.length
    ∧ ∀ i, (items.map Value.node).get? i = (items.get? i).map Value.node := by
  refine ⟨rfl, by simp, ?_⟩
  intro i
  simp [List.getElem?_map]

/-! ## The loop of `isSliceEqual` -/

section Loop

variable {σ : Type} (rt : GoRuntime) (ev : Expr → σ → Outcome Value × σ)

theorem isSliceEqualLoop_zero (a b : Value) (i : Nat) (s : σ) :
    isSliceEqualLoop rt ev a b 0 i s = (.ret true none, s) := rfl

/-- The loop is a round on the elements at index `i`, then the loop from
`i + 1` if the round found them equal. -/
theorem isSliceEqualLoop_succ (a b : Value) (n i : Nat) (s : σ) :
    isSliceEqualLoop rt ev a b (n + 1) i s
      = andThen (compareItems rt ev (reflectIndex a i) (reflectIndex b i) s)
          (isSliceEqualLoop rt ev a b n (i + 1)) := by
  rw [isSliceEqualLoop]
  unfold compareItems
  rcases hA : reflectIndex a i with _ | ⟨ta, itema⟩
  · simp [andThen]
  · rcases hB : reflectIndex b i with _ | ⟨tb, itemb⟩
    · simp [andThen]
    · simp only []
      rcases hc : TryConvert ta itema tb with ⟨ai, ok⟩
      cases ok
      · simp [andThen]
      · simp only []
        rcases h1 : evalIfExpr ev ai s with ⟨o1, s1⟩
        cases o1 with
        | panic q => simp [andThen]
        | outOfFuel => simp [andThen]
        | ret ai' e1 =>
          cases e1 with
          | some e => simp [andThen]
          | none =>
            simp only []
            rcases h2 : evalIfExpr ev itemb s1 with ⟨o2, s2⟩
            cases o2 with
            | panic q => simp [andThen]
            | outOfFuel => simp [andThen]
            | ret bi e2 =>
              cases e2 with
              | some e => simp [andThen]
              | none =>
                simp only []
                rcases h3 : ifaceEq rt ai' bi with _ | r
                · simp [andThen]
                · cases r <;> simp [andThen]

/-- A round never gives `true` together with an error. -/
theorem compareItems_true (x y : Option (Ty × Value)) (s s' : σ) (e : Option Err)
    (h : compareItems rt ev x y s = (.ret true e, s')) : e = none := by
  unfold compareItems at h
  rcases x with _ | ⟨ta, itema⟩
  · simp at h
  · rcases y with _ | ⟨tb, itemb⟩
    · simp at h
    · simp only [] at h
      rcases hc : TryConvert ta itema tb with ⟨ai, ok⟩
      rw [hc] at h
      cases ok
      · simp at h
      · simp only [] at h
        rcases h1 : evalIfExpr ev ai s with ⟨o1, s1⟩
        rw [h1] at h
        cases o1 with
        | panic q => simp at h
        | outOfFuel => simp at h
        | ret ai' e1 =>
          cases e1 with
          | some e => simp at h
          | none =>
            simp only [] at h
            rcases h2 : evalIfExpr ev itemb s1 with ⟨o2, s2⟩
            rw [h2] at h
            cases o2 with
            | panic q => simp at h
            | outOfFuel => simp at h
            | ret bi e2 =>
              cases e2 with
              | some e => simp at h
              | none =>
                simp only [] at h
                rcases h3 : ifaceEq rt ai' bi with _ | r
                · rw [h3] at h; simp at h
                · rw [h3] at h
                  cases r <;> simp at h
                  exact h.1.symm

/-- The loop over a common prefix: on two sequences that extend `as` and
`bs`, the first rounds are the rounds of the loop on `as` and `bs`, and
the elements after them are read only if all these rounds gave `true`. -/
theorem isSliceEqualLoop_append (ta tb : Ty) (as bs sa sb : List Value)
    (hlen : as.length = bs.length) (c : Nat) :
    ∀ (k i : Nat) (s : σ), i + k = as.length →
      isSliceEqualLoop rt ev (.slice ta (as ++ sa)) (.slice tb (bs ++ sb)) (k + c) i s
        = andThen (isSliceEqualLoop rt ev (.slice ta as) (.slice tb bs) k i s)
            (isSliceEqualLoop rt ev (.slice ta (as ++ sa)) (.slice tb (bs ++ sb)) c as.length) := by
  intro k
  induction k with
  | zero =>
    intro i s hi
    simp only [Nat.zero_add, Nat.add_zero] at hi ⊢
    subst hi
    simp [isSliceEqualLoop_zero, andThen]
  | succ k ih =>
    intro i s hi
    have hia : i < as.length := by omega
    have hib : i < bs.length := by omega
    have hA : reflectIndex (.slice ta (as ++ sa)) i = reflectIndex (.slice ta as) i := by
      simp [reflectIndex, List.getElem?_append_left hia]
    have hB : reflectIndex (.slice tb (bs ++ sb)) i = reflectIndex (.slice tb bs) i := by
      simp [reflectIndex, List.getElem?_append_left hib]
    rw [show k + 1 + c = (k + c) + 1 by omega, isSliceEqualLoop_succ, isSliceEqualLoop_succ,
      hA, hB]
    rcases hr : compareItems rt ev (reflectIndex (.slice ta as) i)
      (reflectIndex (.slice tb bs) i) s with ⟨o, s1⟩
    cases o with
    | panic q => simp [andThen]
    | outOfFuel => simp [andThen]
    | ret b e =>
      cases b with
      | false => cases e <;> simp [andThen]
      | true =>
        have he := compareItems_true rt ev _ _ _ _ _ hr
        subst he
        simp only [andThen]
        exact ih (i + 1) s1 (by omega)

end Loop

/-! ## C9: sequences of different lengths, and the elements after a mismatch -/

/-- C9: let the operands of `==` evaluate to two sequences that extend `as`
and `bs`, two sequences of one length, by `sa` and `sb`.  If `sa` and `sb`
differ in length, the result is `false` with no error and the host state is
the one the two operands left, whatever the elements are: none is evaluated.
If they have one length and the comparison of `as` with `bs` alone gives
`false` (with or without an error), the comparison of the whole sequences
gives the same result and leaves the same host state, whatever `sa` and `sb`
hold: no element after the first mismatch is evaluated. -/
theorem sequence_equality_lazy {σ : Type} (rt : GoRuntime) (p : Interpreter σ) (L R : Expr)
    (lex : String) (lit : Value) (line : Int) (n : Nat) (s s1 s2 : σ)
    (ta tb : Ty) (as bs sa sb : List Value)
    (hL : evaluate rt p n L s = (.ret (.slice ta (as ++ sa)) none, s1))
    (hR : evaluate rt p n R s1 = (.ret (.slice tb (bs ++ sb)) none, s2))
    (hlen : as.length = bs.length) :
    (sa.length ≠ sb.length →
      evaluate rt p (n + 1) (ExprBinary L (Token.mk TokenEqualEqual lex lit line) R) s
        = (.ret (.bool false) none, s2))
    ∧ (sa.length = sb.length → ∀ (e : Option Err) (s3 : σ),
      isSliceEqual rt (evaluate rt p n) (.slice ta as) (.slice tb bs) s2 = (.ret false e, s3) →
      evaluate rt p (n + 1) (ExprBinary L (Token.mk TokenEqualEqual lex lit line) R) s
        = (.ret (.bool false) e, s3)) := by
  constructor
  · intro hne
    have hne2 : ¬ (as.length + sa.length = bs.length + sb.length) := by omega
    simp [evaluate_binary, VisitExprBinaryObj, hL, hR, toNumber, Token.typ, isEqual,
      isSliceEqual, reflectLen, hne2, boxBool]
  · intro heq e s3 hpre
    have hpre2 : isSliceEqualLoop rt (evaluate rt p n) (.slice ta as) (.slice tb bs)
        as.length 0 s2 = (.ret false e, s3) := by
      simpa [isSliceEqual, reflectLen, hlen] using hpre
    have hfull := isSliceEqualLoop_append rt (evaluate rt p n) ta tb as bs sa sb hlen sa.length
      as.length 0 s2 (by omega)
    rw [hpre2] at hfull
    have heq2 : as.length + sa.length = bs.length + sb.length := by omega
    simp [evaluate_binary, VisitExprBinaryObj, hL, hR, toNumber, Token.typ, isEqual,
      isSliceEqual, reflectLen, heq2, boxBool]
    rw [← heq2, hfull]
    simp [andThen]

/-! ## C8: positional equality of sequences of strings -/

theorem runeToChar_toNat (c : Char) : runeToChar (c.toNat : Int) = c := by
  have hv : Nat.isValidChar c.toNat := c.valid
  simp [runeToChar, hv, Char.ofNat_toNat]

theorem runesToString_map (cs : List Char) :
    runesToString (cs.map fun c => Value.int .int32 c.toNat) = String.mk cs := by
  simp only [runesToString, List.map_map]
  congr 1
  induction cs with
  | nil => rfl
  | cons c cs ih => simp [runeToChar_toNat, ih]

/-- A string literal evaluates to its string. -/
theorem evaluate_stringLiteral {σ : Type} (rt : GoRuntime) (p : Interpreter σ) (n : Nat)
    (cs : List Char) (s : σ) :
    evaluate rt p (n + 1) (stringLiteral cs) s = (.ret (.str (String.mk cs)) none, s) := by
  simp [stringLiteral, evaluate_succ, AcceptObj, VisitExprLiteralObj, convertDyn, typeOf,
    convert, runesToString_map]

theorem evaluate_stringLiteral_toList {σ : Type} (rt : GoRuntime) (p : Interpreter σ) (n : Nat)
    (x : String) (s : σ) :
    evaluate rt p (n + 1) (stringLiteral x.toList) s = (.ret (.str x) none, s) :=
  evaluate_stringLiteral rt p n x.toList s

theorem TryConvert_string_any (x : String) :
    TryConvert .string (.str x) .any = (.str x, true) := rfl

theorem TryConvert_any_any (v : Value) : TryConvert .any v .any = (v, true) := rfl

theorem isEqual_slice {σ : Type} (rt : GoRuntime) (ev : Expr → σ → Outcome Value × σ)
    (t : Ty) (items : List Value) (b : Value) (s : σ) :
    isEqual rt ev (.slice t items) b s
      = match isSliceEqual rt ev (.slice t items) b s with
        | (.panic _, s1) => (.ret false none, s1)
        | other => other := rfl

/-- When neither operand is a number, `==` and `!=` are decided by `isEqual`
on the two values. -/
theorem equality_of_non_numbers {σ : Type} (rt : GoRuntime) (p : Interpreter σ) (L R : Expr)
    (lex : String) (lit : Value) (line : Int) (n : Nat) (s s1 s2 : σ) (l r : Value)
    (hL : evaluate rt p n L s = (.ret l none, s1))
    (hR : evaluate rt p n R s1 = (.ret r none, s2))
    (hl : (toNumber l).2 = false) (hr : (toNumber r).2 = false) :
    evaluate rt p (n + 1) (ExprBinary L (Token.mk TokenEqualEqual lex lit line) R) s
        = boxBool (isEqual rt (evaluate rt p n) l r s2)
    ∧ evaluate rt p (n + 1) (ExprBinary L (Token.mk TokenBangEqual lex lit line) R) s
        = boxNotBool (isEqual rt (evaluate rt p n) l r s2) := by
  constructor <;>
    simp [evaluate_binary, VisitExprBinaryObj, hL, hR, hl, hr, Token.typ]

theorem drop_eq_cons {α : Type} (l : List α) (i : Nat) (x : α) (t : List α)
    (h : l.drop i = x :: t) : l.get? i = some x ∧ l.drop (i + 1) = t := by
  constructor
  · have := List.head?_drop l i
    rw [h] at this
    simpa using this.symm
  · have := List.tail_drop l i
    rw [h] at this
    simpa using this.symm

/-- The loop on a sequence of strings and an array literal of string
literals gives whether the strings that remain are the same. -/
theorem isSliceEqualLoop_strings {σ : Type} (rt : GoRuntime) (p : Interpreter σ) (n : Nat)
    (form : SequenceForm) (xs ys : List String) :
    ∀ (xs' ys' : List String) (i : Nat) (s : σ),
      xs.drop i = xs' → ys.drop i = ys' → xs'.length = ys'.length →
      isSliceEqualLoop rt (evaluate rt p (n + 1)) (stringSequence form xs)
          (.slice .any (ys.map fun y => Value.node (stringLiteral y.toList))) xs'.length i s
        = (.ret (decide (xs' = ys')) none, s) := by
  intro xs'
  induction xs' with
  | nil =>
    intro ys' i s _ _ hl
    have : ys' = [] := List.length_eq_zero.mp hl.symm
    subst this
    simp [isSliceEqualLoop_zero]
  | cons x xt ih =>
    intro ys' i s hx hy hl
    cases ys' with
    | nil => simp at hl
    | cons y yt =>
      obtain ⟨hxi, hxd⟩ := drop_eq_cons xs i x xt hx
      obtain ⟨hyi, hyd⟩ := drop_eq_cons ys i y yt hy
      have hl' : xt.length = yt.length := by simpa using hl
      rw [List.get?_eq_getElem?] at hxi hyi
      have hB : reflectIndex (.slice .any (ys.map fun y => Value.node (stringLiteral y.toList))) i
          = some (.any, .node (stringLiteral y.toList)) := by
        simp only [reflectIndex, List.get?_eq_getElem?, List.getElem?_map, hyi, Option.map]
      rw [List.length_cons, isSliceEqualLoop_succ, hB]
      have key : compareItems rt (evaluate rt p (n + 1)) (reflectIndex (stringSequence form xs) i)
          (some (.any, .node (stringLiteral y.toList))) s = (.ret (x == y) none, s) := by
        cases form with
        | hostStrings =>
          have hA : reflectIndex (stringSequence .hostStrings xs) i = some (.string, .str x) := by
            simp only [stringSequence, reflectIndex, List.get?_eq_getElem?, List.getElem?_map, hxi,
              Option.map]
          rw [hA]
          simp only [compareItems, TryConvert_string_any, evalIfExpr,
            evaluate_stringLiteral_toList, ifaceEq]
          cases (x == y) <;> rfl
        | hostAny =>
          have hA : reflectIndex (stringSequence .hostAny xs) i = some (.any, .str x) := by
            simp only [stringSequence, reflectIndex, List.get?_eq_getElem?, List.getElem?_map, hxi,
              Option.map]
          rw [hA]
          simp only [compareItems, TryConvert_any_any, evalIfExpr,
            evaluate_stringLiteral_toList, ifaceEq]
          cases (x == y) <;> rfl
        | literal =>
          have hA : reflectIndex (stringSequence .literal xs) i
              = some (.any, .node (stringLiteral x.toList)) := by
            simp only [stringSequence, reflectIndex, List.get?_eq_getElem?, List.getElem?_map, hxi,
              Option.map]
          rw [hA]
          simp only [compareItems, TryConvert_any_any, evalIfExpr,
            evaluate_stringLiteral_toList, ifaceEq]
          cases (x == y) <;> rfl
      rw [key]
      by_cases hxy : x = y
      · subst hxy
        simp only [beq_self_eq_true, andThen]
        rw [ih yt (i + 1) s hxd hyd hl']
        simp
      · simp [andThen, hxy]

/-- C8: let the left operand evaluate to the sequence of the strings `xs`,
returned by the host as a `[]string` or as a `[]interface{}`, or built by an
array literal of string literals, and let the right operand be the array
literal of the string literals `ys`.  Then `==` gives, with no error, whether `xs` and `ys` are the
same list, that is, have the same length and the same string at every
position, and `!=` gives the opposite boolean. -/
theorem string_sequence_equality {σ : Type} (rt : GoRuntime) (p : Interpreter σ) (L : Expr)
    (bracket : Token) (lex : String) (lit : Value) (line : Int) (n : Nat) (s s1 : σ)
    (form : SequenceForm) (xs ys : List String)
    (hL : evaluate rt p (n + 1) L s = (.ret (stringSequence form xs) none, s1)) :
    evaluate rt p (n + 2) (ExprBinary L (Token.mk TokenEqualEqual lex lit line)
        (stringArray bracket ys)) s = (.ret (.bool (decide (xs = ys))) none, s1)
    ∧ evaluate rt p (n + 2) (ExprBinary L (Token.mk TokenBangEqual lex lit line)
        (stringArray bracket ys)) s = (.ret (.bool (!decide (xs = ys))) none, s1)
    ∧ (decide (xs = ys) = true
        ↔ xs.length = ys.length ∧ ∀ i, xs.get? i = ys.get? i) := by
  have hnum : (toNumber (stringSequence form xs)).2 = false := by
    cases form <;> simp [stringSequence, toNumber]
  have hslice : ∃ t items, stringSequence form xs = .slice t items ∧ items.length = xs.length := by
    cases form
    · exact ⟨.string, xs.map Value.str, rfl, by simp⟩
    · exact ⟨.any, xs.map Value.str, rfl, by simp⟩
    · exact ⟨.any, xs.map fun x => Value.node (stringLiteral x.toList),
        by simp [stringSequence], by simp⟩
  obtain ⟨t, items, hseq, hitems⟩ := hslice
  have hEq : isEqual rt (evaluate rt p (n + 1)) (stringSequence form xs)
      (.slice .any (ys.map fun y => Value.node (stringLiteral y.toList))) s1
      = (.ret (decide (xs = ys)) none, s1) := by
    by_cases hlen : xs.length = ys.length
    · have hloop := isSliceEqualLoop_strings rt p n form xs ys xs ys 0 s1 rfl rfl hlen
      rw [hseq] at hloop ⊢
      rw [isEqual_slice]
      simp only [isSliceEqual, reflectLen, List.length_map, hitems, hlen, ne_eq,
        not_true_eq_false, if_false]
      rw [← hlen, hloop]
    · have hne : xs ≠ ys := fun h => hlen (by rw [h])
      rw [hseq, isEqual_slice]
      simp [isSliceEqual, reflectLen, hitems, hlen, hne]
  have hR : evaluate rt p (n + 1) (stringArray bracket ys) s1
      = (.ret (.slice .any (ys.map fun y => Value.node (stringLiteral y.toList))) none, s1) := by
    simp [stringArray, evaluate_array]
  have hbin := equality_of_non_numbers rt p L (stringArray bracket ys) lex lit line (n + 1)
    s s1 s1 _ _ hL hR hnum rfl
  refine ⟨?_, ?_, ?_⟩
  · rw [hbin.1, hEq]; rfl
  · rw [hbin.2, hEq]; rfl
  · rw [decide_eq_true_iff]
    constructor
    · intro h; subst h; exact ⟨rfl, fun _ => rfl⟩
    · intro h; exact List.ext_get? h.2

/-! ## C7: literals equal themselves, from the source text on -/

namespace Scanner

theorem getD_append_cons (pre post : List Char) (c d : Char) :
    (pre ++ c :: post).getD pre.length d = c := by
  induction pre with
  | nil => rfl
  | cons x pre ih => simpa [List.getD] using ih

theorem peek_cons (pre post : List Char) (c : Char) (toks : List Token) (st : Nat) (ln : Int) :
    peek ⟨pre ++ c :: post, toks, st, pre.length, ln⟩ = c := by
  have h := getD_append_cons pre post c (Char.ofNat 0)
  simp only [peek, isAtEnd, h]
  simp

theorem peek_end (pre : List Char) (toks : List Token) (st : Nat) (ln : Int) :
    peek ⟨pre, toks, st, pre.length, ln⟩ = Char.ofNat 0 := by
  simp [peek, isAtEnd]

theorem advance_cons (pre post : List Char) (c : Char) (toks : List Token) (st : Nat) (ln : Int) :
    advance ⟨pre ++ c :: post, toks, st, pre.length, ln⟩
      = (c, ⟨pre ++ c :: post, toks, st, pre.length + 1, ln⟩) := by
  have h := getD_append_cons pre post c (Char.ofNat 0)
  simp only [advance, h]

/-- The loop `for cond(s.peek()) { s.advance() }` passes a run of runes that
satisfy `cond` and stops before a rune that does not, or at the end. -/
theorem advanceWhile_run (cond : Char → Bool) (toks : List Token) (st : Nat) (ln : Int)
    (post : List Char) (hpost : ∀ c t, post = c :: t → cond c = false) :
    ∀ (run pre : List Char), (∀ c ∈ run, cond c = true) →
      advanceWhile cond (run.length + post.length) ⟨pre ++ (run ++ post), toks, st, pre.length, ln⟩
        = ⟨pre ++ (run ++ post), toks, st, pre.length + run.length, ln⟩ := by
  intro run
  induction run with
  | nil =>
    intro pre _
    cases post with
    | nil => simp [advanceWhile]
    | cons c t =>
      have hc := hpost c t rfl
      simp only [List.length_nil, Nat.zero_add, List.length_cons, List.nil_append, advanceWhile,
        peek_cons, hc, Nat.add_zero]
      simp
  | cons c run ih =>
    intro pre hrun
    have hc : cond c = true := hrun c (List.mem_cons_self _ _)
    have hrest : ∀ d ∈ run, cond d = true := fun d hd => hrun d (List.mem_cons_of_mem _ hd)
    have h := ih (pre ++ [c]) hrest
    simp only [List.append_assoc, List.singleton_append, List.length_append, List.length_singleton]
      at h
    simp only [List.length_cons, List.cons_append, Nat.add_right_comm _ 1 _, advanceWhile,
      peek_cons, hc, if_true, advance_cons]
    rw [h]
    simp [Nat.add_assoc, Nat.add_comm 1]

end Scanner
namespace Scanner

theorem peekNext_cons (pre post : List Char) (c d : Char) (toks : List Token) (st : Nat)
    (ln : Int) : peekNext ⟨pre ++ c :: d :: post, toks, st, pre.length, ln⟩ = d := by
  have h := getD_append_cons (pre ++ [c]) post d (Char.ofNat 0)
  simp only [List.append_assoc, List.singleton_append, List.length_append,
    List.length_singleton] at h
  simp only [peekNext, h]
  simp

theorem val_lt_of_isDigit (c : Char) (h : c.isDigit = true) : c.val < 128 := by
  simp only [Char.isDigit, Bool.and_eq_true, decide_eq_true_eq] at h
  have h2 : c.val.toNat ≤ 57 := h.2
  show c.val.toNat < 128
  omega

theorem rt_isDigit_of (rt : GoRuntime) (c : Char) (h : c.isDigit = true) :
    rt.isDigit c = true := by
  rw [rt.isDigit_ascii c (val_lt_of_isDigit c h), h]

theorem rt_isDigit_dot (rt : GoRuntime) : rt.isDigit '.' = false :=
  rt.isDigit_ascii '.' (by decide)

theorem rt_isDigit_space (rt : GoRuntime) : rt.isDigit ' ' = false :=
  rt.isDigit_ascii ' ' (by decide)

/-- The part of the source between `start` and `current`. -/
theorem lexeme_at (pre mid post : List Char) :
    ((pre ++ (mid ++ post)).drop pre.length).take (pre.length + mid.length - pre.length) = mid := by
  simp

end Scanner
namespace Scanner

theorem advanceWhile_at (cond : Char → Bool) (src pre run post : List Char) (toks : List Token)
    (st cur : Nat) (ln : Int) (fuel : Nat) (hsrc : src = pre ++ (run ++ post))
    (hcur : cur = pre.length) (hrun : ∀ c ∈ run, cond c = true)
    (hpost : ∀ c t, post = c :: t → cond c = false) (hfuel : fuel = run.length + post.length) :
    advanceWhile cond fuel ⟨src, toks, st, cur, ln⟩ = ⟨src, toks, st, cur + run.length, ln⟩ := by
  subst hsrc hcur hfuel
  exact advanceWhile_run cond toks st ln post hpost run pre hrun

theorem peek_at (src pre post : List Char) (c : Char) (toks : List Token) (st cur : Nat)
    (ln : Int) (hsrc : src = pre ++ c :: post) (hcur : cur = pre.length) :
    peek ⟨src, toks, st, cur, ln⟩ = c := by
  subst hsrc hcur
  exact peek_cons pre post c toks st ln

theorem peek_at_end (src : List Char) (toks : List Token) (st cur : Nat) (ln : Int)
    (hcur : cur = src.length) : peek ⟨src, toks, st, cur, ln⟩ = Char.ofNat 0 := by
  subst hcur
  exact peek_end src toks st ln

theorem peekNext_at (src pre post : List Char) (c d : Char) (toks : List Token) (st cur : Nat)
    (ln : Int) (hsrc : src = pre ++ c :: d :: post) (hcur : cur = pre.length) :
    peekNext ⟨src, toks, st, cur, ln⟩ = d := by
  subst hsrc hcur
  exact peekNext_cons pre post c d toks st ln

theorem lexeme_of (src pre mid post : List Char) (st cur : Nat) (hsrc : src = pre ++ (mid ++ post))
    (hst : st = pre.length) (hcur : cur = pre.length + mid.length) :
    (src.drop st).take (cur - st) = mid := by
  subst hsrc hst hcur
  simp

/-- The method `Scanner.number`, called after the first digit `d0` of a number text was
read: the scanner passes the digits `ds`, then the fraction `frac` (nothing,
or a `.` and at least one digit), stops before the rest `post` of the
source (nothing, or a space and more), and adds the number token. -/
theorem number_at (rt : GoRuntime) (pre ds frac post : List Char) (d0 : Char) (toks : List Token)
    (ln : Int) (hds : ∀ c ∈ ds, c.isDigit = true)
    (hfrac : frac = [] ∨ ∃ f0 fs, frac = '.' :: f0 :: fs ∧ ∀ c ∈ f0 :: fs, c.isDigit = true)
    (hpost : post = [] ∨ ∃ t, post = ' ' :: t) :
    number rt ⟨pre ++ (d0 :: (ds ++ (frac ++ post))), toks, pre.length, pre.length + 1, ln⟩
      = ⟨pre ++ (d0 :: (ds ++ (frac ++ post))),
          toks ++ [NewToken TokenNumber (String.mk (d0 :: (ds ++ frac)))
            (.float64 (ParseFloat (d0 :: (ds ++ frac)))) ln],
          pre.length, pre.length + (d0 :: (ds ++ frac)).length, ln⟩ := by
  have hpostD : ∀ c t, post = c :: t → rt.isDigit c = false := by
    intro c t h
    rcases hpost with h0 | ⟨t', h1⟩
    · rw [h0] at h; cases h
    · rw [h1] at h; cases h; exact rt_isDigit_space rt
  have hdsR : ∀ c ∈ ds, rt.isDigit c = true := fun c hc => rt_isDigit_of rt c (hds c hc)
  -- the digits of the integer part
  have h1 : advanceWhile rt.isDigit
      ((pre ++ (d0 :: (ds ++ (frac ++ post)))).length - (pre.length + 1))
      ⟨pre ++ (d0 :: (ds ++ (frac ++ post))), toks, pre.length, pre.length + 1, ln⟩
      = ⟨pre ++ (d0 :: (ds ++ (frac ++ post))), toks, pre.length, pre.length + 1 + ds.length, ln⟩ := by
    apply advanceWhile_at rt.isDigit _ (pre ++ [d0]) ds (frac ++ post)
    · simp
    · simp
    · exact hdsR
    · intro c t h
      rcases hfrac with h0 | ⟨f0, fs, hf, _⟩
      · rw [h0] at h; exact hpostD c t h
      · rw [hf] at h; cases h; exact rt_isDigit_dot rt
    · simp only [List.length_append, List.length_cons]; omega
  rcases hfrac with h0 | ⟨f0, fs, hf, hfs⟩
  · -- no fraction
    subst h0
    have hpk : peek ⟨pre ++ (d0 :: (ds ++ ([] ++ post))), toks, pre.length,
        pre.length + 1 + ds.length, ln⟩ ≠ '.' := by
      rcases hpost with hp | ⟨t, hp⟩
      · subst hp
        rw [peek_at_end _ _ _ _ _ (by simp; omega)]
        decide
      · subst hp
        rw [peek_at _ (pre ++ d0 :: ds) t ' ' _ _ _ _ (by simp) (by simp; omega)]
        decide
    have h3 : advanceWhile rt.isDigit
        ((pre ++ (d0 :: (ds ++ ([] ++ post)))).length - (pre.length + 1 + ds.length))
        ⟨pre ++ (d0 :: (ds ++ ([] ++ post))), toks, pre.length, pre.length + 1 + ds.length, ln⟩
        = ⟨pre ++ (d0 :: (ds ++ ([] ++ post))), toks, pre.length,
            pre.length + 1 + ds.length + 0, ln⟩ := by
      apply advanceWhile_at rt.isDigit _ (pre ++ d0 :: ds) [] post
      · simp
      · simp; omega
      · simp
      · exact hpostD
      · simp only [List.length_append, List.length_cons, List.length_nil]; omega
    have hlex := lexeme_of (pre ++ (d0 :: (ds ++ ([] ++ post)))) pre (d0 :: ds) post pre.length
      (pre.length + 1 + ds.length + 0) (by simp) rfl (by simp; omega)
    simp only [number, h1, hpk, false_and, if_false, h3, addToken, hlex, List.append_nil]
    congr 1
    simp only [List.length_cons]
    omega
  · -- a fraction
    subst hf
    have hpk : peek ⟨pre ++ (d0 :: (ds ++ (('.' :: f0 :: fs) ++ post))), toks, pre.length,
        pre.length + 1 + ds.length, ln⟩ = '.' := by
      apply peek_at _ (pre ++ d0 :: ds) (f0 :: fs ++ post)
      · simp
      · simp; omega
    have hpn : peekNext ⟨pre ++ (d0 :: (ds ++ (('.' :: f0 :: fs) ++ post))), toks, pre.length,
        pre.length + 1 + ds.length, ln⟩ = f0 := by
      apply peekNext_at _ (pre ++ d0 :: ds) (fs ++ post) '.'
      · simp
      · simp; omega
    have hf0 : rt.isDigit f0 = true := rt_isDigit_of rt f0 (hfs f0 (List.mem_cons_self _ _))
    have h3 : advanceWhile rt.isDigit
        ((pre ++ (d0 :: (ds ++ (('.' :: f0 :: fs) ++ post)))).length
          - (pre.length + 1 + ds.length + 1))
        ⟨pre ++ (d0 :: (ds ++ (('.' :: f0 :: fs) ++ post))), toks, pre.length,
          pre.length + 1 + ds.length + 1, ln⟩
        = ⟨pre ++ (d0 :: (ds ++ (('.' :: f0 :: fs) ++ post))), toks, pre.length,
            pre.length + 1 + ds.length + 1 + (f0 :: fs).length, ln⟩ := by
      apply advanceWhile_at rt.isDigit _ (pre ++ d0 :: (ds ++ ['.'])) (f0 :: fs) post
      · simp
      · simp; omega
      · exact fun c hc => rt_isDigit_of rt c (hfs c hc)
      · exact hpostD
      · simp only [List.length_append, List.length_cons, List.length_nil]; omega
    have hlex := lexeme_of (pre ++ (d0 :: (ds ++ (('.' :: f0 :: fs) ++ post)))) pre
      (d0 :: (ds ++ ('.' :: f0 :: fs))) post pre.length
      (pre.length + 1 + ds.length + 1 + (f0 :: fs).length) (by simp) rfl
      (by simp only [List.length_append, List.length_cons]; omega)
    simp only [number, h1, hpk, hpn, hf0, and_self, if_true, advance, h3, addToken, hlex]
    congr 1
    simp only [List.length_cons, List.length_append]
    omega

end Scanner
namespace Scanner

theorem isAtEnd_cons (pre post : List Char) (c : Char) (toks : List Token) (st : Nat) (ln : Int) :
    isAtEnd ⟨pre ++ c :: post, toks, st, pre.length, ln⟩ = false := by
  simp [isAtEnd]

theorem stringLoop_succ (n : Nat) (s : Scanner) :
    stringLoop (n + 1) s
      = if s.peek ≠ '"' ∧ ¬ s.isAtEnd then
          stringLoop n ((if s.peek = '\n' then { s with line := s.line + 1 } else s).advance).2
        else s := rfl

/-- The loop of `Scanner.string` passes the runes before the closing quote
and counts their line feeds. -/
theorem stringLoop_run (toks : List Token) (st : Nat) (post : List Char) :
    ∀ (body pre : List Char) (ln : Int), '"' ∉ body →
      stringLoop (body.length + (post.length + 1))
          ⟨pre ++ (body ++ '"' :: post), toks, st, pre.length, ln⟩
        = ⟨pre ++ (body ++ '"' :: post), toks, st, pre.length + body.length,
            ln + (body.count '\n' : Nat)⟩ := by
  intro body
  induction body with
  | nil =>
    intro pre ln _
    rw [show ([] : List Char).length + (post.length + 1) = post.length + 1 by simp,
      stringLoop_succ]
    simp [peek_cons]
  | cons c body ih =>
    intro pre ln hq
    have hc : c ≠ '"' := fun h => hq (by rw [h]; exact List.mem_cons_self _ _)
    have hq' : '"' ∉ body := fun h => hq (List.mem_cons_of_mem _ h)
    have h := ih (pre ++ [c]) (if c = '\n' then ln + 1 else ln) hq'
    simp only [List.append_assoc, List.singleton_append, List.length_append,
      List.length_singleton] at h
    have hpk : peek ⟨pre ++ (c :: body ++ '"' :: post), toks, st, pre.length, ln⟩ = c :=
      peek_cons pre (body ++ '"' :: post) c toks st ln
    have hae : isAtEnd ⟨pre ++ (c :: body ++ '"' :: post), toks, st, pre.length, ln⟩ = false :=
      isAtEnd_cons pre (body ++ '"' :: post) c toks st ln
    rw [show (c :: body).length + (post.length + 1) = (body.length + (post.length + 1)) + 1 by
      simp only [List.length_cons]; omega, stringLoop_succ, hpk, hae]
    simp only [ne_eq, hc, not_false_eq_true, Bool.false_eq_true, and_self, if_true]
    by_cases hn : c = '\n'
    · subst hn
      simp only [if_true, advance] at h ⊢
      rw [List.cons_append, h]
      simp only [List.length_cons, List.count_cons_self, Nat.cast_add, Nat.cast_one]
      congr 1 <;> omega
    · simp only [hn, if_false, advance] at h ⊢
      rw [List.cons_append, h]
      have hcnt : (c :: body).count '\n' = body.count '\n' := by
        rw [List.count_cons_of_ne (Ne.symm hn)]
      simp only [List.length_cons, hcnt]
      congr 1; omega

end Scanner
namespace Scanner

theorem scanLoop_succ (rt : GoRuntime) (n : Nat) (s : Scanner) :
    scanLoop rt (n + 1) s
      = if s.isAtEnd then (s, none)
        else match scanToken rt { s with start := s.current } with
          | (s1, some err) => (s1, some err)
          | (s1, none) => scanLoop rt n s1 := rfl

theorem scanLoop_end (rt : GoRuntime) (n : Nat) (src : List Char) (toks : List Token)
    (st cur : Nat) (ln : Int) (hcur : cur = src.length) :
    scanLoop rt n ⟨src, toks, st, cur, ln⟩ = (⟨src, toks, st, cur, ln⟩, none) := by
  subst hcur
  cases n with
  | zero => rfl
  | succ n => rw [scanLoop_succ]; simp [isAtEnd]

theorem scanToken_space (rt : GoRuntime) (pre post : List Char) (toks : List Token) (ln : Int) :
    scanToken rt ⟨pre ++ ' ' :: post, toks, pre.length, pre.length, ln⟩
      = (⟨pre ++ ' ' :: post, toks, pre.length, pre.length + 1, ln⟩, none) := by
  simp [scanToken, advance_cons]

theorem matchRune_cons (pre post : List Char) (c : Char) (toks : List Token) (st : Nat)
    (ln : Int) :
    matchRune ⟨pre ++ c :: post, toks, st, pre.length, ln⟩ c
      = (true, ⟨pre ++ c :: post, toks, st, pre.length + 1, ln⟩) := by
  have h := getD_append_cons pre post c (Char.ofNat 0)
  simp only [matchRune, isAtEnd, h]
  simp

theorem scanToken_equal_equal (rt : GoRuntime) (pre post : List Char) (toks : List Token)
    (ln : Int) :
    scanToken rt ⟨pre ++ '=' :: '=' :: post, toks, pre.length, pre.length, ln⟩
      = (⟨pre ++ '=' :: '=' :: post, toks ++ [NewToken TokenEqualEqual "==" .nil ln],
          pre.length, pre.length + 2, ln⟩, none) := by
  have hm := matchRune_cons (pre ++ ['=']) post '=' toks pre.length ln
  simp only [List.append_assoc, List.singleton_append, List.length_append,
    List.length_singleton] at hm
  have hlex := lexeme_of (pre ++ '=' :: '=' :: post) pre ['=', '='] post pre.length
    (pre.length + 1 + 1) (by simp) rfl (by simp)
  simp only [scanToken, advance_cons, Char.reduceEq, if_false, if_true, hm, not_true_eq_false,
    addToken, hlex]

theorem scanToken_bang_equal (rt : GoRuntime) (pre post : List Char) (toks : List Token)
    (ln : Int) :
    scanToken rt ⟨pre ++ '!' :: '=' :: post, toks, pre.length, pre.length, ln⟩
      = (⟨pre ++ '!' :: '=' :: post, toks ++ [NewToken TokenBangEqual "!=" .nil ln],
          pre.length, pre.length + 2, ln⟩, none) := by
  have hm := matchRune_cons (pre ++ ['!']) post '=' toks pre.length ln
  simp only [List.append_assoc, List.singleton_append, List.length_append,
    List.length_singleton] at hm
  have hlex := lexeme_of (pre ++ '!' :: '=' :: post) pre ['!', '='] post pre.length
    (pre.length + 1 + 1) (by simp) rfl (by simp)
  simp only [scanToken, advance_cons, Char.reduceEq, if_false, if_true, hm, not_true_eq_false,
    addToken, hlex]

theorem scanToken_digit (rt : GoRuntime) (pre post : List Char) (d0 : Char) (toks : List Token)
    (ln : Int) (hd0 : d0.isDigit = true) :
    scanToken rt ⟨pre ++ d0 :: post, toks, pre.length, pre.length, ln⟩
      = (number rt ⟨pre ++ d0 :: post, toks, pre.length, pre.length + 1, ln⟩, none) := by
  have hne : ∀ d : Char, d.isDigit = false → d0 ≠ d := by
    intro d hd h
    rw [h, hd] at hd0
    cases hd0
  have hr := rt_isDigit_of rt d0 hd0
  simp [scanToken, advance_cons, hne '-' (by decide), hne '(' (by decide), hne ')' (by decide),
    hne '[' (by decide), hne ']' (by decide), hne ',' (by decide), hne '.' (by decide),
    hne '!' (by decide), hne '=' (by decide), hne '<' (by decide), hne '>' (by decide),
    hne ' ' (by decide), hne '\r' (by decide), hne '\t' (by decide), hne '\n' (by decide),
    hne '"' (by decide), hr]

theorem scanToken_string (rt : GoRuntime) (pre body post : List Char) (toks : List Token)
    (ln : Int) (hq : '"' ∉ body) :
    scanToken rt ⟨pre ++ ('"' :: (body ++ '"' :: post)), toks, pre.length, pre.length, ln⟩
      = (⟨pre ++ ('"' :: (body ++ '"' :: post)),
          toks ++ [NewToken TokenString (String.mk ('"' :: (body ++ ['"'])))
            (.slice (.int .int32) (body.map fun c => Value.int .int32 c.toNat))
            (ln + (body.count '\n' : Nat))],
          pre.length, pre.length + body.length + 2, ln + (body.count '\n' : Nat)⟩, none) := by
  have hloop := stringLoop_run toks pre.length post body (pre ++ ['"']) ln hq
  simp only [List.append_assoc, List.singleton_append, List.length_append,
    List.length_singleton] at hloop
  have hfuel : (pre ++ '"' :: (body ++ '"' :: post)).length - (pre.length + 1)
      = body.length + (post.length + 1) := by
    simp only [List.length_append, List.length_cons]; omega
  have hae : isAtEnd ⟨pre ++ '"' :: (body ++ '"' :: post), toks, pre.length,
      pre.length + 1 + body.length, ln + (body.count '\n' : Nat)⟩ = false := by
    simp [isAtEnd]; omega
  have hlex := lexeme_of (pre ++ '"' :: (body ++ '"' :: post)) pre ('"' :: (body ++ ['"'])) post
    pre.length (pre.length + 1 + body.length + 1) (by simp) rfl
    (by simp only [List.length_append, List.length_cons, List.length_nil]; omega)
  have hval : ((pre ++ '"' :: (body ++ '"' :: post)).drop (pre.length + 1)).take
      (pre.length + 1 + body.length + 1 - 1 - (pre.length + 1)) = body := by
    have := lexeme_of (pre ++ '"' :: (body ++ '"' :: post)) (pre ++ ['"']) body ('"' :: post)
      (pre.length + 1) (pre.length + 1 + body.length) (by simp) (by simp) (by simp)
    rw [show pre.length + 1 + body.length + 1 - 1 - (pre.length + 1)
      = pre.length + 1 + body.length - (pre.length + 1) by omega]
    exact this
  simp only [scanToken, advance_cons]
  simp only [Char.reduceEq, if_false, false_or, if_true, Scanner.string, hfuel, hloop, hae,
    Bool.false_eq_true, advance, addToken, hlex, hval]
  rw [show pre.length + 1 + body.length + 1 = pre.length + body.length + 2 by omega]

end Scanner
namespace Scanner

theorem scansAs_number (rt : GoRuntime) (ip fp : List Char) (hip : ip ≠ [])
    (hipd : ∀ c ∈ ip, c.isDigit = true) (hfpd : ∀ c ∈ fp, c.isDigit = true) :
    ScansAs rt (numberText ip fp) TokenNumber (.float64 (ParseFloat (numberText ip fp))) 0 := by
  intro pre post toks ln hpost
  cases ip with
  | nil => exact absurd rfl hip
  | cons d0 ds =>
    have hd0 : d0.isDigit = true := hipd d0 (List.mem_cons_self _ _)
    have hds : ∀ c ∈ ds, c.isDigit = true := fun c hc => hipd c (List.mem_cons_of_mem _ hc)
    cases fp with
    | nil =>
      have h := number_at rt pre ds [] post d0 toks ln hds (Or.inl rfl) hpost
      have hs := scanToken_digit rt pre (ds ++ ([] ++ post)) d0 toks ln hd0
      simp only [numberText, if_true, List.cons_append, List.nil_append, List.append_nil,
        Nat.cast_zero, add_zero] at h hs ⊢
      rw [hs, h]
    | cons f0 fs =>
      have h := number_at rt pre ds ('.' :: f0 :: fs) post d0 toks ln hds
        (Or.inr ⟨f0, fs, rfl, hfpd⟩) hpost
      have hs := scanToken_digit rt pre (ds ++ (('.' :: f0 :: fs) ++ post)) d0 toks ln hd0
      simp only [numberText, List.cons_ne_nil, if_false, List.cons_append, List.append_assoc,
        Nat.cast_zero, add_zero] at h hs ⊢
      rw [hs, h]

theorem scansAs_string (rt : GoRuntime) (body : List Char) (hq : '"' ∉ body) :
    ScansAs rt (quoted body) TokenString
      (.slice (.int .int32) (body.map fun c => Value.int .int32 c.toNat)) (body.count '\n') := by
  intro pre post toks ln _
  have h := scanToken_string rt pre body post toks ln hq
  have e1 : quoted body ++ post = '"' :: (body ++ '"' :: post) := by simp [quoted]
  have e2 : pre.length + (quoted body).length = pre.length + body.length + 2 := by
    simp only [quoted, List.length_cons, List.length_append, List.length_nil]; omega
  rw [e1, e2, h]
  rfl

theorem operatorScans_equal_equal (rt : GoRuntime) : OperatorScans rt '=' '=' TokenEqualEqual :=
  fun pre post toks ln => scanToken_equal_equal rt pre post toks ln

theorem operatorScans_bang_equal (rt : GoRuntime) : OperatorScans rt '!' '=' TokenBangEqual :=
  fun pre post toks ln => scanToken_bang_equal rt pre post toks ln

/-- One round of the loop of `ScanTokens` on a rune that starts a token. -/
theorem scanLoop_token (rt : GoRuntime) (n : Nat) (src : List Char) (toks toks' : List Token)
    (st cur cur' : Nat) (ln ln' : Int) (hlt : cur < src.length)
    (h : scanToken rt ⟨src, toks, cur, cur, ln⟩ = (⟨src, toks', cur, cur', ln'⟩, none)) :
    scanLoop rt (n + 1) ⟨src, toks, st, cur, ln⟩ = scanLoop rt n ⟨src, toks', cur, cur', ln'⟩ := by
  rw [scanLoop_succ]
  have : isAtEnd ⟨src, toks, st, cur, ln⟩ = false := by simp [isAtEnd, hlt]
  simp only [this, Bool.false_eq_true, if_false, h]

theorem scansAs_at (rt : GoRuntime) (lit : List Char) (typ : TokenType) (payload : Value)
    (dl : Nat) (hs : ScansAs rt lit typ payload dl) (src pre post : List Char)
    (toks : List Token) (cur : Nat) (ln : Int) (hsrc : src = pre ++ (lit ++ post))
    (hcur : cur = pre.length) (hpost : post = [] ∨ ∃ t, post = ' ' :: t) :
    scanToken rt ⟨src, toks, cur, cur, ln⟩
      = (⟨src, toks ++ [NewToken typ (String.mk lit) payload (ln + (dl : Nat))],
          cur, cur + lit.length, ln + (dl : Nat)⟩, none) := by
  subst hsrc hcur
  exact hs pre post toks ln hpost

theorem operatorScans_at (rt : GoRuntime) (c1 c2 : Char) (op : TokenType)
    (ho : OperatorScans rt c1 c2 op) (src pre post : List Char) (toks : List Token) (cur : Nat)
    (ln : Int) (hsrc : src = pre ++ c1 :: c2 :: post) (hcur : cur = pre.length) :
    scanToken rt ⟨src, toks, cur, cur, ln⟩
      = (⟨src, toks ++ [NewToken op (String.mk [c1, c2]) .nil ln], cur, cur + 2, ln⟩, none) := by
  subst hsrc hcur
  exact ho pre post toks ln

theorem scanToken_space_at (rt : GoRuntime) (src pre post : List Char) (toks : List Token)
    (cur : Nat) (ln : Int) (hsrc : src = pre ++ ' ' :: post) (hcur : cur = pre.length) :
    scanToken rt ⟨src, toks, cur, cur, ln⟩ = (⟨src, toks, cur, cur + 1, ln⟩, none) := by
  subst hsrc hcur
  exact scanToken_space rt pre post toks ln

/-- The tokens of `lit op lit`. -/
theorem scan_equality (rt : GoRuntime) (lit : List Char) (typ : TokenType) (payload : Value)
    (dl : Nat) (c1 c2 : Char) (op : TokenType) (hlit : lit ≠ [])
    (hs : ScansAs rt lit typ payload dl) (ho : OperatorScans rt c1 c2 op) :
    (NewScanner (equalitySource c1 c2 lit)).ScanTokens rt
      = (equalityTokens lit typ payload dl c1 c2 op, none) := by
  have hpos : 0 < lit.length := List.length_pos.mpr hlit
  have hlen : (lit ++ ' ' :: c1 :: c2 :: ' ' :: lit).length = lit.length + (lit.length + 4) := by
    simp only [List.length_append, List.length_cons]
  obtain ⟨k, hk⟩ : ∃ k, (lit ++ ' ' :: c1 :: c2 :: ' ' :: lit).length = k + 5 :=
    ⟨2 * lit.length - 1, by omega⟩
  have h1 := scansAs_at rt lit typ payload dl hs (lit ++ ' ' :: c1 :: c2 :: ' ' :: lit) []
    (' ' :: c1 :: c2 :: ' ' :: lit) [] 0 1 (by simp) rfl (Or.inr ⟨_, rfl⟩)
  have h2 := scanToken_space_at rt (lit ++ ' ' :: c1 :: c2 :: ' ' :: lit) lit
    (c1 :: c2 :: ' ' :: lit) ([] ++ [NewToken typ (String.mk lit) payload (1 + (dl : Nat))])
    (0 + lit.length) (1 + (dl : Nat)) rfl (by simp)
  have h3 := operatorScans_at rt c1 c2 op ho (lit ++ ' ' :: c1 :: c2 :: ' ' :: lit)
    (lit ++ [' ']) (' ' :: lit) ([] ++ [NewToken typ (String.mk lit) payload (1 + (dl : Nat))])
    (0 + lit.length + 1) (1 + (dl : Nat)) (by simp) (by simp)
  have h4 := scanToken_space_at rt (lit ++ ' ' :: c1 :: c2 :: ' ' :: lit) (lit ++ [' ', c1, c2])
    lit (([] ++ [NewToken typ (String.mk lit) payload (1 + (dl : Nat))])
      ++ [NewToken op (String.mk [c1, c2]) .nil (1 + (dl : Nat))])
    (0 + lit.length + 1 + 2) (1 + (dl : Nat)) (by simp) (by simp)
  have h5 := scansAs_at rt lit typ payload dl hs (lit ++ ' ' :: c1 :: c2 :: ' ' :: lit)
    (lit ++ [' ', c1, c2, ' ']) []
    (([] ++ [NewToken typ (String.mk lit) payload (1 + (dl : Nat))])
      ++ [NewToken op (String.mk [c1, c2]) .nil (1 + (dl : Nat))])
    (0 + lit.length + 1 + 2 + 1) (1 + (dl : Nat)) (by simp) (by simp) (Or.inl rfl)
  have hgoal : (NewScanner (equalitySource c1 c2 lit)).ScanTokens rt
      = match scanLoop rt (k + 4 + 1) ⟨lit ++ ' ' :: c1 :: c2 :: ' ' :: lit, [], 0, 0, 1⟩ with
        | (_, some err) => ([], some err)
        | (s1, none) => (s1.tokens ++ [NewToken TokenEOF "" .nil s1.line], none) := by
    simp only [ScanTokens, NewScanner, equalitySource, String.toList, Nat.sub_zero, hk]
    try rfl
  rw [hgoal,
    scanLoop_token rt (k + 4) _ _ _ 0 0 _ _ _ (by omega) h1,
    scanLoop_token rt (k + 3) _ _ _ 0 _ _ _ _ (by omega) h2,
    scanLoop_token rt (k + 2) _ _ _ _ _ _ _ _ (by omega) h3,
    scanLoop_token rt (k + 1) _ _ _ _ _ _ _ _ (by omega) h4,
    scanLoop_token rt k _ _ _ _ _ _ _ _ (by omega) h5,
    scanLoop_end rt k _ _ _ _ _ (by omega)]
  simp [equalityTokens]

end Scanner
/-- The parse of the tokens of `n op n` for a numeric literal `n`. -/
theorem parse_equality_number (lit : List Char) (payload : Value) (dl : Nat) (c1 c2 : Char)
    (op : TokenType) (hop : op = TokenEqualEqual ∨ op = TokenBangEqual) :
    (NewParser (equalityTokens lit TokenNumber payload dl c1 c2 op)).Parse
      = .ok (ExprBinary (ExprLiteral payload .Float64)
          (NewToken op (String.mk [c1, c2]) .nil (1 + (dl : Nat))) (ExprLiteral payload .Float64))
          ⟨equalityTokens lit TokenNumber payload dl c1 c2 op, 3⟩ := by
  rcases hop with h | h <;> subst h <;> rfl

/-- The parse of the tokens of `s op s` for a string literal `s`. -/
theorem parse_equality_string (lit : List Char) (payload : Value) (dl : Nat) (c1 c2 : Char)
    (op : TokenType) (hop : op = TokenEqualEqual ∨ op = TokenBangEqual) :
    (NewParser (equalityTokens lit TokenString payload dl c1 c2 op)).Parse
      = .ok (ExprBinary (ExprLiteral payload .String)
          (NewToken op (String.mk [c1, c2]) .nil (1 + (dl : Nat))) (ExprLiteral payload .String))
          ⟨equalityTokens lit TokenString payload dl c1 c2 op, 3⟩ := by
  rcases hop with h | h <;> subst h <;> rfl

theorem ofRounded_eq_self (o : Option ℚ) : F64.eq (F64.ofRounded false o) (F64.ofRounded false o) = true := by
  cases o with
  | none => rfl
  | some v =>
    by_cases hv : v = 0
    · simp [F64.ofRounded, hv, F64.eq, F64.toRat]
    · simp [F64.ofRounded, hv, F64.eq, F64.toRat]

/-- The result of `ParseFloat` is never a NaN: it equals itself. -/
theorem ParseFloat_eq_self (text : List Char) : F64.eq (ParseFloat text) (ParseFloat text) = true := by
  unfold ParseFloat
  simp only []
  split
  · simp [F64.eq, F64.toRat]
  · split
    · exact ofRounded_eq_self _
    · split
      · exact ofRounded_eq_self _
      · simp [F64.eq, F64.toRat]

/-- The interpretation of `n op n` for a number literal with payload `v`. -/
theorem interpret_number_equality (rt : GoRuntime) (v : F64) (lex : String) (lit : Value)
    (line : Int) (hv : F64.eq v v = true) :
    Interpret rt (NewInterpreter Unit) 5 (ExprBinary (ExprLiteral (.float64 v) .Float64)
        (NewToken TokenEqualEqual lex lit line) (ExprLiteral (.float64 v) .Float64)) ()
        = (.ret (.bool true) none, ())
    ∧ Interpret rt (NewInterpreter Unit) 5 (ExprBinary (ExprLiteral (.float64 v) .Float64)
        (NewToken TokenBangEqual lex lit line) (ExprLiteral (.float64 v) .Float64)) ()
        = (.ret (.bool false) none, ()) := by
  have hlit : evaluate rt (NewInterpreter Unit) 4 (ExprLiteral (.float64 v) .Float64) ()
      = (.ret (.float64 v) none, ()) := rfl
  constructor
  · rw [Interpret, evaluate_binary, VisitExprBinaryObj, hlit]
    simp [hlit, toNumber, NewToken, Token.typ, isEqual, ifaceEq, boxBool, hv]
  · rw [Interpret, evaluate_binary, VisitExprBinaryObj, hlit]
    simp [hlit, toNumber, NewToken, Token.typ, isEqual, ifaceEq, boxNotBool, hv]

/-- The interpretation of `s op s` for a string literal with the runes `cs`. -/
theorem interpret_string_equality (rt : GoRuntime) (cs : List Char) (lex : String) (lit : Value)
    (line : Int) :
    Interpret rt (NewInterpreter Unit) 5 (ExprBinary (stringLiteral cs)
        (NewToken TokenEqualEqual lex lit line) (stringLiteral cs)) ()
        = (.ret (.bool true) none, ())
    ∧ Interpret rt (NewInterpreter Unit) 5 (ExprBinary (stringLiteral cs)
        (NewToken TokenBangEqual lex lit line) (stringLiteral cs)) ()
        = (.ret (.bool false) none, ()) := by
  have hlit := evaluate_stringLiteral rt (NewInterpreter Unit) 3 cs ()
  have h := equality_of_non_numbers rt (NewInterpreter Unit) (stringLiteral cs)
    (stringLiteral cs) lex lit line 4 () () () _ _ hlit hlit rfl rfl
  have he : isEqual rt (evaluate rt (NewInterpreter Unit) 4) (.str (String.mk cs))
      (.str (String.mk cs)) () = (.ret true none, ()) := by
    simp [isEqual, ifaceEq]
  constructor
  · simp only [Interpret, NewToken, h.1, he, boxBool]
  · simp only [Interpret, NewToken, h.2, he, boxNotBool]
    rfl
theorem numberText_ne_nil (ip fp : List Char) (hip : ip ≠ []) : numberText ip fp ≠ [] := by
  unfold numberText
  split
  · exact hip
  · simp

/-- The result of `Run` on `n == n` and `n != n` for a numeric literal `n`. -/
theorem run_number_equality (rt : GoRuntime) (ip fp : List Char) (hip : ip ≠ [])
    (hipd : ∀ c ∈ ip, c.isDigit = true) (hfpd : ∀ c ∈ fp, c.isDigit = true) :
    Run rt (equalitySource '=' '=' (numberText ip fp)) = .ret (.bool true) none
    ∧ Run rt (equalitySource '!' '=' (numberText ip fp)) = .ret (.bool false) none := by
  have hs := Scanner.scansAs_number rt ip fp hip hipd hfpd
  have hne := numberText_ne_nil ip fp hip
  have hi := interpret_number_equality rt (ParseFloat (numberText ip fp))
  constructor
  · have hscan := Scanner.scan_equality rt _ _ _ _ '=' '=' TokenEqualEqual hne hs
      (Scanner.operatorScans_equal_equal rt)
    have hparse := parse_equality_number (numberText ip fp)
      (.float64 (ParseFloat (numberText ip fp))) 0 '=' '=' TokenEqualEqual (Or.inl rfl)
    simp only [Run, hscan, hparse, Expr.depth, max_self, Nat.reduceAdd, Nat.reduceMul]
    rw [(hi _ _ _ (ParseFloat_eq_self _)).1]
    rfl
  · have hscan := Scanner.scan_equality rt _ _ _ _ '!' '=' TokenBangEqual hne hs
      (Scanner.operatorScans_bang_equal rt)
    have hparse := parse_equality_number (numberText ip fp)
      (.float64 (ParseFloat (numberText ip fp))) 0 '!' '=' TokenBangEqual (Or.inr rfl)
    simp only [Run, hscan, hparse, Expr.depth, max_self, Nat.reduceAdd, Nat.reduceMul]
    rw [(hi _ _ _ (ParseFloat_eq_self _)).2]
    rfl

/-- The result of `Run` on `"s" == "s"`. -/
theorem run_string_equality (rt : GoRuntime) (body : List Char) (hq : '"' ∉ body) :
    Run rt (equalitySource '=' '=' (quoted body)) = .ret (.bool true) none := by
  have hs := Scanner.scansAs_string rt body hq
  have hne : quoted body ≠ [] := by simp [quoted]
  have hscan := Scanner.scan_equality rt _ _ _ _ '=' '=' TokenEqualEqual hne hs
    (Scanner.operatorScans_equal_equal rt)
  have hparse := parse_equality_string (quoted body)
    (.slice (.int .int32) (body.map fun c => Value.int .int32 c.toNat)) (body.count '\n')
    '=' '=' TokenEqualEqual (Or.inl rfl)
  have hi := (interpret_string_equality rt body (String.mk ['=', '=']) .nil
    (1 + (body.count '\n' : Nat))).1
  simp only [stringLiteral] at hi
  simp only [Run, hscan, hparse, Expr.depth, max_self, Nat.reduceAdd, Nat.reduceMul]
  rw [hi]
  rfl

/-- C7: for every numeric literal `n` (digits, optionally followed by `.` and
digits) `Run` on `n == n` returns `true` and on `n != n` returns `false`, and
for every text `s` without a double quote `Run` on `"s" == "s"` returns
`true`; all of them with a nil error. -/
theorem literal_self_equality (rt : GoRuntime) :
    (∀ ip fp : List Char, ip ≠ [] → (∀ c ∈ ip, c.isDigit = true) →
      (∀ c ∈ fp, c.isDigit = true) →
      Run rt (equalitySource '=' '=' (numberText ip fp)) = .ret (.bool true) none
      ∧ Run rt (equalitySource '!' '=' (numberText ip fp)) = .ret (.bool false) none)
    ∧ (∀ body : List Char, '"' ∉ body →
      Run rt (equalitySource '=' '=' (quoted body)) = .ret (.bool true) none) :=
  ⟨fun ip fp hip hipd hfpd => run_number_equality rt ip fp hip hipd hfpd,
   fun body hq => run_string_equality rt body hq⟩

/-! ## Instances -/

/-- Instance of C1, the counter of the tests: from the counter 0,
`true or call_counter()` and `false and call_counter()` leave the counter at
0, `false or call_counter()` and `true and call_counter()` leave it at 1. -/
theorem logical_short_circuit_witness :
    evaluate asciiRuntime counterInterpreter 3 (ExprLogical (ExprLiteral (.bool true) .Bool)
        (Token.mk TokenOr "or" .nil 1) callCounter) 0 = (.ret (.bool true) none, 0)
    ∧ evaluate asciiRuntime counterInterpreter 3 (ExprLogical (ExprLiteral (.bool false) .Bool)
        (Token.mk TokenAnd "and" .nil 1) callCounter) 0 = (.ret (.bool false) none, 0)
    ∧ evaluate asciiRuntime counterInterpreter 3 (ExprLogical (ExprLiteral (.bool false) .Bool)
        (Token.mk TokenOr "or" .nil 1) callCounter) 0 = (.ret (.bool true) none, 1)
    ∧ evaluate asciiRuntime counterInterpreter 3 (ExprLogical (ExprLiteral (.bool true) .Bool)
        (Token.mk TokenAnd "and" .nil 1) callCounter) 0 = (.ret (.bool true) none, 1) := by
  have h := fun (lex : String) =>
    logical_short_circuit asciiRuntime counterInterpreter callCounter lex .nil 1 1 0
  have hc : evaluate asciiRuntime counterInterpreter 2 callCounter 0
      = (.ret (.bool true) none, 1) := rfl
  refine ⟨(h "or").1, (h "and").2.1, ?_, ?_⟩
  · rw [(h "or").2.2.1, hc]; rfl
  · rw [(h "and").2.2.2, hc]; rfl
/-- Instance of C2: `true or false` and `true and false`, and the failures of
`1 or true` and of `false or 1`. -/
theorem logical_boolean_operands_witness :
    evaluate asciiRuntime (NewInterpreter Unit) 2
        (ExprLogical (ExprLiteral (.bool true) .Bool) (Token.mk TokenOr "or" .nil 1)
          (ExprLiteral (.bool false) .Bool)) () = (.ret (.bool true) none, ())
    ∧ evaluate asciiRuntime (NewInterpreter Unit) 2
        (ExprLogical (ExprLiteral (.bool true) .Bool) (Token.mk TokenAnd "or" .nil 1)
          (ExprLiteral (.bool false) .Bool)) () = (.ret (.bool false) none, ())
    ∧ (∃ msg, evaluate asciiRuntime (NewInterpreter Unit) 2
        (ExprLogical (numberLiteral 1) (Token.mk TokenOr "or" .nil 1)
          (ExprLiteral (.bool true) .Bool)) ()
        = (.ret (.bool false) (some (Err.RuntimeError msg)), ()))
    ∧ (∃ msg, evaluate asciiRuntime (NewInterpreter Unit) 2
        (ExprLogical (ExprLiteral (.bool false) .Bool) (Token.mk TokenOr "or" .nil 1)
          (numberLiteral 1)) ()
        = (.ret (.bool false) (some (Err.RuntimeError msg)), ())) :=
  ⟨((logical_boolean_operands asciiRuntime (NewInterpreter Unit) (ExprLiteral (.bool true) .Bool)
      (ExprLiteral (.bool false) .Bool) "or" .nil 1 1 ()).1 true false () () rfl rfl).1,
   ((logical_boolean_operands asciiRuntime (NewInterpreter Unit) (ExprLiteral (.bool true) .Bool)
      (ExprLiteral (.bool false) .Bool) "or" .nil 1 1 ()).1 true false () () rfl rfl).2,
   (logical_boolean_operands asciiRuntime (NewInterpreter Unit) (numberLiteral 1)
      (ExprLiteral (.bool true) .Bool) "or" .nil 1 1 ()).2.1 (.float64 (.fin 1)) ()
      (Token.mk TokenOr "or" .nil 1) rfl (fun b h => by cases h),
   (logical_boolean_operands asciiRuntime (NewInterpreter Unit) (ExprLiteral (.bool false) .Bool)
      (numberLiteral 1) "or" .nil 1 1 ()).2.2 false (.float64 (.fin 1)) () ()
      (Token.mk TokenOr "or" .nil 1) rfl rfl (fun b h => by cases h) (by decide)⟩

/-- Instance of C4: `1 == "a"` is an error. -/
theorem binary_mixed_operands_witness :
    (toNumber (.float64 (.fin 1))).2 ≠ (toNumber (.str "a")).2
    ∧ evaluate asciiRuntime (NewInterpreter Unit) 2
        (ExprBinary (numberLiteral 1) (Token.mk TokenEqualEqual "==" .nil 1) (stringLiteral ['a']))
        () = (.ret .nil (some (Err.RuntimeError "? == a is not number")), ()) :=
  ⟨by decide,
   (binary_mixed_operands asciiRuntime (NewInterpreter Unit) (numberLiteral 1)
      (stringLiteral ['a']) (Token.mk TokenEqualEqual "==" .nil 1) 1 () () ()
      (.float64 (.fin 1)) (.str "a") rfl rfl (by decide)).1⟩

/-- The variable `age` evaluates to the integer the host registered. -/
theorem evaluate_age (n : Nat) :
    evaluate asciiRuntime ageInterpreter (n + 1) ageVariable () = (.ret (.int .int 18) none, ()) :=
  rfl

theorem ofInt_age : F64.ofInt 18 = F64.fin 18 := F64.ofInt_exact 18 (by decide)

/-- Instance of C6: `1 == 1` is true and `1 != 1` is false. -/
theorem bang_equal_negates_equal_witness :
    evaluate asciiRuntime (NewInterpreter Unit) 2
        (ExprBinary (numberLiteral 1) (Token.mk TokenEqualEqual "==" .nil 1) (numberLiteral 1)) ()
        = (.ret (.bool true) none, ())
    ∧ evaluate asciiRuntime (NewInterpreter Unit) 2
        (ExprBinary (numberLiteral 1) (Token.mk TokenBangEqual "!=" .nil 1) (numberLiteral 1)) ()
        = (.ret (.bool (!true)) none, ()) :=
  ⟨rfl,
   (bang_equal_negates_equal asciiRuntime (NewInterpreter Unit) (numberLiteral 1)
      (numberLiteral 1) "==" "!=" .nil .nil 1 1 1 ()).1 true () rfl⟩

/-- Instance of C7: `1.5 == 1.5`, `1.5 != 1.5` and `"a b" == "a b"`. -/
theorem literal_self_equality_witness :
    (Run asciiRuntime "1.5 == 1.5" = .ret (.bool true) none
      ∧ Run asciiRuntime "1.5 != 1.5" = .ret (.bool false) none)
    ∧ Run asciiRuntime "\"a b\" == \"a b\"" = .ret (.bool true) none :=
  ⟨(literal_self_equality asciiRuntime).1 ['1'] ['5'] (by decide) (by decide) (by decide),
   (literal_self_equality asciiRuntime).2 ['a', ' ', 'b'] (by decide)⟩
/-- Instance of C8, the sequences of the tests: with `efficacy` a `[]string`
holding `a` and `b`, `efficacy == ["a", "b"]` is true, `efficacy == ["a", "c"]`
is false and `efficacy != ["a", "c"]` is true; and for two array literals
`["a", "b"] == ["a", "b"]` is true. -/
theorem string_sequence_equality_witness :
    evaluate asciiRuntime efficacyInterpreter 3
        (ExprBinary efficacyVariable (Token.mk TokenEqualEqual "==" .nil 1)
          (stringArray (Token.mk TokenRightBracket "]" .nil 1) ["a", "b"])) ()
        = (.ret (.bool true) none, ())
    ∧ evaluate asciiRuntime efficacyInterpreter 3
        (ExprBinary efficacyVariable (Token.mk TokenEqualEqual "==" .nil 1)
          (stringArray (Token.mk TokenRightBracket "]" .nil 1) ["a", "c"])) ()
        = (.ret (.bool false) none, ())
    ∧ evaluate asciiRuntime efficacyInterpreter 3
        (ExprBinary efficacyVariable (Token.mk TokenBangEqual "==" .nil 1)
          (stringArray (Token.mk TokenRightBracket "]" .nil 1) ["a", "c"])) ()
        = (.ret (.bool true) none, ())
    ∧ evaluate asciiRuntime (NewInterpreter Unit) 3
        (ExprBinary (stringArray (Token.mk TokenRightBracket "]" .nil 1) ["a", "b"])
          (Token.mk TokenEqualEqual "==" .nil 1)
          (stringArray (Token.mk TokenRightBracket "]" .nil 1) ["a", "b"])) ()
        = (.ret (.bool true) none, ()) := by
  have h1 := string_sequence_equality asciiRuntime efficacyInterpreter efficacyVariable
    (Token.mk TokenRightBracket "]" .nil 1) "==" .nil 1 1 () () .hostStrings ["a", "b"]
    ["a", "b"] rfl
  have h2 := string_sequence_equality asciiRuntime efficacyInterpreter efficacyVariable
    (Token.mk TokenRightBracket "]" .nil 1) "==" .nil 1 1 () () .hostStrings ["a", "b"]
    ["a", "c"] rfl
  have h3 := string_sequence_equality asciiRuntime (NewInterpreter Unit)
    (stringArray (Token.mk TokenRightBracket "]" .nil 1) ["a", "b"])
    (Token.mk TokenRightBracket "]" .nil 1) "==" .nil 1 1 () () .literal ["a", "b"]
    ["a", "b"] rfl
  exact ⟨h1.1, h2.1, h2.2.1, h3.1⟩

/-- Instance of C9: `["a", x] == ["b", x]` is false with no error although
`x` is undefined, because the first elements differ; and `[x] == []` is
false with no error, because the lengths differ. -/
theorem sequence_equality_lazy_witness :
    evaluate asciiRuntime (NewInterpreter Unit) 2 undefinedVariable ()
        = (.ret .nil (some (Err.RuntimeError "undefined symbol x")), ())
    ∧ evaluate asciiRuntime (NewInterpreter Unit) 3
        (ExprBinary
          (ExprArray (Token.mk TokenRightBracket "]" .nil 1) [stringLiteral ['a'], undefinedVariable])
          (Token.mk TokenEqualEqual "==" .nil 1)
          (ExprArray (Token.mk TokenRightBracket "]" .nil 1) [stringLiteral ['b'], undefinedVariable]))
        () = (.ret (.bool false) none, ())
    ∧ evaluate asciiRuntime (NewInterpreter Unit) 3
        (ExprBinary (ExprArray (Token.mk TokenRightBracket "]" .nil 1) [undefinedVariable])
          (Token.mk TokenEqualEqual "==" .nil 1)
          (ExprArray (Token.mk TokenRightBracket "]" .nil 1) [])) ()
        = (.ret (.bool false) none, ()) :=
  ⟨rfl,
   (sequence_equality_lazy asciiRuntime (NewInterpreter Unit)
      (ExprArray (Token.mk TokenRightBracket "]" .nil 1) [stringLiteral ['a'], undefinedVariable])
      (ExprArray (Token.mk TokenRightBracket "]" .nil 1) [stringLiteral ['b'], undefinedVariable])
      "==" .nil 1 2 () () () .any .any [.node (stringLiteral ['a'])] [.node (stringLiteral ['b'])]
      [.node undefinedVariable] [.node undefinedVariable] rfl rfl rfl).2 rfl none () rfl,
   (sequence_equality_lazy asciiRuntime (NewInterpreter Unit)
      (ExprArray (Token.mk TokenRightBracket "]" .nil 1) [undefinedVariable])
      (ExprArray (Token.mk TokenRightBracket "]" .nil 1) [])
      "==" .nil 1 2 () () () .any .any [] [] [.node undefinedVariable] [] rfl rfl rfl).1
      (by decide)⟩

/-! ## C11: the arity check of a call -/

theorem evaluate_call {σ : Type} (rt : GoRuntime) (p : Interpreter σ) (n : Nat) (callee : Expr)
    (paren : Token) (arguments : List Expr) (s : σ) :
    evaluate rt p (n + 1) (ExprCall callee paren arguments) s
      = VisitExprCallObj p (evaluate rt p n) callee paren arguments s := rfl

theorem evalArguments_inOrder {σ : Type} (ev : Expr → σ → Outcome Value × σ)
    (arguments : List Expr) (s s2 : σ) (vs : List Value)
    (h : EvaluatedInOrder ev arguments s vs s2) (acc : List Value) :
    evalArguments ev arguments acc s = (.ret (acc ++ vs) none, s2) := by
  induction h generalizing acc with
  | nil s => simp [evalArguments]
  | cons arg rest s s1 s2 v vs hv _ ih =>
    rw [evalArguments, hv]
    simp only
    rw [ih]
    simp

/-- C11: let the callee of a Call node evaluate, with no error, to a
callable of the heap.  When the number of argument expressions differs from
its `ArgNum`, the node returns a nil value and the `RuntimeError` whose
message is the lexeme of the closing parenthesis followed by
`: want N but got M arguments`, in the host state the callee left: no
argument was evaluated and the callable was not invoked.  When the numbers
agree and the arguments evaluate from left to right to the values `vs`, the
node returns what the one invocation of the callable on `vs` returns, in the
state that invocation leaves. -/
theorem call_arity_check {σ : Type} (rt : GoRuntime) (p : Interpreter σ) (callee : Expr)
    (paren : Token) (arguments : List Expr) (n ref : Nat) (callable : Callable σ) (s s1 : σ)
    (hcallee : evaluate rt p n callee s = (.ret (.callable ref) none, s1))
    (href : p.heap.get? ref = some callable) :
    ((arguments.length : Int) ≠ callable.ArgNum →
      evaluate rt p (n + 1) (ExprCall callee paren arguments) s
        = (.ret .nil (some (Err.RuntimeError (paren.lexeme ++ ": want " ++
            toString callable.ArgNum ++ " but got " ++ toString arguments.length ++
            " arguments"))), s1))
    ∧ ((arguments.length : Int) = callable.ArgNum →
      ∀ (vs : List Value) (s2 : σ), EvaluatedInOrder (evaluate rt p n) arguments s1 vs s2 →
        evaluate rt p (n + 1) (ExprCall callee paren arguments) s
          = invoked (callable.Call vs s2)) := by
  constructor
  · intro hne
    rw [evaluate_call, VisitExprCallObj, hcallee]
    simp only [href, RuntimeErrWithToken]
    rw [if_pos hne]
    simp only [String.append_assoc]
    congr 4
  · intro heq vs s2 hargs
    rw [evaluate_call, VisitExprCallObj, hcallee]
    simp only [href]
    rw [if_neg (fun h => h heq), evalArguments_inOrder _ _ _ _ _ hargs]
    simp only [List.nil_append]
    rcases hc : callable.Call vs s2 with ⟨o, s3⟩
    cases o <;> simp [invoked]


/-- Instance of C11: `tick(tick())` fails with `want 0 but got 1 arguments`
and leaves the counter at 0; `pair(tick(), tick())` gives the slice of 0 and
1 and leaves the counter at 12, two ticks and one call of `pair`. -/
theorem call_arity_check_witness :
    evaluate asciiRuntime pairInterpreter 3
        (ExprCall (ExprVariable (NewToken TokenIdentifier "tick" .nil 1)) (NewToken TokenRightParen ")" .nil 1) [tickCall]) 0
      = (.ret .nil (some (Err.RuntimeError "): want 0 but got 1 arguments")), 0)
    ∧ evaluate asciiRuntime pairInterpreter 3
        (ExprCall pairVariable (NewToken TokenRightParen ")" .nil 1) [tickCall, tickCall]) 0
      = (.ret (.slice (.int .int) [.int .int 0, .int .int 1]) none, 12) := by
  constructor
  · exact (call_arity_check asciiRuntime pairInterpreter
      (ExprVariable (NewToken TokenIdentifier "tick" .nil 1))
      (NewToken TokenRightParen ")" .nil 1) [tickCall] 2 0
      { ArgNum := 0, Call := goFuncCall asciiRuntime "tick" tickFunc } 0 0 rfl rfl).1 (by decide)
  · exact (call_arity_check asciiRuntime pairInterpreter pairVariable
      (NewToken TokenRightParen ")" .nil 1) [tickCall, tickCall] 2 1
      { ArgNum := 2, Call := goFuncCall asciiRuntime "pair" pairFunc } 0 0 rfl rfl).2 rfl
      [.int .int 0, .int .int 1] 2
      (.cons _ _ 0 1 2 _ _ rfl (.cons _ _ 1 2 2 _ _ rfl (.nil 2)))

/-! ## C12: the symbol table -/

theorem evaluate_variable {σ : Type} (rt : GoRuntime) (p : Interpreter σ) (n : Nat) (name : Token)
    (s : σ) :
    evaluate rt p (n + 1) (ExprVariable name) s
      = (.ret (p.Environment.Get name).1 (p.Environment.Get name).2, s) := rfl

theorem defineAll_values (defs : List (String × Value)) (e : Environment) (k : String) :
    (defineAll e defs).values k
      = match mostRecent defs k with
        | some v => some v
        | none => e.values k := by
  induction defs generalizing e with
  | nil => rfl
  | cons d rest ih =>
    obtain ⟨n, v⟩ := d
    have hstep : defineAll e ((n, v) :: rest) = defineAll (e.Define n v) rest := rfl
    rw [hstep, ih, mostRecent]
    cases hr : mostRecent rest k with
    | some w => rfl
    | none =>
      simp only [Environment.Define]
      by_cases hk : k = n
      · subst hk; simp
      · have hn : ¬ n = k := fun h => hk h.symm
        simp [hk, hn]

theorem mostRecent_none (defs : List (String × Value)) (k : String)
    (h : ∀ d ∈ defs, d.1 ≠ k) : mostRecent defs k = none := by
  induction defs with
  | nil => rfl
  | cons d rest ih =>
    obtain ⟨n, v⟩ := d
    have hn : n ≠ k := h (n, v) (List.mem_cons_self _ _)
    rw [mostRecent, ih (fun d hd => h d (List.mem_cons_of_mem _ hd))]
    simp [hn]

/-- C12: `Define` makes `Get` return the defined value for this name and
leaves what `Get` returns for every other name unchanged.  After any
sequence of calls of `Define` on the empty environment of a new interpreter,
`Get` returns, with no error, the value of the most recent definition of the
name; for a name that no call defined, `Get` returns a nil value and the
`RuntimeError` with message `undefined symbol <name>`, and so does the
evaluation of the identifier, whatever the host. -/
theorem symbol_table_lookup {σ : Type} (rt : GoRuntime) (heap : List (Callable σ)) (e : Environment)
    (defs : List (String × Value)) (name : Token) (n : Nat) (s : σ) :
    (∀ (k : String) (v : Value),
      (e.Define k v).Get name = if name.lexeme = k then (v, none) else e.Get name)
    ∧ (∀ v : Value, mostRecent defs name.lexeme = some v →
        (defineAll (NewInterpreter σ).Environment defs).Get name = (v, none))
    ∧ ((∀ d ∈ defs, d.1 ≠ name.lexeme) →
        (defineAll (NewInterpreter σ).Environment defs).Get name
          = (Value.nil, some (Err.RuntimeError ("undefined symbol " ++ name.lexeme)))
        ∧ evaluate rt { Environment := defineAll (NewInterpreter σ).Environment defs, heap := heap }
            (n + 1) (ExprVariable name) s
          = (.ret .nil (some (Err.RuntimeError ("undefined symbol " ++ name.lexeme))), s)) := by
  refine ⟨?_, ?_, ?_⟩
  · intro k v
    simp only [Environment.Get, Environment.Define]
    by_cases hk : name.lexeme = k <;> simp [hk]
  · intro v hv
    simp only [Environment.Get, defineAll_values, hv]
  · intro hnone
    have hget : (defineAll (NewInterpreter σ).Environment defs).Get name
        = (Value.nil, some (Err.RuntimeError ("undefined symbol " ++ name.lexeme))) := by
      simp only [Environment.Get, defineAll_values, mostRecent_none defs _ hnone, NewInterpreter]
    refine ⟨hget, ?_⟩
    rw [evaluate_variable]
    simp only [hget]

/-- Instance of C12: after `age` is defined as 18, then as 20, and `ok` as
true, `Get` gives 20 for `age`; `x` is undefined. -/
theorem symbol_table_lookup_witness :
    (defineAll (NewInterpreter Unit).Environment
        [("age", .int .int 18), ("age", .int .int 20), ("ok", .bool true)]).Get
        (identifierToken "age") = (.int .int 20, none)
    ∧ evaluate asciiRuntime
        { Environment := defineAll (NewInterpreter Unit).Environment
            [("age", .int .int 18), ("age", .int .int 20), ("ok", .bool true)], heap := [] }
        1 (ExprVariable (identifierToken "x")) ()
      = (.ret .nil (some (Err.RuntimeError "undefined symbol x")), ()) :=
  ⟨(symbol_table_lookup asciiRuntime ([] : List (Callable Unit)) (NewInterpreter Unit).Environment
      [("age", .int .int 18), ("age", .int .int 20), ("ok", .bool true)]
      (identifierToken "age") 0 ()).2.1 (.int .int 20) rfl,
   ((symbol_table_lookup asciiRuntime ([] : List (Callable Unit)) (NewInterpreter Unit).Environment
      [("age", .int .int 18), ("age", .int .int 20), ("ok", .bool true)]
      (identifierToken "x") 0 ()).2.2 (by decide)).2⟩

/-! ## C13: a fault of the host is contained -/

theorem evaluate_call_invoked {σ : Type} (rt : GoRuntime) (p : Interpreter σ) (callee : Expr)
    (paren : Token) (arguments : List Expr) (n ref : Nat) (callable : Callable σ) (s s1 s2 : σ)
    (vs : List Value)
    (hcallee : evaluate rt p n callee s = (.ret (.callable ref) none, s1))
    (href : p.heap.get? ref = some callable)
    (hlen : (arguments.length : Int) = callable.ArgNum)
    (hargs : EvaluatedInOrder (evaluate rt p n) arguments s1 vs s2) :
    evaluate rt p (n + 1) (ExprCall callee paren arguments) s = invoked (callable.Call vs s2) := by
  rw [evaluate_call, VisitExprCallObj, hcallee]
  simp only [href]
  rw [if_neg (fun h => h hlen), evalArguments_inOrder _ _ _ _ _ hargs]
  simp only [List.nil_append]
  rcases hc : callable.Call vs s2 with ⟨o, s3⟩
  cases o <;> simp [invoked]

theorem Interpret_no_panic {σ : Type} (rt : GoRuntime) (p : Interpreter σ) (fuel : Nat)
    (expr : Expr) (s : σ) (q : Value) (s1 : σ) :
    Interpret rt p fuel expr s ≠ (.panic q, s1) := by
  unfold Interpret
  split <;> simp_all

/-- C13, amended: `Interpret` never ends in a panic.  When the evaluation of
an expression ends in a panic whose payload is not nil, `Interpret` returns
a nil value and a non-nil error, in the host state the panic left: the
payload itself when the payload is an error, and otherwise the
`RuntimeError` with the message `runtime err: <payload>, stack info:
<stack>`.  The evaluation of a call ends in the panic of the callable it
invokes. -/
theorem host_fault_contained {σ : Type} (rt : GoRuntime) (p : Interpreter σ) (fuel : Nat)
    (expr : Expr) (s s1 : σ) (q : Value) :
    (∀ (q0 : Value) (s0 : σ), Interpret rt p fuel expr s ≠ (.panic q0, s0))
    ∧ (evaluate rt p fuel expr s = (.panic q, s1) → q ≠ Value.nil →
        (∀ e : Err, q = .err e → Interpret rt p fuel expr s = (.ret .nil (some e), s1))
        ∧ ((∀ e : Err, q ≠ .err e) →
            Interpret rt p fuel expr s
              = (.ret .nil (some (Err.RuntimeError
                  ("runtime err: " ++ rt.sprintS q ++ ", stack info: " ++ rt.stack))), s1)))
    ∧ (∀ (callee : Expr) (paren : Token) (arguments : List Expr) (n ref : Nat)
        (callable : Callable σ) (s2 s3 : σ) (vs : List Value),
        expr = ExprCall callee paren arguments → fuel = n + 1 →
        evaluate rt p n callee s = (.ret (.callable ref) none, s2) →
        p.heap.get? ref = some callable →
        (arguments.length : Int) = callable.ArgNum →
        EvaluatedInOrder (evaluate rt p n) arguments s2 vs s3 →
        callable.Call vs s3 = (.panic q, s1) →
        evaluate rt p fuel expr s = (.panic q, s1)) := by
  refine ⟨fun q0 s0 => Interpret_no_panic rt p fuel expr s q0 s0, ?_, ?_⟩
  · intro hev hq
    constructor
    · intro e he
      subst he
      simp only [Interpret, hev]
    · intro hne
      unfold Interpret
      rw [hev]
      cases q with
      | nil => exact absurd rfl hq
      | err e => exact absurd rfl (hne e)
      | _ => rfl
  · intro callee paren arguments n ref callable s2 s3 vs hexpr hfuel hcallee href hlen hargs hcall
    subst hexpr hfuel
    rw [evaluate_call_invoked rt p callee paren arguments n ref callable s s2 s3 vs hcallee href
      hlen hargs, hcall]
    rfl

/-- Instance of C13: `die()`, where `die` panics with the string `die`, gives
a nil value and the `RuntimeError` of the test `Test_runtime_error`. -/
theorem host_fault_contained_witness :
    Interpret asciiRuntime (dieInterpreter (.str "die")) 2 dieCall ()
      = (.ret .nil (some (Err.RuntimeError "runtime err: die, stack info: ")), ()) :=
  ((host_fault_contained asciiRuntime (dieInterpreter (.str "die")) 2 dieCall () ()
      (.str "die")).2.1 rfl (by simp)).2 (by simp)

/-- The claim C13 as stated fails: when `die` panics with an error that is
not a `RuntimeError`, as `panic(errors.New("die"))` does, `Interpret` returns
this error, and no `RuntimeError`. -/
theorem host_fault_error_payload :
    Interpret asciiRuntime (dieInterpreter (.err (.other "die"))) 2 dieCall ()
      = (.ret .nil (some (Err.other "die")), ())
    ∧ ¬ ∃ msg : String, Interpret asciiRuntime (dieInterpreter (.err (.other "die"))) 2 dieCall ()
        = (.ret .nil (some (Err.RuntimeError msg)), ()) := by
  have h : Interpret asciiRuntime (dieInterpreter (.err (.other "die"))) 2 dieCall ()
      = (.ret .nil (some (Err.other "die")), ()) := rfl
  refine ⟨h, ?_⟩
  rintro ⟨msg, hmsg⟩
  rw [h] at hmsg
  simp at hmsg

/-! ## C14: a value returned together with an error -/

/-- The tokens of the source text `"a" or true`. -/
theorem scan_partial_result :
    (NewScanner "\"a\" or true").ScanTokens asciiRuntime
      = ([Token.mk TokenString "\"a\"" (.slice (.int .int32) [.int .int32 97]) 1,
          Token.mk TokenOr "or" .nil 1, Token.mk TokenTrue "true" .nil 1,
          Token.mk TokenEOF "" .nil 1], none) := by
  rfl

theorem parse_partial_result :
    (NewParser [Token.mk TokenString "\"a\"" (.slice (.int .int32) [.int .int32 97]) 1,
          Token.mk TokenOr "or" .nil 1, Token.mk TokenTrue "true" .nil 1,
          Token.mk TokenEOF "" .nil 1]).Parse
      = .ok (ExprLogical (stringLiteral ['a']) (Token.mk TokenOr "or" .nil 1)
          (ExprLiteral (.bool true) .Bool))
          ⟨[Token.mk TokenString "\"a\"" (.slice (.int .int32) [.int .int32 97]) 1,
          Token.mk TokenOr "or" .nil 1, Token.mk TokenTrue "true" .nil 1,
          Token.mk TokenEOF "" .nil 1], 3⟩ := by
  rfl

/-- A logical node whose left operand evaluates to a value that is neither
nil nor a boolean returns the boolean `false` together with the
`RuntimeError` of `isTruthy`, and `Interpret` passes both on. -/
theorem interpret_logical_partial_result {σ : Type} (rt : GoRuntime) (p : Interpreter σ)
    (L R : Expr) (op : Token) (n : Nat) (s s1 : σ) (v : Value)
    (hL : evaluate rt p n L s = (.ret v none, s1)) (hnil : v ≠ .nil) (hbool : ∀ b, v ≠ .bool b) :
    Interpret rt p (n + 1) (ExprLogical L op R) s
      = (.ret (.bool false) (some (Err.RuntimeError ("not bool value: " ++ rt.sprintV v))), s1) := by
  have ht : isTruthy rt v = (false, some (Err.RuntimeError ("not bool value: " ++ rt.sprintV v))) := by
    cases v with
    | nil => exact absurd rfl hnil
    | bool b => exact absurd rfl (hbool b)
    | _ => rfl
  unfold Interpret
  rw [evaluate_logical, VisitExprLogicalObj, hL]
  simp only [ht]

/-- C14 fails on the code: `Run` on the source text `"a" or true` returns
the value `false` together with a `RuntimeError`. -/
theorem run_partial_result :
    Run asciiRuntime "\"a\" or true"
      = .ret (.bool false) (some (.interp (Err.RuntimeError "not bool value: a"))) := by
  simp only [Run, scan_partial_result, parse_partial_result]
  rfl

/-- The `!=` case returns `true` together with the error of an element of an
array literal: the source text `[x] != ["a"]`, where `x` is undefined. -/
theorem run_bang_equal_partial_result :
    Run asciiRuntime "[x] != [\"a\"]"
      = .ret (.bool true) (some (.interp (Err.RuntimeError "undefined symbol x"))) := by
  have hs : (NewScanner "[x] != [\"a\"]").ScanTokens asciiRuntime
      = ([Token.mk TokenLeftBracket "[" .nil 1, Token.mk TokenIdentifier "x" .nil 1,
          Token.mk TokenRightBracket "]" .nil 1, Token.mk TokenBangEqual "!=" .nil 1,
          Token.mk TokenLeftBracket "[" .nil 1,
          Token.mk TokenString "\"a\"" (.slice (.int .int32) [.int .int32 97]) 1,
          Token.mk TokenRightBracket "]" .nil 1, Token.mk TokenEOF "" .nil 1], none) := by
    rfl
  simp only [Run, hs]
  rfl

/-! ## C15: an argument that does not convert -/

theorem convertArguments_failure (rt : GoRuntime) (name : String) (params : List Ty)
    (v : Value) (ty : Ty) (post : List Value) (hv : convertDyn v ty = none) :
    ∀ (pre : List Value) (i0 : Nat) (acc : List Value),
      (∀ (j : Nat) (a : Value) (t : Ty), pre.get? j = some a → params.get? (i0 + j) = some t →
        convertDyn a t ≠ none) →
      (∀ j, j < pre.length → params.get? (i0 + j) ≠ none) →
      params.get? (i0 + pre.length) = some ty →
      convertArguments rt name params i0 (pre ++ v :: post) acc
        = some (.inr (Err.RuntimeError (incompatibleArgument rt name (i0 + pre.length) v ty))) := by
  intro pre
  induction pre with
  | nil =>
    intro i0 acc _ _ hty
    simp only [List.length_nil, Nat.add_zero] at hty
    simp only [List.nil_append, convertArguments, hty, hv, List.length_nil, Nat.add_zero,
      incompatibleArgument]
  | cons a pre ih =>
    intro i0 acc hpre hdef hty
    have h0 : params.get? i0 ≠ none := by
      have := hdef 0 (by simp)
      simpa using this
    obtain ⟨t, ht⟩ := Option.ne_none_iff_exists'.mp h0
    have hc : convertDyn a t ≠ none := hpre 0 a t rfl (by simpa using ht)
    obtain ⟨c, hc⟩ := Option.ne_none_iff_exists'.mp hc
    have hrest := ih (i0 + 1) (acc ++ [c])
      (fun j b u hb hu => hpre (j + 1) b u (by simpa using hb)
        (by rw [← hu]; congr 1; omega))
      (fun j hj => by
        have := hdef (j + 1) (by simp only [List.length_cons]; omega)
        rw [show i0 + 1 + j = i0 + (j + 1) by omega]; exact this)
      (by rw [← hty]; congr 1; simp only [List.length_cons]; omega)
    rw [List.cons_append, convertArguments]
    simp only [ht, hc]
    rw [hrest]
    congr 4
    simp only [List.length_cons]; omega

/-- What a call does when an argument does not convert: let a call invoke a
function that `DefineGoFunc` adapted, with as many arguments as the function
has parameters, and let the arguments evaluate to values of which the one at
index `i` is the first that does not convert to its parameter type.  Then
the host function is not invoked, and `Interpret` returns, with a nil error,
a value that is the `RuntimeError` naming the function, the index, the
argument and the parameter type, in the host state the evaluation of the
arguments left. -/
theorem host_argument_not_convertible {σ : Type} (rt : GoRuntime) (p : Interpreter σ)
    (name : String) (fn : GoFunction σ) (callee : Expr) (paren : Token) (arguments : List Expr)
    (n ref : Nat) (s s1 s2 : σ) (pre post : List Value) (v : Value) (ty : Ty)
    (hcallee : evaluate rt p n callee s = (.ret (.callable ref) none, s1))
    (href : p.heap.get? ref
      = some { ArgNum := fn.In.length, Call := goFuncCall rt name fn })
    (hlen : arguments.length = fn.In.length)
    (hargs : EvaluatedInOrder (evaluate rt p n) arguments s1 (pre ++ v :: post) s2)
    (hpre : ∀ (j : Nat) (a : Value) (t : Ty), pre.get? j = some a → fn.In.get? j = some t →
      convertDyn a t ≠ none)
    (hty : fn.In.get? pre.length = some ty) (hv : convertDyn v ty = none) :
    Interpret rt p (n + 1) (ExprCall callee paren arguments) s
      = (.ret (.err (Err.RuntimeError (incompatibleArgument rt name pre.length v ty))) none, s2) := by
  have hlt : pre.length < fn.In.length := by
    rcases Nat.lt_or_ge pre.length fn.In.length with h | h
    · exact h
    · rw [List.get?_eq_none.mpr h] at hty; cases hty
  have hconv := convertArguments_failure rt name fn.In v ty post hv pre 0 []
    (fun j a t ha ht => hpre j a t ha (by simpa using ht))
    (fun j hj => by
      simp only [Nat.zero_add, ne_eq, List.get?_eq_none, not_le]; omega)
    (by simpa using hty)
  simp only [Nat.zero_add] at hconv
  have hev := evaluate_call_invoked rt p callee paren arguments n ref
    { ArgNum := fn.In.length, Call := goFuncCall rt name fn } s s1 s2 (pre ++ v :: post)
    hcallee href (by simp [hlen]) hargs
  unfold Interpret
  rw [hev]
  simp only [goFuncCall, hconv, invoked]

/-- The call `label(true)`, where `label` takes a string. -/
theorem host_argument_not_convertible_witness :
    Interpret asciiRuntime labelInterpreter 2 labelCall 0
      = (.ret (.err (Err.RuntimeError
          "label argument[0] 'true' bool is not compatible for ?")) none, 0) :=
  host_argument_not_convertible asciiRuntime labelInterpreter "label" labelFunc
    (ExprVariable (identifierToken "label")) (NewToken TokenRightParen ")" .nil 1)
    [ExprLiteral (.bool true) .Bool] 1 0 0 0 0 [] [] (.bool true) .string rfl rfl rfl
    (.cons _ _ 0 0 0 _ _ rfl (.nil 0)) (fun j a t ha => by simp at ha) rfl rfl

/-- C15 fails on the code: `label(true)`, where `label` takes a string, does
not make `Interpret` return an error; the error returned is nil, and the
`RuntimeError` that the adapter built for the argument is the value of the
call. -/
theorem host_argument_error_is_value :
    (∃ v : Value, Interpret asciiRuntime labelInterpreter 2 labelCall 0 = (.ret v none, 0))
    ∧ ¬ ∃ (v : Value) (e : Err) (cnt : Nat),
        Interpret asciiRuntime labelInterpreter 2 labelCall 0 = (.ret v (some e), cnt) := by
  have h : Interpret asciiRuntime labelInterpreter 2 labelCall 0
      = (.ret (.err (Err.RuntimeError
          "label argument[0] 'true' bool is not compatible for ?")) none, 0) := rfl
  refine ⟨⟨_, h⟩, ?_⟩
  rintro ⟨v, e, cnt, hh⟩
  rw [h] at hh
  simp at hh

/-! ## C16: the widths `toNumber` accepts -/

/-- The function `toNumber` accepts an integer of the kinds `int`, `int32` and `int64`
only: an integer of any other kind is not a number. -/
theorem toNumber_int_kinds (k : IntKind) (n : Int) :
    (toNumber (.int k n)).2 = (decide (k = .int) || decide (k = .int32) || decide (k = .int64)) := by
  cases k <;> rfl

/-- C16 fails on the code: with `age` registered as the `uint8` 18, the
comparison `age >= 18` returns the `RuntimeError` of an operand that is not a
number, and so does every comparison of an `int8`, `int16` or unsigned
integer with a number literal. -/
theorem small_integer_not_number (rt : GoRuntime) (q : ℚ) (n : Nat) :
    evaluate rt smallAgeInterpreter (n + 2)
        (ExprBinary ageVariable (Token.mk TokenGreaterEqual ">=" .nil 1) (numberLiteral q)) ()
      = (.ret .nil (some (Err.RuntimeError (rt.sprintV (.int .uint8 18) ++ " " ++ ">=" ++ " " ++
          rt.sprintV (.float64 (.fin q)) ++ " is not number"))), ()) := by
  rfl

/-! ## C17: strings and double quotes in the scanner -/

namespace Scanner

theorem count_drop (l : List Char) (i : Nat) (h : i < l.length) (a : Char) :
    (l.drop i).count a = (if l.getD i (Char.ofNat 0) = a then 1 else 0) + (l.drop (i + 1)).count a := by
  rw [List.drop_eq_getElem_cons h, List.getD_eq_getElem l _ h, List.count_cons]
  by_cases hc : l[i] = a
  · simp [hc]; omega
  · simp [hc]

theorem readsOn_refl (s : Scanner) (h : s.current ≤ s.src.length) : ReadsOn s s :=
  ⟨rfl, rfl, rfl, Nat.le_refl _, h, rfl⟩

theorem readsOn_trans {s s1 s2 : Scanner} (h1 : ReadsOn s s1) (h2 : ReadsOn s1 s2) :
    ReadsOn s s2 := by
  obtain ⟨a1, a2, a3, a4, a5, a6⟩ := h1
  obtain ⟨b1, b2, b3, b4, b5, b6⟩ := h2
  exact ⟨b1.trans a1, b2.trans a2, b3.trans a3, Nat.le_trans a4 b4, b5, b6.trans a6⟩

/-- Reading one rune that is not a double quote. -/
theorem readsOn_advance (s : Scanner) (h : s.current < s.src.length)
    (hc : s.src.getD s.current (Char.ofNat 0) ≠ '"') : ReadsOn s (s.advance).2 := by
  refine ⟨rfl, rfl, rfl, Nat.le_succ _, h, ?_⟩
  simp only [quotesAhead, advance]
  rw [count_drop s.src s.current h '"', if_neg hc, Nat.zero_add]

theorem readsOn_advanceWhile (cond : Char → Bool) (hq : cond '"' = false)
    (h0 : cond (Char.ofNat 0) = false) :
    ∀ (n : Nat) (s : Scanner), s.current ≤ s.src.length → ReadsOn s (advanceWhile cond n s) := by
  intro n
  induction n with
  | zero => intro s h; exact readsOn_refl s h
  | succ n ih =>
    intro s h
    rw [advanceWhile]
    by_cases hc : cond s.peek = true
    · rw [if_pos hc]
      have hne : s.isAtEnd = false := by
        by_contra hae
        simp only [Bool.not_eq_false] at hae
        simp only [peek, hae, if_true, h0] at hc
        cases hc
      have hlt : s.current < s.src.length := by
        simp only [isAtEnd, decide_eq_false_iff_not, not_le] at hne
        exact hne
      have hpk : s.peek = s.src.getD s.current (Char.ofNat 0) := by
        simp only [peek, hne, Bool.false_eq_true, if_false]
      have hnq : s.src.getD s.current (Char.ofNat 0) ≠ '"' := by
        intro he
        rw [hpk, he, hq] at hc
        cases hc
      have h1 := readsOn_advance s hlt hnq
      exact readsOn_trans h1 (ih _ h1.2.2.2.2.1)
    · rw [if_neg hc]; exact readsOn_refl s h

theorem readsOn_matchRune (s : Scanner) (h : s.current ≤ s.src.length) :
    ReadsOn s (s.matchRune '=').2 := by
  unfold matchRune
  by_cases hae : s.isAtEnd = true
  · rw [if_pos hae]; exact readsOn_refl s h
  · rw [if_neg hae]
    by_cases hc : s.src.getD s.current (Char.ofNat 0) ≠ '='
    · rw [if_pos hc]; exact readsOn_refl s h
    · rw [if_neg hc]
      have hlt : s.current < s.src.length := by
        simp only [isAtEnd, decide_eq_true_eq, not_le] at hae
        exact hae
      have heq : s.src.getD s.current (Char.ofNat 0) = '=' := by
        by_contra hne; exact hc hne
      exact readsOn_advance s hlt (by rw [heq]; decide)

end Scanner
namespace Scanner

theorem readsToken_addToken {s s1 : Scanner} (h : ReadsOn s s1) (typ : TokenType)
    (lit : Value) (htyp : typ ≠ TokenString) : ReadsToken s (s1.addToken typ lit) := by
  obtain ⟨a1, a2, a3, a4, a5, a6⟩ := h
  refine ⟨a1, a4, a5, a6,
    NewToken typ (String.mk ((s1.src.drop s1.start).take (s1.current - s1.start))) lit s1.line,
    htyp, ?_⟩
  simp only [addToken, a2]

theorem rt_isDigit_quote (rt : GoRuntime) : rt.isDigit '"' = false :=
  rt.isDigit_ascii '"' (by decide)

theorem rt_isDigit_zero (rt : GoRuntime) : rt.isDigit (Char.ofNat 0) = false :=
  rt.isDigit_ascii (Char.ofNat 0) (by decide)

theorem isIdentifier_quote (rt : GoRuntime) : isIdentifier rt '"' = false := by
  simp [isIdentifier, isAlphaNumeric, rt_isDigit_quote, rt.isLetter_ascii '"' (by decide)]

theorem isIdentifier_zero (rt : GoRuntime) : isIdentifier rt (Char.ofNat 0) = false := by
  simp [isIdentifier, isAlphaNumeric, rt_isDigit_zero, rt.isLetter_ascii (Char.ofNat 0) (by decide)]

theorem readsToken_number (rt : GoRuntime) (s : Scanner) (h : s.current ≤ s.src.length) :
    ReadsToken s (s.number rt) := by
  have h1 := readsOn_advanceWhile rt.isDigit (rt_isDigit_quote rt) (rt_isDigit_zero rt)
    (s.src.length - s.current) s h
  unfold number
  simp only []
  generalize advanceWhile rt.isDigit (s.src.length - s.current) s = s1 at h1 ⊢
  have h2 : ReadsOn s1 (if s1.peek = '.' ∧ rt.isDigit s1.peekNext then (s1.advance).2 else s1) := by
    have hle : s1.current ≤ s1.src.length := h1.2.2.2.2.1
    by_cases hc : s1.peek = '.' ∧ rt.isDigit s1.peekNext
    · rw [if_pos hc]
      have hne : s1.isAtEnd = false := by
        by_contra hae
        simp only [Bool.not_eq_false] at hae
        have := hc.1
        simp only [peek, hae, if_true] at this
        revert this; decide
      have hlt : s1.current < s1.src.length := by
        simp only [isAtEnd, decide_eq_false_iff_not, not_le] at hne
        exact hne
      have hpk : s1.src.getD s1.current (Char.ofNat 0) = '.' := by
        have := hc.1
        simp only [peek, hne, Bool.false_eq_true, if_false] at this
        exact this
      exact readsOn_advance s1 hlt (by rw [hpk]; decide)
    · rw [if_neg hc]; exact readsOn_refl s1 hle
  generalize (if s1.peek = '.' ∧ rt.isDigit s1.peekNext then (s1.advance).2 else s1) = s2 at h2 ⊢
  have h3 := readsOn_advanceWhile rt.isDigit (rt_isDigit_quote rt) (rt_isDigit_zero rt)
    (s2.src.length - s2.current) s2 h2.2.2.2.2.1
  exact readsToken_addToken (readsOn_trans h1 (readsOn_trans h2 h3)) TokenNumber _ (by decide)

theorem keywords_ne_string (text : String) (typ : TokenType) (h : keywords text = some typ) :
    typ ≠ TokenString := by
  unfold keywords at h
  split_ifs at h <;> simp at h <;> subst h <;> decide

theorem readsToken_identifier (rt : GoRuntime) (s : Scanner) (h : s.current ≤ s.src.length) :
    ReadsToken s (s.identifier rt) := by
  have h1 := readsOn_advanceWhile (isIdentifier rt) (isIdentifier_quote rt) (isIdentifier_zero rt)
    (s.src.length - s.current) s h
  unfold identifier
  simp only []
  generalize advanceWhile (isIdentifier rt) (s.src.length - s.current) s = s1 at h1 ⊢
  split
  · next typ hk => exact readsToken_addToken h1 typ _ (keywords_ne_string _ typ hk)
  · exact readsToken_addToken h1 TokenIdentifier _ (by decide)

end Scanner
namespace Scanner

theorem split_at_quote (l : List Char) :
    '"' ∉ l ∨ ∃ body rest : List Char, '"' ∉ body ∧ l = body ++ '"' :: rest := by
  induction l with
  | nil => left; simp
  | cons c l ih =>
    by_cases hc : c = '"'
    · right; exact ⟨[], l, by simp, by simp [hc]⟩
    · rcases ih with h | ⟨body, rest, hb, hl⟩
      · left
        intro hm
        rcases List.mem_cons.mp hm with h1 | h1
        · exact hc h1.symm
        · exact h h1
      · right
        refine ⟨c :: body, rest, ?_, by simp [hl]⟩
        intro hm
        rcases List.mem_cons.mp hm with h1 | h1
        · exact hc h1.symm
        · exact hb h1

/-- The loop of `Scanner.string` runs to the end of a source that has no
double quote ahead. -/
theorem stringLoop_isAtEnd :
    ∀ (n : Nat) (s : Scanner), '"' ∉ s.src.drop s.current → s.src.length - s.current ≤ n →
      (stringLoop n s).isAtEnd = true := by
  intro n
  induction n with
  | zero =>
    intro s _ hn
    simp only [stringLoop, isAtEnd, decide_eq_true_eq]
    omega
  | succ n ih =>
    intro s hq hn
    rw [stringLoop_succ]
    by_cases hc : s.peek ≠ '"' ∧ ¬ s.isAtEnd
    · rw [if_pos hc]
      have key : ∀ s1 : Scanner, s1.src = s.src → s1.current = s.current →
          (stringLoop n (s1.advance).2).isAtEnd = true := by
        intro s1 h1 h2
        apply ih
        · simp only [advance, h1, h2]
          intro hm
          apply hq
          rw [← List.drop_drop] at hm
          exact List.mem_of_mem_drop hm
        · simp only [advance, h1, h2]
          omega
      apply key
      · split <;> rfl
      · split <;> rfl
    · rw [if_neg hc]
      by_contra hae
      simp only [Bool.not_eq_true] at hae
      have hlt : s.current < s.src.length := by
        simp only [isAtEnd, decide_eq_false_iff_not, not_le] at hae
        exact hae
      have hpk : s.peek = '"' := by
        by_contra hne
        exact hc ⟨hne, by simp [hae]⟩
      simp only [peek, hae, Bool.false_eq_true, if_false] at hpk
      apply hq
      rw [List.drop_eq_getElem_cons hlt, ← List.getD_eq_getElem s.src (Char.ofNat 0) hlt, hpk]
      exact List.mem_cons_self _ _

theorem scanToken_unterminated (rt : GoRuntime) (pre body : List Char) (toks : List Token)
    (ln : Int) (hq : '"' ∉ body) (s1 : Scanner) :
    scanToken rt ⟨pre ++ '"' :: body, toks, pre.length, pre.length, ln⟩ ≠ (s1, none) := by
  have hend := stringLoop_isAtEnd ((pre ++ '"' :: body).length - (pre.length + 1))
    ⟨pre ++ '"' :: body, toks, pre.length, pre.length + 1, ln⟩
    (by
      have : (pre ++ '"' :: body).drop (pre.length + 1) = body := by
        rw [show pre ++ '"' :: body = (pre ++ ['"']) ++ body by simp]
        rw [List.drop_append_of_le_length (by simp)]
        simp
      simp only [this]; exact hq)
    (Nat.le_refl _)
  simp only [scanToken, advance_cons]
  simp only [Char.reduceEq, if_false, false_or, if_true, Scanner.string, hend]
  simp

end Scanner
namespace Scanner

theorem step_of_reads {s0 s s1 : Scanner} (h0 : ReadsOn s0 s) (hlt : s0.current < s.current)
    (h : ReadsOn s s1 ∨ ReadsToken s s1) : Step s0 s1 := by
  obtain ⟨a1, a2, _, _, _, a6⟩ := h0
  rcases h with ⟨b1, b2, _, b4, b5, b6⟩ | ⟨b1, b4, b5, b6, tok, htok, b2⟩
  · exact ⟨b1.trans a1, Nat.lt_of_lt_of_le hlt b4, b5, by rw [b6, a6], Or.inl (b2.trans a2)⟩
  · exact ⟨b1.trans a1, Nat.lt_of_lt_of_le hlt b4, b5, by rw [b6, a6],
      Or.inr ⟨tok, fun ht => absurd ht htok, by rw [b2, a2]⟩⟩

theorem drop_append_length (pre post : List Char) : (pre ++ post).drop pre.length = post := by
  simp

theorem step_string (pre body rest : List Char) (toks : List Token) (ln ln1 : Int)
    (hq : '"' ∉ body) :
    Step ⟨pre ++ ('"' :: (body ++ '"' :: rest)), toks, pre.length, pre.length, ln⟩
      ⟨pre ++ ('"' :: (body ++ '"' :: rest)),
        toks ++ [NewToken TokenString (String.mk ('"' :: (body ++ ['"'])))
          (.slice (.int .int32) (body.map fun c => Value.int .int32 c.toNat)) ln1],
        pre.length, pre.length + body.length + 2, ln1⟩ := by
  refine ⟨rfl, ?_, ?_, ?_, Or.inr ⟨_, ?_, rfl⟩⟩
  · show pre.length < pre.length + body.length + 2
    omega
  · show pre.length + body.length + 2 ≤ (pre ++ ('"' :: (body ++ '"' :: rest))).length
    simp only [List.length_append, List.length_cons]
    omega
  · have h1 : (pre ++ ('"' :: (body ++ '"' :: rest))).drop (pre.length + body.length + 2) = rest := by
      have := drop_append_length (pre ++ '"' :: (body ++ ['"'])) rest
      simp only [List.append_assoc, List.cons_append, List.length_append, List.length_cons,
        List.length_nil, List.nil_append, List.singleton_append] at this
      rw [show pre.length + body.length + 2 = pre.length + (body.length + (0 + 1) + 1) by omega]
      exact this
    have h2 : (pre ++ ('"' :: (body ++ '"' :: rest))).drop pre.length
        = '"' :: (body ++ '"' :: rest) := drop_append_length pre _
    simp only [quotesAhead, h1, h2, List.count_cons_self, List.count_append,
      List.count_eq_zero_of_not_mem hq]
    omega
  · intro _
    exact ⟨pre, body, rest, hq, by simp [quoted], rfl, rfl⟩

theorem ite_cases {α : Type} {c : Prop} [Decidable c] {a b r : α}
    (h : (if c then a else b) = r) : (c ∧ a = r) ∨ (¬ c ∧ b = r) := by
  by_cases hc : c
  · left; rw [if_pos hc] at h; exact ⟨hc, h⟩
  · right; rw [if_neg hc] at h; exact ⟨hc, h⟩

/-- One call of `scanToken` that returns no error is one step. -/
theorem scanToken_step (rt : GoRuntime) (pre post : List Char) (c : Char) (toks : List Token)
    (ln : Int) (s1 : Scanner)
    (h : scanToken rt ⟨pre ++ c :: post, toks, pre.length, pre.length, ln⟩ = (s1, none)) :
    Step ⟨pre ++ c :: post, toks, pre.length, pre.length, ln⟩ s1 := by
  by_cases hq : c = '"'
  · subst hq
    rcases split_at_quote post with hn | ⟨body, rest, hb, hpost⟩
    · exact absurd h (scanToken_unterminated rt pre post toks ln hn s1)
    · subst hpost
      rw [scanToken_string rt pre body rest toks ln hb] at h
      obtain ⟨rfl, -⟩ := Prod.mk.inj h
      exact step_string pre body rest toks ln _ hb
  · have hlen : pre.length < (pre ++ c :: post).length := by
      simp only [List.length_append, List.length_cons]; omega
    have hs : ReadsOn ⟨pre ++ c :: post, toks, pre.length, pre.length, ln⟩
        ⟨pre ++ c :: post, toks, pre.length, pre.length + 1, ln⟩ := by
      have := readsOn_advance ⟨pre ++ c :: post, toks, pre.length, pre.length, ln⟩ hlen
        (by simp only [getD_append_cons]; exact hq)
      rw [advance_cons] at this
      exact this
    have hle : (⟨pre ++ c :: post, toks, pre.length, pre.length + 1, ln⟩ : Scanner).current
        ≤ (⟨pre ++ c :: post, toks, pre.length, pre.length + 1, ln⟩ : Scanner).src.length := hlen
    have hlt : (⟨pre ++ c :: post, toks, pre.length, pre.length, ln⟩ : Scanner).current
        < (⟨pre ++ c :: post, toks, pre.length, pre.length + 1, ln⟩ : Scanner).current :=
      Nat.lt_succ_self _
    have simple : ∀ T : TokenType, T ≠ TokenString → ∀ r : Scanner,
        (addToken ⟨pre ++ c :: post, toks, pre.length, pre.length + 1, ln⟩ T .nil,
          (none : Option ScanError)) = (r, none) →
        Step ⟨pre ++ c :: post, toks, pre.length, pre.length, ln⟩ r := by
      intro T hT r hr
      obtain ⟨rfl, -⟩ := Prod.mk.inj hr
      exact step_of_reads hs hlt (Or.inr (readsToken_addToken (readsOn_refl _ hle) T _ hT))
    have viaMatch : ∀ T : TokenType, T ≠ TokenString → ∀ r : Scanner,
        (addToken (matchRune ⟨pre ++ c :: post, toks, pre.length, pre.length + 1, ln⟩ '=').2 T .nil,
          (none : Option ScanError)) = (r, none) →
        Step ⟨pre ++ c :: post, toks, pre.length, pre.length, ln⟩ r := by
      intro T hT r hr
      obtain ⟨rfl, -⟩ := Prod.mk.inj hr
      exact step_of_reads hs hlt (Or.inr (readsToken_addToken (readsOn_matchRune _ hle) T _ hT))
    unfold scanToken at h
    rw [advance_cons] at h
    repeat' (first
      | (exfalso; exact hq hc)
      | (rcases ite_cases h with ⟨hc, h⟩ | ⟨hc, h⟩))
    · exact simple _ (by decide) _ h
    · exact simple _ (by decide) _ h
    · exact simple _ (by decide) _ h
    · exact simple _ (by decide) _ h
    · exact simple _ (by decide) _ h
    · exact simple _ (by decide) _ h
    · exact simple _ (by decide) _ h
    · exact viaMatch _ (by decide) _ h
    · exact viaMatch _ (by decide) _ h
    · exact absurd (congrArg Prod.snd h) (fun h2 => by cases h2)
    · exact viaMatch _ (by decide) _ h
    · exact viaMatch _ (by decide) _ h
    · exact viaMatch _ (by decide) _ h
    · exact viaMatch _ (by decide) _ h
    · exact viaMatch _ (by decide) _ h
    · obtain ⟨rfl, -⟩ := Prod.mk.inj h
      exact step_of_reads hs hlt (Or.inl (readsOn_refl _ hle))
    · obtain ⟨rfl, -⟩ := Prod.mk.inj h
      exact step_of_reads hs hlt (Or.inl ⟨rfl, rfl, rfl, Nat.le_refl _, hle, rfl⟩)
    · obtain ⟨rfl, -⟩ := Prod.mk.inj h
      exact step_of_reads hs hlt (Or.inr (readsToken_number rt _ hle))
    · obtain ⟨rfl, -⟩ := Prod.mk.inj h
      exact step_of_reads hs hlt (Or.inr (readsToken_identifier rt _ hle))
    · exact absurd (congrArg Prod.snd h) (fun h2 => by cases h2)

end Scanner
namespace Scanner

theorem quotesAhead_end (s : Scanner) (h : s.src.length ≤ s.current) : s.quotesAhead = 0 := by
  simp only [quotesAhead, List.drop_eq_nil_of_le h, List.count_nil]

theorem at_current (s : Scanner) (h : s.current < s.src.length) :
    ({ s with start := s.current } : Scanner)
      = ⟨s.src.take s.current ++ s.src.getD s.current (Char.ofNat 0) :: s.src.drop (s.current + 1),
          s.tokens, (s.src.take s.current).length, (s.src.take s.current).length, s.line⟩ := by
  have h1 : (s.src.take s.current).length = s.current := by
    rw [List.length_take]; omega
  have h2 : s.src.take s.current ++ s.src.getD s.current (Char.ofNat 0) :: s.src.drop (s.current + 1)
      = s.src := by
    rw [List.getD_eq_getElem s.src _ h, ← List.drop_eq_getElem_cons h, List.take_append_drop]
  rw [h1, h2]

/-- The loop of `ScanTokens`, with a budget of rounds that is at least the
number of runes that remain: when it returns no error it has reached the end
of the source, the double quotes that were ahead are even in number, and
every token it added is a well-delimited string or no string. -/
theorem scanLoop_inv (rt : GoRuntime) :
    ∀ (n : Nat) (s s1 : Scanner), s.current ≤ s.src.length → s.src.length - s.current ≤ n →
      scanLoop rt n s = (s1, none) →
      s.quotesAhead % 2 = 0 ∧ s1.src = s.src ∧ s1.src.length ≤ s1.current
        ∧ ∀ t ∈ s1.tokens, t ∈ s.tokens ∨ QuotedString s.src t := by
  intro n
  induction n with
  | zero =>
    intro s s1 _ hn h
    have hs : s1 = s := (congrArg Prod.fst h).symm
    subst hs
    have hend : s1.src.length ≤ s1.current := by omega
    exact ⟨by rw [quotesAhead_end s1 hend], rfl, hend, fun t ht => Or.inl ht⟩
  | succ n ih =>
    intro s s1 hle hn h
    rw [scanLoop_succ] at h
    by_cases hae : s.isAtEnd = true
    · rw [if_pos hae] at h
      have hs : s1 = s := (congrArg Prod.fst h).symm
      subst hs
      have hend : s1.src.length ≤ s1.current := by
        simpa only [isAtEnd, decide_eq_true_eq] using hae
      exact ⟨by rw [quotesAhead_end s1 hend], rfl, hend, fun t ht => Or.inl ht⟩
    · rw [if_neg hae] at h
      have hlt : s.current < s.src.length := by
        simp only [isAtEnd, decide_eq_true_eq, not_le] at hae
        exact hae
      rcases hst : scanToken rt { s with start := s.current } with ⟨s2, o⟩
      rw [hst] at h
      cases o with
      | some err => cases (congrArg Prod.snd h)
      | none =>
        simp only at h
        have hstep : Step { s with start := s.current } s2 := by
          rw [at_current s hlt] at hst ⊢
          exact scanToken_step rt _ _ _ _ _ s2 hst
        obtain ⟨b1, b2, b3, b4, b5⟩ := hstep
        have b1' : s2.src = s.src := b1
        have b2' : s.current < s2.current := b2
        obtain ⟨c1, c2, c3, c4⟩ := ih s2 s1 b3 (by rw [b1']; omega) h
        refine ⟨?_, c2.trans b1', c3, ?_⟩
        · have : s.quotesAhead = ({ s with start := s.current } : Scanner).quotesAhead := rfl
          rw [this, ← b4, c1]
        · intro t ht
          rcases c4 t ht with h1 | h1
          · rcases b5 with h2 | ⟨tok, hq, h2⟩
            · left; rw [h2] at h1; exact h1
            · rw [h2] at h1
              rcases List.mem_append.mp h1 with h3 | h3
              · left; exact h3
              · right
                rw [List.mem_singleton.mp h3]
                exact hq
          · right; rw [b1'] at h1; exact h1

end Scanner

/-- C17: a source text with an odd number of double quotes makes
`ScanTokens` return a `ScanError` and no token; and when `ScanTokens`
returns no error, every string token it returns stands in the source as a
double quote, characters none of which is a double quote, and a double quote,
and its literal is the runes of these characters, unchanged. -/
theorem scan_strings (rt : GoRuntime) (src : String) :
    (src.toList.count '"' % 2 = 1 →
      ∃ err : ScanError, (NewScanner src).ScanTokens rt = ([], some err))
    ∧ (∀ tokens : List Token, (NewScanner src).ScanTokens rt = (tokens, none) →
        ∀ t ∈ tokens, QuotedString src.toList t) := by
  have hinv := Scanner.scanLoop_inv rt ((NewScanner src).src.length - (NewScanner src).current)
    (NewScanner src)
  constructor
  · intro hodd
    rcases hl : Scanner.scanLoop rt ((NewScanner src).src.length - (NewScanner src).current)
      (NewScanner src) with ⟨s1, o⟩
    cases o with
    | some err => exact ⟨err, by simp only [Scanner.ScanTokens, hl]⟩
    | none =>
      have h := (hinv s1 (Nat.zero_le _) (Nat.le_refl _) hl).1
      have hq : (NewScanner src).quotesAhead = src.toList.count '"' := rfl
      omega
  · intro tokens hscan t ht
    rcases hl : Scanner.scanLoop rt ((NewScanner src).src.length - (NewScanner src).current)
      (NewScanner src) with ⟨s1, o⟩
    simp only [Scanner.ScanTokens, hl] at hscan
    cases o with
    | some err => cases (congrArg Prod.snd hscan)
    | none =>
      simp only at hscan
      have htok : s1.tokens ++ [NewToken TokenEOF "" .nil s1.line] = tokens :=
        congrArg Prod.fst hscan
      obtain ⟨_, _, _, h4⟩ := hinv s1 (Nat.zero_le _) (Nat.le_refl _) hl
      rw [← htok] at ht
      rcases List.mem_append.mp ht with h1 | h1
      · rcases h4 t h1 with h2 | h2
        · cases h2
        · exact h2
      · rw [List.mem_singleton.mp h1]
        intro hty
        cases hty

/-- Instance of C17: the source `1 == "a` has one double quote and is
rejected; in the source `"a\n" == "b"` the literal of the first string is the
three runes between the quotes, the backslash among them. -/
theorem scan_strings_witness :
    (∃ err : ScanError, (NewScanner "1 == \"a").ScanTokens asciiRuntime = ([], some err))
    ∧ QuotedString "\"a\\n\" == \"b\"".toList
        (Token.mk TokenString "\"a\\n\"" (.slice (.int .int32)
          [.int .int32 97, .int .int32 92, .int .int32 110]) 1) :=
  ⟨(scan_strings asciiRuntime "1 == \"a").1 (by decide),
   (scan_strings asciiRuntime "\"a\\n\" == \"b\"").2 _ rfl _ (List.mem_cons_self _ _)⟩

/-! ## C18: precedence and associativity of `or` and `and` -/

namespace Parser

section At

variable (p : Parser) (t : Token) (hp : p.tokens.get? p.current = some t)
include hp

theorem peek_of : p.peek = some t := hp

theorem isAtEnd_of : p.isAtEnd = some (decide (t.typ = TokenEOF)) := by
  simp only [isAtEnd, peek_of p t hp, Option.map_some']

theorem check_of (T : TokenType) :
    p.check T = some (decide (t.typ ≠ TokenEOF) && decide (t.typ = T)) := by
  simp only [check, isAtEnd_of p t hp, peek_of p t hp]
  by_cases h : t.typ = TokenEOF <;> simp [h]

theorem previous_of : Parser.previous { p with current := p.current + 1 } = some t := by
  simp only [previous, Nat.add_sub_cancel, Nat.succ_ne_zero, if_false]
  exact hp

theorem advance_of (h : t.typ ≠ TokenEOF) :
    p.advance = some (t, { p with current := p.current + 1 }) := by
  simp only [advance, isAtEnd_of p t hp, h, decide_False, Bool.false_eq_true, if_false,
    previous_of p t hp, Option.map_some']

theorem matchTypes_of (types : List TokenType) :
    p.matchTypes types
      = some (if t.typ ≠ TokenEOF ∧ t.typ ∈ types then (true, { p with current := p.current + 1 })
          else (false, p)) := by
  induction types with
  | nil => simp [matchTypes]
  | cons T types ih =>
    rw [matchTypes, check_of p t hp]
    by_cases h1 : t.typ = TokenEOF
    · simp only [h1, ne_eq, not_true_eq_false, decide_False, Bool.false_and, false_and, if_false]
      rw [ih]
      simp [h1]
    · by_cases h2 : t.typ = T
      · have hc : (decide (t.typ ≠ TokenEOF) && decide (t.typ = T)) = true := by
          rw [decide_eq_true h1, decide_eq_true h2]; rfl
        have hm : t.typ ≠ TokenEOF ∧ t.typ ∈ T :: types := ⟨h1, by simp [h2]⟩
        rw [hc, if_pos hm]
        simp only [advance_of p t hp h1, Option.map_some']
      · have hc : (decide (t.typ ≠ TokenEOF) && decide (t.typ = T)) = false := by simp [h2]
        rw [hc]
        simp only
        rw [ih]
        simp only [ne_eq, h1, not_false_eq_true, true_and, List.mem_cons, h2, false_or]

end At

end Parser

namespace Parser

theorem expression_succ (n : Nat) (p : Parser) : expression (n + 1) p = Parser.or n p := rfl

theorem or_succ (n : Nat) (p : Parser) :
    Parser.or (n + 1) p
      = match Parser.and n p with
        | .ok expr p1 => orLoop n expr p1
        | r => r := rfl

theorem and_succ (n : Nat) (p : Parser) :
    Parser.and (n + 1) p
      = match equality n p with
        | .ok expr p1 => andLoop n expr p1
        | r => r := rfl

theorem equality_succ (n : Nat) (p : Parser) :
    equality (n + 1) p
      = match comparison n p with
        | .ok expr p1 => equalityLoop n expr p1
        | r => r := rfl

theorem comparison_succ (n : Nat) (p : Parser) :
    comparison (n + 1) p
      = match unary n p with
        | .ok expr p1 => comparisonLoop n expr p1
        | r => r := rfl

theorem orLoop_succ (n : Nat) (expr : Expr) (p : Parser) :
    orLoop (n + 1) expr p
      = match p.matchTypes [TokenOr] with
        | none => .panic
        | some (false, p1) => .ok expr p1
        | some (true, p1) =>
          match p1.previous with
          | none => .panic
          | some operator =>
            match Parser.and n p1 with
            | .ok right p2 => orLoop n (NewExprLogical expr operator right) p2
            | r => r := rfl

theorem andLoop_succ (n : Nat) (expr : Expr) (p : Parser) :
    andLoop (n + 1) expr p
      = match p.matchTypes [TokenAnd] with
        | none => .panic
        | some (false, p1) => .ok expr p1
        | some (true, p1) =>
          match p1.previous with
          | none => .panic
          | some operator =>
            match equality n p1 with
            | .ok right p2 => andLoop n (NewExprLogical expr operator right) p2
            | r => r := rfl

theorem equalityLoop_succ (n : Nat) (expr : Expr) (p : Parser) :
    equalityLoop (n + 1) expr p
      = match p.matchTypes [TokenBangEqual, TokenEqualEqual] with
        | none => .panic
        | some (false, p1) => .ok expr p1
        | some (true, p1) =>
          match p1.previous with
          | none => .panic
          | some operator =>
            match comparison n p1 with
            | .ok right p2 => equalityLoop n (NewExprBinary expr operator right) p2
            | r => r := rfl

theorem comparisonLoop_succ (n : Nat) (expr : Expr) (p : Parser) :
    comparisonLoop (n + 1) expr p
      = match p.matchTypes [TokenGreater, TokenGreaterEqual, TokenLess, TokenLessEqual] with
        | none => .panic
        | some (false, p1) => .ok expr p1
        | some (true, p1) =>
          match p1.previous with
          | none => .panic
          | some operator =>
            match unary n p1 with
            | .ok right p2 => comparisonLoop n (NewExprBinary expr operator right) p2
            | r => r := rfl

/-- A loop over operators stops before a token that is none of them. -/
theorem orLoop_stop (n : Nat) (expr : Expr) (p : Parser) (t : Token)
    (hp : p.tokens.get? p.current = some t) (ht : t.typ ≠ TokenOr) :
    orLoop (n + 1) expr p = .ok expr p := by
  rw [orLoop_succ, matchTypes_of p t hp]
  simp [ht]

theorem andLoop_stop (n : Nat) (expr : Expr) (p : Parser) (t : Token)
    (hp : p.tokens.get? p.current = some t) (ht : t.typ ≠ TokenAnd) :
    andLoop (n + 1) expr p = .ok expr p := by
  rw [andLoop_succ, matchTypes_of p t hp]
  simp [ht]

theorem equalityLoop_stop (n : Nat) (expr : Expr) (p : Parser) (t : Token)
    (hp : p.tokens.get? p.current = some t)
    (ht : t.typ ≠ TokenBangEqual ∧ t.typ ≠ TokenEqualEqual) :
    equalityLoop (n + 1) expr p = .ok expr p := by
  rw [equalityLoop_succ, matchTypes_of p t hp]
  simp [ht.1, ht.2]

theorem comparisonLoop_stop (n : Nat) (expr : Expr) (p : Parser) (t : Token)
    (hp : p.tokens.get? p.current = some t)
    (ht : t.typ ≠ TokenGreater ∧ t.typ ≠ TokenGreaterEqual ∧ t.typ ≠ TokenLess
      ∧ t.typ ≠ TokenLessEqual) :
    comparisonLoop (n + 1) expr p = .ok expr p := by
  rw [comparisonLoop_succ, matchTypes_of p t hp]
  simp [ht.1, ht.2.1, ht.2.2.1, ht.2.2.2]

theorem orLoop_step (n : Nat) (expr : Expr) (p : Parser) (t : Token)
    (hp : p.tokens.get? p.current = some t) (ht : t.typ = TokenOr) :
    orLoop (n + 1) expr p
      = match Parser.and n { p with current := p.current + 1 } with
        | .ok right p2 => orLoop n (ExprLogical expr t right) p2
        | r => r := by
  rw [orLoop_succ, matchTypes_of p t hp]
  simp only [ht, ne_eq, reduceCtorEq, not_false_eq_true, List.mem_singleton, and_self, if_true,
    previous_of p t hp, NewExprLogical]

theorem andLoop_step (n : Nat) (expr : Expr) (p : Parser) (t : Token)
    (hp : p.tokens.get? p.current = some t) (ht : t.typ = TokenAnd) :
    andLoop (n + 1) expr p
      = match equality n { p with current := p.current + 1 } with
        | .ok right p2 => andLoop n (ExprLogical expr t right) p2
        | r => r := by
  rw [andLoop_succ, matchTypes_of p t hp]
  simp only [ht, ne_eq, reduceCtorEq, not_false_eq_true, List.mem_singleton, and_self, if_true,
    previous_of p t hp, NewExprLogical]

end Parser

namespace Parser

theorem get?_after (pre X post : List Token) (nxt : Token) :
    (pre ++ (X ++ nxt :: post)).get? (pre.length + X.length) = some nxt := by
  rw [← List.append_assoc, ← List.length_append, List.get?_eq_getElem?,
    List.getElem?_append_right (Nat.le_refl _)]
  simp

/-- An operand followed by a logical operator or the end of the input is
what `Parser.equality` reads. -/
theorem equality_at (X : List Token) (e : Expr) (k : Nat) (h : ParsesAsOperand X e k)
    (toks pre post : List Token) (nxt : Token) (cur n : Nat)
    (htoks : toks = pre ++ (X ++ nxt :: post)) (hcur : cur = pre.length)
    (hn : nxt.typ = TokenOr ∨ nxt.typ = TokenAnd ∨ nxt.typ = TokenEOF) :
    equality (n + k + 3) ⟨toks, cur⟩ = .ok e ⟨toks, cur + X.length⟩ := by
  subst htoks hcur
  have hget := get?_after pre X post nxt
  have hu : unary (n + k + 1) ⟨pre ++ (X ++ nxt :: post), pre.length⟩
      = .ok e ⟨pre ++ (X ++ nxt :: post), pre.length + X.length⟩ := by
    rw [Nat.add_right_comm]
    exact h pre post nxt (n + 1) (by rcases hn with h1 | h1 | h1 <;> rw [h1] <;> decide)
  rw [equality_succ, comparison_succ, hu]
  simp only
  rw [comparisonLoop_stop (n + k) e _ nxt hget
    (by rcases hn with h1 | h1 | h1 <;> rw [h1] <;> decide)]
  simp only
  rw [equalityLoop_stop (n + k + 1) e _ nxt hget
    (by rcases hn with h1 | h1 | h1 <;> rw [h1] <;> decide)]

theorem conjunction_mono (Y : List Token) (e : Expr) (k j : Nat)
    (h : ParsesAsConjunction Y e k) : ParsesAsConjunction Y e (k + j) := by
  intro pre post nxt n hn
  rw [← Nat.add_assoc, Nat.add_right_comm]
  exact h pre post nxt (n + j) hn

/-- One operand is a conjunction. -/
theorem conjunction_operand (X : List Token) (e : Expr) (k : Nat) (h : ParsesAsOperand X e k) :
    ParsesAsConjunction X e (k + 4) := by
  intro pre post nxt n hn
  have hget := get?_after pre X post nxt
  rw [← Nat.add_assoc, and_succ,
    equality_at X e k h _ pre post nxt _ n rfl rfl
      (by rcases hn with h1 | h1; exact Or.inl h1; exact Or.inr (Or.inr h1))]
  simp only
  rw [andLoop_stop (n + k + 2) e _ nxt hget (by rcases hn with h1 | h1 <;> rw [h1] <;> decide)]

/-- Two operands joined by `and` are a conjunction. -/
theorem conjunction_pair (X1 X2 : List Token) (e1 e2 : Expr) (k : Nat) (tand : Token)
    (h1 : ParsesAsOperand X1 e1 k) (h2 : ParsesAsOperand X2 e2 k) (hand : tand.typ = TokenAnd) :
    ParsesAsConjunction (X1 ++ tand :: X2) (ExprLogical e1 tand e2) (k + 5) := by
  intro pre post nxt n hn
  have hg1 : (pre ++ (X1 ++ tand :: X2 ++ nxt :: post)).get? (pre.length + X1.length)
      = some tand := by
    have := get?_after pre X1 (X2 ++ nxt :: post) tand
    simpa using this
  have hg2 : (pre ++ (X1 ++ tand :: X2 ++ nxt :: post)).get?
      (pre.length + X1.length + 1 + X2.length) = some nxt := by
    have := get?_after (pre ++ (X1 ++ [tand])) X2 post nxt
    simpa [Nat.add_assoc] using this
  rw [← Nat.add_assoc, and_succ, show n + k + 4 = n + 1 + k + 3 by omega,
    equality_at X1 e1 k h1 _ pre (X2 ++ nxt :: post) tand _ (n + 1) (by simp) rfl
      (Or.inr (Or.inl hand))]
  simp only
  rw [show n + 1 + k + 3 = n + k + 3 + 1 by omega, andLoop_step (n + k + 3) e1 _ tand hg1 hand]
  simp only
  rw [equality_at X2 e2 k h2 _ (pre ++ (X1 ++ [tand])) post nxt _ n (by simp)
      (by simp [Nat.add_assoc])
      (by rcases hn with h3 | h3; exact Or.inl h3; exact Or.inr (Or.inr h3))]
  simp only
  rw [andLoop_stop (n + k + 2) _ _ nxt hg2 (by rcases hn with h3 | h3 <;> rw [h3] <;> decide)]
  simp only [List.length_append, List.length_cons, List.length_nil, Nat.zero_add,
    Nat.add_assoc]
  congr 3
  omega

end Parser

namespace Parser

theorem unary_succ (n : Nat) (p : Parser) :
    unary (n + 1) p
      = match p.matchTypes [TokenBang, TokenMinus] with
        | none => .panic
        | some (true, p1) =>
          match p1.previous with
          | none => .panic
          | some operator =>
            match unary n p1 with
            | .ok right p2 => .ok (NewExprUnary operator right) p2
            | r => r
        | some (false, p1) => call n p1 := rfl

theorem call_succ (n : Nat) (p : Parser) :
    call (n + 1) p
      = match primary n p with
        | .ok expr p1 => callLoop n expr p1
        | r => r := rfl

theorem callLoop_succ (n : Nat) (expr : Expr) (p : Parser) :
    callLoop (n + 1) expr p
      = match p.matchTypes [TokenLeftParen] with
        | none => .panic
        | some (false, p1) => .ok expr p1
        | some (true, p1) =>
          match finishCall n expr p1 with
          | .ok expr1 p2 => callLoop n expr1 p2
          | r => r := rfl

theorem callLoop_stop (n : Nat) (expr : Expr) (p : Parser) (t : Token)
    (hp : p.tokens.get? p.current = some t) (ht : t.typ ≠ TokenLeftParen) :
    callLoop (n + 1) expr p = .ok expr p := by
  rw [callLoop_succ, matchTypes_of p t hp]
  simp [ht]

/-- A token that is a literal or an identifier is what `Parser.primary`
reads as its expression. -/
theorem primary_token (n : Nat) (p : Parser) (t : Token) (e : Expr)
    (hp : p.tokens.get? p.current = some t) (he : primaryOf t = some e) :
    primary (n + 1) p = .ok e { p with current := p.current + 1 } := by
  obtain ⟨typ, lex, lit, line⟩ := t
  cases typ <;> simp only [primaryOf, Token.typ, reduceCtorEq] at he
  all_goals
    obtain rfl := Option.some.inj he
    rw [primary]
    simp only [matchTypes_of p _ hp, previous_of p _ hp, Token.typ, Token.literal, ne_eq,
      reduceCtorEq, not_false_eq_true, List.mem_singleton, and_self, and_false, if_true,
      if_false, NewExprLiteral, NewExprVariable]

/-- A token that is a literal or an identifier is an operand. -/
theorem operand_token (t : Token) (e : Expr) (he : primaryOf t = some e) :
    ParsesAsOperand [t] e 3 := by
  intro pre post nxt n hn
  have hget : (pre ++ ([t] ++ nxt :: post)).get? pre.length = some t := by
    have := get?_after pre [] (nxt :: post) t
    simpa using this
  have hnext : (pre ++ ([t] ++ nxt :: post)).get? (pre.length + 1) = some nxt :=
    get?_after pre [t] post nxt
  have hty : t.typ ≠ TokenBang ∧ t.typ ≠ TokenMinus := by
    obtain ⟨typ, lex, lit, line⟩ := t
    cases typ <;> simp [primaryOf, Token.typ] at he ⊢
  rw [unary_succ, matchTypes_of _ t hget]
  have hno : ¬ (t.typ ≠ TokenEOF ∧ t.typ ∈ [TokenBang, TokenMinus]) := by
    intro h
    rcases List.mem_cons.mp h.2 with h1 | h1
    · exact hty.1 h1
    · exact hty.2 (List.mem_singleton.mp h1)
  rw [if_neg hno]
  simp only
  rw [call_succ, primary_token n _ t e hget he]
  simp only
  rw [callLoop_stop n e _ nxt hnext hn]
  rfl

end Parser

namespace Parser

/-- Two conjunctions joined by `or`, up to the end of the input. -/
theorem or_two (Y1 Y2 : List Token) (e1 e2 : Expr) (k : Nat) (tor eof : Token)
    (h1 : ParsesAsConjunction Y1 e1 k) (h2 : ParsesAsConjunction Y2 e2 k)
    (hor : tor.typ = TokenOr) (heof : eof.typ = TokenEOF) (n : Nat) :
    Parser.or (n + k + 3) ⟨Y1 ++ tor :: (Y2 ++ [eof]), 0⟩
      = .ok (ExprLogical e1 tor e2)
          ⟨Y1 ++ tor :: (Y2 ++ [eof]), Y1.length + 1 + Y2.length⟩ := by
  have a1 := h1 [] (Y2 ++ [eof]) tor (n + 2) (Or.inl hor)
  simp only [List.nil_append, List.length_nil, Nat.zero_add] at a1
  have a2 := h2 (Y1 ++ [tor]) [] eof (n + 1) (Or.inr heof)
  simp only [List.append_assoc, List.singleton_append, List.length_append, List.length_singleton]
    at a2
  have g1 : (Y1 ++ tor :: (Y2 ++ [eof])).get? Y1.length = some tor := by
    have := get?_after [] Y1 (Y2 ++ [eof]) tor
    simpa using this
  have g2 : (Y1 ++ tor :: (Y2 ++ [eof])).get? (Y1.length + 1 + Y2.length) = some eof := by
    have := get?_after (Y1 ++ [tor]) Y2 [] eof
    simpa using this
  rw [or_succ, show n + k + 2 = n + 2 + k by omega, a1]
  simp only
  rw [show n + 2 + k = n + k + 1 + 1 by omega, orLoop_step (n + k + 1) e1 _ tor g1 hor]
  simp only
  rw [show n + k + 1 = n + 1 + k by omega, a2]
  simp only
  rw [show n + 1 + k = n + k + 1 by omega,
    orLoop_stop (n + k) _ _ eof g2 (by rw [heof]; decide)]

/-- Three conjunctions joined by `or`, up to the end of the input. -/
theorem or_three (Y1 Y2 Y3 : List Token) (e1 e2 e3 : Expr) (k : Nat) (tor tor2 eof : Token)
    (h1 : ParsesAsConjunction Y1 e1 k) (h2 : ParsesAsConjunction Y2 e2 k)
    (h3 : ParsesAsConjunction Y3 e3 k)
    (hor : tor.typ = TokenOr) (hor2 : tor2.typ = TokenOr) (heof : eof.typ = TokenEOF) (n : Nat) :
    Parser.or (n + k + 4) ⟨Y1 ++ tor :: (Y2 ++ tor2 :: (Y3 ++ [eof])), 0⟩
      = .ok (ExprLogical (ExprLogical e1 tor e2) tor2 e3)
          ⟨Y1 ++ tor :: (Y2 ++ tor2 :: (Y3 ++ [eof])),
            Y1.length + 1 + Y2.length + 1 + Y3.length⟩ := by
  have a1 := h1 [] (Y2 ++ tor2 :: (Y3 ++ [eof])) tor (n + 3) (Or.inl hor)
  simp only [List.nil_append, List.length_nil, Nat.zero_add] at a1
  have a2 := h2 (Y1 ++ [tor]) (Y3 ++ [eof]) tor2 (n + 2) (Or.inl hor2)
  simp only [List.append_assoc, List.singleton_append, List.length_append, List.length_singleton]
    at a2
  have a3 := h3 (Y1 ++ tor :: (Y2 ++ [tor2])) [] eof (n + 1) (Or.inr heof)
  simp only [List.append_assoc, List.singleton_append, List.cons_append, List.length_append,
    List.length_cons, List.length_singleton, List.length_nil, List.nil_append, Nat.zero_add]
    at a3
  have g1 : (Y1 ++ tor :: (Y2 ++ tor2 :: (Y3 ++ [eof]))).get? Y1.length = some tor := by
    have := get?_after [] Y1 (Y2 ++ tor2 :: (Y3 ++ [eof])) tor
    simpa using this
  have g2 : (Y1 ++ tor :: (Y2 ++ tor2 :: (Y3 ++ [eof]))).get? (Y1.length + 1 + Y2.length)
      = some tor2 := by
    have := get?_after (Y1 ++ [tor]) Y2 (Y3 ++ [eof]) tor2
    simpa using this
  have g3 : (Y1 ++ tor :: (Y2 ++ tor2 :: (Y3 ++ [eof]))).get?
      (Y1.length + 1 + Y2.length + 1 + Y3.length) = some eof := by
    have := get?_after (Y1 ++ tor :: (Y2 ++ [tor2])) Y3 [] eof
    have hl : (Y1 ++ tor :: (Y2 ++ [tor2])).length = Y1.length + 1 + Y2.length + 1 := by
      simp only [List.length_append, List.length_cons, List.length_nil]; omega
    rw [hl] at this
    simpa only [List.append_assoc, List.cons_append, List.singleton_append, List.nil_append]
      using this
  rw [or_succ, show n + k + 3 = n + 3 + k by omega, a1]
  simp only
  rw [show n + 3 + k = n + k + 2 + 1 by omega, orLoop_step (n + k + 2) e1 _ tor g1 hor]
  simp only
  rw [show n + k + 2 = n + 2 + k by omega, a2]
  simp only
  rw [show n + 2 + k = n + k + 1 + 1 by omega, orLoop_step (n + k + 1) _ _ tor2 g2 hor2]
  simp only
  rw [show n + k + 1 = n + 1 + k by omega,
    show Y1.length + 1 + Y2.length + 1 = Y1.length + (Y2.length + 1 + 1) by omega, a3]
  simp only
  rw [show n + 1 + k = n + k + 1 by omega,
    show Y1.length + (Y2.length + 1 + 1) + Y3.length
      = Y1.length + 1 + Y2.length + 1 + Y3.length by omega,
    orLoop_stop (n + k) _ _ eof g3 (by rw [heof]; decide)]

end Parser

/-- C18: let `A`, `B` and `C` be operands that the parser reads as `a`, `b`
and `c` (every literal and identifier token is one), with a recursion budget
that `Parse` provides.  Then `Parse` on the tokens of `A or B and C` returns
`Logical(or, a, Logical(and, b, c))`, on the tokens of `A and B or C` it
returns `Logical(or, Logical(and, a, b), c)`, and on the tokens of
`A or B or C` it returns `Logical(or, Logical(or, a, b), c)`, each time with
all tokens read up to the end-of-input token. -/
theorem or_binds_looser_than_and (A B C : List Token) (a b c : Expr) (k : Nat)
    (tor tor2 tand eof : Token)
    (hA : ParsesAsOperand A a k) (hB : ParsesAsOperand B b k) (hC : ParsesAsOperand C c k)
    (hor : tor.typ = TokenOr) (hor2 : tor2.typ = TokenOr) (hand : tand.typ = TokenAnd)
    (heof : eof.typ = TokenEOF)
    (hk : k + 10 ≤ 12 * (A.length + B.length + C.length + 4)) :
    (NewParser (A ++ tor :: (B ++ tand :: (C ++ [eof])))).Parse
      = .ok (ExprLogical a tor (ExprLogical b tand c))
          ⟨A ++ tor :: (B ++ tand :: (C ++ [eof])), A.length + B.length + C.length + 2⟩
    ∧ (NewParser (A ++ tand :: (B ++ tor :: (C ++ [eof])))).Parse
      = .ok (ExprLogical (ExprLogical a tand b) tor c)
          ⟨A ++ tand :: (B ++ tor :: (C ++ [eof])), A.length + B.length + C.length + 2⟩
    ∧ (NewParser (A ++ tor :: (B ++ tor2 :: (C ++ [eof])))).Parse
      = .ok (ExprLogical (ExprLogical a tor b) tor2 c)
          ⟨A ++ tor :: (B ++ tor2 :: (C ++ [eof])), A.length + B.length + C.length + 2⟩ := by
  have cA := Parser.conjunction_mono A a (k + 4) 1 (Parser.conjunction_operand A a k hA)
  have cB := Parser.conjunction_operand B b k hB
  have cC := Parser.conjunction_mono C c (k + 4) 1 (Parser.conjunction_operand C c k hC)
  have cBC := Parser.conjunction_pair B C b c k tand hB hC hand
  have cAB := Parser.conjunction_pair A B a b k tand hA hB hand
  have hlen : ∀ t1 t2 : Token, 12 * ((A ++ t1 :: (B ++ t2 :: (C ++ [eof]))).length + 1)
      = (12 * (A.length + B.length + C.length + 4) - (k + 10)) + (k + 10) := by
    intro t1 t2
    simp only [List.length_append, List.length_cons, List.length_nil]
    omega
  generalize 12 * (A.length + B.length + C.length + 4) - (k + 10) = n at hlen
  refine ⟨?_, ?_, ?_⟩
  · simp only [Parser.Parse, Parser.ParseWith, Parser.fuelFor, NewParser, hlen]
    have h := Parser.or_two A (B ++ tand :: C) a _ (k + 4 + 1) tor eof cA cBC hor heof (n + 1)
    simp only [List.append_assoc, List.cons_append, List.length_append, List.length_cons] at h
    rw [show n + (k + 10) = n + 1 + (k + 4 + 1) + 3 + 1 by omega, Parser.expression_succ, h]
    congr 2
    omega
  · simp only [Parser.Parse, Parser.ParseWith, Parser.fuelFor, NewParser, hlen]
    have h := Parser.or_two (A ++ tand :: B) C _ c (k + 4 + 1) tor eof cAB cC hor heof (n + 1)
    simp only [List.append_assoc, List.cons_append, List.length_append, List.length_cons] at h
    rw [show n + (k + 10) = n + 1 + (k + 4 + 1) + 3 + 1 by omega, Parser.expression_succ, h]
    congr 2
    omega
  · simp only [Parser.Parse, Parser.ParseWith, Parser.fuelFor, NewParser, hlen]
    have h := Parser.or_three A B C a b c (k + 4) tor tor2 eof
      (Parser.conjunction_operand A a k hA) cB (Parser.conjunction_operand C c k hC)
      hor hor2 heof (n + 1)
    rw [show n + (k + 10) = n + 1 + (k + 4) + 4 + 1 by omega, Parser.expression_succ, h]
    congr 2
    omega

/-- Instance of C18: the tokens of `a or b and c`, of `a and b or c` and of
`a or b or c`, for the identifiers `a`, `b` and `c`. -/
theorem or_binds_looser_than_and_witness :
    (NewParser [identifierToken "a", Token.mk TokenOr "or" .nil 1, identifierToken "b",
        Token.mk TokenAnd "and" .nil 1, identifierToken "c", Token.mk TokenEOF "" .nil 1]).Parse
      = .ok (ExprLogical (ExprVariable (identifierToken "a")) (Token.mk TokenOr "or" .nil 1)
          (ExprLogical (ExprVariable (identifierToken "b")) (Token.mk TokenAnd "and" .nil 1)
            (ExprVariable (identifierToken "c"))))
          ⟨[identifierToken "a", Token.mk TokenOr "or" .nil 1, identifierToken "b",
            Token.mk TokenAnd "and" .nil 1, identifierToken "c", Token.mk TokenEOF "" .nil 1], 5⟩ :=
  (or_binds_looser_than_and [identifierToken "a"] [identifierToken "b"] [identifierToken "c"]
    (ExprVariable (identifierToken "a")) (ExprVariable (identifierToken "b"))
    (ExprVariable (identifierToken "c")) 3 (Token.mk TokenOr "or" .nil 1)
    (Token.mk TokenOr "or" .nil 1) (Token.mk TokenAnd "and" .nil 1) (Token.mk TokenEOF "" .nil 1)
    (Parser.operand_token _ _ rfl) (Parser.operand_token _ _ rfl) (Parser.operand_token _ _ rfl)
    rfl rfl rfl rfl (by decide)).1

/-! ## C19: the location of a parse error -/

namespace Parser

theorem consume_error (p : Parser) (typ : TokenType) (msg : String) (err : ParseError)
    (h : p.consume typ msg = some (.inr err)) :
    ∃ t : Token, p.peek = some t ∧ err = Error t msg := by
  unfold consume at h
  split at h
  · cases h
  · cases hadv : p.advance with
    | none => rw [hadv] at h; cases h
    | some r => rw [hadv] at h; cases h
  · cases hpk : p.peek with
    | none => rw [hpk] at h; cases h
    | some t =>
      rw [hpk] at h
      simp only [Option.map_some', Option.some.injEq, Sum.inr.injEq] at h
      exact ⟨t, rfl, h.symm⟩

theorem located_ok (e : Expr) (p : Parser) : LocatedError (.ok e p) := by
  intro err q h; cases h

theorem located_panic : LocatedError .panic := by
  intro err q h; cases h

theorem located_outOfFuel : LocatedError .outOfFuel := by
  intro err q h; cases h

theorem located_error (p : Parser) (t : Token) (msg : String) (h : p.peek = some t) :
    LocatedError (.error (Error t msg) p) := by
  intro err q hq
  cases hq
  exact ⟨t, msg, h, rfl⟩

theorem located_bind (r : PRes) (k : Expr → Parser → PRes) :
    LocatedError r → (∀ e p1, LocatedError (k e p1)) →
    LocatedError (match r with
      | .ok e p1 => k e p1
      | r => r) := by
  intro hr hk
  cases r with
  | ok e p1 => exact hk e p1
  | error err q => exact hr
  | panic => exact located_panic
  | outOfFuel => exact located_outOfFuel

theorem located_consume (p : Parser) (typ : TokenType) (msg : String) (k : Token → Parser → PRes)
    (hk : ∀ t q, LocatedError (k t q)) :
    LocatedError (match p.consume typ msg with
      | none => .panic
      | some (.inr err) => .error err p
      | some (.inl (t, q)) => k t q) := by
  cases h : p.consume typ msg with
  | none => exact located_panic
  | some r =>
    cases r with
    | inl tq => exact hk tq.1 tq.2
    | inr err =>
      obtain ⟨t, ht, he⟩ := consume_error p typ msg err h
      rw [he]
      exact located_error p t msg ht

/-- The errors of the list loop of `finishCall` and `finishArray`. -/
theorem located_collected (n : Nat) (p : Parser) (typ : TokenType)
    (h1 : ∀ p, LocatedError (expression n p))
    (h2 : ∀ acc p r, exprList n acc p = .inr r → LocatedError r) (r : PRes) :
    (match p.check typ with
      | none => (.inr .panic : (List Expr × Parser) ⊕ PRes)
      | some true => .inl ([], p)
      | some false =>
        match expression n p with
        | .ok e p1 => exprList n [e] p1
        | r => .inr r) = .inr r → LocatedError r := by
  intro h
  split at h
  · cases h; exact located_panic
  · cases h
  · cases he : expression n p with
    | ok e p1 => rw [he] at h; exact h2 _ _ _ h
    | error err q => rw [he] at h; cases h; rw [← he]; exact h1 p
    | panic => rw [he] at h; cases h; exact located_panic
    | outOfFuel => rw [he] at h; cases h; exact located_outOfFuel

/-- Every error that a method of the parser returns is built by
`Parser.Error` for the token at which the parser stands. -/
theorem located_all : ∀ n : Nat,
    (∀ p, LocatedError (expression n p)) ∧ (∀ p, LocatedError (Parser.or n p))
    ∧ (∀ e p, LocatedError (orLoop n e p)) ∧ (∀ p, LocatedError (Parser.and n p))
    ∧ (∀ e p, LocatedError (andLoop n e p)) ∧ (∀ p, LocatedError (equality n p))
    ∧ (∀ e p, LocatedError (equalityLoop n e p)) ∧ (∀ p, LocatedError (comparison n p))
    ∧ (∀ e p, LocatedError (comparisonLoop n e p)) ∧ (∀ p, LocatedError (unary n p))
    ∧ (∀ p, LocatedError (call n p)) ∧ (∀ e p, LocatedError (callLoop n e p))
    ∧ (∀ acc p r, exprList n acc p = .inr r → LocatedError r)
    ∧ (∀ e p, LocatedError (finishCall n e p)) ∧ (∀ p, LocatedError (finishArray n p))
    ∧ (∀ p, LocatedError (primary n p)) := by
  intro n
  induction n with
  | zero =>
    refine ⟨?_, ?_, ?_, ?_, ?_, ?_, ?_, ?_, ?_, ?_, ?_, ?_, ?_, ?_, ?_, ?_⟩
    all_goals first
      | (intro p; exact located_outOfFuel)
      | (intro e p; exact located_outOfFuel)
      | (intro acc p r h; cases h; exact located_outOfFuel)
  | succ n ih =>
    obtain ⟨iExpr, iOr, iOrL, iAnd, iAndL, iEq, iEqL, iCmp, iCmpL, iUn, iCall, iCallL, iList,
      iFC, iFA, iPrim⟩ := ih
    refine ⟨?_, ?_, ?_, ?_, ?_, ?_, ?_, ?_, ?_, ?_, ?_, ?_, ?_, ?_, ?_, ?_⟩
    · intro p; rw [expression_succ]; exact iOr p
    · intro p; rw [or_succ]; exact located_bind _ _ (iAnd p) (fun e p1 => iOrL e p1)
    · intro e p
      rw [orLoop_succ]
      split
      · exact located_panic
      · exact located_ok _ _
      · split
        · exact located_panic
        · exact located_bind _ _ (iAnd _) (fun e p1 => iOrL _ p1)
    · intro p; rw [and_succ]; exact located_bind _ _ (iEq p) (fun e p1 => iAndL e p1)
    · intro e p
      rw [andLoop_succ]
      split
      · exact located_panic
      · exact located_ok _ _
      · split
        · exact located_panic
        · exact located_bind _ _ (iEq _) (fun e p1 => iAndL _ p1)
    · intro p; rw [equality_succ]; exact located_bind _ _ (iCmp p) (fun e p1 => iEqL e p1)
    · intro e p
      rw [equalityLoop_succ]
      split
      · exact located_panic
      · exact located_ok _ _
      · split
        · exact located_panic
        · exact located_bind _ _ (iCmp _) (fun e p1 => iEqL _ p1)
    · intro p; rw [comparison_succ]; exact located_bind _ _ (iUn p) (fun e p1 => iCmpL e p1)
    · intro e p
      rw [comparisonLoop_succ]
      split
      · exact located_panic
      · exact located_ok _ _
      · split
        · exact located_panic
        · exact located_bind _ _ (iUn _) (fun e p1 => iCmpL _ p1)
    · intro p
      rw [unary_succ]
      split
      · exact located_panic
      · split
        · exact located_panic
        · exact located_bind _ _ (iUn _) (fun e p1 => located_ok _ _)
      · exact iCall _
    · intro p; rw [call_succ]; exact located_bind _ _ (iPrim p) (fun e p1 => iCallL e p1)
    · intro e p
      rw [callLoop_succ]
      split
      · exact located_panic
      · exact located_ok _ _
      · exact located_bind _ _ (iFC _ _) (fun e p1 => iCallL _ p1)
    · intro acc p r h
      rw [exprList] at h
      split at h
      · cases h; exact located_panic
      · cases h
      · cases he : expression n _ with
        | ok e p1 => rw [he] at h; exact iList _ _ _ h
        | error err q => rw [he] at h; cases h; rw [← he]; exact iExpr _
        | panic => rw [he] at h; cases h; exact located_panic
        | outOfFuel => rw [he] at h; cases h; exact located_outOfFuel
    · intro e p
      rw [finishCall]
      split
      · next r hr => exact located_collected n p TokenRightParen iExpr iList r hr
      · exact located_consume _ _ _ _ (fun t q => located_ok _ _)
    · intro p
      rw [finishArray]
      split
      · next r hr => exact located_collected n p TokenRightBracket iExpr iList r hr
      · exact located_consume _ _ _ _ (fun t q => located_ok _ _)
    · intro p
      rw [primary]
      repeat' split
      all_goals first
        | exact located_panic
        | exact located_ok _ _
        | exact iFA _
        | exact iExpr _
        | exact located_error _ _ _ (by assumption)
        | (obtain ⟨t, ht, he⟩ := consume_error _ _ _ _ (by assumption)
           rw [he]
           exact located_error _ _ _ ht)

end Parser

namespace Parser

section Shift

variable (pre : List Token)

theorem get?_shift (p : Parser) :
    (p.shift pre).tokens.get? (p.shift pre).current = p.tokens.get? p.current := by
  simp only [shift, List.get?_eq_getElem?]
  rw [List.getElem?_append_right (Nat.le_add_right _ _), Nat.add_sub_cancel_left]

theorem matchTypes_none (p : Parser) (T : TokenType) (types : List TokenType)
    (h : p.tokens.get? p.current = none) : p.matchTypes (T :: types) = none := by
  simp only [matchTypes, check, isAtEnd, peek, h, Option.map_none']

/-- What `Parser.match` does, with and without tokens in front: it panics,
or it stays, or it passes one token, which `previous` then returns. -/
theorem matchTypes_cases (p : Parser) (T : TokenType) (types : List TokenType) :
    (p.matchTypes (T :: types) = none ∧ (p.shift pre).matchTypes (T :: types) = none)
    ∨ (p.matchTypes (T :: types) = some (false, p)
        ∧ (p.shift pre).matchTypes (T :: types) = some (false, p.shift pre))
    ∨ (∃ t : Token, p.matchTypes (T :: types) = some (true, { p with current := p.current + 1 })
        ∧ (p.shift pre).matchTypes (T :: types)
            = some (true, Parser.shift pre { p with current := p.current + 1 })
        ∧ Parser.previous { p with current := p.current + 1 } = some t
        ∧ Parser.previous (Parser.shift pre { p with current := p.current + 1 }) = some t) := by
  cases h : p.tokens.get? p.current with
  | none =>
    left
    exact ⟨matchTypes_none p T types h, matchTypes_none _ T types ((get?_shift pre p).trans h)⟩
  | some t =>
    have h' := (get?_shift pre p).trans h
    right
    rw [matchTypes_of p t h, matchTypes_of _ t h']
    by_cases hc : t.typ ≠ TokenEOF ∧ t.typ ∈ T :: types
    · right
      rw [if_pos hc, if_pos hc]
      exact ⟨t, rfl, rfl, previous_of p t h, previous_of _ t h'⟩
    · left
      rw [if_neg hc, if_neg hc]
      exact ⟨rfl, rfl⟩

theorem shift_bind (r r' : PRes) (k k' : Expr → Parser → PRes) :
    (r ≠ .outOfFuel → r' = r.shift pre) →
    (∀ e p1, k e p1 ≠ .outOfFuel → k' e (p1.shift pre) = (k e p1).shift pre) →
    (match r with
      | .ok e p1 => k e p1
      | r => r) ≠ .outOfFuel →
    (match r' with
      | .ok e p1 => k' e p1
      | r => r)
      = PRes.shift pre (match r with
          | .ok e p1 => k e p1
          | r => r) := by
  intro hr hk hne
  cases r with
  | ok e p1 =>
    rw [hr (by simp)]
    exact hk e p1 hne
  | error err q => rw [hr (by simp)]; rfl
  | panic => rw [hr (by simp)]; rfl
  | outOfFuel => exact absurd rfl hne

/-- The loops over operators of `or`, `and`, `equality` and `comparison`. -/
theorem shift_loop (T : TokenType) (types : List TokenType) (sub sub' : Parser → PRes)
    (loop loop' : Expr → Parser → PRes) (mk : Expr → Token → Expr → Expr) (expr : Expr)
    (p : Parser) :
    (∀ q, sub q ≠ .outOfFuel → sub' (q.shift pre) = (sub q).shift pre) →
    (∀ e q, loop e q ≠ .outOfFuel → loop' e (q.shift pre) = (loop e q).shift pre) →
    (match p.matchTypes (T :: types) with
      | none => PRes.panic
      | some (false, p1) => .ok expr p1
      | some (true, p1) =>
        match p1.previous with
        | none => .panic
        | some operator =>
          match sub p1 with
          | .ok right p2 => loop (mk expr operator right) p2
          | r => r) ≠ .outOfFuel →
    (match (p.shift pre).matchTypes (T :: types) with
      | none => PRes.panic
      | some (false, p1) => .ok expr p1
      | some (true, p1) =>
        match p1.previous with
        | none => .panic
        | some operator =>
          match sub' p1 with
          | .ok right p2 => loop' (mk expr operator right) p2
          | r => r)
      = PRes.shift pre (match p.matchTypes (T :: types) with
          | none => PRes.panic
          | some (false, p1) => .ok expr p1
          | some (true, p1) =>
            match p1.previous with
            | none => .panic
            | some operator =>
              match sub p1 with
              | .ok right p2 => loop (mk expr operator right) p2
              | r => r) := by
  intro hsub hloop
  rcases matchTypes_cases pre p T types with ⟨h1, h2⟩ | ⟨h1, h2⟩ | ⟨t, h1, h2, h3, h4⟩
  · rw [h1, h2]; intro _; rfl
  · rw [h1, h2]; intro _; rfl
  · rw [h1, h2]
    simp only [h3, h4]
    exact shift_bind pre _ _ _ _ (hsub _) (fun e q => hloop _ q)

theorem shift_match (T : TokenType) (types : List TokenType) (p : Parser)
    (yes yes' no no' : Parser → PRes) :
    (∀ t : Token, Parser.previous { p with current := p.current + 1 } = some t →
      Parser.previous (Parser.shift pre { p with current := p.current + 1 }) = some t →
      yes { p with current := p.current + 1 } ≠ .outOfFuel →
      yes' (Parser.shift pre { p with current := p.current + 1 })
        = (yes { p with current := p.current + 1 }).shift pre) →
    (no p ≠ .outOfFuel → no' (p.shift pre) = (no p).shift pre) →
    (match p.matchTypes (T :: types) with
      | none => PRes.panic
      | some (true, p1) => yes p1
      | some (false, p1) => no p1) ≠ .outOfFuel →
    (match (p.shift pre).matchTypes (T :: types) with
      | none => PRes.panic
      | some (true, p1) => yes' p1
      | some (false, p1) => no' p1)
      = PRes.shift pre (match p.matchTypes (T :: types) with
          | none => PRes.panic
          | some (true, p1) => yes p1
          | some (false, p1) => no p1) := by
  intro hyes hno
  rcases matchTypes_cases pre p T types with ⟨h1, h2⟩ | ⟨h1, h2⟩ | ⟨t, h1, h2, h3, h4⟩
  · rw [h1, h2]; intro _; rfl
  · rw [h1, h2]; exact hno
  · rw [h1, h2]; exact hyes t h3 h4

theorem peek_shift (p : Parser) : (p.shift pre).peek = p.peek := get?_shift pre p

theorem check_shift (p : Parser) (T : TokenType) : (p.shift pre).check T = p.check T := by
  simp only [check, isAtEnd, peek_shift]

/-- What `Parser.consume` does, with and without tokens in front. -/
theorem consume_cases (p : Parser) (typ : TokenType) (msg : String) :
    (p.consume typ msg = none ∧ (p.shift pre).consume typ msg = none)
    ∨ (∃ err : ParseError, p.consume typ msg = some (.inr err)
        ∧ (p.shift pre).consume typ msg = some (.inr err))
    ∨ (∃ t : Token, p.consume typ msg = some (.inl (t, { p with current := p.current + 1 }))
        ∧ (p.shift pre).consume typ msg
            = some (.inl (t, Parser.shift pre { p with current := p.current + 1 }))) := by
  cases h : p.tokens.get? p.current with
  | none =>
    left
    have h' := (get?_shift pre p).trans h
    constructor
    · simp only [consume, check, isAtEnd, peek, h, Option.map_none']
    · simp only [consume, check, isAtEnd, peek, h', Option.map_none']
  | some t =>
    have h' := (get?_shift pre p).trans h
    right
    by_cases hc : (decide (t.typ ≠ TokenEOF) && decide (t.typ = typ)) = true
    · right
      have hne : t.typ ≠ TokenEOF := by
        simp only [Bool.and_eq_true, decide_eq_true_eq] at hc
        exact hc.1
      refine ⟨t, ?_, ?_⟩
      · simp only [consume, check_of p t h, hc, advance_of p t h hne, Option.map_some']
      · simp only [consume, check_of _ t h', hc, advance_of _ t h' hne, Option.map_some']
        rfl
    · left
      simp only [Bool.not_eq_true] at hc
      refine ⟨Error t msg, ?_, ?_⟩
      · simp only [consume, check_of p t h, hc, peek_of p t h, Option.map_some']
      · simp only [consume, check_of _ t h', hc, peek_of _ t h', Option.map_some']

theorem shift_consume (p : Parser) (typ : TokenType) (msg : String) (k : Token → Parser → PRes)
    (hk : ∀ t q, (k t q).shift pre = k t (q.shift pre)) :
    (match (p.shift pre).consume typ msg with
      | none => PRes.panic
      | some (.inr err) => .error err (p.shift pre)
      | some (.inl (t, q)) => k t q)
      = PRes.shift pre (match p.consume typ msg with
          | none => PRes.panic
          | some (.inr err) => .error err p
          | some (.inl (t, q)) => k t q) := by
  rcases consume_cases pre p typ msg with ⟨h1, h2⟩ | ⟨err, h1, h2⟩ | ⟨t, h1, h2⟩
  · rw [h1, h2]; rfl
  · rw [h1, h2]; rfl
  · rw [h1, h2]; exact (hk _ _).symm

/-- The end of `finishCall` and of `finishArray`, after the list. -/
theorem shift_finish (typ : TokenType) (msg : String) (c c' : (List Expr × Parser) ⊕ PRes)
    (mk : Token → List Expr → Expr) :
    (c ≠ .inr .outOfFuel → c' = shiftList pre c) →
    (match c with
      | .inr r => r
      | .inl (arguments, p2) =>
        match p2.consume typ msg with
        | none => PRes.panic
        | some (.inr err) => .error err p2
        | some (.inl (paren, p3)) => .ok (mk paren arguments) p3) ≠ .outOfFuel →
    (match c' with
      | .inr r => r
      | .inl (arguments, p2) =>
        match p2.consume typ msg with
        | none => PRes.panic
        | some (.inr err) => .error err p2
        | some (.inl (paren, p3)) => .ok (mk paren arguments) p3)
      = PRes.shift pre (match c with
          | .inr r => r
          | .inl (arguments, p2) =>
            match p2.consume typ msg with
            | none => PRes.panic
            | some (.inr err) => .error err p2
            | some (.inl (paren, p3)) => .ok (mk paren arguments) p3) := by
  intro hc hne
  cases c with
  | inr r =>
    have hr : r ≠ .outOfFuel := hne
    rw [hc (fun h => hr (Sum.inr.inj h))]
    rfl
  | inl ap =>
    obtain ⟨arguments, p2⟩ := ap
    rw [hc (by simp)]
    exact shift_consume pre p2 typ msg (fun t q => .ok (mk t arguments) q) (fun t q => rfl)

/-- The list of `finishCall` and of `finishArray`. -/
theorem shift_collected (typ : TokenType) (p : Parser) (ex ex' : Parser → PRes)
    (lst lst' : List Expr → Parser → (List Expr × Parser) ⊕ PRes) :
    (ex p ≠ .outOfFuel → ex' (p.shift pre) = (ex p).shift pre) →
    (∀ acc q, lst acc q ≠ .inr .outOfFuel → lst' acc (q.shift pre) = shiftList pre (lst acc q)) →
    (match p.check typ with
      | none => (.inr .panic : (List Expr × Parser) ⊕ PRes)
      | some true => .inl ([], p)
      | some false =>
        match ex p with
        | .ok e p1 => lst [e] p1
        | r => .inr r) ≠ .inr .outOfFuel →
    (match (p.shift pre).check typ with
      | none => (.inr .panic : (List Expr × Parser) ⊕ PRes)
      | some true => .inl ([], p.shift pre)
      | some false =>
        match ex' (p.shift pre) with
        | .ok e p1 => lst' [e] p1
        | r => .inr r)
      = shiftList pre (match p.check typ with
          | none => (.inr .panic : (List Expr × Parser) ⊕ PRes)
          | some true => .inl ([], p)
          | some false =>
            match ex p with
            | .ok e p1 => lst [e] p1
            | r => .inr r) := by
  intro hex hlst
  rw [check_shift]
  cases p.check typ with
  | none => intro _; rfl
  | some b =>
    cases b with
    | true => intro _; rfl
    | false =>
      simp only
      cases he : ex p with
      | ok e p1 =>
        rw [hex (by rw [he]; simp), he]
        exact hlst _ _
      | error err q => rw [hex (by rw [he]; simp), he]; intro _; rfl
      | panic => rw [hex (by rw [he]; simp), he]; intro _; rfl
      | outOfFuel => intro h; exact absurd rfl h

end Shift

end Parser

namespace Parser

/-- Every method of the parser is stable: tokens put in front and a larger
recursion budget do not change what it does. -/
theorem stable_all (pre : List Token) (j : Nat) : ∀ n : Nat,
    Stable pre j expression n ∧ Stable pre j Parser.or n
    ∧ (∀ e, Stable pre j (fun n p => orLoop n e p) n) ∧ Stable pre j Parser.and n
    ∧ (∀ e, Stable pre j (fun n p => andLoop n e p) n) ∧ Stable pre j equality n
    ∧ (∀ e, Stable pre j (fun n p => equalityLoop n e p) n) ∧ Stable pre j comparison n
    ∧ (∀ e, Stable pre j (fun n p => comparisonLoop n e p) n) ∧ Stable pre j unary n
    ∧ Stable pre j call n ∧ (∀ e, Stable pre j (fun n p => callLoop n e p) n)
    ∧ (∀ acc p, exprList n acc p ≠ .inr .outOfFuel →
        exprList (n + j) acc (p.shift pre) = shiftList pre (exprList n acc p))
    ∧ (∀ e, Stable pre j (fun n p => finishCall n e p) n) ∧ Stable pre j finishArray n
    ∧ Stable pre j primary n := by
  intro n
  induction n with
  | zero =>
    refine ⟨?_, ?_, ?_, ?_, ?_, ?_, ?_, ?_, ?_, ?_, ?_, ?_, ?_, ?_, ?_, ?_⟩
    all_goals first
      | (intro p h; exact absurd rfl h)
      | (intro e p h; exact absurd rfl h)
  | succ n ih =>
    obtain ⟨iExpr, iOr, iOrL, iAnd, iAndL, iEq, iEqL, iCmp, iCmpL, iUn, iCall, iCallL, iList,
      iFC, iFA, iPrim⟩ := ih
    refine ⟨?_, ?_, ?_, ?_, ?_, ?_, ?_, ?_, ?_, ?_, ?_, ?_, ?_, ?_, ?_, ?_⟩
    · intro p hne
      rw [Nat.add_right_comm, expression_succ]
      rw [expression_succ] at hne ⊢
      exact iOr p hne
    · intro p hne
      rw [Nat.add_right_comm, or_succ]
      rw [or_succ] at hne ⊢
      exact shift_bind pre _ _ _ _ (iAnd p) (fun e q => iOrL e q) hne
    · intro e p hne
      show orLoop (n + 1 + j) e (p.shift pre) = (orLoop (n + 1) e p).shift pre
      have hne' : orLoop (n + 1) e p ≠ .outOfFuel := hne
      rw [Nat.add_right_comm, orLoop_succ]
      rw [orLoop_succ] at hne' ⊢
      exact shift_loop pre _ _ _ _ _ _ NewExprLogical e p (iAnd ·) (fun e q => iOrL e q) hne'
    · intro p hne
      rw [Nat.add_right_comm, and_succ]
      rw [and_succ] at hne ⊢
      exact shift_bind pre _ _ _ _ (iEq p) (fun e q => iAndL e q) hne
    · intro e p hne
      show andLoop (n + 1 + j) e (p.shift pre) = (andLoop (n + 1) e p).shift pre
      have hne' : andLoop (n + 1) e p ≠ .outOfFuel := hne
      rw [Nat.add_right_comm, andLoop_succ]
      rw [andLoop_succ] at hne' ⊢
      exact shift_loop pre _ _ _ _ _ _ NewExprLogical e p (iEq ·) (fun e q => iAndL e q) hne'
    · intro p hne
      rw [Nat.add_right_comm, equality_succ]
      rw [equality_succ] at hne ⊢
      exact shift_bind pre _ _ _ _ (iCmp p) (fun e q => iEqL e q) hne
    · intro e p hne
      show equalityLoop (n + 1 + j) e (p.shift pre) = (equalityLoop (n + 1) e p).shift pre
      have hne' : equalityLoop (n + 1) e p ≠ .outOfFuel := hne
      rw [Nat.add_right_comm, equalityLoop_succ]
      rw [equalityLoop_succ] at hne' ⊢
      exact shift_loop pre _ _ _ _ _ _ NewExprBinary e p (iCmp ·) (fun e q => iEqL e q) hne'
    · intro p hne
      rw [Nat.add_right_comm, comparison_succ]
      rw [comparison_succ] at hne ⊢
      exact shift_bind pre _ _ _ _ (iUn p) (fun e q => iCmpL e q) hne
    · intro e p hne
      show comparisonLoop (n + 1 + j) e (p.shift pre) = (comparisonLoop (n + 1) e p).shift pre
      have hne' : comparisonLoop (n + 1) e p ≠ .outOfFuel := hne
      rw [Nat.add_right_comm, comparisonLoop_succ]
      rw [comparisonLoop_succ] at hne' ⊢
      exact shift_loop pre _ _ _ _ _ _ NewExprBinary e p (iUn ·) (fun e q => iCmpL e q) hne'
    · intro p hne
      rw [Nat.add_right_comm, unary_succ]
      rw [unary_succ] at hne ⊢
      refine shift_match pre _ _ p _ _ _ _ ?_ (iCall p) hne
      intro t h3 h4 hy
      simp only [h3, h4] at hy ⊢
      exact shift_bind pre _ _ _ _ (iUn _) (fun e q _ => rfl) hy
    · intro p hne
      rw [Nat.add_right_comm, call_succ]
      rw [call_succ] at hne ⊢
      exact shift_bind pre _ _ _ _ (iPrim p) (fun e q => iCallL e q) hne
    · intro e p hne
      show callLoop (n + 1 + j) e (p.shift pre) = (callLoop (n + 1) e p).shift pre
      have hne' : callLoop (n + 1) e p ≠ .outOfFuel := hne
      rw [Nat.add_right_comm, callLoop_succ]
      rw [callLoop_succ] at hne' ⊢
      rcases matchTypes_cases pre p TokenLeftParen [] with ⟨h1, h2⟩ | ⟨h1, h2⟩ | ⟨t, h1, h2, -, -⟩
      · rw [h1, h2]; rfl
      · rw [h1, h2]; rfl
      · rw [h1] at hne'
        rw [h1, h2]
        exact shift_bind pre _ _ _ _ (iFC e _) (fun e q => iCallL e q) hne'
    · intro acc p hne
      rw [Nat.add_right_comm, exprList]
      rw [exprList] at hne ⊢
      rcases matchTypes_cases pre p TokenComma [] with ⟨h1, h2⟩ | ⟨h1, h2⟩ | ⟨t, h1, h2, -, -⟩
      · rw [h1, h2]; rfl
      · rw [h1, h2]; rfl
      · rw [h1] at hne
        rw [h1, h2]
        simp only at hne ⊢
        cases he : expression n { p with current := p.current + 1 } with
        | ok e p2 =>
          rw [he] at hne
          rw [iExpr _ (by rw [he]; simp), he]
          exact iList _ _ hne
        | error err q => rw [iExpr _ (by rw [he]; simp), he]; rfl
        | panic => rw [iExpr _ (by rw [he]; simp), he]; rfl
        | outOfFuel => rw [he] at hne; exact absurd rfl hne
    · intro e p hne
      show finishCall (n + 1 + j) e (p.shift pre) = (finishCall (n + 1) e p).shift pre
      have hne' : finishCall (n + 1) e p ≠ .outOfFuel := hne
      rw [Nat.add_right_comm, finishCall]
      rw [finishCall] at hne' ⊢
      exact shift_finish pre _ _ _ _ (fun paren arguments => NewExprCall e paren arguments)
        (shift_collected pre TokenRightParen p _ _ _ _ (iExpr p) iList) hne'
    · intro p hne
      rw [Nat.add_right_comm, finishArray]
      rw [finishArray] at hne ⊢
      exact shift_finish pre _ _ _ _ (fun bracket items => NewExprArray bracket items)
        (shift_collected pre TokenRightBracket p _ _ _ _ (iExpr p) iList) hne
    · intro p hne
      rw [Nat.add_right_comm, primary]
      rw [primary] at hne ⊢
      refine shift_match pre _ _ p _ _ _ _ (fun t h3 h4 hy => rfl) ?_ hne
      refine shift_match pre _ _ p _ _ _ _ (fun t h3 h4 hy => rfl) ?_
      refine shift_match pre _ _ p _ _ _ _
        (fun t h3 h4 hy => by simp only [h3, h4]; rfl) ?_
      refine shift_match pre _ _ p _ _ _ _
        (fun t h3 h4 hy => by simp only [h3, h4]; rfl) ?_
      refine shift_match pre _ _ p _ _ _ _
        (fun t h3 h4 hy => by simp only [h3, h4]; rfl) ?_
      refine shift_match pre _ _ p _ _ _ _ ?_ ?_
      · intro t _ _ hy
        exact shift_bind pre _ _ _ _ (iExpr _)
          (fun e q _ => shift_consume pre q _ _ (fun _ q3 => .ok (NewExprGrouping e) q3)
            (fun _ _ => rfl)) hy
      refine shift_match pre _ _ p _ _ _ _ (fun t _ _ hy => iFA _ hy) ?_
      intro _
      rw [peek_shift]
      cases p.peek <;> rfl

end Parser

/-- C19: when `Parse` returns an error, the error is the one `Parser.Error`
builds, with some message, for the token at which the parser stands: its
location text is ` at end` when this token is the end-of-input token, and
` at '<lexeme>'` when it is not.  And when the tokens `E`, followed by the
end-of-input token, parse as an expression up to that token, then a left
parenthesis followed by `E` and the end-of-input token makes `Parse` return
the error located ` at end` with the message `Expect ')' after expression.`,
the parser standing at the end-of-input token. -/
theorem parse_error_location (toks E : List Token) (e : Expr) (lp eof : Token) :
    (∀ (err : ParseError) (q : Parser), (NewParser toks).Parse = .error err q →
      ∃ (t : Token) (msg : String), q.peek = some t
        ∧ (t.typ = TokenEOF → err = ⟨report t.line " at end" msg⟩)
        ∧ (t.typ ≠ TokenEOF → err = ⟨report t.line (" at '" ++ t.lexeme ++ "'") msg⟩))
    ∧ (lp.typ = TokenLeftParen → eof.typ = TokenEOF →
        (NewParser (E ++ [eof])).Parse = .ok e ⟨E ++ [eof], E.length⟩ →
        (NewParser (lp :: (E ++ [eof]))).Parse
          = .error ⟨report eof.line " at end" "Expect ')' after expression."⟩
              ⟨lp :: (E ++ [eof]), E.length + 1⟩) := by
  constructor
  · intro err q h
    obtain ⟨t, msg, ht, he⟩ := (Parser.located_all _).1 _ err q h
    refine ⟨t, msg, ht, ?_, ?_⟩
    · intro hty; rw [he, Parser.Error, if_pos hty]
    · intro hty; rw [he, Parser.Error, if_neg hty]
  · intro hlp heof hE
    have hF : Parser.fuelFor (NewParser (lp :: (E ++ [eof])))
        = Parser.fuelFor (NewParser (E ++ [eof])) + 4 + 8 := by
      simp only [Parser.fuelFor, NewParser, List.length_cons, List.length_append,
        List.length_nil]
      omega
    have hne : Parser.expression (Parser.fuelFor (NewParser (E ++ [eof]))) (NewParser (E ++ [eof]))
        ≠ .outOfFuel := by
      have : Parser.expression (Parser.fuelFor (NewParser (E ++ [eof]))) (NewParser (E ++ [eof]))
          = .ok e ⟨E ++ [eof], E.length⟩ := hE
      rw [this]; simp
    have hexpr : Parser.expression (Parser.fuelFor (NewParser (E ++ [eof])) + 4)
        ⟨lp :: (E ++ [eof]), 0 + 1⟩ = .ok e ⟨lp :: (E ++ [eof]), E.length + 1⟩ := by
      have h := (Parser.stable_all [lp] 4 _).1 (NewParser (E ++ [eof])) hne
      have hE' : Parser.expression (Parser.fuelFor (NewParser (E ++ [eof])))
          (NewParser (E ++ [eof])) = .ok e ⟨E ++ [eof], E.length⟩ := hE
      rw [hE'] at h
      rw [Nat.add_comm E.length 1]
      exact h
    have hget0 : (⟨lp :: (E ++ [eof]), 0⟩ : Parser).tokens.get?
        (⟨lp :: (E ++ [eof]), 0⟩ : Parser).current = some lp := rfl
    have hgetE : (⟨lp :: (E ++ [eof]), E.length + 1⟩ : Parser).tokens.get?
        (⟨lp :: (E ++ [eof]), E.length + 1⟩ : Parser).current = some eof := by
      have := Parser.get?_after [lp] E [] eof
      rw [Nat.add_comm E.length 1]
      simpa using this
    have hcons : Parser.consume ⟨lp :: (E ++ [eof]), E.length + 1⟩ TokenRightParen
        "Expect ')' after expression."
        = some (.inr ⟨report eof.line " at end" "Expect ')' after expression."⟩) := by
      simp only [Parser.consume, Parser.check_of _ eof hgetE, Parser.peek_of _ eof hgetE, heof,
        Parser.Error, Option.map_some']
      rfl
    have hprim : Parser.primary (Parser.fuelFor (NewParser (E ++ [eof])) + 4 + 1)
        ⟨lp :: (E ++ [eof]), 0⟩
        = .error ⟨report eof.line " at end" "Expect ')' after expression."⟩
            ⟨lp :: (E ++ [eof]), E.length + 1⟩ := by
      rw [Parser.primary]
      simp only [Parser.matchTypes_of _ lp hget0, hlp, ne_eq, reduceCtorEq, not_false_eq_true,
        List.mem_singleton, and_self, and_false, if_true, if_false, hexpr, hcons]
    have hun : ¬ (lp.typ ≠ TokenEOF ∧ lp.typ ∈ [TokenBang, TokenMinus]) := by
      rw [hlp]; simp
    show Parser.expression _ ⟨lp :: (E ++ [eof]), 0⟩ = _
    rw [hF, show Parser.fuelFor (NewParser (E ++ [eof])) + 4 + 8
        = Parser.fuelFor (NewParser (E ++ [eof])) + 4 + 1 + 1 + 1 + 1 + 1 + 1 + 1 + 1 by omega,
      Parser.expression_succ, Parser.or_succ, Parser.and_succ, Parser.equality_succ,
      Parser.comparison_succ, Parser.unary_succ, Parser.matchTypes_of _ lp hget0, if_neg hun]
    simp only
    rw [Parser.call_succ, hprim]

/-- Instance of C19: the tokens of `)` fail at the right parenthesis, and the
tokens of `(a` fail at the end. -/
theorem parse_error_location_witness :
    (∃ (t : Token) (msg : String),
      (⟨[Token.mk TokenRightParen ")" .nil 1, Token.mk TokenEOF "" .nil 1], 0⟩ : Parser).peek
        = some t
      ∧ (t.typ = TokenEOF → Parser.Error (Token.mk TokenRightParen ")" .nil 1) "Expect expression."
          = ⟨report t.line " at end" msg⟩)
      ∧ (t.typ ≠ TokenEOF → Parser.Error (Token.mk TokenRightParen ")" .nil 1) "Expect expression."
          = ⟨report t.line (" at '" ++ t.lexeme ++ "'") msg⟩))
    ∧ (NewParser [Token.mk TokenLeftParen "(" .nil 1, identifierToken "a",
        Token.mk TokenEOF "" .nil 1]).Parse
      = .error ⟨report 1 " at end" "Expect ')' after expression."⟩
          ⟨[Token.mk TokenLeftParen "(" .nil 1, identifierToken "a",
            Token.mk TokenEOF "" .nil 1], 2⟩ :=
  ⟨(parse_error_location [Token.mk TokenRightParen ")" .nil 1, Token.mk TokenEOF "" .nil 1] []
      (ExprVariable (identifierToken "a")) (Token.mk TokenLeftParen "(" .nil 1)
      (Token.mk TokenEOF "" .nil 1)).1 _ _ rfl,
   (parse_error_location [] [identifierToken "a"] (ExprVariable (identifierToken "a"))
      (Token.mk TokenLeftParen "(" .nil 1) (Token.mk TokenEOF "" .nil 1)).2 rfl rfl rfl⟩

/-! ## C20: the printer -/

theorem acceptAll_eq_map (sprint : Value → String) (es : List Expr) :
    acceptAll sprint es = es.map (Print sprint) := by
  induction es with
  | nil => rfl
  | cons e es ih => rw [acceptAll, ih]; rfl

theorem foldl_append_init (l : List String) (init : String) :
    l.foldl (fun r s => r ++ s) init = init ++ l.foldl (fun r s => r ++ s) "" := by
  induction l generalizing init with
  | nil => simp
  | cons x xs ih =>
    simp only [List.foldl_cons, String.empty_append]
    rw [ih (init ++ x), ih x, String.append_assoc]

/-- The loop of `block` writes the children one after the other, each after
one space. -/
theorem block_children (rendered : List String) (init : String) :
    rendered.foldl (fun builder r => builder ++ " " ++ r) init
      = init ++ String.join (rendered.map fun r => " " ++ r) := by
  induction rendered generalizing init with
  | nil => simp [String.join]
  | cons x xs ih =>
    simp only [List.foldl_cons, List.map_cons, String.join]
    rw [ih, foldl_append_init _ ("" ++ (" " ++ x)), String.empty_append, String.join]
    simp only [String.append_assoc]

/-- C20: `Print` renders a Binary, a Logical and a Unary node as `(`, the
lexeme of the operator, every operand after one space, and `)`; a Call node
as `(`, the rendering of the callee, every argument after one space, and
`)`; a Variable as the lexeme of its name.  For identifier tokens `a` and
`b` and an operator token `op` of one of the eight operators that stand
between two operands, `Parse` on the tokens of `a op b` returns an expression
that `Print` renders as `(op a b)`. -/
theorem printer_rendering (sprint : Value → String) (l r callee : Expr) (op paren : Token)
    (arguments : List Expr) (name : Token) (la lb lop : String) (va vb vop : Value)
    (na nb nop : Int) (top : TokenType) (eof : Token) :
    Print sprint (ExprBinary l op r)
      = "(" ++ op.lexeme ++ " " ++ Print sprint l ++ " " ++ Print sprint r ++ ")"
    ∧ Print sprint (ExprLogical l op r)
      = "(" ++ op.lexeme ++ " " ++ Print sprint l ++ " " ++ Print sprint r ++ ")"
    ∧ Print sprint (ExprUnary op r) = "(" ++ op.lexeme ++ " " ++ Print sprint r ++ ")"
    ∧ Print sprint (ExprCall callee paren arguments)
      = "(" ++ Print sprint callee
          ++ String.join (arguments.map fun a => " " ++ Print sprint a) ++ ")"
    ∧ Print sprint (ExprVariable name) = name.lexeme
    ∧ (top ∈ binaryOperators → eof.typ = TokenEOF →
        ∃ (e : Expr) (p : Parser),
          (NewParser [Token.mk TokenIdentifier la va na, Token.mk top lop vop nop,
            Token.mk TokenIdentifier lb vb nb, eof]).Parse = .ok e p
          ∧ Print sprint e = "(" ++ lop ++ " " ++ la ++ " " ++ lb ++ ")") := by
  refine ⟨rfl, rfl, rfl, ?_, rfl, ?_⟩
  · show block (AcceptStr sprint callee) "(" ")" (acceptAll sprint arguments) = _
    rw [block, block_children, acceptAll_eq_map, List.map_map]
    rfl
  · intro htop heof
    obtain ⟨teof, leof, veof, neof⟩ := eof
    have heof' : teof = TokenEOF := heof
    subst heof'
    simp only [binaryOperators, List.mem_cons, List.mem_singleton, List.not_mem_nil, or_false]
      at htop
    rcases htop with h | h | h | h | h | h | h | h <;> subst h <;> exact ⟨_, _, rfl, rfl⟩

/-- Instance of C20: the parse of the tokens of `a == b` is rendered as
`(== a b)`. -/
theorem printer_rendering_witness :
    ∃ (e : Expr) (p : Parser),
      (NewParser [Token.mk TokenIdentifier "a" .nil 1, Token.mk TokenEqualEqual "==" .nil 1,
        Token.mk TokenIdentifier "b" .nil 1, Token.mk TokenEOF "" .nil 1]).Parse = .ok e p
      ∧ Print (fun _ => "") e = "(== a b)" :=
  (printer_rendering (fun _ => "") (ExprLiteral .nil .Bool) (ExprLiteral .nil .Bool)
    (ExprLiteral .nil .Bool) (Token.mk TokenEqualEqual "==" .nil 1)
    (Token.mk TokenRightParen ")" .nil 1) [] (Token.mk TokenIdentifier "a" .nil 1)
    "a" "b" "==" .nil .nil .nil 1 1 1 TokenEqualEqual (Token.mk TokenEOF "" .nil 1)).2.2.2.2.2
    (by decide) rfl

/-- The tokens of the source text `a == b`, which the instance of C20 parses. -/
theorem scan_a_equal_b :
    (NewScanner "a == b").ScanTokens asciiRuntime
      = ([Token.mk TokenIdentifier "a" .nil 1, Token.mk TokenEqualEqual "==" .nil 1,
          Token.mk TokenIdentifier "b" .nil 1, Token.mk TokenEOF "" .nil 1], none) := by
  rfl

/-! ## C21: unary minus -/

theorem evaluate_unary {σ : Type} (rt : GoRuntime) (p : Interpreter σ) (n : Nat) (op : Token)
    (r : Expr) (s : σ) :
    evaluate rt p (n + 1) (ExprUnary op r) s = VisitExprUnaryObj rt (evaluate rt p n) op r s := rfl

theorem evaluate_number {σ : Type} (rt : GoRuntime) (p : Interpreter σ) (n : Nat) (x : F64)
    (s : σ) :
    evaluate rt p (n + 1) (ExprLiteral (.float64 x) .Float64) s = (.ret (.float64 x) none, s) :=
  rfl

namespace F64

theorem neg_neg (x : F64) : neg (neg x) = x := by
  cases x with
  | nan => rfl
  | inf b => simp [neg]
  | negZero => simp [neg]
  | fin q =>
    by_cases hq : q = 0
    · simp [neg, hq]
    · simp [neg, hq]

theorem lt_neg_zero (x : F64) (h : lt (fin 0) x = true) : lt (neg x) (fin 0) = true := by
  cases x with
  | nan => simp [lt] at h
  | inf b => cases b <;> simp [lt, neg] at h ⊢
  | negZero => simp [lt, toRat] at h
  | fin q =>
    have hq : 0 < q := by simpa [lt, toRat] using h
    have hne : q ≠ 0 := ne_of_gt hq
    simp [neg, hne, lt, toRat, hq]

/-- The negation of a finite value stands for the opposite rational. -/
theorem toRat_neg (q : ℚ) : (neg (fin q)).toRat = -q := by
  by_cases hq : q = 0
  · simp [neg, hq, toRat]
  · simp [neg, hq, toRat]

end F64

/-- The evaluation of `- R` when `R` evaluates to a value. -/
theorem minus_of_value {σ : Type} (rt : GoRuntime) (p : Interpreter σ) (R : Expr)
    (lex : String) (lit : Value) (line : Int) (n : Nat) (s s1 : σ) (v : Value)
    (hR : evaluate rt p n R s = (.ret v none, s1)) :
    evaluate rt p (n + 1) (ExprUnary (Token.mk TokenMinus lex lit line) R) s
      = if (toNumber v).2 then (.ret (.float64 (toNumber v).1.neg) none, s1)
        else (.ret .nil (some (Err.RuntimeError
          (rt.sprintV v ++ " (" ++ rt.sprintT v ++ ") is not number"))), s1) := by
  rw [evaluate_unary, VisitExprUnaryObj, hR]
  rfl

/-- Whether the negation of a float is below zero is whether the float is
above zero. -/
theorem F64.lt_neg_eq (x : F64) : F64.lt (F64.neg x) (F64.fin 0) = F64.lt (F64.fin 0) x := by
  cases x with
  | nan => simp [F64.lt, F64.neg]
  | inf b => cases b <;> simp [F64.lt, F64.neg]
  | negZero => simp [F64.lt, F64.neg, F64.toRat]
  | fin q =>
    by_cases hq : q = 0
    · simp [F64.neg, hq, F64.lt, F64.toRat]
    · simp [F64.neg, hq, F64.lt, F64.toRat]

/-- The parse of `-n < 0` for a number token with the literal `x` evaluates
to whether `x` is above zero. -/
theorem minus_less_value {σ : Type} (rt : GoRuntime) (p : Interpreter σ) (x : F64)
    (lexN : String) (lineN : Int) (n : Nat) (s : σ) :
    ∃ (e : Expr) (q : Parser),
      (NewParser (minusLessTokens (Token.mk TokenNumber lexN (.float64 x) lineN))).Parse
        = .ok e q
      ∧ evaluate rt p (n + 3) e s = (.ret (.bool (F64.lt (F64.fin 0) x)) none, s) := by
  refine ⟨_, _, rfl, ?_⟩
  have h1 := minus_of_value rt p (ExprLiteral (.float64 x) .Float64)
    "-" .nil lineN (n + 1) s s _ (evaluate_number rt p n _ s)
  simp only [toNumber, if_true] at h1
  simp only [NewExprBinary, NewExprUnary, NewExprLiteral, Token.line, Token.literal]
  have hlit : evaluate rt p (n + 2) (ExprLiteral (.float64 (.fin 0)) .Float64) s
      = (.ret (.float64 (.fin 0)) none, s) := rfl
  rw [show n + 3 = n + 2 + 1 from rfl, evaluate_binary, VisitExprBinaryObj, h1]
  simp [hlit, toNumber, Token.typ, F64.lt_neg_eq]

/-- C21, amended: when the operand evaluates to the value `v`, `-` returns
the `float64` negation of the number `toNumber` coerces `v` to when `v` is a
number, and a `RuntimeError` whose message ends in `is not number` when it
is not; the negation of a finite value stands for the opposite rational.
For a number token whose literal is the `float64` value `ParseFloat` gives a
number text, the parse of `--n == n` evaluates to true, and the parse of
`-n < 0` evaluates to true when this value is positive and to false when it
is not, as for a text that writes a positive number too small for a
`float64`, which `ParseFloat` reads as zero. -/
theorem unary_minus {σ : Type} (rt : GoRuntime) (p : Interpreter σ) (R : Expr)
    (lex : String) (lit : Value) (line : Int) (n : Nat) (s s1 : σ) (v : Value) (q : ℚ)
    (text : List Char) (lexN : String) (lineN : Int) :
    (evaluate rt p n R s = (.ret v none, s1) → (toNumber v).2 = true →
      evaluate rt p (n + 1) (ExprUnary (Token.mk TokenMinus lex lit line) R) s
        = (.ret (.float64 (toNumber v).1.neg) none, s1))
    ∧ (evaluate rt p n R s = (.ret v none, s1) → (toNumber v).2 = false →
      ∃ msg : String,
        evaluate rt p (n + 1) (ExprUnary (Token.mk TokenMinus lex lit line) R) s
          = (.ret .nil (some (Err.RuntimeError (msg ++ "is not number"))), s1))
    ∧ (F64.neg (F64.fin q)).toRat = -q
    ∧ (∃ (e : Expr) (q : Parser),
        (NewParser (doubleMinusTokens
          (Token.mk TokenNumber lexN (.float64 (ParseFloat text)) lineN))).Parse = .ok e q
        ∧ evaluate rt p (n + 4) e s = (.ret (.bool true) none, s))
    ∧ (F64.lt (F64.fin 0) (ParseFloat text) = true →
        ∃ (e : Expr) (q : Parser),
          (NewParser (minusLessTokens
            (Token.mk TokenNumber lexN (.float64 (ParseFloat text)) lineN))).Parse = .ok e q
          ∧ evaluate rt p (n + 3) e s = (.ret (.bool true) none, s))
    ∧ (F64.lt (F64.fin 0) (ParseFloat text) = false →
        ∃ (e : Expr) (q : Parser),
          (NewParser (minusLessTokens
            (Token.mk TokenNumber lexN (.float64 (ParseFloat text)) lineN))).Parse = .ok e q
          ∧ evaluate rt p (n + 3) e s = (.ret (.bool false) none, s)) := by
  refine ⟨?_, ?_, F64.toRat_neg q, ?_, ?_, ?_⟩
  · intro hR hv
    rw [minus_of_value rt p R lex lit line n s s1 v hR, hv]
    rfl
  · intro hR hv
    refine ⟨rt.sprintV v ++ " (" ++ rt.sprintT v ++ ") ", ?_⟩
    rw [minus_of_value rt p R lex lit line n s s1 v hR, hv, String.append_assoc _ ") " _]
    rfl
  · refine ⟨_, _, rfl, ?_⟩
    have h1 := minus_of_value rt p (ExprLiteral (.float64 (ParseFloat text)) .Float64)
      "-" .nil lineN (n + 1) s s _ (evaluate_number rt p n _ s)
    have h2 := minus_of_value rt p _ "-" .nil lineN (n + 2) s s _ h1
    simp only [toNumber, if_true] at h1 h2
    simp only [NewExprBinary, NewExprUnary, NewExprLiteral, Token.line, Token.literal]
    have hlit : evaluate rt p (n + 3) (ExprLiteral (.float64 (ParseFloat text)) .Float64) s
        = (.ret (.float64 (ParseFloat text)) none, s) := rfl
    rw [show n + 4 = n + 3 + 1 from rfl, evaluate_binary, VisitExprBinaryObj, h2]
    simp [hlit, toNumber, Token.typ, isEqual, ifaceEq, boxBool, F64.neg_neg, ParseFloat_eq_self]
  · intro hpos
    refine ⟨_, _, rfl, ?_⟩
    have h1 := minus_of_value rt p (ExprLiteral (.float64 (ParseFloat text)) .Float64)
      "-" .nil lineN (n + 1) s s _ (evaluate_number rt p n _ s)
    simp only [toNumber, if_true] at h1
    simp only [NewExprBinary, NewExprUnary, NewExprLiteral, Token.line, Token.literal]
    have hlit : evaluate rt p (n + 2) (ExprLiteral (.float64 (.fin 0)) .Float64) s
        = (.ret (.float64 (.fin 0)) none, s) := rfl
    rw [show n + 3 = n + 2 + 1 from rfl, evaluate_binary, VisitExprBinaryObj, h1]
    simp [hlit, toNumber, Token.typ, F64.lt_neg_zero _ hpos]
  · intro hnot
    obtain ⟨e, q, hp, he⟩ := minus_less_value rt p (ParseFloat text) lexN lineN n s
    exact ⟨e, q, hp, by rw [he, hnot]⟩

/-- Instance of C21: `-age` for `age -> 18` is the `float64` -18. -/
theorem unary_minus_witness :
    evaluate asciiRuntime ageInterpreter 2 (ExprUnary (Token.mk TokenMinus "-" .nil 1) ageVariable) ()
      = (.ret (.float64 (F64.ofInt 18).neg) none, ()) :=
  (unary_minus asciiRuntime ageInterpreter ageVariable "-" .nil 1 1 () () (.int .int 18) 0 []
    "" 1).1 rfl rfl

/-! ## C22: the truthy check of `!` -/

/-- The evaluation of `! R` when `R` evaluates to a value. -/
theorem bang_of_value {σ : Type} (rt : GoRuntime) (p : Interpreter σ) (R : Expr)
    (lex : String) (lit : Value) (line : Int) (n : Nat) (s s1 : σ) (v : Value)
    (hR : evaluate rt p n R s = (.ret v none, s1)) :
    evaluate rt p (n + 1) (ExprUnary (Token.mk TokenBang lex lit line) R) s
      = match isTruthy rt v with
        | (_, some err) => (.ret .nil (some err), s1)
        | (res, none) => (.ret (.bool (!res)) none, s1) := by
  rw [evaluate_unary, VisitExprUnaryObj, hR]
  rfl

/-- C22, amended: when the operand evaluates to the value `v`, `!` returns
the negation of `v` with no error when `v` is a boolean; it returns the
`RuntimeError` with the message `nil value` when `v` is nil, and the
`RuntimeError` with the message `not bool value: ` followed by the value
when `v` is any other value; no value that is not a boolean gives a result. -/
theorem bang_truthy_check {σ : Type} (rt : GoRuntime) (p : Interpreter σ) (R : Expr)
    (lex : String) (lit : Value) (line : Int) (n : Nat) (s s1 : σ) (v : Value)
    (hR : evaluate rt p n R s = (.ret v none, s1)) :
    (∀ b : Bool, v = .bool b →
      evaluate rt p (n + 1) (ExprUnary (Token.mk TokenBang lex lit line) R) s
        = (.ret (.bool (!b)) none, s1))
    ∧ (v = .nil →
      evaluate rt p (n + 1) (ExprUnary (Token.mk TokenBang lex lit line) R) s
        = (.ret .nil (some (Err.RuntimeError "nil value")), s1))
    ∧ (v ≠ .nil → (∀ b : Bool, v ≠ .bool b) →
      evaluate rt p (n + 1) (ExprUnary (Token.mk TokenBang lex lit line) R) s
        = (.ret .nil (some (Err.RuntimeError ("not bool value: " ++ rt.sprintV v))), s1)) := by
  have h := bang_of_value rt p R lex lit line n s s1 v hR
  refine ⟨?_, ?_, ?_⟩
  · intro b hb
    subst hb
    rw [h]; rfl
  · intro hv
    subst hv
    rw [h]; rfl
  · intro hnil hbool
    rw [h]
    cases v with
    | nil => exact absurd rfl hnil
    | bool b => exact absurd rfl (hbool b)
    | _ => rfl

/-- Instance of C22: `!true` is false, and `!"a"` fails. -/
theorem bang_truthy_check_witness :
    evaluate asciiRuntime (NewInterpreter Unit) 2
        (ExprUnary (Token.mk TokenBang "!" .nil 1) (ExprLiteral (.bool true) .Bool)) ()
      = (.ret (.bool false) none, ())
    ∧ evaluate asciiRuntime (NewInterpreter Unit) 2
        (ExprUnary (Token.mk TokenBang "!" .nil 1) (stringLiteral ['a'])) ()
      = (.ret .nil (some (Err.RuntimeError "not bool value: a")), ()) :=
  ⟨(bang_truthy_check asciiRuntime (NewInterpreter Unit) (ExprLiteral (.bool true) .Bool)
      "!" .nil 1 1 () () (.bool true) rfl).1 true rfl,
   (bang_truthy_check asciiRuntime (NewInterpreter Unit) (stringLiteral ['a'])
      "!" .nil 1 1 () () (.str "a") rfl).2.2 (by simp) (by simp)⟩

/-- The claim C22 as stated fails: for the nil result of the host function
`nothing`, which returns no value, `!nothing()` fails with the message
`nil value`, which does not start with `not bool value`. -/
theorem bang_of_nil :
    evaluate asciiRuntime nothingInterpreter 3
        (ExprUnary (Token.mk TokenBang "!" .nil 1) nothingCall) ()
      = (.ret .nil (some (Err.RuntimeError "nil value")), ())
    ∧ ¬ ∃ rest : String, "nil value" = "not bool value" ++ rest := by
  refine ⟨rfl, ?_⟩
  rintro ⟨rest, h⟩
  have h2 := congrArg String.data h
  simp at h2

/-! ## C23: the registration of host functions -/

/-- What `DefineGoFunc` does on a function and on a value that is not nil: a
function of `N` parameters and at most one result is bound, with no error,
to a callable whose `ArgNum` is `N`, and the other names keep their values;
a function of more than one result and a value that is not a function give
an error and leave the interpreter as it is. -/
theorem host_registration {σ : Type} (rt : GoRuntime) (p : Interpreter σ) (name : String)
    (fn : GoFunction σ) (v : Value) (tok : Token) :
    (fn.NumOut ≤ 1 →
      ∃ (q : Interpreter σ) (c : Callable σ),
        DefineGoFunc rt p name (.func fn) = some (q, none)
        ∧ q.Environment.Get (identifierToken name) = (.callable p.heap.length, none)
        ∧ q.heap.get? p.heap.length = some c ∧ c.ArgNum = fn.In.length
        ∧ (tok.lexeme ≠ name → q.Environment.Get tok = p.Environment.Get tok))
    ∧ (1 < fn.NumOut →
      ∃ e : Err, DefineGoFunc rt p name (.func fn) = some (p, some e))
    ∧ (v ≠ .nil → ∃ e : Err, DefineGoFunc rt p name (.value v) = some (p, some e)) := by
  refine ⟨?_, ?_, ?_⟩
  · intro h
    have hn : ¬ 1 < fn.NumOut := by omega
    refine ⟨{ Environment := p.Environment.Define name (.callable p.heap.length),
              heap := p.heap ++ [{ ArgNum := fn.In.length, Call := goFuncCall rt name fn }] },
      { ArgNum := fn.In.length, Call := goFuncCall rt name fn }, ?_, ?_, ?_, rfl, ?_⟩
    · simp only [DefineGoFunc, hn, if_false]
    · simp [Environment.Get, Environment.Define, identifierToken, NewToken, Token.lexeme]
    · simp
    · intro hne
      simp [Environment.Get, Environment.Define, hne]
  · intro h
    exact ⟨Err.other "too many return values", by simp only [DefineGoFunc, h, if_true]⟩
  · intro hv
    cases v with
    | nil => exact absurd rfl hv
    | _ => exact ⟨_, rfl⟩

/-- C23 fails on the code: `DefineGoFunc(name, nil)` returns no error, it
panics, in asking the kind of the type of the nil interface. -/
theorem register_nil_panics :
    DefineGoFunc asciiRuntime (NewInterpreter Unit) "f" (.value .nil) = none := rfl

/-! ## C26: reflexivity of equality -/

namespace F64

theorem eq_self (x : F64) (h : x ≠ nan) : eq x x = true := by
  cases x with
  | nan => exact absurd rfl h
  | inf b => simp [eq]
  | negZero => simp [eq]
  | fin q => simp [eq]

theorem ofRounded_ne_nan (b : Bool) (o : Option ℚ) : ofRounded b o ≠ nan := by
  cases o with
  | none => simp [ofRounded]
  | some v =>
    by_cases hv : v = 0
    · cases b <;> simp [ofRounded, hv]
    · simp [ofRounded, hv]

theorem ofInt_ne_nan (n : Int) : ofInt n ≠ nan := by
  unfold ofInt
  split
  · simp
  · exact ofRounded_ne_nan _ _

end F64

/-- The coercion of a plain value that is a number is not a NaN. -/
theorem toNumber_ne_nan (v : Value) (hv : plainValue v) (hn : (toNumber v).2 = true) :
    (toNumber v).1 ≠ F64.nan := by
  cases v with
  | int k n => cases k <;> first | exact F64.ofInt_ne_nan n | (simp [toNumber] at hn)
  | float32 f => exact hv
  | float64 f => exact hv
  | _ => simp [toNumber] at hn

/-- Go's `==` on a plain value and itself is true. -/
theorem ifaceEq_self (rt : GoRuntime) (v : Value) (hv : plainValue v) :
    ifaceEq rt v v = some true := by
  cases v with
  | bool b => simp [ifaceEq]
  | str s => simp [ifaceEq]
  | int k n => simp [ifaceEq]
  | float32 f => simp [ifaceEq, F64.eq_self f hv]
  | float64 f => simp [ifaceEq, F64.eq_self f hv]
  | _ => exact absurd hv (by simp [plainValue])

/-- A NaN differs from itself: when `E` evaluates to a `float64` or `float32`
NaN, leaving the state of the host as it was, `E == E` evaluates to false and
`E != E` to true. -/
theorem equality_of_nan {σ : Type} (rt : GoRuntime) (p : Interpreter σ) (E : Expr)
    (lex : String) (lit : Value) (line : Int) (n : Nat) (s : σ)
    (hE : evaluate rt p n E s = (.ret (.float64 F64.nan) none, s)
      ∨ evaluate rt p n E s = (.ret (.float32 F64.nan) none, s)) :
    evaluate rt p (n + 1) (ExprBinary E (Token.mk TokenEqualEqual lex lit line) E) s
      = (.ret (.bool false) none, s)
    ∧ evaluate rt p (n + 1) (ExprBinary E (Token.mk TokenBangEqual lex lit line) E) s
      = (.ret (.bool true) none, s) := by
  rcases hE with hE | hE <;> constructor <;>
    simp [evaluate_binary, VisitExprBinaryObj, hE, toNumber, Token.typ, isEqual, ifaceEq, boxBool,
      boxNotBool, F64.eq]

/-- C26, amended: when `E` evaluates, with no error and leaving the state
of the host as it was, to a boolean, a string, an integer or a float that is
not a NaN, `E == E` evaluates to true and `E != E` to false; and when an
expression evaluates in this way to a NaN, `E == E` evaluates to false and
`E != E` to true. -/
theorem equality_reflexive {σ : Type} (rt : GoRuntime) (p : Interpreter σ) (E : Expr)
    (lex : String) (lit : Value) (line : Int) (n : Nat) (s : σ) (v : Value)
    (hE : evaluate rt p n E s = (.ret v none, s)) (hv : plainValue v) :
    evaluate rt p (n + 1) (ExprBinary E (Token.mk TokenEqualEqual lex lit line) E) s
      = (.ret (.bool true) none, s)
    ∧ evaluate rt p (n + 1) (ExprBinary E (Token.mk TokenBangEqual lex lit line) E) s
      = (.ret (.bool false) none, s)
    ∧ (∀ (E2 : Expr),
        (evaluate rt p n E2 s = (.ret (.float64 F64.nan) none, s)
          ∨ evaluate rt p n E2 s = (.ret (.float32 F64.nan) none, s)) →
        evaluate rt p (n + 1) (ExprBinary E2 (Token.mk TokenEqualEqual lex lit line) E2) s
          = (.ret (.bool false) none, s)
        ∧ evaluate rt p (n + 1) (ExprBinary E2 (Token.mk TokenBangEqual lex lit line) E2) s
          = (.ret (.bool true) none, s)) := by
  have hnan := fun (E2 : Expr) h2 => equality_of_nan rt p E2 lex lit line n s h2
  by_cases hn : (toNumber v).2 = true
  · have hx := F64.eq_self _ (toNumber_ne_nan v hv hn)
    refine ⟨?_, ?_, hnan⟩ <;>
      simp [evaluate_binary, VisitExprBinaryObj, hE, hn, Token.typ, isEqual, ifaceEq, boxBool,
        boxNotBool, hx]
  · have hi := ifaceEq_self rt v hv
    have hnil : v ≠ .nil := by rintro rfl; exact hv
    have hsl : ∀ t items, v ≠ .slice t items := by rintro t items rfl; exact hv
    have he : isEqual rt (evaluate rt p n) v v s = (.ret true none, s) := by
      cases v with
      | nil => exact absurd rfl hnil
      | slice t items => exact absurd rfl (hsl t items)
      | _ => simp [isEqual, hi]
    refine ⟨?_, ?_, hnan⟩ <;>
      simp [evaluate_binary, VisitExprBinaryObj, hE, hn, Token.typ, he, boxBool, boxNotBool]

/-- Instance of C26: `age == age` for `age -> 18`. -/
theorem equality_reflexive_witness :
    evaluate asciiRuntime ageInterpreter 2
        (ExprBinary ageVariable (Token.mk TokenEqualEqual "==" .nil 1) ageVariable) ()
      = (.ret (.bool true) none, ()) :=
  (equality_reflexive asciiRuntime ageInterpreter ageVariable "==" .nil 1 1 () (.int .int 18)
    rfl trivial).1

/-- The claim C26 as stated fails: for `x` registered as the `float64` NaN,
a number, `x == x` evaluates to false and `x != x` to true. -/
theorem nan_differs_from_itself :
    evaluate asciiRuntime nanInterpreter 2
        (ExprBinary undefinedVariable (Token.mk TokenEqualEqual "==" .nil 1) undefinedVariable) ()
      = (.ret (.bool false) none, ())
    ∧ evaluate asciiRuntime nanInterpreter 2
        (ExprBinary undefinedVariable (Token.mk TokenBangEqual "!=" .nil 1) undefinedVariable) ()
      = (.ret (.bool true) none, ()) :=
  ⟨rfl, rfl⟩

/-- The nil interface compared with itself: `isEqual` asks the kind of the
type of its left operand, which panics for nil, and the deferred function
makes the result false; so `nothing() == nothing()` is false. -/
theorem nil_differs_from_itself :
    evaluate asciiRuntime nothingInterpreter 3
        (ExprBinary nothingCall (Token.mk TokenEqualEqual "==" .nil 1) nothingCall) ()
      = (.ret (.bool false) none, ()) :=
  rfl

/-! ## C27: equality of array literals -/

theorem equalItems_length {σ : Type} (rt : GoRuntime) (ev : Expr → σ → Outcome Value × σ) :
    ∀ (as bs : List Expr) (s s1 : σ), EqualItems rt ev as bs s s1 → as.length = bs.length := by
  intro as
  induction as with
  | nil =>
    intro bs s s1 h
    cases bs with
    | nil => rfl
    | cons b bs => exact absurd h (by simp [EqualItems])
  | cons a as ih =>
    intro bs s s1 h
    cases bs with
    | nil => exact absurd h (by simp [EqualItems])
    | cons b bs =>
      obtain ⟨va, vb, sa, sb, _, _, _, hrest⟩ := h
      simp [ih bs sb s1 hrest]

/-- Elements that evaluate to plain values and leave the state of the host
as it was are equal, in pairs, to themselves. -/
theorem equalItems_self {σ : Type} (rt : GoRuntime) (ev : Expr → σ → Outcome Value × σ)
    (s : σ) :
    ∀ (as : List Expr), (∀ a ∈ as, ∃ v, ev a s = (.ret v none, s) ∧ plainValue v) →
      EqualItems rt ev as as s s := by
  intro as
  induction as with
  | nil => intro _; rfl
  | cons a as ih =>
    intro h
    obtain ⟨v, hv, hp⟩ := h a (List.mem_cons_self a as)
    exact ⟨v, v, s, s, hv, hv, ifaceEq_self rt v hp,
      ih (fun x hx => h x (List.mem_cons_of_mem a hx))⟩

/-- The loop of `isSliceEqual` on the values of two array literals whose
remaining elements are equal in pairs gives `true`. -/
theorem isSliceEqualLoop_equalItems {σ : Type} (rt : GoRuntime)
    (ev : Expr → σ → Outcome Value × σ) (as bs : List Expr) :
    ∀ (as1 bs1 : List Expr) (i : Nat) (s s1 : σ),
      as.drop i = as1 → bs.drop i = bs1 → EqualItems rt ev as1 bs1 s s1 →
      isSliceEqualLoop rt ev (.slice .any (as.map Value.node)) (.slice .any (bs.map Value.node))
          as1.length i s
        = (.ret true none, s1) := by
  intro as1
  induction as1 with
  | nil =>
    intro bs1 i s s1 _ _ h
    cases bs1 with
    | nil =>
      have hs : s = s1 := h
      subst hs
      rfl
    | cons b bs => exact absurd h (by simp [EqualItems])
  | cons a at1 ih =>
    intro bs1 i s s1 ha hb h
    cases bs1 with
    | nil => exact absurd h (by simp [EqualItems])
    | cons b bt =>
      obtain ⟨va, vb, sa, sb, hva, hvb, heq, hrest⟩ := h
      obtain ⟨hai, had⟩ := drop_eq_cons as i a at1 ha
      obtain ⟨hbi, hbd⟩ := drop_eq_cons bs i b bt hb
      rw [List.get?_eq_getElem?] at hai hbi
      have hA : reflectIndex (.slice .any (as.map Value.node)) i = some (.any, .node a) := by
        simp only [reflectIndex, List.get?_eq_getElem?, List.getElem?_map, hai, Option.map]
      have hB : reflectIndex (.slice .any (bs.map Value.node)) i = some (.any, .node b) := by
        simp only [reflectIndex, List.get?_eq_getElem?, List.getElem?_map, hbi, Option.map]
      rw [List.length_cons, isSliceEqualLoop_succ, hA, hB]
      have key : compareItems rt ev (some (.any, .node a)) (some (.any, .node b)) s
          = (.ret true none, sb) := by
        simp only [compareItems, TryConvert_any_any, evalIfExpr, hva, hvb, heq]
      rw [key]
      simp only [andThen]
      exact ih bt (i + 1) sb s1 had hbd hrest

/-- Go's `==` on a sequence and any value is never true: it is false, or it
panics. -/
theorem ifaceEq_slice_left (rt : GoRuntime) (t : Ty) (xs : List Value) (v : Value) :
    ifaceEq rt (.slice t xs) v ≠ some true := by
  cases v <;> simp only [ifaceEq, ne_eq, Option.some.injEq, Bool.false_eq_true, not_false_eq_true]
  split <;> simp

/-- One round of the loop of `isSliceEqual` on a nested array literal and an
element of an array literal never finds them equal. -/
theorem compareItems_nested {σ : Type} (rt : GoRuntime) (p : Interpreter σ) (n : Nat)
    (tk : Token) (inner : List Expr) (b : Expr) (s s1 : σ) (e : Option Err) :
    compareItems rt (evaluate rt p (n + 1)) (some (.any, .node (ExprArray tk inner)))
      (some (.any, .node b)) s ≠ (.ret true e, s1) := by
  simp only [compareItems, TryConvert_any_any, evalIfExpr, evaluate_array]
  rcases hb : evaluate rt p (n + 1) b s with ⟨o, s2⟩
  cases o with
  | panic q => simp
  | outOfFuel => simp
  | ret vb err =>
    cases err with
    | some err => simp
    | none =>
      simp only
      cases hi : ifaceEq rt (.slice .any (inner.map Value.node)) vb with
      | none => simp
      | some c =>
        cases c with
        | false => simp
        | true => exact absurd hi (ifaceEq_slice_left rt _ _ _)

/-- The loop of `isSliceEqual` on the values of two array literals, the
first of which has a nested array literal at an index that the loop reaches,
never gives `true`. -/
theorem isSliceEqualLoop_nested {σ : Type} (rt : GoRuntime) (p : Interpreter σ) (n : Nat)
    (as bs : List Expr) (i : Nat) (tk : Token) (inner : List Expr)
    (hi : as.get? i = some (ExprArray tk inner)) :
    ∀ (k j : Nat) (s s1 : σ) (e : Option Err), j ≤ i → i < j + k →
      isSliceEqualLoop rt (evaluate rt p (n + 1)) (.slice .any (as.map Value.node))
        (.slice .any (bs.map Value.node)) k j s ≠ (.ret true e, s1) := by
  intro k
  induction k with
  | zero => intro j s s1 e h1 h2; omega
  | succ k ih =>
    intro j s s1 e h1 h2
    rw [isSliceEqualLoop_succ]
    rcases hr : compareItems rt (evaluate rt p (n + 1))
      (reflectIndex (.slice .any (as.map Value.node)) j)
      (reflectIndex (.slice .any (bs.map Value.node)) j) s with ⟨o, s2⟩
    have hnot : ∀ e2, j = i → (o, s2) ≠ (Outcome.ret true e2, s2) := by
      intro e2 hj
      subst hj
      have hA : reflectIndex (.slice .any (as.map Value.node)) j
          = some (.any, .node (ExprArray tk inner)) := by
        rw [List.get?_eq_getElem?] at hi
        simp only [reflectIndex, List.get?_eq_getElem?, List.getElem?_map, hi, Option.map]
      rw [hA] at hr
      cases hB : bs.get? j with
      | none =>
        have hB2 : reflectIndex (.slice .any (bs.map Value.node)) j = none := by
          rw [List.get?_eq_getElem?] at hB
          simp only [reflectIndex, List.get?_eq_getElem?, List.getElem?_map, hB, Option.map]
        rw [hB2] at hr
        simp only [compareItems] at hr
        rw [← hr]
        simp
      | some b =>
        have hB2 : reflectIndex (.slice .any (bs.map Value.node)) j = some (.any, .node b) := by
          rw [List.get?_eq_getElem?] at hB
          simp only [reflectIndex, List.get?_eq_getElem?, List.getElem?_map, hB, Option.map]
        rw [hB2] at hr
        rw [← hr]
        exact compareItems_nested rt p n tk inner b s s2 e2
    cases o with
    | panic q => simp [andThen]
    | outOfFuel => simp [andThen]
    | ret c err =>
      cases c with
      | false => cases err <;> simp [andThen]
      | true =>
        have herr := compareItems_true rt _ _ _ _ _ _ hr
        subst herr
        simp only [andThen]
        by_cases hj : j = i
        · exact absurd rfl (hnot none hj)
        · exact ih (j + 1) s2 s1 e (by omega) (by omega)

/-- An array literal with a nested array literal among its elements equals
no array literal: `A == B` never evaluates to true. -/
theorem nested_array_never_equal {σ : Type} (rt : GoRuntime) (p : Interpreter σ)
    (ba bb : Token) (as bs : List Expr) (lex : String) (lit : Value) (line : Int) (n : Nat)
    (s s2 : σ) (i : Nat) (tk : Token) (inner : List Expr) (e : Option Err)
    (hi : as.get? i = some (ExprArray tk inner)) :
    evaluate rt p (n + 2)
        (ExprBinary (ExprArray ba as) (Token.mk TokenEqualEqual lex lit line) (ExprArray bb bs)) s
      ≠ (.ret (.bool true) e, s2) := by
  have hbin := equality_of_non_numbers rt p (ExprArray ba as) (ExprArray bb bs) lex lit line
    (n + 1) s s s _ _ (evaluate_array rt p n ba as s) (evaluate_array rt p n bb bs s) rfl rfl
  have hlt : i < as.length := by
    rcases Nat.lt_or_ge i as.length with h | h
    · exact h
    · rw [List.get?_eq_none.mpr h] at hi; cases hi
  rw [hbin.1, isEqual_slice]
  simp only [isSliceEqual, reflectLen, List.length_map]
  by_cases hlen : as.length = bs.length
  · rw [if_neg (by simpa using hlen)]
    have hloop := isSliceEqualLoop_nested rt p n as bs i tk inner hi as.length 0 s
    rcases hr : isSliceEqualLoop rt (evaluate rt p (n + 1)) (.slice .any (as.map Value.node))
      (.slice .any (bs.map Value.node)) as.length 0 s with ⟨o, s3⟩
    cases o with
    | panic q => simp [boxBool]
    | outOfFuel => simp [boxBool]
    | ret c err =>
      cases c with
      | false => simp [boxBool]
      | true => exact absurd hr (hloop s3 err (Nat.zero_le _) (by omega))
  · rw [if_pos (by simpa using hlen)]
    simp [boxBool]

/-- C27, amended: let the elements of the array literals `A` and `B` be
equal in pairs: evaluated in the order of `isSliceEqual`, each gives a value
with no error, and Go's `==` on interface values finds the two values of
every position equal (two equal strings, two equal booleans, two numbers of
one type that are equal).  Then `A == B` evaluates to true with no error.  In
particular `A == A` is true when the elements of `A` evaluate, leaving the
state of the host as it was, to booleans, strings, integers or floats that
are not a NaN.  And when an element of `A` is itself an array literal,
`A == B` never evaluates to true, whatever the array literal `B` is. -/
theorem array_literal_equality {σ : Type} (rt : GoRuntime) (p : Interpreter σ)
    (ba bb : Token) (as bs : List Expr) (lex : String) (lit : Value) (line : Int) (n : Nat)
    (s s1 : σ) :
    (EqualItems rt (evaluate rt p (n + 1)) as bs s s1 →
      evaluate rt p (n + 2)
          (ExprBinary (ExprArray ba as) (Token.mk TokenEqualEqual lex lit line) (ExprArray bb bs)) s
        = (.ret (.bool true) none, s1))
    ∧ ((∀ a ∈ as, ∃ v, evaluate rt p (n + 1) a s = (.ret v none, s) ∧ plainValue v) →
      evaluate rt p (n + 2)
          (ExprBinary (ExprArray ba as) (Token.mk TokenEqualEqual lex lit line) (ExprArray ba as)) s
        = (.ret (.bool true) none, s))
    ∧ (∀ (i : Nat) (tk : Token) (inner : List Expr) (e : Option Err) (s2 : σ),
      as.get? i = some (ExprArray tk inner) →
      evaluate rt p (n + 2)
          (ExprBinary (ExprArray ba as) (Token.mk TokenEqualEqual lex lit line) (ExprArray bb bs)) s
        ≠ (.ret (.bool true) e, s2)) := by
  have main : ∀ (b2 : Token) (cs : List Expr) (s2 : σ),
      EqualItems rt (evaluate rt p (n + 1)) as cs s s2 →
      evaluate rt p (n + 2)
          (ExprBinary (ExprArray ba as) (Token.mk TokenEqualEqual lex lit line) (ExprArray b2 cs)) s
        = (.ret (.bool true) none, s2) := by
    intro b2 cs s2 h
    have hlen := equalItems_length rt _ as cs s s2 h
    have hloop := isSliceEqualLoop_equalItems rt (evaluate rt p (n + 1)) as cs as cs 0 s s2
      rfl rfl h
    have hbin := equality_of_non_numbers rt p (ExprArray ba as) (ExprArray b2 cs) lex lit line
      (n + 1) s s s _ _ (evaluate_array rt p n ba as s) (evaluate_array rt p n b2 cs s) rfl rfl
    rw [hbin.1, isEqual_slice]
    simp only [isSliceEqual, reflectLen, List.length_map, hlen, ne_eq, not_true_eq_false,
      if_false]
    rw [← hlen, hloop]
    rfl
  exact ⟨main bb bs s1, fun h => main ba as s (equalItems_self rt _ s as h),
    fun i tk inner e s2 hi =>
      nested_array_never_equal rt p ba bb as bs lex lit line n s s2 i tk inner e hi⟩

/-- Instance of C27: `["a", true] == ["a", true]` evaluates to true. -/
theorem array_literal_equality_witness :
    evaluate asciiRuntime (NewInterpreter Unit) 2
        (ExprBinary
          (ExprArray (NewToken TokenRightBracket "]" .nil 1)
            [stringLiteral ['a'], ExprLiteral (.bool true) .Bool])
          (Token.mk TokenEqualEqual "==" .nil 1)
          (ExprArray (NewToken TokenRightBracket "]" .nil 1)
            [stringLiteral ['a'], ExprLiteral (.bool true) .Bool])) ()
      = (.ret (.bool true) none, ()) :=
  (array_literal_equality asciiRuntime (NewInterpreter Unit) (NewToken TokenRightBracket "]" .nil 1)
    (NewToken TokenRightBracket "]" .nil 1) [stringLiteral ['a'], ExprLiteral (.bool true) .Bool]
    [stringLiteral ['a'], ExprLiteral (.bool true) .Bool] "==" .nil 1 0 () ()).1
    ⟨.str "a", .str "a", (), (), rfl, rfl, rfl,
      .bool true, .bool true, (), (), rfl, rfl, rfl, rfl⟩

/-- The claim C27 as stated fails: the tokens of `[[1]] == [[1]]` parse, and
the expression evaluates to false.  The two inner literals evaluate to two
`[]interface{}` values, which Go's `!=` cannot compare: it panics, and the
deferred function of `isEqual` makes the result false. -/
theorem nested_arrays_differ :
    ∃ (e : Expr) (q : Parser),
      (NewParser (nestedArrayTokens
        (NewToken TokenNumber "1" (.float64 (.fin 1)) 1))).Parse = .ok e q
      ∧ evaluate asciiRuntime (NewInterpreter Unit) 3 e () = (.ret (.bool false) none, ()) :=
  ⟨_, _, rfl, rfl⟩

/-- No coercion of numbers takes place inside sequences: with `age -> 18`, an
`int`, the parse of `[age] == [18]` evaluates to false, although `age == 18`
is true. -/
theorem array_of_int_differs :
    ∃ (e : Expr) (q : Parser),
      (NewParser (ageArrayTokens
        (NewToken TokenNumber "18" (.float64 (.fin 18)) 1))).Parse = .ok e q
      ∧ evaluate asciiRuntime ageInterpreter 3 e () = (.ret (.bool false) none, ()) :=
  ⟨_, _, rfl, rfl⟩

/-! ## Safety of the parser on tokens that end in the end-of-input token -/

namespace Parser

section Safety

variable (ts : List Token)

theorem inside_get (p : Parser) (hp : p.tokens = ts) (hc : p.current < ts.length) :
    ∃ t, p.tokens.get? p.current = some t := by
  rw [hp, List.get?_eq_getElem?]
  exact ⟨ts[p.current], List.getElem?_eq_getElem hc⟩

/-- A token that is not the end of the input is not the last one. -/
theorem inside_next (hts : EndsInEOF ts) (i : Nat) (t : Token) (h : ts.get? i = some t)
    (ht : t.typ ≠ TokenEOF) : i + 1 < ts.length := by
  obtain ⟨body, eof, rfl, he⟩ := hts
  rw [List.get?_eq_getElem?] at h
  by_cases hi : i < body.length
  · simp only [List.length_append, List.length_singleton]; omega
  · exfalso
    rw [List.getElem?_append_right (Nat.le_of_not_lt hi)] at h
    cases hk : i - body.length with
    | zero =>
      rw [hk] at h
      simp only [List.getElem?_cons_zero, Option.some.injEq] at h
      exact ht (h ▸ he)
    | succ k =>
      rw [hk] at h
      simp at h

theorem within_mono (r : PRes) (i k j m : Nat) (h : j + m ≤ i + k) :
    r.Within ts i k → r.Within ts j m := by
  cases r with
  | ok e q => intro hr; exact ⟨hr.1, by have := hr.2.1; omega, hr.2.2⟩
  | error err q => intro _; trivial
  | panic => exact id
  | outOfFuel => exact id

theorem listWithin_mono (c : (List Expr × Parser) ⊕ PRes) (i j : Nat) (h : j ≤ i) :
    ListWithin ts i c → ListWithin ts j c := by
  cases c with
  | inl ap => intro hr; exact ⟨hr.1, by have := hr.2.1; omega, hr.2.2⟩
  | inr r => cases r <;> exact id

theorem within_bind (r : PRes) (f : Expr → Parser → PRes) (i k j m : Nat) :
    r.Within ts i k →
    (∀ e q, q.tokens = ts → i + k ≤ q.current → q.current < ts.length →
      (f e q).Within ts j m) →
    (match r with
      | .ok e q => f e q
      | r => r).Within ts j m := by
  intro hr hf
  cases r with
  | ok e q => exact hf e q hr.1 hr.2.1 hr.2.2
  | error err q => trivial
  | panic => exact hr
  | outOfFuel => exact hr

/-- A `match` on the token at the parser, then one of two ways on. -/
theorem within_match (hts : EndsInEOF ts) (T : TokenType) (types : List TokenType) (p : Parser)
    (yes no : Parser → PRes) (i k : Nat) (hp : p.tokens = ts) (hc : p.current < ts.length) :
    (∀ t : Token, Parser.previous { p with current := p.current + 1 } = some t →
      p.current + 1 < ts.length → (yes { p with current := p.current + 1 }).Within ts i k) →
    (no p).Within ts i k →
    (match p.matchTypes (T :: types) with
      | none => PRes.panic
      | some (true, p1) => yes p1
      | some (false, p1) => no p1).Within ts i k := by
  intro hyes hno
  obtain ⟨t, ht⟩ := inside_get ts p hp hc
  rw [matchTypes_of p t ht]
  by_cases hcond : t.typ ≠ TokenEOF ∧ t.typ ∈ T :: types
  · rw [if_pos hcond]
    exact hyes t (previous_of p t ht) (inside_next ts hts p.current t (hp ▸ ht) hcond.1)
  · rw [if_neg hcond]
    exact hno

/-- The loops over operators of `or`, `and`, `equality` and `comparison`. -/
theorem within_loop (hts : EndsInEOF ts) (T : TokenType) (types : List TokenType)
    (sub : Parser → PRes) (loop : Expr → Parser → PRes) (mk : Expr → Token → Expr → Expr)
    (expr : Expr) (p : Parser) (hp : p.tokens = ts) (hc : p.current < ts.length) :
    (∀ q, q.tokens = ts → q.current = p.current + 1 → q.current < ts.length →
      (sub q).Within ts q.current 0) →
    (∀ e q, q.tokens = ts → p.current + 1 ≤ q.current → q.current < ts.length →
      (loop e q).Within ts q.current 0) →
    (match p.matchTypes (T :: types) with
      | none => PRes.panic
      | some (false, p1) => .ok expr p1
      | some (true, p1) =>
        match p1.previous with
        | none => .panic
        | some operator =>
          match sub p1 with
          | .ok right p2 => loop (mk expr operator right) p2
          | r => r).Within ts p.current 0 := by
  intro hsub hloop
  obtain ⟨t, ht⟩ := inside_get ts p hp hc
  rw [matchTypes_of p t ht]
  by_cases hcond : t.typ ≠ TokenEOF ∧ t.typ ∈ T :: types
  · rw [if_pos hcond]
    have hn := inside_next ts hts p.current t (hp ▸ ht) hcond.1
    simp only [previous_of p t ht]
    refine within_bind ts _ _ (p.current + 1) 0 _ _ (hsub _ hp rfl hn) ?_
    intro e q h1 h2 h3
    exact within_mono ts _ _ _ _ _ (by omega) (hloop _ q h1 (by omega) h3)
  · rw [if_neg hcond]
    exact ⟨hp, Nat.le_refl _, hc⟩

theorem consume_of (p : Parser) (t : Token) (hp : p.tokens.get? p.current = some t)
    (typ : TokenType) (msg : String) :
    p.consume typ msg
      = some (if t.typ ≠ TokenEOF ∧ t.typ = typ
          then .inl (t, { p with current := p.current + 1 }) else .inr (Error t msg)) := by
  rw [consume, check_of p t hp]
  by_cases h : t.typ ≠ TokenEOF ∧ t.typ = typ
  · have hc : (decide (t.typ ≠ TokenEOF) && decide (t.typ = typ)) = true := by
      rw [decide_eq_true h.1, decide_eq_true h.2]; rfl
    rw [hc, if_pos h, advance_of p t hp h.1]
    rfl
  · have hc : (decide (t.typ ≠ TokenEOF) && decide (t.typ = typ)) = false := by
      by_cases h1 : t.typ ≠ TokenEOF
      · have h2 : ¬ t.typ = typ := fun h2 => h ⟨h1, h2⟩
        rw [decide_eq_true h1, decide_eq_false h2]; rfl
      · rw [decide_eq_false h1]; rfl
    rw [hc, if_neg h, peek_of p t hp]
    rfl

/-- The end of `finishCall` and of `finishArray`, after the list. -/
theorem within_finish (hts : EndsInEOF ts) (typ : TokenType) (msg : String)
    (c : (List Expr × Parser) ⊕ PRes) (mk : Token → List Expr → Expr) (i : Nat) :
    ListWithin ts i c →
    (match c with
      | .inr r => r
      | .inl (arguments, p2) =>
        match p2.consume typ msg with
        | none => PRes.panic
        | some (.inr err) => .error err p2
        | some (.inl (paren, p3)) => .ok (mk paren arguments) p3).Within ts i 1 := by
  intro hc
  cases c with
  | inr r =>
    cases r with
    | error err q => trivial
    | ok e q => exact False.elim hc
    | panic => exact False.elim hc
    | outOfFuel => exact False.elim hc
  | inl ap =>
    obtain ⟨arguments, p2⟩ := ap
    obtain ⟨h1, h2, h3⟩ := hc
    obtain ⟨t, ht⟩ := inside_get ts p2 h1 h3
    simp only [consume_of p2 t ht]
    by_cases hcond : t.typ ≠ TokenEOF ∧ t.typ = typ
    · rw [if_pos hcond]
      have hn := inside_next ts hts p2.current t (h1 ▸ ht) hcond.1
      exact ⟨h1, Nat.add_le_add_right h2 1, hn⟩
    · rw [if_neg hcond]
      trivial

/-- The list of `finishCall` and of `finishArray`. -/
theorem within_collected (typ : TokenType) (p : Parser) (ex : Parser → PRes)
    (lst : List Expr → Parser → (List Expr × Parser) ⊕ PRes)
    (hp : p.tokens = ts) (hc : p.current < ts.length) :
    (ex p).Within ts p.current 1 →
    (∀ acc q, q.tokens = ts → p.current ≤ q.current → q.current < ts.length →
      ListWithin ts q.current (lst acc q)) →
    ListWithin ts p.current (match p.check typ with
      | none => (.inr .panic : (List Expr × Parser) ⊕ PRes)
      | some true => .inl ([], p)
      | some false =>
        match ex p with
        | .ok e p1 => lst [e] p1
        | r => .inr r) := by
  intro hex hlst
  obtain ⟨t, ht⟩ := inside_get ts p hp hc
  rw [check_of p t ht]
  cases (decide (t.typ ≠ TokenEOF) && decide (t.typ = typ)) with
  | true => exact ⟨hp, Nat.le_refl _, hc⟩
  | false =>
    simp only
    cases he : ex p with
    | ok e p1 =>
      rw [he] at hex
      exact listWithin_mono ts _ _ _ (by have := hex.2.1; omega)
        (hlst [e] p1 hex.1 (by have := hex.2.1; omega) hex.2.2)
    | error err q => trivial
    | panic => rw [he] at hex; exact hex
    | outOfFuel => rw [he] at hex; exact hex

theorem within_consume (hts : EndsInEOF ts) (typ : TokenType) (msg : String) (p2 : Parser)
    (k : Token → Expr) (i : Nat) (h1 : p2.tokens = ts) (h2 : i ≤ p2.current)
    (h3 : p2.current < ts.length) :
    (match p2.consume typ msg with
      | none => PRes.panic
      | some (.inr err) => .error err p2
      | some (.inl (paren, p3)) => .ok (k paren) p3).Within ts i 1 := by
  obtain ⟨t, ht⟩ := inside_get ts p2 h1 h3
  simp only [consume_of p2 t ht]
  by_cases hcond : t.typ ≠ TokenEOF ∧ t.typ = typ
  · rw [if_pos hcond]
    have hn := inside_next ts hts p2.current t (h1 ▸ ht) hcond.1
    exact ⟨h1, Nat.add_le_add_right h2 1, hn⟩
  · rw [if_neg hcond]
    trivial

/-- With a recursion budget of twelve for every token that remains, every
method of the parser, called on a token of a sequence that ends in the
end-of-input token, returns an expression or an error: it neither reads an
index out of the sequence nor exhausts the budget, and the parser after an
expression stands on a token of the sequence, after at least one token more
for the methods that are no loops. -/
theorem within_all (hts : EndsInEOF ts) : ∀ n : Nat,
    (∀ p, p.tokens = ts → p.current < ts.length → budget ts p 8 ≤ n →
      (expression n p).Within ts p.current 1)
    ∧ (∀ p, p.tokens = ts → p.current < ts.length → budget ts p 7 ≤ n →
      (Parser.or n p).Within ts p.current 1)
    ∧ (∀ e p, p.tokens = ts → p.current < ts.length → budget ts p 1 ≤ n →
      (orLoop n e p).Within ts p.current 0)
    ∧ (∀ p, p.tokens = ts → p.current < ts.length → budget ts p 6 ≤ n →
      (Parser.and n p).Within ts p.current 1)
    ∧ (∀ e p, p.tokens = ts → p.current < ts.length → budget ts p 1 ≤ n →
      (andLoop n e p).Within ts p.current 0)
    ∧ (∀ p, p.tokens = ts → p.current < ts.length → budget ts p 5 ≤ n →
      (equality n p).Within ts p.current 1)
    ∧ (∀ e p, p.tokens = ts → p.current < ts.length → budget ts p 1 ≤ n →
      (equalityLoop n e p).Within ts p.current 0)
    ∧ (∀ p, p.tokens = ts → p.current < ts.length → budget ts p 4 ≤ n →
      (comparison n p).Within ts p.current 1)
    ∧ (∀ e p, p.tokens = ts → p.current < ts.length → budget ts p 1 ≤ n →
      (comparisonLoop n e p).Within ts p.current 0)
    ∧ (∀ p, p.tokens = ts → p.current < ts.length → budget ts p 3 ≤ n →
      (unary n p).Within ts p.current 1)
    ∧ (∀ p, p.tokens = ts → p.current < ts.length → budget ts p 2 ≤ n →
      (call n p).Within ts p.current 1)
    ∧ (∀ e p, p.tokens = ts → p.current < ts.length → budget ts p 1 ≤ n →
      (callLoop n e p).Within ts p.current 0)
    ∧ (∀ acc p, p.tokens = ts → p.current < ts.length → budget ts p 1 ≤ n →
      ListWithin ts p.current (exprList n acc p))
    ∧ (∀ e p, p.tokens = ts → p.current < ts.length → budget ts p 9 ≤ n →
      (finishCall n e p).Within ts p.current 1)
    ∧ (∀ p, p.tokens = ts → p.current < ts.length → budget ts p 9 ≤ n →
      (finishArray n p).Within ts p.current 1)
    ∧ (∀ p, p.tokens = ts → p.current < ts.length → budget ts p 1 ≤ n →
      (primary n p).Within ts p.current 1) := by
  intro n
  induction n with
  | zero =>
    refine ⟨?_, ?_, ?_, ?_, ?_, ?_, ?_, ?_, ?_, ?_, ?_, ?_, ?_, ?_, ?_, ?_⟩
    all_goals first
      | (intro p _ _ hb; simp only [budget] at hb; omega)
      | (intro e p _ _ hb; simp only [budget] at hb; omega)
  | succ n ih =>
    obtain ⟨iExpr, iOr, iOrL, iAnd, iAndL, iEq, iEqL, iCmp, iCmpL, iUn, iCall, iCallL, iList,
      iFC, iFA, iPrim⟩ := ih
    refine ⟨?_, ?_, ?_, ?_, ?_, ?_, ?_, ?_, ?_, ?_, ?_, ?_, ?_, ?_, ?_, ?_⟩
    · intro p hp hc hb
      rw [expression_succ]
      exact iOr p hp hc (by simp only [budget] at hb ⊢; omega)
    · intro p hp hc hb
      rw [or_succ]
      exact within_bind ts _ _ p.current 1 _ _
        (iAnd p hp hc (by simp only [budget] at hb ⊢; omega))
        (fun e q h1 h2 h3 => within_mono ts _ q.current 0 _ _ (by omega)
          (iOrL e q h1 h3 (by simp only [budget] at hb ⊢; omega)))
    · intro e p hp hc hb
      rw [orLoop_succ]
      exact within_loop ts hts _ _ _ _ NewExprLogical e p hp hc
        (fun q h1 h2 h3 => within_mono ts _ q.current 1 _ _ (by omega)
          (iAnd q h1 h3 (by simp only [budget] at hb ⊢; omega)))
        (fun e q h1 h2 h3 => iOrL e q h1 h3 (by simp only [budget] at hb ⊢; omega))
    · intro p hp hc hb
      rw [and_succ]
      exact within_bind ts _ _ p.current 1 _ _
        (iEq p hp hc (by simp only [budget] at hb ⊢; omega))
        (fun e q h1 h2 h3 => within_mono ts _ q.current 0 _ _ (by omega)
          (iAndL e q h1 h3 (by simp only [budget] at hb ⊢; omega)))
    · intro e p hp hc hb
      rw [andLoop_succ]
      exact within_loop ts hts _ _ _ _ NewExprLogical e p hp hc
        (fun q h1 h2 h3 => within_mono ts _ q.current 1 _ _ (by omega)
          (iEq q h1 h3 (by simp only [budget] at hb ⊢; omega)))
        (fun e q h1 h2 h3 => iAndL e q h1 h3 (by simp only [budget] at hb ⊢; omega))
    · intro p hp hc hb
      rw [equality_succ]
      exact within_bind ts _ _ p.current 1 _ _
        (iCmp p hp hc (by simp only [budget] at hb ⊢; omega))
        (fun e q h1 h2 h3 => within_mono ts _ q.current 0 _ _ (by omega)
          (iEqL e q h1 h3 (by simp only [budget] at hb ⊢; omega)))
    · intro e p hp hc hb
      rw [equalityLoop_succ]
      exact within_loop ts hts _ _ _ _ NewExprBinary e p hp hc
        (fun q h1 h2 h3 => within_mono ts _ q.current 1 _ _ (by omega)
          (iCmp q h1 h3 (by simp only [budget] at hb ⊢; omega)))
        (fun e q h1 h2 h3 => iEqL e q h1 h3 (by simp only [budget] at hb ⊢; omega))
    · intro p hp hc hb
      rw [comparison_succ]
      exact within_bind ts _ _ p.current 1 _ _
        (iUn p hp hc (by simp only [budget] at hb ⊢; omega))
        (fun e q h1 h2 h3 => within_mono ts _ q.current 0 _ _ (by omega)
          (iCmpL e q h1 h3 (by simp only [budget] at hb ⊢; omega)))
    · intro e p hp hc hb
      rw [comparisonLoop_succ]
      exact within_loop ts hts _ _ _ _ NewExprBinary e p hp hc
        (fun q h1 h2 h3 => within_mono ts _ q.current 1 _ _ (by omega)
          (iUn q h1 h3 (by simp only [budget] at hb ⊢; omega)))
        (fun e q h1 h2 h3 => iCmpL e q h1 h3 (by simp only [budget] at hb ⊢; omega))
    · intro p hp hc hb
      rw [unary_succ]
      refine within_match ts hts _ _ p _ _ _ _ hp hc (fun t h3 h4 => ?_)
        (iCall p hp hc (by simp only [budget] at hb ⊢; omega))
      simp only [h3]
      exact within_bind ts _ _ (p.current + 1) 1 _ _
        (iUn { p with current := p.current + 1 } hp h4 (by simp only [budget] at hb ⊢; omega))
        (fun e q h1 h2 h3 => ⟨h1, by omega, h3⟩)
    · intro p hp hc hb
      rw [call_succ]
      exact within_bind ts _ _ p.current 1 _ _
        (iPrim p hp hc (by simp only [budget] at hb ⊢; omega))
        (fun e q h1 h2 h3 => within_mono ts _ q.current 0 _ _ (by omega)
          (iCallL e q h1 h3 (by simp only [budget] at hb ⊢; omega)))
    · intro e p hp hc hb
      rw [callLoop_succ]
      obtain ⟨t, ht⟩ := inside_get ts p hp hc
      rw [matchTypes_of p t ht]
      by_cases hcond : t.typ ≠ TokenEOF ∧ t.typ ∈ [TokenLeftParen]
      · rw [if_pos hcond]
        have hn := inside_next ts hts p.current t (hp ▸ ht) hcond.1
        simp only
        exact within_bind ts _ _ (p.current + 1) 1 _ _
          (iFC e { p with current := p.current + 1 } hp hn
            (by simp only [budget] at hb ⊢; omega))
          (fun e q h1 h2 h3 => within_mono ts _ q.current 0 _ _ (by omega)
            (iCallL e q h1 h3 (by simp only [budget] at hb ⊢; omega)))
      · rw [if_neg hcond]
        exact ⟨hp, Nat.le_refl _, hc⟩
    · intro acc p hp hc hb
      rw [exprList]
      obtain ⟨t, ht⟩ := inside_get ts p hp hc
      rw [matchTypes_of p t ht]
      by_cases hcond : t.typ ≠ TokenEOF ∧ t.typ ∈ [TokenComma]
      · rw [if_pos hcond]
        have hn := inside_next ts hts p.current t (hp ▸ ht) hcond.1
        simp only
        have hex := iExpr { p with current := p.current + 1 } hp hn
          (by simp only [budget] at hb ⊢; omega)
        cases he : expression n { p with current := p.current + 1 } with
        | ok e p2 =>
          rw [he] at hex
          obtain ⟨h1, h2, h3⟩ := hex
          simp only at h2
          exact listWithin_mono ts _ p2.current _ (by omega)
            (iList _ p2 h1 h3 (by simp only [budget] at hb ⊢; omega))
        | error err q => trivial
        | panic => rw [he] at hex; exact False.elim hex
        | outOfFuel => rw [he] at hex; exact False.elim hex
      · rw [if_neg hcond]
        exact ⟨hp, Nat.le_refl _, hc⟩
    · intro e p hp hc hb
      rw [finishCall]
      exact within_finish ts hts _ _ _ (fun paren arguments => NewExprCall e paren arguments)
        p.current
        (within_collected ts TokenRightParen p _ _ hp hc
          (iExpr p hp hc (by simp only [budget] at hb ⊢; omega))
          (fun acc q h1 h2 h3 => iList acc q h1 h3 (by simp only [budget] at hb ⊢; omega)))
    · intro p hp hc hb
      rw [finishArray]
      exact within_finish ts hts _ _ _ (fun bracket items => NewExprArray bracket items)
        p.current
        (within_collected ts TokenRightBracket p _ _ hp hc
          (iExpr p hp hc (by simp only [budget] at hb ⊢; omega))
          (fun acc q h1 h2 h3 => iList acc q h1 h3 (by simp only [budget] at hb ⊢; omega)))
    · intro p hp hc hb
      rw [primary]
      refine within_match ts hts _ _ p _ _ _ _ hp hc
        (fun t h3 h4 => ⟨hp, Nat.le_refl _, h4⟩) ?_
      refine within_match ts hts _ _ p _ _ _ _ hp hc
        (fun t h3 h4 => ⟨hp, Nat.le_refl _, h4⟩) ?_
      refine within_match ts hts _ _ p _ _ _ _ hp hc
        (fun t h3 h4 => by simp only [h3]; exact ⟨hp, Nat.le_refl _, h4⟩) ?_
      refine within_match ts hts _ _ p _ _ _ _ hp hc
        (fun t h3 h4 => by simp only [h3]; exact ⟨hp, Nat.le_refl _, h4⟩) ?_
      refine within_match ts hts _ _ p _ _ _ _ hp hc
        (fun t h3 h4 => by simp only [h3]; exact ⟨hp, Nat.le_refl _, h4⟩) ?_
      refine within_match ts hts _ _ p _ _ _ _ hp hc (fun t h3 h4 => ?_) ?_
      · exact within_bind ts _ _ (p.current + 1) 1 _ _
          (iExpr { p with current := p.current + 1 } hp h4
            (by simp only [budget] at hb ⊢; omega))
          (fun e q h1 h2 h3 => within_consume ts hts _ _ q (fun _ => NewExprGrouping e)
            p.current h1 (by omega) h3)
      refine within_match ts hts _ _ p _ _ _ _ hp hc (fun t h3 h4 => ?_) ?_
      · exact within_mono ts _ (p.current + 1) 1 _ _ (by omega)
          (iFA { p with current := p.current + 1 } hp h4
            (by simp only [budget] at hb ⊢; omega))
      obtain ⟨t, ht⟩ := inside_get ts p hp hc
      simp only [peek_of p t ht]
      trivial

/-- On tokens that end in the end-of-input token, `Parse` returns an
expression or an error; after an expression the parser has passed at least
one token and stands on a token of the sequence. -/
theorem parse_within (hts : EndsInEOF ts) : ((NewParser ts).Parse).Within ts 0 1 := by
  have hlen : 0 < ts.length := by
    obtain ⟨body, eof, rfl, -⟩ := hts
    simp
  exact (within_all ts hts (fuelFor (NewParser ts))).1 (NewParser ts) rfl hlen
    (by simp only [budget, fuelFor, NewParser]; omega)

end Safety

end Parser

/-! ## The scanner adds no end-of-input token before the end -/

namespace Scanner

theorem addsNoEOF_same (s s1 : Scanner) (h : s1.tokens = s.tokens) : AddsNoEOF s s1 := by
  intro t ht
  rw [h] at ht
  exact Or.inl ht

theorem addsNoEOF_addToken (s s1 : Scanner) (T : TokenType) (lit : Value)
    (h : s1.tokens = s.tokens) (hT : T ≠ TokenEOF) : AddsNoEOF s (s1.addToken T lit) := by
  intro t ht
  simp only [addToken, List.mem_append, List.mem_singleton] at ht
  rcases ht with ht | ht
  · rw [h] at ht
    exact Or.inl ht
  · right
    rw [ht]
    exact hT

theorem addsNoEOF_trans (s s1 s2 : Scanner) (h1 : AddsNoEOF s s1) (h2 : AddsNoEOF s1 s2) :
    AddsNoEOF s s2 := by
  intro t ht
  rcases h2 t ht with h | h
  · exact h1 t h
  · exact Or.inr h

theorem tokens_matchRune (s : Scanner) (c : Char) : (s.matchRune c).2.tokens = s.tokens := by
  unfold matchRune
  split
  · rfl
  · split <;> rfl

theorem tokens_advanceWhile (cond : Char → Bool) :
    ∀ (n : Nat) (s : Scanner), (advanceWhile cond n s).tokens = s.tokens := by
  intro n
  induction n with
  | zero => intro s; rfl
  | succ n ih =>
    intro s
    unfold advanceWhile
    split
    · exact ih _
    · rfl

theorem tokens_stringLoop : ∀ (n : Nat) (s : Scanner), (stringLoop n s).tokens = s.tokens := by
  intro n
  induction n with
  | zero => intro s; rfl
  | succ n ih =>
    intro s
    rw [stringLoop_succ]
    split
    · rw [ih]
      split <;> rfl
    · rfl

theorem keywords_ne_eof (text : String) (typ : TokenType) (h : keywords text = some typ) :
    typ ≠ TokenEOF := by
  unfold keywords at h
  split_ifs at h
  all_goals cases h
  all_goals decide

theorem string_adds (s s1 : Scanner) (h : s.string = (s1, none)) : AddsNoEOF s s1 := by
  unfold string at h
  rcases ite_cases h with ⟨-, h⟩ | ⟨-, h⟩
  · exact absurd (congrArg Prod.snd h) (fun h2 => by cases h2)
  · obtain ⟨rfl, -⟩ := Prod.mk.inj h
    exact addsNoEOF_addToken s _ TokenString _ (tokens_stringLoop _ s) (by decide)

theorem number_adds (rt : GoRuntime) (s : Scanner) : AddsNoEOF s (s.number rt) := by
  unfold number
  refine addsNoEOF_addToken s _ TokenNumber _ ?_ (by decide)
  rw [tokens_advanceWhile]
  split
  · exact tokens_advanceWhile _ _ s
  · exact tokens_advanceWhile _ _ s

theorem identifier_adds (rt : GoRuntime) (s : Scanner) : AddsNoEOF s (s.identifier rt) := by
  unfold identifier
  simp only []
  cases hk : keywords _ with
  | some typ =>
    exact addsNoEOF_addToken s _ typ _ (tokens_advanceWhile _ _ s) (keywords_ne_eof _ typ hk)
  | none =>
    exact addsNoEOF_addToken s _ TokenIdentifier _ (tokens_advanceWhile _ _ s) (by decide)

/-- One call of `scanToken` that returns no error adds no end-of-input
token. -/
theorem scanToken_adds (rt : GoRuntime) (s0 s1 : Scanner) (h : scanToken rt s0 = (s1, none)) :
    AddsNoEOF s0 s1 := by
  have simple : ∀ T : TokenType, T ≠ TokenEOF → ∀ r : Scanner,
      (addToken (s0.advance).2 T .nil, (none : Option ScanError)) = (r, none) →
      AddsNoEOF s0 r := by
    intro T hT r hr
    obtain ⟨rfl, -⟩ := Prod.mk.inj hr
    exact addsNoEOF_addToken s0 _ T _ rfl hT
  have viaMatch : ∀ T : TokenType, T ≠ TokenEOF → ∀ r : Scanner,
      (addToken (matchRune (s0.advance).2 '=').2 T .nil, (none : Option ScanError)) = (r, none) →
      AddsNoEOF s0 r := by
    intro T hT r hr
    obtain ⟨rfl, -⟩ := Prod.mk.inj hr
    exact addsNoEOF_addToken s0 _ T _ (tokens_matchRune _ _) hT
  unfold scanToken at h
  repeat' (rcases ite_cases h with ⟨hc, h⟩ | ⟨hc, h⟩)
  · exact simple _ (by decide) _ h
  · exact simple _ (by decide) _ h
  · exact simple _ (by decide) _ h
  · exact simple _ (by decide) _ h
  · exact simple _ (by decide) _ h
  · exact simple _ (by decide) _ h
  · exact simple _ (by decide) _ h
  · exact viaMatch _ (by decide) _ h
  · exact viaMatch _ (by decide) _ h
  · exact absurd (congrArg Prod.snd h) (fun h2 => by cases h2)
  · exact viaMatch _ (by decide) _ h
  · exact viaMatch _ (by decide) _ h
  · exact viaMatch _ (by decide) _ h
  · exact viaMatch _ (by decide) _ h
  · exact viaMatch _ (by decide) _ h
  · obtain ⟨rfl, -⟩ := Prod.mk.inj h
    exact addsNoEOF_same s0 _ rfl
  · obtain ⟨rfl, -⟩ := Prod.mk.inj h
    exact addsNoEOF_same s0 _ rfl
  · exact absurd (congrArg Prod.snd h) (fun h2 => by cases h2)
  · obtain ⟨rfl, -⟩ := Prod.mk.inj h
    exact addsNoEOF_addToken s0 _ TokenString _ (tokens_stringLoop _ _) (by decide)
  · obtain ⟨rfl, -⟩ := Prod.mk.inj h
    exact addsNoEOF_trans s0 (s0.advance).2 _ (addsNoEOF_same s0 _ rfl) (number_adds rt _)
  · obtain ⟨rfl, -⟩ := Prod.mk.inj h
    exact addsNoEOF_trans s0 (s0.advance).2 _ (addsNoEOF_same s0 _ rfl) (identifier_adds rt _)
  · exact absurd (congrArg Prod.snd h) (fun h2 => by cases h2)

/-- The loop of `ScanTokens` adds no end-of-input token. -/
theorem scanLoop_adds (rt : GoRuntime) :
    ∀ (n : Nat) (s s1 : Scanner), scanLoop rt n s = (s1, none) → AddsNoEOF s s1 := by
  intro n
  induction n with
  | zero =>
    intro s s1 h
    obtain ⟨rfl, -⟩ := Prod.mk.inj h
    exact addsNoEOF_same s s rfl
  | succ n ih =>
    intro s s1 h
    rw [scanLoop_succ] at h
    rcases ite_cases h with ⟨-, h⟩ | ⟨-, h⟩
    · obtain ⟨rfl, -⟩ := Prod.mk.inj h
      exact addsNoEOF_same s s rfl
    · rcases hst : scanToken rt { s with start := s.current } with ⟨s2, o⟩
      rw [hst] at h
      cases o with
      | some err => cases (congrArg Prod.snd h)
      | none =>
        exact addsNoEOF_trans s s2 s1
          (addsNoEOF_trans s { s with start := s.current } s2 (addsNoEOF_same s _ rfl)
            (scanToken_adds rt _ s2 hst))
          (ih s2 s1 h)

/-- The tokens of a scan that succeeds: tokens that are no end-of-input
token, then one end-of-input token. -/
theorem scanTokens_shape (rt : GoRuntime) (src : String) (tokens : List Token)
    (h : (NewScanner src).ScanTokens rt = (tokens, none)) :
    ∃ (body : List Token) (eof : Token),
      tokens = body ++ [eof] ∧ eof.typ = TokenEOF ∧ ∀ t ∈ body, t.typ ≠ TokenEOF := by
  unfold ScanTokens at h
  rcases hl : scanLoop rt ((NewScanner src).src.length - (NewScanner src).current)
    (NewScanner src) with ⟨s1, o⟩
  rw [hl] at h
  cases o with
  | some err => cases (congrArg Prod.snd h)
  | none =>
    obtain ⟨rfl, -⟩ := Prod.mk.inj h
    refine ⟨s1.tokens, _, rfl, rfl, ?_⟩
    intro t ht
    rcases scanLoop_adds rt _ _ s1 hl t ht with h1 | h1
    · cases h1
    · exact h1

end Scanner

/-! ## C24: the output of the scanner is safe input for the parser -/

/-- C24: when `ScanTokens` succeeds on a source text, the token sequence it
returns is not empty, its last token is an end-of-input token and no token
before the last is one; and on this sequence `Parse` returns an expression
or a `ParseError`: the recursion ends within the budget, and no `peek` or
`previous` reads an index outside the sequence (which would be the panic of
the model); after an expression the parser still stands on a token of the
sequence. -/
theorem scanner_output_safe (rt : GoRuntime) (src : String) (tokens : List Token)
    (h : (NewScanner src).ScanTokens rt = (tokens, none)) :
    tokens ≠ []
    ∧ (∃ (body : List Token) (eof : Token),
        tokens = body ++ [eof] ∧ eof.typ = TokenEOF ∧ ∀ t ∈ body, t.typ ≠ TokenEOF)
    ∧ ((∃ (e : Expr) (q : Parser), (NewParser tokens).Parse = .ok e q
          ∧ q.tokens = tokens ∧ q.current < tokens.length)
        ∨ (∃ (err : ParseError) (q : Parser), (NewParser tokens).Parse = .error err q)) := by
  obtain ⟨body, eof, hb, he, hno⟩ := Scanner.scanTokens_shape rt src tokens h
  have hts : EndsInEOF tokens := ⟨body, eof, hb, he⟩
  refine ⟨?_, ⟨body, eof, hb, he, hno⟩, ?_⟩
  · rw [hb]
    simp
  · have hw := Parser.parse_within tokens hts
    cases hp : (NewParser tokens).Parse with
    | ok e q =>
      rw [hp] at hw
      exact Or.inl ⟨e, q, rfl, hw.1, hw.2.2⟩
    | error err q => exact Or.inr ⟨err, q, rfl⟩
    | panic => rw [hp] at hw; exact False.elim hw
    | outOfFuel => rw [hp] at hw; exact False.elim hw

/-- Instance of C24: the source text `a == b`. -/
theorem scanner_output_safe_witness :
    (NewScanner "a == b").ScanTokens asciiRuntime
        = ([Token.mk TokenIdentifier "a" .nil 1, Token.mk TokenEqualEqual "==" .nil 1,
            Token.mk TokenIdentifier "b" .nil 1, Token.mk TokenEOF "" .nil 1], none)
    ∧ ((∃ (e : Expr) (q : Parser),
          (NewParser [Token.mk TokenIdentifier "a" .nil 1, Token.mk TokenEqualEqual "==" .nil 1,
            Token.mk TokenIdentifier "b" .nil 1, Token.mk TokenEOF "" .nil 1]).Parse = .ok e q
          ∧ q.tokens = [Token.mk TokenIdentifier "a" .nil 1, Token.mk TokenEqualEqual "==" .nil 1,
            Token.mk TokenIdentifier "b" .nil 1, Token.mk TokenEOF "" .nil 1]
          ∧ q.current < 4)
        ∨ (∃ (err : ParseError) (q : Parser),
          (NewParser [Token.mk TokenIdentifier "a" .nil 1, Token.mk TokenEqualEqual "==" .nil 1,
            Token.mk TokenIdentifier "b" .nil 1, Token.mk TokenEOF "" .nil 1]).Parse
            = .error err q)) :=
  ⟨rfl, (scanner_output_safe asciiRuntime "a == b" _ rfl).2.2⟩

/-! ## Tokens that follow an expression are not read -/

namespace Parser

theorem shift_nil (p : Parser) : p.shift [] = p := by
  cases p
  simp [shift]

theorem PRes_shift_nil (r : PRes) : r.shift [] = r := by
  cases r <;> simp [PRes.shift, shift_nil]

section Frame

variable (ts ts1 : List Token) (k : Nat) (u : Token)

/-- Where a parser on `ts` stands: out of the tokens, on a token that both
sequences hold, or on the end-of-input token at `k`. -/
theorem frame_cases (hl : Leftover ts ts1 k u) (p : Parser) (hp : p.tokens = ts) :
    p.tokens.get? p.current = none
    ∨ (p.current < k ∧ ∃ t, p.tokens.get? p.current = some t ∧ ts1.get? p.current = some t)
    ∨ (p.current = k ∧ ∃ eof : Token, p.tokens.get? p.current = some eof ∧ eof.typ = TokenEOF) := by
  obtain ⟨h1, h2, h3, -⟩ := hl
  rw [hp]
  rcases Nat.lt_trichotomy p.current k with h | h | h
  · exact Or.inr (Or.inl ⟨h, h1 _ h⟩)
  · rw [h]
    exact Or.inr (Or.inr ⟨rfl, h2⟩)
  · exact Or.inl (h3 _ h)

/-- A `match` on the token at the parser, then one of two ways on, in a
method that passes at least one token. -/
theorem frame_match (hl : Leftover ts ts1 k u) (T : TokenType) (types : List TokenType)
    (p : Parser) (yes yes1 no no1 : Parser → PRes) (e : Expr) (q : Parser) (hp : p.tokens = ts) :
    (∀ t : Token, p.current < k →
      Parser.previous { p with current := p.current + 1 } = some t →
      Parser.previous ⟨ts1, p.current + 1⟩ = some t →
      yes { p with current := p.current + 1 } = .ok e q →
      q.tokens = ts ∧ p.current + 1 ≤ q.current ∧ q.current ≤ k
        ∧ yes1 ⟨ts1, p.current + 1⟩ = .ok e ⟨ts1, q.current⟩) →
    (no p = .ok e q →
      q.tokens = ts ∧ p.current + 1 ≤ q.current ∧ q.current ≤ k
        ∧ no1 ⟨ts1, p.current⟩ = .ok e ⟨ts1, q.current⟩) →
    (match p.matchTypes (T :: types) with
      | none => PRes.panic
      | some (true, p1) => yes p1
      | some (false, p1) => no p1) = .ok e q →
    q.tokens = ts ∧ p.current + 1 ≤ q.current ∧ q.current ≤ k
      ∧ (match (⟨ts1, p.current⟩ : Parser).matchTypes (T :: types) with
          | none => PRes.panic
          | some (true, p1) => yes1 p1
          | some (false, p1) => no1 p1) = .ok e ⟨ts1, q.current⟩ := by
  intro hyes hno
  rcases frame_cases ts ts1 k u hl p hp with h | ⟨hlt, t, h1, h2⟩ | ⟨hk, eof, h1, he⟩
  · rw [matchTypes_none p T types h]
    intro hh
    cases hh
  · have h2' : (⟨ts1, p.current⟩ : Parser).tokens.get? (⟨ts1, p.current⟩ : Parser).current
        = some t := h2
    rw [matchTypes_of p t h1, matchTypes_of _ t h2']
    by_cases hc : t.typ ≠ TokenEOF ∧ t.typ ∈ T :: types
    · rw [if_pos hc, if_pos hc]
      exact hyes t hlt (previous_of p t h1) (previous_of _ t h2')
    · rw [if_neg hc, if_neg hc]
      exact hno
  · rw [matchTypes_of p eof h1]
    have hc : ¬ (eof.typ ≠ TokenEOF ∧ eof.typ ∈ T :: types) := fun h => h.1 he
    rw [if_neg hc]
    intro hh
    have a := (hno hh).2.1
    have b := (hno hh).2.2.1
    omega

theorem frame_bind (sub : Parser → PRes) (loop : Expr → Parser → PRes)
    (hs : Framed ts ts1 k 1 sub) (hloop : ∀ e1, Framed ts ts1 k 0 (loop e1))
    (p : Parser) (e : Expr) (q : Parser) (hp : p.tokens = ts) :
    (match sub p with
      | .ok e1 p1 => loop e1 p1
      | r => r) = .ok e q →
    q.tokens = ts ∧ p.current + 1 ≤ q.current ∧ q.current ≤ k
      ∧ (match sub ⟨ts1, p.current⟩ with
          | .ok e1 p1 => loop e1 p1
          | r => r) = .ok e ⟨ts1, q.current⟩ := by
  intro h
  cases hsub : sub p with
  | ok e1 p1 =>
    rw [hsub] at h
    obtain ⟨a1, a2, a3, a4⟩ := hs p e1 p1 hp hsub
    obtain ⟨b1, b2, b3, b4⟩ := hloop e1 p1 e q a1 h
    refine ⟨b1, by omega, b3, ?_⟩
    rw [a4]
    exact b4
  | error err r => rw [hsub] at h; cases h
  | panic => rw [hsub] at h; cases h
  | outOfFuel => rw [hsub] at h; cases h

/-- The loops over operators of `or`, `and`, `equality` and `comparison`. -/
theorem frame_loop (hl : Leftover ts ts1 k u) (T : TokenType) (types : List TokenType)
    (hT : u.typ ∉ T :: types) (sub : Parser → PRes) (loop : Expr → Parser → PRes)
    (mk : Expr → Token → Expr → Expr) (expr : Expr)
    (hs : Framed ts ts1 k 1 sub) (hloop : ∀ e1, Framed ts ts1 k 0 (loop e1))
    (p : Parser) (e : Expr) (q : Parser) (hp : p.tokens = ts) :
    (match p.matchTypes (T :: types) with
      | none => PRes.panic
      | some (false, p1) => .ok expr p1
      | some (true, p1) =>
        match p1.previous with
        | none => .panic
        | some operator =>
          match sub p1 with
          | .ok right p2 => loop (mk expr operator right) p2
          | r => r) = .ok e q →
    q.tokens = ts ∧ p.current + 0 ≤ q.current ∧ q.current ≤ k
      ∧ (match (⟨ts1, p.current⟩ : Parser).matchTypes (T :: types) with
          | none => PRes.panic
          | some (false, p1) => .ok expr p1
          | some (true, p1) =>
            match p1.previous with
            | none => .panic
            | some operator =>
              match sub p1 with
              | .ok right p2 => loop (mk expr operator right) p2
              | r => r) = .ok e ⟨ts1, q.current⟩ := by
  rcases frame_cases ts ts1 k u hl p hp with h | ⟨hlt, t, h1, h2⟩ | ⟨hk, eof, h1, he⟩
  · rw [matchTypes_none p T types h]
    intro hh
    cases hh
  · have h2' : (⟨ts1, p.current⟩ : Parser).tokens.get? (⟨ts1, p.current⟩ : Parser).current
        = some t := h2
    rw [matchTypes_of p t h1, matchTypes_of _ t h2']
    by_cases hc : t.typ ≠ TokenEOF ∧ t.typ ∈ T :: types
    · rw [if_pos hc, if_pos hc]
      simp only [previous_of p t h1, previous_of _ t h2']
      intro hh
      have hb := frame_bind ts ts1 k sub (fun e1 => loop (mk expr t e1)) hs
        (fun e1 => hloop _) { p with current := p.current + 1 } e q hp hh
      exact ⟨hb.1, by have := hb.2.1; simp only at this; omega, hb.2.2.1, hb.2.2.2⟩
    · rw [if_neg hc, if_neg hc]
      intro hh
      cases hh
      exact ⟨hp, Nat.le_refl _, Nat.le_of_lt hlt, rfl⟩
  · obtain ⟨-, -, -, hu, -, -⟩ := hl
    have hu' : (⟨ts1, p.current⟩ : Parser).tokens.get? (⟨ts1, p.current⟩ : Parser).current
        = some u := by rw [hk]; exact hu
    rw [matchTypes_of p eof h1, matchTypes_of _ u hu']
    have hc : ¬ (eof.typ ≠ TokenEOF ∧ eof.typ ∈ T :: types) := fun h => h.1 he
    have hc2 : ¬ (u.typ ≠ TokenEOF ∧ u.typ ∈ T :: types) := fun h => hT h.2
    rw [if_neg hc, if_neg hc2]
    intro hh
    cases hh
    exact ⟨hp, Nat.le_refl _, Nat.le_of_eq hk, rfl⟩

/-- The loop over the calls of `call`. -/
theorem frame_calls (hl : Leftover ts ts1 k u) (fc : Expr → Parser → PRes)
    (loop : Expr → Parser → PRes) (expr : Expr)
    (hs : ∀ e1, Framed ts ts1 k 1 (fc e1)) (hloop : ∀ e1, Framed ts ts1 k 0 (loop e1))
    (p : Parser) (e : Expr) (q : Parser) (hp : p.tokens = ts) :
    (match p.matchTypes [TokenLeftParen] with
      | none => PRes.panic
      | some (false, p1) => .ok expr p1
      | some (true, p1) =>
        match fc expr p1 with
        | .ok expr1 p2 => loop expr1 p2
        | r => r) = .ok e q →
    q.tokens = ts ∧ p.current + 0 ≤ q.current ∧ q.current ≤ k
      ∧ (match (⟨ts1, p.current⟩ : Parser).matchTypes [TokenLeftParen] with
          | none => PRes.panic
          | some (false, p1) => .ok expr p1
          | some (true, p1) =>
            match fc expr p1 with
            | .ok expr1 p2 => loop expr1 p2
            | r => r) = .ok e ⟨ts1, q.current⟩ := by
  rcases frame_cases ts ts1 k u hl p hp with h | ⟨hlt, t, h1, h2⟩ | ⟨hk, eof, h1, he⟩
  · rw [matchTypes_none p _ _ h]
    intro hh
    cases hh
  · have h2' : (⟨ts1, p.current⟩ : Parser).tokens.get? (⟨ts1, p.current⟩ : Parser).current
        = some t := h2
    rw [matchTypes_of p t h1, matchTypes_of _ t h2']
    by_cases hc : t.typ ≠ TokenEOF ∧ t.typ ∈ [TokenLeftParen]
    · rw [if_pos hc, if_pos hc]
      simp only
      intro hh
      have hb := frame_bind ts ts1 k (fc expr) loop (hs expr) hloop
        { p with current := p.current + 1 } e q hp hh
      exact ⟨hb.1, by have := hb.2.1; simp only at this; omega, hb.2.2.1, hb.2.2.2⟩
    · rw [if_neg hc, if_neg hc]
      intro hh
      cases hh
      exact ⟨hp, Nat.le_refl _, Nat.le_of_lt hlt, rfl⟩
  · obtain ⟨-, -, -, hu, hparen, -⟩ := hl
    have hu' : (⟨ts1, p.current⟩ : Parser).tokens.get? (⟨ts1, p.current⟩ : Parser).current
        = some u := by rw [hk]; exact hu
    rw [matchTypes_of p eof h1, matchTypes_of _ u hu']
    have hc : ¬ (eof.typ ≠ TokenEOF ∧ eof.typ ∈ [TokenLeftParen]) := fun h => h.1 he
    have hc2 : ¬ (u.typ ≠ TokenEOF ∧ u.typ ∈ [TokenLeftParen]) :=
      fun h => hparen (List.mem_singleton.mp h.2)
    rw [if_neg hc, if_neg hc2]
    intro hh
    cases hh
    exact ⟨hp, Nat.le_refl _, Nat.le_of_eq hk, rfl⟩

/-- A `consume` that succeeds on `ts` succeeds on `ts1`. -/
theorem frame_consume (hl : Leftover ts ts1 k u) (typ : TokenType) (msg : String)
    (mk : Token → Expr) (p2 : Parser) (e : Expr) (q : Parser) (hp : p2.tokens = ts) :
    (match p2.consume typ msg with
      | none => PRes.panic
      | some (.inr err) => .error err p2
      | some (.inl (paren, p3)) => .ok (mk paren) p3) = .ok e q →
    q.tokens = ts ∧ p2.current + 1 ≤ q.current ∧ q.current ≤ k
      ∧ (match (⟨ts1, p2.current⟩ : Parser).consume typ msg with
          | none => PRes.panic
          | some (.inr err) => .error err ⟨ts1, p2.current⟩
          | some (.inl (paren, p3)) => .ok (mk paren) p3) = .ok e ⟨ts1, q.current⟩ := by
  rcases frame_cases ts ts1 k u hl p2 hp with h | ⟨hlt, t, h1, h2⟩ | ⟨hk, eof, h1, he⟩
  · have hn : p2.consume typ msg = none := by
      simp only [consume, check, isAtEnd, peek, h, Option.map_none']
    rw [hn]
    intro hh
    cases hh
  · have h2' : (⟨ts1, p2.current⟩ : Parser).tokens.get? (⟨ts1, p2.current⟩ : Parser).current
        = some t := h2
    rw [consume_of p2 t h1, consume_of _ t h2']
    by_cases hc : t.typ ≠ TokenEOF ∧ t.typ = typ
    · rw [if_pos hc, if_pos hc]
      intro hh
      cases hh
      exact ⟨hp, Nat.le_refl _, hlt, rfl⟩
    · rw [if_neg hc, if_neg hc]
      intro hh
      cases hh
  · rw [consume_of p2 eof h1]
    have hc : ¬ (eof.typ ≠ TokenEOF ∧ eof.typ = typ) := fun h => h.1 he
    rw [if_neg hc]
    intro hh
    cases hh

/-- An expression, then the list loop on a list that holds it. -/
theorem frame_listBind (ex : Parser → PRes)
    (lst : List Expr → Parser → (List Expr × Parser) ⊕ PRes) (mkacc : Expr → List Expr)
    (hex : Framed ts ts1 k 1 ex) (hlst : ListFramed ts ts1 k lst)
    (p : Parser) (hp : p.tokens = ts) :
    (∀ (items : List Expr) (p2 : Parser),
      (match ex p with
        | .ok e p1 => lst (mkacc e) p1
        | r => (.inr r : (List Expr × Parser) ⊕ PRes)) = .inl (items, p2) →
      p2.tokens = ts ∧ p.current + 1 ≤ p2.current ∧ p2.current ≤ k
        ∧ (p2.current < k →
          (match ex ⟨ts1, p.current⟩ with
            | .ok e p1 => lst (mkacc e) p1
            | r => (.inr r : (List Expr × Parser) ⊕ PRes)) = .inl (items, ⟨ts1, p2.current⟩)))
    ∧ (∀ (e : Expr) (q : Parser),
      (match ex p with
        | .ok e p1 => lst (mkacc e) p1
        | r => (.inr r : (List Expr × Parser) ⊕ PRes)) ≠ .inr (.ok e q)) := by
  constructor
  · intro items p2 h
    cases he : ex p with
    | ok e1 p1 =>
      rw [he] at h
      obtain ⟨a1, a2, a3, a4⟩ := hex p e1 p1 hp he
      obtain ⟨b1, b2, b3, b4⟩ := (hlst (mkacc e1) p1 a1).1 items p2 h
      refine ⟨b1, by omega, b3, fun hlt => ?_⟩
      rw [a4]
      exact b4 hlt
    | error err r => rw [he] at h; cases h
    | panic => rw [he] at h; cases h
    | outOfFuel => rw [he] at h; cases h
  · intro e q h
    cases he : ex p with
    | ok e1 p1 =>
      rw [he] at h
      exact (hlst (mkacc e1) p1 (hex p e1 p1 hp he).1).2 e q h
    | error err r => rw [he] at h; cases h
    | panic => rw [he] at h; cases h
    | outOfFuel => rw [he] at h; cases h

/-- The list of `finishCall` and of `finishArray`. -/
theorem frame_collected (hl : Leftover ts ts1 k u) (typ : TokenType) (ex : Parser → PRes)
    (lst : List Expr → Parser → (List Expr × Parser) ⊕ PRes)
    (hex : Framed ts ts1 k 1 ex) (hlst : ListFramed ts ts1 k lst)
    (p : Parser) (hp : p.tokens = ts) :
    (∀ (items : List Expr) (p2 : Parser),
      (match p.check typ with
        | none => (.inr .panic : (List Expr × Parser) ⊕ PRes)
        | some true => .inl ([], p)
        | some false =>
          match ex p with
          | .ok e p1 => lst [e] p1
          | r => .inr r) = .inl (items, p2) →
      p2.tokens = ts ∧ p.current ≤ p2.current ∧ p2.current ≤ k
        ∧ (p2.current < k →
          (match (⟨ts1, p.current⟩ : Parser).check typ with
            | none => (.inr .panic : (List Expr × Parser) ⊕ PRes)
            | some true => .inl ([], ⟨ts1, p.current⟩)
            | some false =>
              match ex ⟨ts1, p.current⟩ with
              | .ok e p1 => lst [e] p1
              | r => .inr r) = .inl (items, ⟨ts1, p2.current⟩)))
    ∧ (∀ (e : Expr) (q : Parser),
      (match p.check typ with
        | none => (.inr .panic : (List Expr × Parser) ⊕ PRes)
        | some true => .inl ([], p)
        | some false =>
          match ex p with
          | .ok e p1 => lst [e] p1
          | r => .inr r) ≠ .inr (.ok e q)) := by
  obtain ⟨hsub, hsub2⟩ := frame_listBind ts ts1 k ex lst (fun e => [e]) hex hlst p hp
  rcases frame_cases ts ts1 k u hl p hp with h | ⟨hlt, t, h1, h2⟩ | ⟨hk, eof, h1, he⟩
  · have hn : p.check typ = none := by
      simp only [check, isAtEnd, peek, h, Option.map_none']
    rw [hn]
    exact ⟨fun items p2 hh => (by cases hh), fun e q hh => (by cases hh)⟩
  · have h2' : (⟨ts1, p.current⟩ : Parser).tokens.get? (⟨ts1, p.current⟩ : Parser).current
        = some t := h2
    rw [check_of p t h1, check_of _ t h2']
    cases (decide (t.typ ≠ TokenEOF) && decide (t.typ = typ)) with
    | true =>
      refine ⟨fun items p2 hh => ?_, fun e q hh => (by cases hh)⟩
      cases hh
      refine ⟨hp, Nat.le_refl _, Nat.le_of_lt hlt, ?_⟩
      intro _
      rfl
    | false =>
      refine ⟨fun items p2 hh => ?_, fun e q hh => hsub2 e q hh⟩
      obtain ⟨a1, a2, a3, a4⟩ := hsub items p2 hh
      exact ⟨a1, by omega, a3, a4⟩
  · rw [check_of p eof h1]
    have hb : (decide (eof.typ ≠ TokenEOF) && decide (eof.typ = typ)) = false := by
      rw [decide_eq_false (fun h => h he)]; rfl
    rw [hb]
    refine ⟨fun items p2 hh => ?_, fun e q hh => hsub2 e q hh⟩
    obtain ⟨a1, a2, a3, a4⟩ := hsub items p2 hh
    omega

/-- The end of `finishCall` and of `finishArray`, after the list. -/
theorem frame_finish (hl : Leftover ts ts1 k u) (typ : TokenType) (msg : String)
    (c c1 : (List Expr × Parser) ⊕ PRes) (mk : Token → List Expr → Expr)
    (i : Nat) (e : Expr) (q : Parser)
    (hc : ∀ (items : List Expr) (p2 : Parser), c = .inl (items, p2) →
      p2.tokens = ts ∧ i ≤ p2.current ∧ p2.current ≤ k
        ∧ (p2.current < k → c1 = .inl (items, ⟨ts1, p2.current⟩)))
    (hc2 : ∀ (e : Expr) (q : Parser), c ≠ .inr (.ok e q)) :
    (match c with
      | .inr r => r
      | .inl (arguments, p2) =>
        match p2.consume typ msg with
        | none => PRes.panic
        | some (.inr err) => .error err p2
        | some (.inl (paren, p3)) => .ok (mk paren arguments) p3) = .ok e q →
    q.tokens = ts ∧ i + 1 ≤ q.current ∧ q.current ≤ k
      ∧ (match c1 with
          | .inr r => r
          | .inl (arguments, p2) =>
            match p2.consume typ msg with
            | none => PRes.panic
            | some (.inr err) => .error err p2
            | some (.inl (paren, p3)) => .ok (mk paren arguments) p3) = .ok e ⟨ts1, q.current⟩ := by
  cases c with
  | inr r =>
    intro hh
    simp only at hh
    rw [hh] at hc2
    exact absurd rfl (hc2 e q)
  | inl ap =>
    obtain ⟨items, p2⟩ := ap
    obtain ⟨a1, a2, a3, a4⟩ := hc items p2 rfl
    intro hh
    have hcons := frame_consume ts ts1 k u hl typ msg (fun t => mk t items) p2 e q a1 hh
    obtain ⟨b1, b2, b3, b4⟩ := hcons
    refine ⟨b1, by omega, b3, ?_⟩
    rw [a4 (by omega)]
    exact b4

theorem matchTypes_tokens (p p1 : Parser) (b : Bool) (types : List TokenType)
    (h : p.matchTypes types = some (b, p1)) : p1.tokens = p.tokens := by
  cases hg : p.tokens.get? p.current with
  | none =>
    cases types with
    | nil =>
      simp only [matchTypes, Option.some.injEq, Prod.mk.injEq] at h
      rw [← h.2]
    | cons T types =>
      rw [matchTypes_none p T types hg] at h
      cases h
  | some t =>
    rw [matchTypes_of p t hg] at h
    split at h <;>
      (simp only [Option.some.injEq, Prod.mk.injEq] at h; rw [← h.2])

/-- On the tokens of an expression followed by a token that cannot continue
it, every method of the parser does what it does on the tokens of the
expression followed by the end of the input, whenever it returns an
expression there. -/
theorem frame_all (hl : Leftover ts ts1 k u) : ∀ n : Nat,
    Framed ts ts1 k 1 (expression n) ∧ Framed ts ts1 k 1 (Parser.or n)
    ∧ (∀ e, Framed ts ts1 k 0 (orLoop n e)) ∧ Framed ts ts1 k 1 (Parser.and n)
    ∧ (∀ e, Framed ts ts1 k 0 (andLoop n e)) ∧ Framed ts ts1 k 1 (equality n)
    ∧ (∀ e, Framed ts ts1 k 0 (equalityLoop n e)) ∧ Framed ts ts1 k 1 (comparison n)
    ∧ (∀ e, Framed ts ts1 k 0 (comparisonLoop n e)) ∧ Framed ts ts1 k 1 (unary n)
    ∧ Framed ts ts1 k 1 (call n) ∧ (∀ e, Framed ts ts1 k 0 (callLoop n e))
    ∧ ListFramed ts ts1 k (exprList n)
    ∧ (∀ e, Framed ts ts1 k 1 (finishCall n e)) ∧ Framed ts ts1 k 1 (finishArray n)
    ∧ Framed ts ts1 k 1 (primary n) := by
  have hall : ∀ T ∈ binaryOperators, u.typ ≠ T := fun T hT h => hl.2.2.2.2.2 (h ▸ hT)
  have hOr : u.typ ∉ [TokenOr] := by
    intro h
    exact hall TokenOr (by decide) (List.mem_singleton.mp h)
  have hAnd : u.typ ∉ [TokenAnd] := by
    intro h
    exact hall TokenAnd (by decide) (List.mem_singleton.mp h)
  have hEq : u.typ ∉ [TokenBangEqual, TokenEqualEqual] := by
    intro h
    simp only [List.mem_cons, List.mem_singleton, List.mem_nil_iff, or_false] at h
    rcases h with h | h <;> exact hall _ (by decide) h
  have hCmp : u.typ ∉ [TokenGreater, TokenGreaterEqual, TokenLess, TokenLessEqual] := by
    intro h
    simp only [List.mem_cons, List.mem_singleton, List.mem_nil_iff, or_false] at h
    rcases h with h | h | h | h <;> exact hall _ (by decide) h
  intro n
  induction n with
  | zero =>
    refine ⟨?_, ?_, ?_, ?_, ?_, ?_, ?_, ?_, ?_, ?_, ?_, ?_, ?_, ?_, ?_, ?_⟩
    all_goals first
      | (intro p e q _ h; change PRes.outOfFuel = _ at h; cases h)
      | (intro e0 p e q _ h; change PRes.outOfFuel = _ at h; cases h)
      | (intro acc p _
         constructor
         · intro items q h
           change Sum.inr PRes.outOfFuel = _ at h
           cases h
         · intro e q h
           change Sum.inr PRes.outOfFuel = _ at h
           cases h)
  | succ n ih =>
    obtain ⟨iExpr, iOr, iOrL, iAnd, iAndL, iEq, iEqL, iCmp, iCmpL, iUn, iCall, iCallL, iList,
      iFC, iFA, iPrim⟩ := ih
    refine ⟨?_, ?_, ?_, ?_, ?_, ?_, ?_, ?_, ?_, ?_, ?_, ?_, ?_, ?_, ?_, ?_⟩
    · intro p e q hp h
      rw [expression_succ] at h ⊢
      exact iOr p e q hp h
    · intro p e q hp h
      rw [or_succ] at h ⊢
      exact frame_bind ts ts1 k _ _ iAnd iOrL p e q hp h
    · intro e0 p e q hp h
      rw [orLoop_succ] at h ⊢
      exact frame_loop ts ts1 k u hl _ _ hOr _ _ NewExprLogical e0 iAnd iOrL p e q hp h
    · intro p e q hp h
      rw [and_succ] at h ⊢
      exact frame_bind ts ts1 k _ _ iEq iAndL p e q hp h
    · intro e0 p e q hp h
      rw [andLoop_succ] at h ⊢
      exact frame_loop ts ts1 k u hl _ _ hAnd _ _ NewExprLogical e0 iEq iAndL p e q hp h
    · intro p e q hp h
      rw [equality_succ] at h ⊢
      exact frame_bind ts ts1 k _ _ iCmp iEqL p e q hp h
    · intro e0 p e q hp h
      rw [equalityLoop_succ] at h ⊢
      exact frame_loop ts ts1 k u hl _ _ hEq _ _ NewExprBinary e0 iCmp iEqL p e q hp h
    · intro p e q hp h
      rw [comparison_succ] at h ⊢
      exact frame_bind ts ts1 k _ _ iUn iCmpL p e q hp h
    · intro e0 p e q hp h
      rw [comparisonLoop_succ] at h ⊢
      exact frame_loop ts ts1 k u hl _ _ hCmp _ _ NewExprBinary e0 iUn iCmpL p e q hp h
    · intro p e q hp h
      rw [unary_succ] at h ⊢
      revert h
      refine frame_match ts ts1 k u hl _ _ p _ _ _ _ e q hp ?_ (iCall p e q hp)
      intro t hlt h3 h4 hy
      simp only [h3] at hy
      simp only [h4]
      cases hsub : unary n { p with current := p.current + 1 } with
      | ok right p2 =>
        rw [hsub] at hy
        obtain ⟨a1, a2, a3, a4⟩ := iUn { p with current := p.current + 1 } right p2 hp hsub
        simp only at a2 a4 hy
        cases hy
        rw [a4]
        exact ⟨a1, by omega, a3, rfl⟩
      | error err r => rw [hsub] at hy; cases hy
      | panic => rw [hsub] at hy; cases hy
      | outOfFuel => rw [hsub] at hy; cases hy
    · intro p e q hp h
      rw [call_succ] at h ⊢
      exact frame_bind ts ts1 k _ _ iPrim iCallL p e q hp h
    · intro e0 p e q hp h
      rw [callLoop_succ] at h ⊢
      exact frame_calls ts ts1 k u hl _ _ e0 iFC iCallL p e q hp h
    · intro acc p hp
      constructor
      · intro items q h
        rw [exprList] at h ⊢
        rcases frame_cases ts ts1 k u hl p hp with hg | ⟨hlt, t, h1, h2⟩ | ⟨hk, eof, h1, he⟩
        · rw [matchTypes_none p _ _ hg] at h
          cases h
        · have h2' : (⟨ts1, p.current⟩ : Parser).tokens.get? (⟨ts1, p.current⟩ : Parser).current
              = some t := h2
          rw [matchTypes_of p t h1] at h
          rw [matchTypes_of _ t h2']
          by_cases hc : t.typ ≠ TokenEOF ∧ t.typ ∈ [TokenComma]
          · rw [if_pos hc] at h
            rw [if_pos hc]
            simp only at h ⊢
            obtain ⟨a1, a2, a3, a4⟩ := (frame_listBind ts ts1 k (expression n) (exprList n)
              (fun e => acc ++ [e]) iExpr iList { p with current := p.current + 1 } hp).1
              items q h
            simp only at a2
            exact ⟨a1, by omega, a3, a4⟩
          · rw [if_neg hc] at h
            rw [if_neg hc]
            cases h
            exact ⟨hp, Nat.le_refl _, Nat.le_of_lt hlt, fun _ => rfl⟩
        · rw [matchTypes_of p eof h1] at h
          have hc : ¬ (eof.typ ≠ TokenEOF ∧ eof.typ ∈ [TokenComma]) := fun h => h.1 he
          rw [if_neg hc] at h
          cases h
          exact ⟨hp, Nat.le_refl _, Nat.le_of_eq hk, fun hlt => absurd hk (Nat.ne_of_lt hlt)⟩
      · intro e q h
        rw [exprList] at h
        split at h
        · cases h
        · cases h
        · next p1 hm =>
          exact (frame_listBind ts ts1 k (expression n) (exprList n)
            (fun e => acc ++ [e]) iExpr iList p1
            ((matchTypes_tokens p p1 true _ hm).trans hp)).2 e q h
    · intro e0 p e q hp h
      rw [finishCall] at h ⊢
      have hcol := frame_collected ts ts1 k u hl TokenRightParen (expression n) (exprList n)
        iExpr iList p hp
      exact frame_finish ts ts1 k u hl _ _ _ _
        (fun paren arguments => NewExprCall e0 paren arguments) p.current e q hcol.1 hcol.2 h
    · intro p e q hp h
      rw [finishArray] at h ⊢
      have hcol := frame_collected ts ts1 k u hl TokenRightBracket (expression n) (exprList n)
        iExpr iList p hp
      exact frame_finish ts ts1 k u hl _ _ _ _
        (fun bracket items => NewExprArray bracket items) p.current e q hcol.1 hcol.2 h
    · intro p e q hp h
      rw [primary] at h ⊢
      revert h
      refine frame_match ts ts1 k u hl _ _ p _ _ _ _ e q hp
        (fun t hlt h3 h4 hy => by cases hy; exact ⟨hp, Nat.le_refl _, hlt, rfl⟩) ?_
      refine frame_match ts ts1 k u hl _ _ p _ _ _ _ e q hp
        (fun t hlt h3 h4 hy => by cases hy; exact ⟨hp, Nat.le_refl _, hlt, rfl⟩) ?_
      refine frame_match ts ts1 k u hl _ _ p _ _ _ _ e q hp
        (fun t hlt h3 h4 hy => by
          simp only [h3] at hy
          simp only [h4]
          cases hy
          exact ⟨hp, Nat.le_refl _, hlt, rfl⟩) ?_
      refine frame_match ts ts1 k u hl _ _ p _ _ _ _ e q hp
        (fun t hlt h3 h4 hy => by
          simp only [h3] at hy
          simp only [h4]
          cases hy
          exact ⟨hp, Nat.le_refl _, hlt, rfl⟩) ?_
      refine frame_match ts ts1 k u hl _ _ p _ _ _ _ e q hp
        (fun t hlt h3 h4 hy => by
          simp only [h3] at hy
          simp only [h4]
          cases hy
          exact ⟨hp, Nat.le_refl _, hlt, rfl⟩) ?_
      refine frame_match ts ts1 k u hl _ _ p _ _ _ _ e q hp (fun t hlt h3 h4 hy => ?_) ?_
      · cases hsub : expression n { p with current := p.current + 1 } with
        | ok e1 p2 =>
          rw [hsub] at hy
          obtain ⟨a1, a2, a3, a4⟩ := iExpr { p with current := p.current + 1 } e1 p2 hp hsub
          simp only at a2 a4 hy
          obtain ⟨b1, b2, b3, b4⟩ := frame_consume ts ts1 k u hl TokenRightParen
            "Expect ')' after expression." (fun _ => NewExprGrouping e1) p2 e q a1 hy
          refine ⟨b1, by omega, b3, ?_⟩
          rw [a4]
          exact b4
        | error err r => rw [hsub] at hy; cases hy
        | panic => rw [hsub] at hy; cases hy
        | outOfFuel => rw [hsub] at hy; cases hy
      refine frame_match ts ts1 k u hl _ _ p _ _ _ _ e q hp (fun t hlt h3 h4 hy => ?_) ?_
      · obtain ⟨a1, a2, a3, a4⟩ := iFA { p with current := p.current + 1 } e q hp hy
        simp only at a2 a4
        exact ⟨a1, by omega, a3, a4⟩
      intro hh
      split at hh <;> cases hh

end Frame

end Parser

/-- An expression followed by tokens of which the first cannot continue it:
when `Parse` returns an expression on the tokens `X` followed by the end of
the input, it returns the same expression on `X` followed by a token `u`
that is neither a left parenthesis nor a binary operator and by any tokens
`rest`, and the parser stands where it stood, before `u` or on it. -/
theorem Parser.parse_leftover (X : List Token) (eof u : Token) (rest : List Token) (e : Expr)
    (q : Parser) (heof : eof.typ = TokenEOF) (hu1 : u.typ ≠ TokenLeftParen)
    (hu2 : u.typ ∉ binaryOperators) (h : (NewParser (X ++ [eof])).Parse = .ok e q) :
    (NewParser (X ++ u :: rest)).Parse = .ok e ⟨X ++ u :: rest, q.current⟩ := by
  have hl : Leftover (X ++ [eof]) (X ++ u :: rest) X.length u := by
    refine ⟨?_, ⟨eof, ?_, heof⟩, ?_, ?_, hu1, hu2⟩
    · intro i hi
      refine ⟨X.get ⟨i, hi⟩, ?_, ?_⟩
      · rw [List.get?_eq_getElem?, List.getElem?_append_left hi]
        exact List.getElem?_eq_getElem hi
      · rw [List.get?_eq_getElem?, List.getElem?_append_left hi]
        exact List.getElem?_eq_getElem hi
    · simp
    · intro i hi
      rw [List.get?_eq_none]
      simp only [List.length_append, List.length_singleton]
      omega
    · have := Parser.get?_after [] X rest u
      simpa using this
  have hf := (Parser.frame_all (X ++ [eof]) (X ++ u :: rest) X.length u hl
    (Parser.fuelFor (NewParser (X ++ [eof])))).1 (NewParser (X ++ [eof])) e q rfl h
  have hrun : Parser.expression (Parser.fuelFor (NewParser (X ++ [eof])))
      ⟨X ++ u :: rest, 0⟩ = .ok e ⟨X ++ u :: rest, q.current⟩ := hf.2.2.2
  have hst := (Parser.stable_all [] (12 * rest.length)
    (Parser.fuelFor (NewParser (X ++ [eof])))).1 ⟨X ++ u :: rest, 0⟩ (by rw [hrun]; simp)
  rw [Parser.shift_nil, hrun, Parser.PRes_shift_nil] at hst
  have hfuel : Parser.fuelFor (NewParser (X ++ u :: rest))
      = Parser.fuelFor (NewParser (X ++ [eof])) + 12 * rest.length := by
    simp only [Parser.fuelFor, NewParser, List.length_append, List.length_cons,
      List.length_singleton, List.length_nil]
    omega
  rw [Parser.Parse, Parser.ParseWith, hfuel]
  exact hst

/-! ## C25: what `Parse` does with tokens after the expression -/

namespace Parser

/-- A literal or an identifier followed by a token that is neither a left
parenthesis nor a binary operator: `expression` reads the first token and
stops on the second. -/
theorem expression_stops (t u : Token) (rest : List Token) (e : Expr)
    (he : primaryOf t = some e) (hu1 : u.typ ≠ TokenLeftParen) (hu2 : u.typ ∉ binaryOperators)
    (m : Nat) :
    expression (m + 8) ⟨t :: u :: rest, 0⟩ = .ok e ⟨t :: u :: rest, 1⟩ := by
  have hun : unary (m + 3) ⟨t :: u :: rest, 0⟩ = .ok e ⟨t :: u :: rest, 1⟩ :=
    operand_token t e he [] rest u m hu1
  have hget : (⟨t :: u :: rest, 1⟩ : Parser).tokens.get? (⟨t :: u :: rest, 1⟩ : Parser).current
      = some u := rfl
  simp only [binaryOperators, List.mem_cons, List.mem_singleton, not_or, List.mem_nil_iff,
    not_false_eq_true, and_true] at hu2
  obtain ⟨h1, h2, h3, h4, h5, h6, h7, h8⟩ := hu2
  rw [show m + 8 = m + 7 + 1 from rfl, expression_succ, show m + 7 = m + 6 + 1 from rfl, or_succ,
    show m + 6 = m + 5 + 1 from rfl, and_succ, show m + 5 = m + 4 + 1 from rfl, equality_succ,
    show m + 4 = m + 3 + 1 from rfl, comparison_succ, hun]
  simp only
  rw [show m + 3 = m + 2 + 1 from rfl, comparisonLoop_stop (m + 2) e _ u hget ⟨h3, h4, h5, h6⟩]
  simp only
  rw [equalityLoop_stop (m + 2 + 1) e _ u hget ⟨h1, h2⟩]
  simp only
  rw [andLoop_stop (m + 2 + 1 + 1) e _ u hget h7]
  simp only
  rw [orLoop_stop (m + 2 + 1 + 1 + 1) e _ u hget h8]

end Parser

/-- C25, amended: `Parse` reads one expression from the front of the tokens
and does not look at what follows it.  When it succeeds on a sequence that
ends in the end-of-input token, the parser has passed at least one token and
stands on a token of the sequence, the end-of-input token or one before it.
Tokens left over are not rejected: for a literal or an identifier `t`
followed by a token `u` that is neither a left parenthesis nor a binary
operator, `Parse` returns the expression of `t` alone, with no error, and the
parser stands on `u`; so it does on the tokens of `1 2` and of `true )`.  And
for every token sequence `X` that `Parse` accepts when the end of the input
follows it, `Parse` returns the same expression, with the parser at the same
index, when `u` and any further tokens follow `X` instead. -/
theorem parse_reads_one_expression (ts : List Token) (t u : Token) (rest : List Token)
    (e : Expr) :
    (EndsInEOF ts → ∀ (e1 : Expr) (q : Parser), (NewParser ts).Parse = .ok e1 q →
      q.tokens = ts ∧ 0 < q.current ∧ q.current < ts.length)
    ∧ (primaryOf t = some e → u.typ ≠ TokenLeftParen → u.typ ∉ binaryOperators →
      (NewParser (t :: u :: rest)).Parse = .ok e ⟨t :: u :: rest, 1⟩)
    ∧ (∀ (X : List Token) (eof : Token) (e1 : Expr) (q : Parser),
      eof.typ = TokenEOF → u.typ ≠ TokenLeftParen → u.typ ∉ binaryOperators →
      (NewParser (X ++ [eof])).Parse = .ok e1 q →
      (NewParser (X ++ u :: rest)).Parse = .ok e1 ⟨X ++ u :: rest, q.current⟩) := by
  refine ⟨?_, ?_, fun X eof e1 q heof hu1 hu2 h =>
    Parser.parse_leftover X eof u rest e1 q heof hu1 hu2 h⟩
  · intro hts e1 q hq
    have h := Parser.parse_within ts hts
    rw [hq] at h
    exact ⟨h.1, by have := h.2.1; omega, h.2.2⟩
  · intro he hu1 hu2
    have hf : Parser.fuelFor (NewParser (t :: u :: rest)) = 12 * rest.length + 28 + 8 := by
      simp only [Parser.fuelFor, NewParser, List.length_cons]
      omega
    rw [Parser.Parse, Parser.ParseWith, hf]
    exact Parser.expression_stops t u rest e he hu1 hu2 _

/-- Instance of C25: on the tokens of `true )` the parse succeeds with the
literal `true`, and the parser stands on the right parenthesis, which is
neither the first token nor the last. -/
theorem parse_reads_one_expression_witness :
    ((NewParser trueParenTokens).Parse
        = .ok (ExprLiteral (.bool true) .Bool) ⟨trueParenTokens, 1⟩)
    ∧ (0 < 1 ∧ 1 < trueParenTokens.length) :=
  ⟨(parse_reads_one_expression trueParenTokens (Token.mk TokenTrue "true" .nil 1)
      (Token.mk TokenRightParen ")" .nil 1) [Token.mk TokenEOF "" .nil 1]
      (ExprLiteral (.bool true) .Bool)).2.1 rfl (by decide) (by decide),
   ((parse_reads_one_expression trueParenTokens (Token.mk TokenTrue "true" .nil 1)
      (Token.mk TokenRightParen ")" .nil 1) [Token.mk TokenEOF "" .nil 1]
      (ExprLiteral (.bool true) .Bool)).1
      ⟨[Token.mk TokenTrue "true" .nil 1, Token.mk TokenRightParen ")" .nil 1],
        Token.mk TokenEOF "" .nil 1, rfl, rfl⟩
      (ExprLiteral (.bool true) .Bool) ⟨trueParenTokens, 1⟩ rfl).2⟩

/-- The claim C25 as stated fails: the source text `true )` scans to three
tokens, and `Parse` accepts them: it returns the literal `true` with no
error, and the parser stands on the right parenthesis, one token before the
end-of-input token. -/
theorem leftover_tokens_accepted :
    (NewScanner "true )").ScanTokens asciiRuntime = (trueParenTokens, none)
    ∧ (NewParser trueParenTokens).Parse
        = .ok (ExprLiteral (.bool true) .Bool) ⟨trueParenTokens, 1⟩
    ∧ (⟨trueParenTokens, 1⟩ : Parser).current + 1 < trueParenTokens.length :=
  ⟨rfl, rfl, by decide⟩

/-! ## C5: the six operators and the numeric values of the operands -/

namespace F64

/-- The relations of Go on two finite floats are the relations on the
rationals they stand for. -/
theorem compare_finite (x y : F64) (a b : ℚ) (hx : x = fin a ∨ (x = negZero ∧ a = 0))
    (hy : y = fin b ∨ (y = negZero ∧ b = 0)) :
    lt x y = decide (a < b) ∧ le x y = decide (a ≤ b) ∧ eq x y = decide (a = b) := by
  rcases hx with rfl | ⟨rfl, rfl⟩ <;> rcases hy with rfl | ⟨rfl, rfl⟩ <;>
    simp [lt, le, eq, toRat]

theorem log2_above : Nat.log2 9007199254740993 = 53 := by
  rw [Nat.log2_eq_log_two]
  exact Nat.log_eq_of_pow_le_of_lt_pow (by norm_num) (by norm_num)

/-- The conversion of `2 ^ 53 + 1` to `float64` rounds to `2 ^ 53`. -/
theorem ofInt_above : ofInt 9007199254740993 = fin 9007199254740992 := by
  have hlog : floorLog2 9007199254740993 1 = 53 := by
    rw [floorLog2_one _ (by decide), log2_above]; rfl
  unfold ofInt
  rw [if_neg (by decide), round64]
  have hr : roundBinary 53 (-1022) 1024 (9007199254740993 : Int).natAbs 1
      = some 9007199254740992 := by
    show roundBinary 53 (-1022) 1024 9007199254740993 1 = some 9007199254740992
    unfold roundBinary
    rw [if_neg (by decide), hlog]
    have hmax : max (53 : Int) (-1022) = 53 := by decide
    simp only [hmax]
    norm_num [scale2]
  rw [hr]
  norm_num [ofRounded]

theorem log2_at : Nat.log2 9007199254740992 = 53 := by
  rw [Nat.log2_eq_log_two]
  exact Nat.log_eq_of_pow_le_of_lt_pow (by norm_num) (by norm_num)

/-- The conversion of `2 ^ 53` to `float64` is exact. -/
theorem ofInt_at : ofInt 9007199254740992 = fin 9007199254740992 := by
  have hlog : floorLog2 9007199254740992 1 = 53 := by
    rw [floorLog2_one _ (by decide), log2_at]; rfl
  unfold ofInt
  rw [if_neg (by decide), round64]
  have hr : roundBinary 53 (-1022) 1024 (9007199254740992 : Int).natAbs 1
      = some 9007199254740992 := by
    show roundBinary 53 (-1022) 1024 9007199254740992 1 = some 9007199254740992
    unfold roundBinary
    rw [if_neg (by decide), hlog]
    have hmax : max (53 : Int) (-1022) = 53 := by decide
    simp only [hmax]
    norm_num [scale2]
  rw [hr]
  norm_num [ofRounded]

end F64

/-- The coercion of a value that stands for the number `a` and is coerced
with no loss is the finite float `a`. -/
theorem toNumber_exact (v : Value) (a : ℚ) (hv : numericValue v = some a)
    (he : exactlyCoerced v = true) :
    (toNumber v).2 = true
      ∧ ((toNumber v).1 = F64.fin a ∨ ((toNumber v).1 = F64.negZero ∧ a = 0)) := by
  cases v with
  | int k n =>
    cases k <;> simp only [numericValue, reduceCtorEq, Option.some.injEq] at hv
    all_goals
      subst hv
      exact ⟨rfl, Or.inl (F64.ofInt_exact n (of_decide_eq_true he))⟩
  | float32 f =>
    cases f <;> simp only [numericValue, reduceCtorEq, Option.some.injEq] at hv
    · exact ⟨rfl, Or.inr ⟨rfl, hv.symm⟩⟩
    · subst hv; exact ⟨rfl, Or.inl rfl⟩
  | float64 f =>
    cases f <;> simp only [numericValue, reduceCtorEq, Option.some.injEq] at hv
    · exact ⟨rfl, Or.inr ⟨rfl, hv.symm⟩⟩
    · subst hv; exact ⟨rfl, Or.inl rfl⟩
  | _ => simp [numericValue] at hv

/-- C5, amended: when both operand values are numbers, the Binary node
returns, with no error, the boolean that the operator gives on the two
`float64` values to which `toNumber` coerces the operands; and when the
operands stand for the numbers `a` and `b` and are coerced with no loss (they
are finite floats or integers of magnitude below `2 ^ 53`), this boolean is
the value of the relation between `a` and `b`. -/
theorem numeric_operands_compared {σ : Type} (rt : GoRuntime) (p : Interpreter σ) (L R : Expr)
    (lex : String) (lit : Value) (line : Int) (n : Nat) (s s1 s2 : σ) (l r : Value)
    (hL : evaluate rt p n L s = (.ret l none, s1))
    (hR : evaluate rt p n R s1 = (.ret r none, s2))
    (hl : (toNumber l).2 = true) (hr : (toNumber r).2 = true) :
    (evaluate rt p (n + 1) (ExprBinary L (Token.mk TokenGreater lex lit line) R) s
        = (.ret (.bool (F64.gt (toNumber l).1 (toNumber r).1)) none, s2)
      ∧ evaluate rt p (n + 1) (ExprBinary L (Token.mk TokenGreaterEqual lex lit line) R) s
        = (.ret (.bool (F64.ge (toNumber l).1 (toNumber r).1)) none, s2)
      ∧ evaluate rt p (n + 1) (ExprBinary L (Token.mk TokenLess lex lit line) R) s
        = (.ret (.bool (F64.lt (toNumber l).1 (toNumber r).1)) none, s2)
      ∧ evaluate rt p (n + 1) (ExprBinary L (Token.mk TokenLessEqual lex lit line) R) s
        = (.ret (.bool (F64.le (toNumber l).1 (toNumber r).1)) none, s2)
      ∧ evaluate rt p (n + 1) (ExprBinary L (Token.mk TokenEqualEqual lex lit line) R) s
        = (.ret (.bool (F64.eq (toNumber l).1 (toNumber r).1)) none, s2)
      ∧ evaluate rt p (n + 1) (ExprBinary L (Token.mk TokenBangEqual lex lit line) R) s
        = (.ret (.bool (!F64.eq (toNumber l).1 (toNumber r).1)) none, s2))
    ∧ (∀ a b : ℚ, numericValue l = some a → numericValue r = some b →
        exactlyCoerced l = true → exactlyCoerced r = true →
        evaluate rt p (n + 1) (ExprBinary L (Token.mk TokenGreater lex lit line) R) s
          = (.ret (.bool (decide (a > b))) none, s2)
        ∧ evaluate rt p (n + 1) (ExprBinary L (Token.mk TokenGreaterEqual lex lit line) R) s
          = (.ret (.bool (decide (a ≥ b))) none, s2)
        ∧ evaluate rt p (n + 1) (ExprBinary L (Token.mk TokenLess lex lit line) R) s
          = (.ret (.bool (decide (a < b))) none, s2)
        ∧ evaluate rt p (n + 1) (ExprBinary L (Token.mk TokenLessEqual lex lit line) R) s
          = (.ret (.bool (decide (a ≤ b))) none, s2)
        ∧ evaluate rt p (n + 1) (ExprBinary L (Token.mk TokenEqualEqual lex lit line) R) s
          = (.ret (.bool (decide (a = b))) none, s2)
        ∧ evaluate rt p (n + 1) (ExprBinary L (Token.mk TokenBangEqual lex lit line) R) s
          = (.ret (.bool (decide (a ≠ b))) none, s2)) := by
  have hc := binary_numeric_operands rt p L R lex lit line n s s1 s2 l r hL hR hl hr
  refine ⟨hc, ?_⟩
  intro a b ha hb hea heb
  obtain ⟨-, hx⟩ := toNumber_exact l a ha hea
  obtain ⟨-, hy⟩ := toNumber_exact r b hb heb
  obtain ⟨h1, h2, h3⟩ := F64.compare_finite _ _ a b hx hy
  obtain ⟨g1, g2, -⟩ := F64.compare_finite _ _ b a hy hx
  obtain ⟨c1, c2, c3, c4, c5, c6⟩ := hc
  refine ⟨?_, ?_, ?_, ?_, ?_, ?_⟩
  · rw [c1, F64.gt, g1]
  · rw [c2, F64.ge, g2]
  · rw [c3, h1]
  · rw [c4, h2]
  · rw [c5, h3]
  · rw [c6, h3]; simp

/-- Instance of C5, the example of the specification: with `age -> 18`,
`age == 18`, `age >= 18`, `age > 17`, `age <= 18` and `age < 19` are true and
`age >= 19` is false. -/
theorem numeric_operands_compared_witness :
    evaluate asciiRuntime ageInterpreter 2
        (ExprBinary ageVariable (Token.mk TokenEqualEqual "==" .nil 1) (numberLiteral 18)) ()
        = (.ret (.bool true) none, ())
    ∧ evaluate asciiRuntime ageInterpreter 2
        (ExprBinary ageVariable (Token.mk TokenGreaterEqual ">=" .nil 1) (numberLiteral 18)) ()
        = (.ret (.bool true) none, ())
    ∧ evaluate asciiRuntime ageInterpreter 2
        (ExprBinary ageVariable (Token.mk TokenGreater ">" .nil 1) (numberLiteral 17)) ()
        = (.ret (.bool true) none, ())
    ∧ evaluate asciiRuntime ageInterpreter 2
        (ExprBinary ageVariable (Token.mk TokenLessEqual "<=" .nil 1) (numberLiteral 18)) ()
        = (.ret (.bool true) none, ())
    ∧ evaluate asciiRuntime ageInterpreter 2
        (ExprBinary ageVariable (Token.mk TokenLess "<" .nil 1) (numberLiteral 19)) ()
        = (.ret (.bool true) none, ())
    ∧ evaluate asciiRuntime ageInterpreter 2
        (ExprBinary ageVariable (Token.mk TokenGreaterEqual ">=" .nil 1) (numberLiteral 19)) ()
        = (.ret (.bool false) none, ()) := by
  have h := fun (q : ℚ) (lex : String) =>
    (numeric_operands_compared asciiRuntime ageInterpreter ageVariable (numberLiteral q) lex .nil
      1 1 () () () (.int .int 18) (.float64 (.fin q)) (evaluate_age 0) rfl rfl rfl).2
      18 q (by simp [numericValue]) rfl (by decide) rfl
  refine ⟨?_, ?_, ?_, ?_, ?_, ?_⟩
  · rw [(h 18 "==").2.2.2.2.1]; norm_num
  · rw [(h 18 ">=").2.1]; norm_num
  · rw [(h 17 ">").1]; norm_num
  · rw [(h 18 "<=").2.2.2.1]; norm_num
  · rw [(h 19 "<").2.2.1]; norm_num
  · rw [(h 19 ">=").2.1]; norm_num

/-- The claim C5 as stated fails: with `x` registered as the `int64`
`2 ^ 53 + 1` and `y` as the `int64` `2 ^ 53`, two numbers of which the first
is the greater, `x == y` evaluates to true and `x > y` to false: both convert
to the `float64` `2 ^ 53`. -/
theorem large_integers_compare_equal :
    numericValue (.int .int64 9007199254740993) = some 9007199254740993
    ∧ numericValue (.int .int64 9007199254740992) = some 9007199254740992
    ∧ evaluate asciiRuntime largeInterpreter 2
        (ExprBinary undefinedVariable (Token.mk TokenEqualEqual "==" .nil 1) secondVariable) ()
        = (.ret (.bool true) none, ())
    ∧ evaluate asciiRuntime largeInterpreter 2
        (ExprBinary undefinedVariable (Token.mk TokenGreater ">" .nil 1) secondVariable) ()
        = (.ret (.bool false) none, ()) := by
  have h := fun (lex : String) =>
    binary_numeric_operands asciiRuntime largeInterpreter undefinedVariable secondVariable lex .nil
      1 1 () () () (.int .int64 9007199254740993) (.int .int64 9007199254740992) rfl rfl rfl rfl
  simp only [toNumber, F64.ofInt_above, F64.ofInt_at] at h
  refine ⟨by simp [numericValue], by simp [numericValue], ?_, ?_⟩
  · rw [(h "==").2.2.2.2.1]; norm_num [F64.eq, F64.toRat]
  · rw [(h ">").1]; norm_num [F64.gt, F64.lt, F64.toRat]

/-! ## C21: a positive literal below the range of `float64` -/

namespace F64

theorem floorLog2_small (d : Nat) (hd : 2 ^ 1075 < d) : floorLog2 1 d ≤ -1022 := by
  have hd0 : d ≠ 0 := by
    intro h
    rw [h] at hd
    exact absurd hd (Nat.not_lt_zero _)
  have hlog : 1075 ≤ Nat.log2 d := (Nat.le_log2 hd0).mpr (Nat.le_of_lt hd)
  unfold floorLog2
  simp only [log2_one]
  split <;> omega

/-- A fraction `1 / d` below half the least positive `float64` rounds to
zero. -/
theorem round64_underflow (d : Nat) (hd : 2 ^ 1075 < d) : round64 false 1 d = fin 0 := by
  have hd0 : d ≠ 0 := by
    intro h
    rw [h] at hd
    exact absurd hd (Nat.not_lt_zero _)
  have hmax : max (floorLog2 1 d) (-1022) = -1022 := max_eq_right (floorLog2_small d hd)
  have hlt : 2 ^ 1074 < d :=
    Nat.lt_trans (Nat.pow_lt_pow_right (by decide) (by decide)) hd
  have h2 : 2 * 2 ^ 1074 = 2 ^ 1075 := by rw [← Nat.pow_succ']
  have hr : roundBinary 53 (-1022) 1024 1 d = some 0 := by
    unfold roundBinary
    rw [if_neg (by simp [hd0])]
    simp only [hmax]
    have hulp : ((-1022 : Int) - (((53 : Nat) : Int) - 1)) = -1074 := by decide
    have hneg : ¬ (0 : Int) ≤ -1074 := by decide
    have htn : (-(-1074 : Int)).toNat = 1074 := by decide
    simp only [hulp, scale2, if_neg hneg, htn, Nat.one_mul]
    have hm : 2 ^ 1074 / d = 0 := Nat.div_eq_of_lt hlt
    have hmod : 2 ^ 1074 % d = 2 ^ 1074 := Nat.mod_eq_of_lt hlt
    have hc : ¬ (d < 2 * (2 ^ 1074 % d) ∨ (2 * (2 ^ 1074 % d) = d ∧ 2 ^ 1074 / d % 2 = 1)) := by
      rw [hmod, hm, h2]
      omega
    rw [if_neg hc, hm]
    have hz : ((0 : Nat) : ℚ) / ((2 ^ 1074 : Nat) : ℚ) = 0 := by
      rw [Nat.cast_zero, zero_div]
    have hp : ¬ ((2 ^ 1024 : Nat) : ℚ) ≤ 0 :=
      not_le.mpr (Nat.cast_pos.mpr (Nat.pow_pos (by decide)))
    rw [hz, if_neg hp]
  rw [round64, hr]
  simp [ofRounded]

end F64

theorem digitsValue_zeros (k : Nat) (rest : List Char) :
    (List.replicate k '0' ++ rest).foldl (fun acc c => 10 * acc + (c.toNat - 48)) 0
      = rest.foldl (fun acc c => 10 * acc + (c.toNat - 48)) 0 := by
  induction k with
  | zero => rfl
  | succ k ih =>
    rw [List.replicate_succ, List.cons_append, List.foldl_cons]
    exact ih

/-- The text `0.` followed by zeros and a `1` is read as the fraction of one
over a power of ten, rounded to `float64`. -/
theorem ParseFloat_tinyText (k : Nat) :
    ParseFloat (tinyText k) = F64.round64 false 1 (10 ^ (k + 1)) := by
  have hall : (List.replicate k '0' ++ ['1']).all Char.isDigit = true := by
    rw [List.all_append, List.all_replicate]
    have h0 : Char.isDigit '0' = true := by decide
    have h1 : Char.isDigit '1' = true := by decide
    simp [h0, h1]
  have hdig : digitsValue (['0'] ++ (List.replicate k '0' ++ ['1'])) = 1 := by
    unfold digitsValue
    rw [List.singleton_append, List.foldl_cons]
    exact digitsValue_zeros k ['1']
  have hlen : (List.replicate k '0' ++ ['1']).length = k + 1 := by simp
  have htake : (tinyText k).takeWhile Char.isDigit = ['0'] := by
    simp [tinyText, List.takeWhile]
  have hdrop : (tinyText k).dropWhile Char.isDigit = '.' :: (List.replicate k '0' ++ ['1']) := by
    simp [tinyText, List.dropWhile]
  unfold ParseFloat
  simp only [htake, hdrop]
  rw [if_neg (by simp)]
  simp only [hall, and_self, if_true, hdig, hlen]

theorem decimalValue_tinyText (k : Nat) : decimalValue (tinyText k) = 1 / (10 ^ (k + 1) : Nat) := by
  have hdig : digitsValue (['0'] ++ (List.replicate k '0' ++ ['1'])) = 1 := by
    unfold digitsValue
    rw [List.singleton_append, List.foldl_cons]
    exact digitsValue_zeros k ['1']
  have hlen : (List.replicate k '0' ++ ['1']).length = k + 1 := by simp
  have htake : (tinyText k).takeWhile Char.isDigit = ['0'] := by
    simp [tinyText, List.takeWhile]
  have hdrop : (tinyText k).dropWhile Char.isDigit = '.' :: (List.replicate k '0' ++ ['1']) := by
    simp [tinyText, List.dropWhile]
  unfold decimalValue
  simp only [htake, hdrop, List.drop_succ_cons, List.drop_zero, hdig, hlen, Nat.cast_one]

/-- The claim C21 as stated fails for a positive literal that is too small
for a `float64`: the number text `0.` followed by 399 zeros and a `1` writes
a positive number, `ParseFloat` gives the literal the value zero, and the
parse of `-n < 0` for this literal evaluates to false. -/
theorem tiny_literal_not_negative :
    0 < decimalValue (tinyText 399)
    ∧ ParseFloat (tinyText 399) = F64.fin 0
    ∧ ∃ (e : Expr) (q : Parser),
        (NewParser (minusLessTokens
          (Token.mk TokenNumber (String.mk (tinyText 399))
            (.float64 (ParseFloat (tinyText 399))) 1))).Parse = .ok e q
        ∧ evaluate asciiRuntime (NewInterpreter Unit) 3 e () = (.ret (.bool false) none, ()) := by
  have hpf : ParseFloat (tinyText 399) = F64.fin 0 := by
    rw [ParseFloat_tinyText, F64.round64_underflow _ (by norm_num)]
  refine ⟨?_, hpf, ?_⟩
  · rw [decimalValue_tinyText]
    positivity
  · obtain ⟨e, q, hp, he⟩ := minus_less_value asciiRuntime (NewInterpreter Unit)
      (ParseFloat (tinyText 399)) (String.mk (tinyText 399)) 1 0 ()
    refine ⟨e, q, hp, ?_⟩
    rw [he, hpf]
    simp [F64.lt, F64.toRat]

end ExprLang
